import Mathlib

/-!
The structured-record I/O layer gmxfio.

A shallow embedding of `src/gmxlib/gmxfio.c`.

* C `char` values are natural numbers (their character codes); a C string is
  the list of the codes in front of its terminating NUL.
* A call of `gmx_fatal` / `gmx_file` aborts the process: the embedding returns
  `Res.fatal` with the reason and the world (files and streams) left behind.
* Undefined behaviour of the C program (a NULL dereference, a buffer overrun, a
  cast of `item` to a type it does not point to) is the outcome `Res.undef`.
* Floating-point values are named by their bit patterns; their conversions
  and their text forms are parameters (`Env`).
-/

namespace Gmxfio

/-! ## Characters and C strings -/

/-- A C string: the character codes in front of the terminating NUL. -/
abbrev Str := List Nat

/-- Character codes of a Lean string literal. -/
def cstr (s : String) : Str := s.toList.map Char.toNat

/-- Code of the NUL terminator. -/
def cNUL : Nat := 0
/-- Code of the horizontal tab. -/
def cTAB : Nat := 9
/-- Code of the newline. -/
def cNL : Nat := 10
/-- Code of the space. -/
def cSPACE : Nat := 32
/-- Code of the minus sign. -/
def cMINUS : Nat := 45
/-- Code of the digit zero. -/
def cZERO : Nat := 48
/-- Code of the semicolon. -/
def cSEMI : Nat := 59
/-- Code of the underscore. -/
def cUNDERSCORE : Nat := 95

/-- The characters `s[0..]` that C sees in a buffer holding `s` followed by a
NUL: everything in front of the first NUL. -/
def c_str : List Nat → Str
  | [] => []
  | c :: cs => if c = cNUL then [] else c :: c_str cs

/-- `strlen`. -/
def strlen (s : List Nat) : Nat := (c_str s).length

/-- `isspace` in the C locale: space, `\t`, `\n`, `\v`, `\f`, `\r`. -/
def isspace (c : Nat) : Bool := c == 32 || (9 ≤ c && c ≤ 13)

/-! ## encode_string / decode_string (gmxfio.c 226-254) -/

/-- The `for` loop of `encode_string`, entered with loop index `i` and with
`src[i..]` as the list; returns the characters stored in `dst[i..]` and the
final value of `i`. -/
def encode_loop (maxlen : Int) : Nat → List Nat → List Nat × Nat
  | i, [] => ([], i)
  | i, c :: cs =>
    if c ≠ cNUL ∧ (i : Int) < maxlen - 1 then
      let r := encode_loop maxlen (i + 1) cs
      ((if c = cSPACE ∨ c = cTAB then cUNDERSCORE else c) :: r.1, r.2)
    else ([], i)

/-- Result of `encode_string` / `decode_string`: the string left in `dst` and
whether the truncation message went to stderr. -/
structure StrResult where
  dst : Str
  truncated_msg : Bool
deriving DecidableEq, Repr

/-- `encode_string(maxlen,dst,src)`. -/
def encode_string (maxlen : Int) (src : List Nat) : StrResult :=
  let r := encode_loop maxlen 0 src
  { dst := r.1, truncated_msg := decide ((r.2 : Int) = maxlen) }

/-- The `for` loop of `decode_string`. -/
def decode_loop (maxlen : Int) : Nat → List Nat → List Nat × Nat
  | i, [] => ([], i)
  | i, c :: cs =>
    if c ≠ cNUL ∧ (i : Int) < maxlen - 1 then
      let r := decode_loop maxlen (i + 1) cs
      ((if c = cUNDERSCORE then cSPACE else c) :: r.1, r.2)
    else ([], i)

/-- `decode_string(maxlen,dst,src)`. -/
def decode_string (maxlen : Int) (src : List Nat) : StrResult :=
  let r := decode_loop maxlen 0 src
  { dst := r.1, truncated_msg := decide ((r.2 : Int) = maxlen) }

/-! ## File types and the three codec lists (gmxfio.c 77-96) -/

/-- Modelled from the spec: the file-type enumerators are declared in
`filenm.h`, which is not part of the sources at hand.  The enumerators that
gmxfio.c names are constructors; `efOther n` stands for every other value an
`int` file type can take (the remaining enumerators and `efNR`).  Distinct
enumerators of one C enum have distinct values. -/
inductive Ftp
  | efTPR | efTRR | efEDR | efXTC | efMTX | efCPT
  | efTPA | efGRO | efPDB
  | efTPB | efTRJ
  | efOther (n : Nat)
deriving DecidableEq, Repr

open Ftp

/-- `ftpXDR`: file types stored in the canonical (XDR) encoding. -/
def ftpXDR : List Ftp := [efTPR, efTRR, efEDR, efXTC, efMTX, efCPT]
/-- `ftpASC`: file types stored as text. -/
def ftpASC : List Ftp := [efTPA, efGRO, efPDB]
/-- `ftpBIN`: file types stored in the native binary encoding. -/
def ftpBIN : List Ftp := [efTPB, efTRJ]

/-- `in_ftpset(ftp,nset,set)`: the loop runs over the whole array and sets
`bResult` at every match. -/
def in_ftpset (ftp : Ftp) (set : List Ftp) : Bool :=
  set.foldl (fun bResult x => if ftp = x then true else bResult) false

/-! ## The world outside the process: files and stdio streams -/

/-- An stdio stream (`FILE`). -/
structure FILEobj where
  /-- the file the stream is attached to -/
  ino : Nat
  /-- stream cursor (what `ftell` reports) -/
  pos : Nat
  /-- cleared by `fclose` -/
  is_open : Bool
  /-- environment: `fflush` on this stream reports an error (disk full, quota) -/
  flush_fails : Bool
deriving DecidableEq, Repr

/-- Messages the library prints on stderr. -/
inductive Diag
  /-- "Back Off! I just backed up <fn> to <bf>" -/
  | backed_up (fn bf : Str)
  /-- "I couldn't backup <fn> to <bf>" -/
  | backup_failed (fn bf : Str)
  /-- "String '<src>' truncated to '<dst>'" -/
  | truncated (src dst : Str)
  /-- "WARNING, ftpASC file type not tested!" -/
  | asc_not_tested
  /-- "Error writing / reading / in xdr I/O ..." of a codec in debug mode -/
  | io_error (fn : Str)
deriving DecidableEq, Repr

/-- Files, directory and open streams.  A `FILE *` is a stream number;
numbers 0 and 1 are `stdin` and `stdout`.  The two tables are association
lists in which the first entry for a number is the current one. -/
structure OS where
  /-- file contents (bytes), by file number -/
  inodes : List (Nat × List Nat)
  /-- next unused file number -/
  next_ino : Nat
  /-- directory: path and file number -/
  dir : List (Str × Nat)
  /-- stream table, by stream number -/
  streams : List (Nat × FILEobj)
  /-- next unused stream number -/
  next_fp : Nat
  /-- environment: paths whose `rename` is refused -/
  rename_denied : List Str
  /-- messages written to stderr, oldest first -/
  stderr : List Diag
deriving DecidableEq, Repr

/-- `stdin`. -/
def stdin_fp : Nat := 0
/-- `stdout`. -/
def stdout_fp : Nat := 1

/-- Current entry of a table for a number. -/
def table_get {α : Type} (m : List (Nat × α)) (k : Nat) : Option α :=
  match m with
  | [] => none
  | e :: rest => if e.1 = k then some e.2 else table_get rest k

/-- The stream object behind a `FILE *`. -/
def OS.stream (os : OS) (fp : Nat) : Option FILEobj := table_get os.streams fp

/-- Contents of a file. -/
def OS.content (os : OS) (ino : Nat) : List Nat := (table_get os.inodes ino).getD []

/-- Replace the contents of a file. -/
def OS.set_content (os : OS) (ino : Nat) (c : List Nat) : OS :=
  { os with inodes := (ino, c) :: os.inodes }

/-- Replace a stream object. -/
def OS.set_stream (os : OS) (fp : Nat) (f : FILEobj) : OS :=
  { os with streams := (fp, f) :: os.streams }

/-- File number bound to a path, if any. -/
def OS.lookup (os : OS) (path : Str) : Option Nat :=
  match os.dir.find? (fun e => e.1 = path) with
  | some e => some e.2
  | none => none

/-- `gmx_fexist(fn)`: does a file exist at the path. -/
def gmx_fexist (os : OS) (path : Str) : Bool := (os.lookup path).isSome

/-- `fprintf(stderr, ...)`. -/
def OS.eprint (os : OS) (msg : Diag) : OS := { os with stderr := os.stderr ++ [msg] }

/-- `rename(from, to)`: returns 0 (here `true`) and rebinds the file to the
new path, or fails and changes nothing. -/
def rename (os : OS) (old new : Str) : Bool × OS :=
  match os.lookup old with
  | none => (false, os)
  | some i =>
    if os.rename_denied.contains old then (false, os)
    else (true, { os with dir := (new, i) :: os.dir.filter (fun e => e.1 ≠ old ∧ e.1 ≠ new) })

/-- Register a new open stream on file `ino` with the cursor at `pos`; returns
the new `FILE *`. -/
def OS.new_stream (os : OS) (ino pos : Nat) : Nat × OS :=
  (os.next_fp,
   { os with
     streams := (os.next_fp, { ino := ino, pos := pos, is_open := true, flush_fails := false })
                  :: os.streams,
     next_fp := os.next_fp + 1 })

/-- Create an empty file at a path that is not bound; returns its number. -/
def OS.create (os : OS) (path : Str) : Nat × OS :=
  (os.next_ino,
   { os with inodes := (os.next_ino, []) :: os.inodes, next_ino := os.next_ino + 1,
             dir := (path, os.next_ino) :: os.dir })

/-- `fopen(path, mode)`, decided by the first mode character: `w` creates or
truncates, `a` creates if missing and puts the cursor at the end, anything
else (`r`) needs an existing file.  `none` is the NULL return. -/
def fopen (os : OS) (path : Str) (mode : Str) : Option (Nat × OS) :=
  match mode.head? with
  | some 119 =>
    match os.lookup path with
    | some i => some ((os.set_content i []).new_stream i 0)
    | none => let r := os.create path; some (r.2.new_stream r.1 0)
  | some 97 =>
    match os.lookup path with
    | some i => some (os.new_stream i (os.content i).length)
    | none => let r := os.create path; some (r.2.new_stream r.1 0)
  | _ =>
    match os.lookup path with
    | some i => some (os.new_stream i 0)
    | none => none

/-- `fclose(fp)`: returns 0 when happy. -/
def fclose (os : OS) (fp : Nat) : Int × OS :=
  match os.stream fp with
  | some f => ((if f.flush_fails then -1 else 0), os.set_stream fp { f with is_open := false })
  | none => (-1, os)

/-- Is `fp` a stream that was opened and not closed since. -/
def OS.stream_open (os : OS) (fp : Nat) : Bool :=
  match os.stream fp with
  | some f => f.is_open
  | none => false

/-- `fflush(fp)` on an open stream: returns 0 when happy. -/
def fflush (os : OS) (fp : Nat) : Int :=
  match os.stream fp with
  | some f => if f.flush_fails then -1 else 0
  | none => -1

/-- `ftello(fp)` / `ftell(fp)` on an open stream. -/
def ftello (os : OS) (fp : Nat) : Int :=
  match os.stream fp with
  | some f => (f.pos : Int)
  | none => -1

/-- Write a byte sequence at the cursor of `fp` (`fwrite`, `fprintf`). -/
def OS.write (os : OS) (fp : Nat) (bytes : List Nat) : OS :=
  match os.stream fp with
  | some f =>
    let old := os.content f.ino
    let new := old.take f.pos ++ bytes ++ old.drop (f.pos + bytes.length)
    (os.set_content f.ino new).set_stream fp { f with pos := f.pos + bytes.length }
  | none => os

/-- The bytes between the cursor of `fp` and the end of its file. -/
def OS.pending (os : OS) (fp : Nat) : List Nat :=
  match os.stream fp with
  | some f => (os.content f.ino).drop f.pos
  | none => []

/-- Move the cursor of `fp` forward by `n` bytes. -/
def OS.advance (os : OS) (fp : Nat) (n : Nat) : OS :=
  match os.stream fp with
  | some f => os.set_stream fp { f with pos := f.pos + n }
  | none => os

/-! ## Registry state (gmxfio.c 67-74, 98-108, 135-142) -/

/-- Reasons for which the library aborts the process. -/
inductive Fatal
  /-- `do_dummy`: "gmx_fio_select not called!" -/
  | not_selected
  /-- `_check_nitem`: "nitem may differ from 1 only for ..." -/
  | bad_nitem
  /-- `fe`: "Trying to read/write ... type ..." -/
  | bad_eio
  /-- `next_item`: `gmx_file("End of file")` -/
  | end_of_file
  /-- `gmx_fio_open`: "DEATH HORROR in gmx_fio_open, mode is ..." -/
  | bad_mode
  /-- `gmx_fio_check`: the `range_check(fio,0,nFIO)` macro -/
  | range_check
  /-- `gmx_fio_open`: `gmx_open(fn)` for a missing file -/
  | file_missing
  /-- `gmx_fio_open`: "Cannot open file ... for reading" -/
  | cannot_open_reading
  /-- `gmx_fio_open`: "Cannot open file ... for writing" -/
  | cannot_open_writing
  /-- `ffopen` aborted -/
  | ffopen_failed
  /-- `do_xdr_lock`: "wrong string length ..." -/
  | wrong_string_length
  /-- `gmx_fio_select`: "Can not read/write topologies to file type ..." -/
  | no_codec
  /-- `gmx_fio_get_file_position`: "Cannot write file ...; maybe you are out of disk space or quota?" -/
  | cannot_write_file
  /-- `xdrclose` handed a pointer that is not an open XDR stream -/
  | xdrclose_failed
  /-- `gmx_fio_seek` on a handle without stream -/
  | seek_failed
deriving DecidableEq, Repr

/-- An XDR stream (`XDR`): direction and the stdio stream it runs on. -/
structure XDRobj where
  /-- `x_op == XDR_DECODE` -/
  decode : Bool
  /-- `x_private`, the `FILE *` that `xdr_get_fp` returns -/
  x_private : Nat
deriving DecidableEq, Repr

/-- `t_fileio`, one slot of the registry. -/
structure t_fileio where
  iFTP : Ftp
  bOpen : Bool
  bRead : Bool
  bDouble : Bool
  bDebug : Bool
  bStdio : Bool
  fn : Str
  fp : Option Nat
  xdr : Option XDRobj
  bLargerThan_off_t : Bool
deriving DecidableEq, Repr

/-- The functions a `do_func *` can point to. -/
inductive do_func
  | do_dummy | do_xdr | do_ascread | do_ascwrite | do_binread | do_binwrite
deriving DecidableEq, Repr

/-- Process state of the library together with the world outside: the
registry `FIO` (`nFIO` is its length), `curfio` (a pointer into `FIO`, kept as
the index; `none` is NULL), the two dispatch pointers and `add_comment`. -/
structure State where
  FIO : List t_fileio
  curfio : Option Nat
  do_read : do_func
  do_write : do_func
  add_comment : Option Str
  os : OS
deriving DecidableEq, Repr

/-- Value of `nFIO`. -/
def State.nFIO (st : State) : Nat := st.FIO.length

/-- State at program start: the initialisers of the globals (gmxfio.c 107-108,
136-142), over a given world. -/
def State.initial (os : OS) : State :=
  { FIO := [], curfio := none, do_read := do_func.do_dummy, do_write := do_func.do_dummy,
    add_comment := none, os := os }

/-- The slot `curfio` points to. -/
def State.cur (st : State) : Option t_fileio :=
  match st.curfio with
  | none => none
  | some c => st.FIO[c]?

/-- Outcome of a library call: normal return of a value with the next state;
process abort through `gmx_fatal` / `gmx_file` with the world left behind;
or undefined behaviour of the C program (NULL dereference, overrun). -/
inductive Res (α : Type)
  | ok (a : α) (st : State)
  | fatal (e : Fatal) (os : OS)
  | undef
deriving DecidableEq, Repr

/-- Parts of other GROMACS modules and of the build that gmxfio.c relies on
and that are not among the sources at hand; they are parameters. -/
structure Env where
  /-- `fn2ftp(fn)` (filenm.c), also applied to a NULL `fn` -/
  fn2ftp : Option Str → Ftp
  /-- `strncmp(ftp2ftype(ftp),"ASCII",5) == 0` (filenm.c) -/
  ftype_is_ascii : Ftp → Bool
  /-- `backup_fn(fn)` (futil.c) -/
  backup_fn : OS → Str → Str
  /-- `ffopen(fn,mode)` (futil.c): the stream and the world after the call;
  no stream when it aborts the process -/
  ffopen : OS → Str → Str → Option Nat × OS
  /-- contents of the memory that `srenew` appends to `FIO` -/
  uninit : t_fileio
  /-- `sizeof(real) == sizeof(double)` -/
  real_is_double : Bool
  /-- `STRLEN` (the size of `gmx_file_position_t.filename`) -/
  STRLEN : Nat
  /-- `sizeof(gmx_step_t)`, 4 or 8 -/
  sizeof_step : Nat
  /-- the condition `SIZEOF_OFF_T == 4 || !defined HAVE_FSEEKO` of the build -/
  small_off_t : Bool
  /-- byte order of the host -/
  big_endian : Bool
  /-- value read from a local variable that was never assigned -/
  indeterminate : Nat
  /-- conversion of a `real` to `double`; floating-point values are named
  by their bit patterns and their arithmetic is not interpreted -/
  real_to_double : Nat → Nat
  /-- conversion of a `double` to `real` -/
  double_to_real : Nat → Nat
  /-- conversion of a `real` to `float` -/
  real_to_float : Nat → Nat
  /-- conversion of a `float` to `real` -/
  float_to_real : Nat → Nat
  /-- characters that `printf` produces for `%18.10e` -/
  printf_e : Nat → Str
  /-- `sscanf(s,"%lf",&d)`: the double read, if the conversion succeeds -/
  sscanf_lf : Str → Option Nat

/-- Modelled from the spec: `range_check(fio,0,nFIO)`, a macro of gmx_fatal.h
that is not among the sources; "referencing an id outside `[0, count)` is a
fatal error". -/
def gmx_fio_check (st : State) (fio : Int) : Bool := decide (0 ≤ fio ∧ fio < (st.nFIO : Int))

/-! ## XDR streams on files -/

/-- Modelled from the spec: `xdropen` of libxdrf.c, which is not among the
sources.  It opens the file with `fopen` in the direction given by the first
mode character (`w`/`W` and `a`/`A` encode, everything else decodes) and
returns the XDR stream; `none` is the return value 0. -/
def xdropen (os : OS) (fn : Str) (mode : Str) : Option (XDRobj × OS) :=
  let first := mode.head?
  if first = some 119 ∨ first = some 87 then
    (fopen os fn [119]).map (fun r => ({ decode := false, x_private := r.1 }, r.2))
  else if first = some 97 ∨ first = some 65 then
    (fopen os fn [97]).map (fun r => ({ decode := false, x_private := r.1 }, r.2))
  else
    (fopen os fn [114]).map (fun r => ({ decode := true, x_private := r.1 }, r.2))

/-- Modelled from the spec: `xdrclose` of libxdrf.c, which is not among the
sources.  It closes the stdio stream and returns 1 if happy; handed NULL it
exits the process (`none`). -/
def xdrclose (os : OS) (xdr : Option XDRobj) : Option (Int × OS) :=
  match xdr with
  | none => none
  | some x =>
    let r := fclose os x.x_private
    some ((if r.1 = 0 then 1 else 0), r.2)

/-- Modelled from the spec: `ffopen(fn,mode)` of futil.c, which is not among
the sources.  The spec describes a backup for canonical-binary targets only
("For CanonicalBinary targets opened for Write, if a file already exists at
path it is renamed to a backup name"; "For Read mode, failure to find the file
is fatal"), so `ffopen` is taken to open the file with `fopen` and nothing
else, and to abort the process when that fails (no stream). -/
def ffopen (os : OS) (fn : Str) (mode : Str) : Option Nat × OS :=
  match fopen os fn mode with
  | some r => (some r.1, r.2)
  | none => (none, os)

/-! ## gmx_fio_open (gmxfio.c 779-923) -/

/-- Outcome of the mode handling of `gmx_fio_open`. -/
inductive ModeRes
  | ok (newmode : Str)
  /-- "DEATH HORROR in gmx_fio_open" -/
  | bad_mode
  /-- `strcpy` / `strcat` past `char newmode[5]` -/
  | overrun
deriving DecidableEq, Repr

/-- Lines 787-819 of gmxfio.c: `newmode` from `fn` and `mode`. -/
def open_newmode (E : Env) (fn : Option Str) (mode : Str) : ModeRes :=
  let m1 : ModeRes :=
    if E.fn2ftp fn = efTPA then
      if mode.length + 1 ≤ 5 then ModeRes.ok mode else ModeRes.overrun
    else
      match mode.head? with
      | some 114 => ModeRes.ok [114]
      | some 119 => ModeRes.ok [119]
      | some 97 => ModeRes.ok [97]
      | _ => ModeRes.bad_mode
  match m1 with
  | ModeRes.ok nm =>
    if !E.ftype_is_ascii (E.fn2ftp fn) then
      if !nm.contains 98 && !nm.contains 66 then
        if nm.length + 2 ≤ 5 then ModeRes.ok (nm ++ [98]) else ModeRes.overrun
      else ModeRes.ok nm
    else ModeRes.ok nm
  | r => r

/-- The slot search loop, lines 825-833: entered with loop index `i` and the
slots `FIO[i..]`; returns the value of `i` after the loop, which is `nFIO` when
no slot is free. -/
def first_free : Nat → List t_fileio → Nat
  | i, [] => i
  | i, f :: rest => if !f.bOpen then i else first_free (i + 1) rest

/-- Lines 835-841: when the loop found no free slot (`i == nFIO`) the
registry grows by one element, whose memory is not initialised. -/
def grow_if_full (E : Env) (slots : List t_fileio) (i : Nat) : List t_fileio :=
  if i = slots.length then slots ++ [E.uninit] else slots

/-- Lines 855-887: backup of an existing file before writing, existence check
otherwise.  `none` is the abort in `gmx_open(fn)`. -/
def open_xdr_prepare (E : Env) (os : OS) (fn newmode : Str) : Option OS :=
  if newmode.head? = some 119 then
    if gmx_fexist os fn then
      let bf := E.backup_fn os fn
      let r := rename os fn bf
      if r.1 then some (r.2.eprint (Diag.backed_up fn bf))
      else some (r.2.eprint (Diag.backup_failed fn bf))
    else some os
  else
    if !gmx_fexist os fn then none else some os

/-- `gmx_fio_open(fn,mode)`; `fn = none` is the NULL path. -/
def gmx_fio_open (E : Env) (st : State) (fn : Option Str) (mode : Str) : Res Nat :=
  match open_newmode E fn mode with
  | ModeRes.bad_mode => Res.fatal Fatal.bad_mode st.os
  | ModeRes.overrun => Res.undef
  | ModeRes.ok newmode =>
    let i := first_free 0 st.FIO
    let FIO1 := grow_if_full E st.FIO i
    let nfio := i
    let bRead := decide (newmode.head? = some 114)
    let fio0 : t_fileio := { FIO1.getD nfio E.uninit with fp := none, xdr := none }
    let finish (f : t_fileio) (os : OS) : Res Nat :=
      Res.ok nfio
        { st with
          FIO := FIO1.set nfio
            { f with bRead := bRead, bDouble := E.real_is_double, bDebug := false,
                     bOpen := true, bLargerThan_off_t := false },
          os := os }
    match fn with
    | some fn =>
      let fio1 : t_fileio := { fio0 with iFTP := E.fn2ftp (some fn), fn := fn, bStdio := false }
      if in_ftpset fio1.iFTP ftpXDR then
        match open_xdr_prepare E st.os fn newmode with
        | none => Res.fatal Fatal.file_missing st.os
        | some os1 =>
          match xdropen os1 fn newmode with
          | none =>
            if newmode.head? = some 114 then Res.fatal Fatal.cannot_open_reading os1
            else Res.fatal Fatal.cannot_open_writing os1
          | some (x, os2) => finish { fio1 with xdr := some x, fp := some x.x_private } os2
      else
        match E.ffopen st.os fn newmode with
        | (none, os1) => Res.fatal Fatal.ffopen_failed os1
        | (some fp, os1) => finish { fio1 with fp := some fp } os1
    | none =>
      finish { fio0 with iFTP := efTPA, fp := some (if bRead then stdin_fp else stdout_fp),
                         fn := cstr "STDIO", bStdio := true } st.os

/-! ## gmx_fio_close, gmx_fio_fclose (gmxfio.c 928-1005) -/

/-- `gmx_fio_close_lock(fio,do_lock)`.  Releasing a slot that is not open
frees `fn` (and the XDR stream) a second time, which is undefined. -/
def gmx_fio_close_lock (st : State) (fio : Int) : Res Int :=
  if !gmx_fio_check st fio then Res.fatal Fatal.range_check st.os
  else
    match st.FIO[fio.toNat]? with
    | none => Res.undef
    | some f =>
      if !f.bOpen then Res.undef
      else
        let finish (rc : Int) (os : OS) : Res Int :=
          Res.ok rc
            { st with
              FIO := st.FIO.set fio.toNat { f with bOpen := false },
              do_read := do_func.do_dummy,
              do_write := do_func.do_dummy,
              os := os }
        if in_ftpset f.iFTP ftpXDR then
          match xdrclose st.os f.xdr with
          | none => Res.fatal Fatal.xdrclose_failed st.os
          | some (ok, os1) => finish (if ok = 0 then 1 else 0) os1
        else if !f.bStdio then
          match f.fp with
          | none => Res.undef
          | some fp =>
            let r := fclose st.os fp
            finish r.1 r.2
        else finish 0 st.os

/-- `gmx_fio_close(fio)`. -/
def gmx_fio_close (st : State) (fio : Int) : Res Int := gmx_fio_close_lock st fio

/-- The search loop of `gmx_fio_fclose`, entered with index `i` and the slots
`FIO[i..]`; `none` when no slot holds `fp`. -/
def fclose_find (fp : Option Nat) : Nat → List t_fileio → Option Nat
  | _, [] => none
  | i, f :: rest => if fp = f.fp then some i else fclose_find fp (i + 1) rest

/-- `gmx_fio_fclose(fp)`. -/
def gmx_fio_fclose (st : State) (fp : Option Nat) : Res Int :=
  match fclose_find fp 0 st.FIO with
  | none => Res.ok (-1) st
  | some i => gmx_fio_close_lock st (i : Int)

/-! ## gmx_fio_select (gmxfio.c 1122-1163) -/

/-- `gmx_fio_select(fio)`.  The message of the last branch reads
`curfio->iFTP`, which dereferences NULL when no handle was selected before. -/
def gmx_fio_select (st : State) (fio : Int) : Res Unit :=
  if !gmx_fio_check st fio then Res.fatal Fatal.range_check st.os
  else
    match st.FIO[fio.toNat]? with
    | none => Res.undef
    | some f =>
      if in_ftpset f.iFTP ftpXDR then
        Res.ok () { st with do_read := do_func.do_xdr, do_write := do_func.do_xdr,
                            curfio := some fio.toNat }
      else if in_ftpset f.iFTP ftpASC then
        Res.ok () { st with do_read := do_func.do_ascread, do_write := do_func.do_ascwrite,
                            curfio := some fio.toNat }
      else if in_ftpset f.iFTP ftpBIN then
        Res.ok () { st with do_read := do_func.do_binread, do_write := do_func.do_binwrite,
                            curfio := some fio.toNat }
      else
        match st.curfio with
        | none => Res.undef
        | some _ => Res.fatal Fatal.no_codec st.os

/-! ## Flush and file positions (gmxfio.c 1009-1119, 1261-1285) -/

/-- `gmx_fio_flush_lock(fio,do_lock)`.  The `FILE *` handed to `fflush` is
the one stored in the slot; when that stream has been closed (by
`gmx_fio_close`, or by the `xdrclose` of `gmx_fio_rewind`, which leaves
`FIO[fio].fp` as it was) the call is undefined. -/
def gmx_fio_flush_lock (st : State) (fio : Int) : Res Int :=
  if !gmx_fio_check st fio then Res.fatal Fatal.range_check st.os
  else
    match st.FIO[fio.toNat]? with
    | none => Res.undef
    | some f =>
      match f.fp with
      | some fp => if st.os.stream_open fp then Res.ok (fflush st.os fp) st else Res.undef
      | none =>
        match f.xdr with
        | some x =>
          if st.os.stream_open x.x_private then Res.ok (fflush st.os x.x_private) st
          else Res.undef
        | none => Res.ok 0 st

/-- `gmx_fio_flush(fio)`. -/
def gmx_fio_flush (st : State) (fio : Int) : Res Int := gmx_fio_flush_lock st fio

/-- `gmx_fio_get_file_position(fio,&offset)`; the value is `*offset`. -/
def gmx_fio_get_file_position (st : State) (fio : Int) : Res Int :=
  match gmx_fio_flush_lock st fio with
  | Res.ok rc st1 =>
    if rc ≠ 0 then Res.fatal Fatal.cannot_write_file st1.os
    else
      match st1.FIO[fio.toNat]? with
      | none => Res.undef
      | some f =>
        match f.fp with
        | none => Res.undef
        | some fp => Res.ok (ftello st1.os fp) st1
  | Res.fatal e os => Res.fatal e os
  | Res.undef => Res.undef

/-- `gmx_file_position_t`. -/
structure gmx_file_position_t where
  filename : Str
  offset : Int
deriving DecidableEq, Repr

/-- `strncpy(dst,src,n)` into a zeroed buffer longer than `n`. -/
def strncpy (src : Str) (n : Nat) : Str := src.take n

/-- The loop of `gmx_fio_get_output_file_positions`, entered with index `i`,
the slots `FIO[i..]`, the records written so far and `nfiles`. -/
def output_positions_loop (E : Env) (st : State) :
    Nat → List t_fileio → List gmx_file_position_t → Nat →
    Res (List gmx_file_position_t × Nat)
  | _, [], outputfiles, nfiles => Res.ok (outputfiles, nfiles) st
  | i, f :: rest, outputfiles, nfiles =>
    if f.bOpen && !f.bRead && !f.bStdio && decide (f.iFTP ≠ efCPT) then
      let filename := strncpy f.fn (E.STRLEN - 1)
      if f.bLargerThan_off_t then
        output_positions_loop E st (i + 1) rest
          (outputfiles ++ [{ filename := filename, offset := -1 }]) (nfiles + 1)
      else
        match gmx_fio_get_file_position st (i : Int) with
        | Res.ok offset _ =>
          output_positions_loop E st (i + 1) rest
            (outputfiles ++ [{ filename := filename, offset := offset }]) (nfiles + 1)
        | Res.fatal e os => Res.fatal e os
        | Res.undef => Res.undef
    else output_positions_loop E st (i + 1) rest outputfiles nfiles

/-- `gmx_fio_get_output_file_positions(&outputfiles,&nfiles)`: the value is
the pair of `*p_outputfiles` (its first `nfiles` records) and `*p_nfiles`. -/
def gmx_fio_get_output_file_positions (E : Env) (st : State) :
    Res (List gmx_file_position_t × Nat) :=
  output_positions_loop E st 0 st.FIO [] 0

/-! ## Setters, getters, rewind and seek (gmxfio.c 178-201, 966-980, 1037-1062, 1165-1366) -/

/-- `set_comment(comment)`. -/
def set_comment (st : State) (comment : Option Str) : State :=
  match comment with
  | some c => { st with add_comment := some c }
  | none => st

/-- `unset_comment()`. -/
def unset_comment (st : State) : State := { st with add_comment := none }

/-- Range check followed by an update of slot `fio`. -/
def update_slot (st : State) (fio : Int) (g : t_fileio → t_fileio) : Res Unit :=
  if !gmx_fio_check st fio then Res.fatal Fatal.range_check st.os
  else
    match st.FIO[fio.toNat]? with
    | none => Res.undef
    | some f => Res.ok () { st with FIO := st.FIO.set fio.toNat (g f) }

/-- Range check followed by a read of slot `fio`. -/
def read_slot {α : Type} (st : State) (fio : Int) (g : t_fileio → α) : Res α :=
  if !gmx_fio_check st fio then Res.fatal Fatal.range_check st.os
  else
    match st.FIO[fio.toNat]? with
    | none => Res.undef
    | some f => Res.ok (g f) st

/-- `gmx_fio_setprecision(fio,bDouble)`. -/
def gmx_fio_setprecision (st : State) (fio : Int) (bDouble : Bool) : Res Unit :=
  update_slot st fio (fun f => { f with bDouble := bDouble })

/-- `gmx_fio_getdebug(fio)`. -/
def gmx_fio_getdebug (st : State) (fio : Int) : Res Bool := read_slot st fio (fun f => f.bDebug)

/-- `gmx_fio_setdebug(fio,bDebug)`. -/
def gmx_fio_setdebug (st : State) (fio : Int) (bDebug : Bool) : Res Unit :=
  update_slot st fio (fun f => { f with bDebug := bDebug })

/-- `gmx_fio_getname(fio)`: after the range check of `fio` the function
returns `curfio->fn`. -/
def gmx_fio_getname (st : State) (fio : Int) : Res Str :=
  if !gmx_fio_check st fio then Res.fatal Fatal.range_check st.os
  else
    match st.cur with
    | none => Res.undef
    | some c => Res.ok c.fn st

/-- `gmx_fio_setftp(fio,ftp)`. -/
def gmx_fio_setftp (st : State) (fio : Int) (ftp : Ftp) : Res Unit :=
  update_slot st fio (fun f => { f with iFTP := ftp })

/-- `gmx_fio_getftp(fio)`. -/
def gmx_fio_getftp (st : State) (fio : Int) : Res Ftp := read_slot st fio (fun f => f.iFTP)

/-- `gmx_fio_getfp(fio)`. -/
def gmx_fio_getfp (st : State) (fio : Int) : Res (Option Nat) := read_slot st fio (fun f => f.fp)

/-- `gmx_fio_getxdr(fio)`. -/
def gmx_fio_getxdr (st : State) (fio : Int) : Res (Option XDRobj) :=
  read_slot st fio (fun f => f.xdr)

/-- `gmx_fio_getread(fio)`. -/
def gmx_fio_getread (st : State) (fio : Int) : Res Bool := read_slot st fio (fun f => f.bRead)

/-- Put the cursor of `fp` at `pos` (`rewind`, `fseeko(fp,pos,SEEK_SET)`); a
negative position fails and changes nothing. -/
def OS.seek_set (os : OS) (fp : Nat) (pos : Int) : OS :=
  match os.stream fp with
  | some s => if pos < 0 then os else os.set_stream fp { s with pos := pos.toNat }
  | none => os

/-- `gmx_fio_rewind(fio)`: an XDR stream is closed and opened again on the
same `XDR` object, `fp` keeps its value; other streams are rewound. -/
def gmx_fio_rewind (st : State) (fio : Int) : Res Unit :=
  if !gmx_fio_check st fio then Res.fatal Fatal.range_check st.os
  else
    match st.FIO[fio.toNat]? with
    | none => Res.undef
    | some f =>
      match f.xdr with
      | some x =>
        match xdrclose st.os (some x) with
        | none => Res.fatal Fatal.xdrclose_failed st.os
        | some (_, os1) =>
          match xdropen os1 f.fn (if f.bRead then [114] else [119]) with
          | some (x1, os2) =>
            Res.ok () { st with FIO := st.FIO.set fio.toNat { f with xdr := some x1 }, os := os2 }
          | none => Res.ok () { st with os := os1 }
      | none =>
        match f.fp with
        | none => Res.undef
        | some fp => Res.ok () { st with os := st.os.seek_set fp 0 }

/-- `gmx_fio_ftell(fio)`.  As in `gmx_fio_flush_lock`, the call of `ftell`
on a stream that has been closed is undefined. -/
def gmx_fio_ftell (st : State) (fio : Int) : Res Int :=
  if !gmx_fio_check st fio then Res.fatal Fatal.range_check st.os
  else
    match st.FIO[fio.toNat]? with
    | none => Res.undef
    | some f =>
      match f.fp with
      | some fp => if st.os.stream_open fp then Res.ok (ftello st.os fp) st else Res.undef
      | none => Res.ok 0 st

/-- `gmx_fio_seek(fio,fpos)`. -/
def gmx_fio_seek (st : State) (fio : Int) (fpos : Int) : Res Unit :=
  if !gmx_fio_check st fio then Res.fatal Fatal.range_check st.os
  else
    match st.FIO[fio.toNat]? with
    | none => Res.undef
    | some f =>
      match f.fp with
      | some fp => Res.ok () { st with os := st.os.seek_set fp fpos }
      | none => Res.fatal Fatal.seek_failed st.os

/-- `gmx_fio_fopen(fn,mode)`. -/
def gmx_fio_fopen (E : Env) (st : State) (fn : Option Str) (mode : Str) : Res (Option Nat) :=
  match gmx_fio_open E st fn mode with
  | Res.ok fd st1 =>
    match st1.FIO[fd]? with
    | some f => Res.ok f.fp st1
    | none => Res.undef
  | Res.fatal e os => Res.fatal e os
  | Res.undef => Res.undef

/-- `gmx_fio_check_file_position(fio)`. -/
def gmx_fio_check_file_position (E : Env) (st : State) (fio : Int) : Res Int :=
  if E.small_off_t then
    match gmx_fio_get_file_position st fio with
    | Res.ok offset st1 =>
      if offset < 0 ∨ offset > 2147483647 then
        match st1.FIO[fio.toNat]? with
        | some f =>
          Res.ok 0 { st1 with FIO := st1.FIO.set fio.toNat { f with bLargerThan_off_t := true } }
        | none => Res.undef
      else Res.ok 0 st1
    | Res.fatal e os => Res.fatal e os
    | Res.undef => Res.undef
  else Res.ok 0 st

/-! ## Item kinds and items -/

/-- Modelled from the spec: the item kinds `eio...` are an enum of gmxfio.h,
which is not among the sources; the constructors are the kinds that the
codecs of gmxfio.c switch on, `eioOther` is any other `int`. -/
inductive Eio
  | eioREAL | eioDOUBLE | eioINT | eioGMX_STEP_T | eioUCHAR | eioNUCHAR | eioUSHORT
  | eioRVEC | eioNRVEC | eioIVEC | eioSTRING
  | eioOther (n : Int)
deriving DecidableEq, Repr

open Eio

/-- What the `void *item` of a transfer points to.  A codec that casts the
pointer to a type other than the pointee's has undefined behaviour. -/
inductive Item
  | real (r : Nat)
  | double (d : Nat)
  | int (i : Int)
  | step (s : Int)
  | uchar (c : Nat)
  /-- array of `unsigned char` -/
  | uchars (cs : List Nat)
  | ushort (u : Nat)
  | rvec (x y z : Nat)
  /-- array of `rvec` -/
  | rvecs (vs : List (Nat × Nat × Nat))
  | ivec (x y z : Int)
  /-- `char` buffer; as a source its string is `c_str buf`, as a destination
  its capacity is the length of `buf` -/
  | chars (buf : List Nat)
deriving DecidableEq, Repr

/-- `_check_nitem(eio,nitem,file,line)`: `true` when the check passes. -/
def check_nitem (eio : Eio) (nitem : Int) : Bool :=
  !(decide (nitem ≠ 1) && !(decide (eio = eioNRVEC) || decide (eio = eioNUCHAR)))

/-! ## Number representations -/

/-- Little-endian bytes of an unsigned number, `w` of them. -/
def le_bytes : Nat → Nat → List Nat
  | 0, _ => []
  | w + 1, v => (v % 256) :: le_bytes w (v / 256)

/-- Big-endian bytes of an unsigned number, `w` of them. -/
def be_bytes (w v : Nat) : List Nat := (le_bytes w v).reverse

/-- Number held by little-endian bytes. -/
def le_value : List Nat → Nat
  | [] => 0
  | b :: bs => b + 256 * le_value bs

/-- Number held by big-endian bytes. -/
def be_value (bs : List Nat) : Nat := le_value bs.reverse

/-- Two-complement pattern of a signed number in `bits` bits. -/
def to_unsigned (bits : Nat) (v : Int) : Nat := (v % (2 : Int) ^ bits).toNat

/-- Signed number of a two-complement pattern of `bits` bits. -/
def to_signed (bits : Nat) (u : Nat) : Int :=
  if u < 2 ^ (bits - 1) then (u : Int) else (u : Int) - (2 : Int) ^ bits

/-! ## XDR primitives -/

/-- Read `n` bytes from an XDR stream; when fewer are left the read fails
with the cursor at the end of the file. -/
def xdr_getbytes (os : OS) (x : XDRobj) (n : Nat) : Option (List Nat) × OS :=
  let p := os.pending x.x_private
  if p.length < n then (none, os.advance x.x_private p.length)
  else (some (p.take n), os.advance x.x_private n)

/-- Modelled from the spec: the XDR primitives come from the system library
(or gmx_system_xdr.c), not from the sources at hand.  Every number travels
as a big-endian quantity of explicit width ("byte-order-independent,
explicit-width encoding").  This is the transfer of a `w`-byte unsigned
number in the direction of the stream; a failed decode leaves `v`. -/
def xdr_unsigned (os : OS) (x : XDRobj) (w : Nat) (v : Nat) : Bool × Nat × OS :=
  if x.decode then
    match xdr_getbytes os x w with
    | (some bs, os1) => (true, be_value bs, os1)
    | (none, os1) => (false, v, os1)
  else (true, v, os.write x.x_private (be_bytes w v))

/-- Primitive `xdr_int`: 4 bytes, two-complement. -/
def xdr_int (os : OS) (x : XDRobj) (v : Int) : Bool × Int × OS :=
  let r := xdr_unsigned os x 4 (to_unsigned 32 v)
  (r.1, (if x.decode && r.1 then to_signed 32 r.2.1 else v), r.2.2)

/-- Primitive `xdr_u_int`: 4 bytes. -/
def xdr_u_int (os : OS) (x : XDRobj) (v : Nat) : Bool × Nat × OS :=
  xdr_unsigned os x 4 (v % 2 ^ 32)

/-- Primitive `xdr_u_char`: travels as an unsigned int. -/
def xdr_u_char (os : OS) (x : XDRobj) (c : Nat) : Bool × Nat × OS :=
  let r := xdr_u_int os x c
  (r.1, (if x.decode && r.1 then r.2.1 % 256 else c), r.2.2)

/-- Primitive `xdr_u_short`: travels as an unsigned int. -/
def xdr_u_short (os : OS) (x : XDRobj) (u : Nat) : Bool × Nat × OS :=
  let r := xdr_u_int os x u
  (r.1, (if x.decode && r.1 then r.2.1 % 65536 else u), r.2.2)

/-- Primitive `xdr_float`: the 4 bytes of the bit pattern. -/
def xdr_float (os : OS) (x : XDRobj) (f : Nat) : Bool × Nat × OS :=
  xdr_unsigned os x 4 (f % 2 ^ 32)

/-- Primitive `xdr_double`: the 8 bytes of the bit pattern. -/
def xdr_double (os : OS) (x : XDRobj) (d : Nat) : Bool × Nat × OS :=
  xdr_unsigned os x 8 (d % 2 ^ 64)

/-- Modelled from the spec: `xdr_gmx_step_t` ("a wide step counter"), 8
bytes two-complement whatever the width of `gmx_step_t`; a decoded value is
cut to `gmx_step_t`. -/
def xdr_gmx_step_t (E : Env) (os : OS) (x : XDRobj) (s : Int) : Bool × Int × OS :=
  let r := xdr_unsigned os x 8 (to_unsigned 64 s)
  (r.1,
   (if x.decode && r.1 then to_signed (8 * E.sizeof_step) (r.2.1 % 2 ^ (8 * E.sizeof_step))
    else s),
   r.2.2)

/-- Primitive `xdr_opaque(xdrs,cp,cnt)`: `cnt` bytes, padded with zero bytes
to a multiple of 4.  Encoding sends `bytes`; decoding returns the bytes
read. -/
def xdr_opaque (os : OS) (x : XDRobj) (bytes : List Nat) (cnt : Nat) :
    Bool × List Nat × OS :=
  if cnt = 0 then (true, bytes, os)
  else
    let rndup := if cnt % 4 > 0 then 4 - cnt % 4 else 0
    if x.decode then
      match xdr_getbytes os x cnt with
      | (none, os1) => (false, bytes, os1)
      | (some bs, os1) =>
        if rndup = 0 then (true, bs, os1)
        else
          match xdr_getbytes os1 x rndup with
          | (none, os2) => (false, bs, os2)
          | (some _, os2) => (true, bs, os2)
    else
      (true, bytes, (os.write x.x_private bytes).write x.x_private (List.replicate rndup 0))

/-- Primitive `xdr_string(xdrs,&cp,maxsize)` for a non-NULL `cp` pointing to
the buffer `buf`: the length as an unsigned int, then the characters as
opaque bytes.  The outcome is the return value, the buffer afterwards and
the world; `none` when decoding writes past the end of the buffer. -/
def xdr_string (os : OS) (x : XDRobj) (buf : List Nat) (maxsize : Nat) :
    Option (Bool × List Nat × OS) :=
  let size0 := if x.decode then 0 else strlen buf
  let r := xdr_u_int os x size0
  if !r.1 then some (false, buf, r.2.2)
  else
    let size := r.2.1
    if size > maxsize then some (false, buf, r.2.2)
    else if x.decode then
      if (size + 1) % 2 ^ 32 = 0 then some (true, buf, r.2.2)
      else if buf.length < size + 1 then none
      else
        let o := xdr_opaque r.2.2 x (buf.take size) size
        some (o.1, o.2.1 ++ 0 :: buf.drop (size + 1), o.2.2)
    else
      let o := xdr_opaque r.2.2 x (c_str buf) size
      some (o.1, buf, o.2.2)

/-! ## The canonical-binary codec: do_xdr_lock, do_xdr (gmxfio.c 612-769) -/

/-- Tail of every codec: the debug message on failure and the return of the
boolean; `item` is what the destination holds afterwards. -/
def codec_return (st : State) (f : t_fileio) (good : Bool) (item : Option Item) (os : OS) :
    Res (Bool × Option Item) :=
  Res.ok (good, item)
    { st with os := if !good && f.bDebug then os.eprint (Diag.io_error f.fn) else os }

/-- Three successive `xdr_double` / `xdr_float` (`xdr_vector` with `DIM`
elements of width `w`), stopping at the first failure. -/
def xdr_vector3 (os : OS) (x : XDRobj) (w : Nat) (v : Nat × Nat × Nat) :
    Bool × (Nat × Nat × Nat) × OS :=
  let a := xdr_unsigned os x w (v.1 % 2 ^ (8 * w))
  if !a.1 then (false, v, a.2.2)
  else
    let b := xdr_unsigned a.2.2 x w (v.2.1 % 2 ^ (8 * w))
    if !b.1 then (false, (a.2.1, v.2.1, v.2.2), b.2.2)
    else
      let c := xdr_unsigned b.2.2 x w (v.2.2 % 2 ^ (8 * w))
      (c.1, (a.2.1, b.2.1, if c.1 then c.2.1 else v.2.2), c.2.2)

/-- The `eioNUCHAR` loop: `j` runs over `nitem` elements of `ucptr` while
`res` holds.  Arguments: elements still to do, elements done, elements
ahead.  `none` when the loop runs past the end of the array. -/
def xdr_nuchar_loop (x : XDRobj) : Nat → List Nat → List Nat → OS → Option (Bool × List Nat × OS)
  | 0, done, ahead, os => some (true, done ++ ahead, os)
  | _ + 1, _, [], _ => none
  | n + 1, done, c :: ahead, os =>
    let r := xdr_u_char os x c
    if r.1 then xdr_nuchar_loop x n (done ++ [r.2.1]) ahead r.2.2
    else some (false, done ++ r.2.1 :: ahead, r.2.2)

/-- The `eioIVEC` loop over `m < DIM` while `res` holds; `bRead` decides
whether `idum` is loaded from the vector first. -/
def xdr_ivec_loop (E : Env) (x : XDRobj) (bRead : Bool) (has_item : Bool) :
    List Int → Int → OS → Bool × List Int × OS
  | [], _, os => (true, [], os)
  | i :: rest, idum, os =>
    let idum1 := if has_item && !bRead then i else idum
    let r := xdr_int os x idum1
    if r.1 then
      let t := xdr_ivec_loop E x bRead has_item rest r.2.1 r.2.2
      (t.1, r.2.1 :: t.2.1, t.2.2)
    else (false, r.2.1 :: rest, r.2.2)

/-- The body of `do_xdr_lock` for one `rvec`: lines 680-701. -/
def xdr_rvec (E : Env) (os : OS) (x : XDRobj) (f : t_fileio) (v : Option (Nat × Nat × Nat)) :
    Bool × Option (Nat × Nat × Nat) × OS :=
  let u := E.indeterminate
  if f.bDouble then
    let dvec := match v with
      | some v => if !f.bRead then (E.real_to_double v.1, E.real_to_double v.2.1,
                                    E.real_to_double v.2.2) else (u, u, u)
      | none => (u, u, u)
    let r := xdr_vector3 os x 8 dvec
    (r.1, v.map (fun _ => (E.double_to_real r.2.1.1, E.double_to_real r.2.1.2.1,
                           E.double_to_real r.2.1.2.2)), r.2.2)
  else
    let fvec := match v with
      | some v => if !f.bRead then (E.real_to_float v.1, E.real_to_float v.2.1,
                                    E.real_to_float v.2.2) else (u, u, u)
      | none => (u, u, u)
    let r := xdr_vector3 os x 4 fvec
    (r.1, v.map (fun _ => (E.float_to_real r.2.1.1, E.float_to_real r.2.1.2.1,
                           E.float_to_real r.2.1.2.2)), r.2.2)

/-- The call `do_xdr_lock(ptr,1,eioRVEC,desc,srcfile,line,FALSE)` made by
the `eioNRVEC` loop: the multiplicity check passes, then the `eioRVEC` case
and the debug message on failure. -/
def do_xdr_rvec (E : Env) (os : OS) (x : XDRobj) (f : t_fileio) (v : Option (Nat × Nat × Nat)) :
    Bool × Option (Nat × Nat × Nat) × OS :=
  let r := xdr_rvec E os x f v
  (r.1, r.2.1, if !r.1 && f.bDebug then r.2.2.eprint (Diag.io_error f.fn) else r.2.2)

/-- The `eioNRVEC` loop with a non-NULL `item`: arguments as in
`xdr_nuchar_loop`. -/
def xdr_nrvec_loop (E : Env) (x : XDRobj) (f : t_fileio) :
    Nat → List (Nat × Nat × Nat) → List (Nat × Nat × Nat) → OS →
    Option (Bool × List (Nat × Nat × Nat) × OS)
  | 0, done, ahead, os => some (true, done ++ ahead, os)
  | _ + 1, _, [], _ => none
  | n + 1, done, v :: ahead, os =>
    let r := do_xdr_rvec E os x f (some v)
    if r.1 then xdr_nrvec_loop E x f n (done ++ [r.2.1.getD v]) ahead r.2.2
    else some (false, done ++ r.2.1.getD v :: ahead, r.2.2)

/-- The `eioNRVEC` loop with a NULL `item` (`ptr` stays NULL). -/
def xdr_nrvec_skip (E : Env) (x : XDRobj) (f : t_fileio) : Nat → OS → Bool × OS
  | 0, os => (true, os)
  | n + 1, os =>
    let r := do_xdr_rvec E os x f none
    if r.1 then xdr_nrvec_skip E x f n r.2.2 else (false, r.2.2)

/-- Modelled from the spec: `snew(cptr,slen)` of smalloc.h, which is not
among the sources: a zeroed buffer of `slen` bytes, NULL for `slen == 0`;
the count is taken as unsigned. -/
def snew_chars (slen : Int) : Option (List Nat) :=
  if to_unsigned 32 slen = 0 then none else some (List.replicate (to_unsigned 32 slen) 0)

/-- `do_xdr_lock(item,nitem,eio,desc,srcfile,line,do_lock)`.  The value is
the boolean returned and what `item` points to afterwards. -/
def do_xdr_lock (E : Env) (st : State) (item : Option Item) (nitem : Int) (eio : Eio)
    (_desc : Str) : Res (Bool × Option Item) :=
  if !check_nitem eio nitem then Res.fatal Fatal.bad_nitem st.os
  else
    match st.cur with
    | none => Res.undef
    | some f =>
      let u := E.indeterminate
      match eio, f.xdr with
      | eioOther _, _ => Res.fatal Fatal.bad_eio st.os
      | _, none => Res.undef
      | eioREAL, some x =>
        match item with
        | none =>
          let r := if f.bDouble then xdr_double st.os x 0 else xdr_float st.os x 0
          codec_return st f r.1 none r.2.2
        | some (Item.real v) =>
          if f.bDouble then
            let r := xdr_double st.os x (if !f.bRead then E.real_to_double v else 0)
            codec_return st f r.1 (some (Item.real (E.double_to_real r.2.1))) r.2.2
          else
            let r := xdr_float st.os x (if !f.bRead then E.real_to_float v else 0)
            codec_return st f r.1 (some (Item.real (E.float_to_real r.2.1))) r.2.2
        | some _ => Res.undef
      | eioDOUBLE, some x =>
        match item with
        | none => let r := xdr_double st.os x 0; codec_return st f r.1 none r.2.2
        | some (Item.double d) =>
          let r := xdr_double st.os x (if !f.bRead then d else 0)
          codec_return st f r.1 (some (Item.double r.2.1)) r.2.2
        | some _ => Res.undef
      | eioINT, some x =>
        match item with
        | none => let r := xdr_int st.os x u; codec_return st f r.1 none r.2.2
        | some (Item.int i) =>
          let r := xdr_int st.os x (if !f.bRead then i else u)
          codec_return st f r.1 (some (Item.int r.2.1)) r.2.2
        | some _ => Res.undef
      | eioGMX_STEP_T, some x =>
        match item with
        | none => let r := xdr_gmx_step_t E st.os x u; codec_return st f r.1 none r.2.2
        | some (Item.step i) =>
          let r := xdr_gmx_step_t E st.os x (if !f.bRead then i else u)
          codec_return st f r.1 (some (Item.step r.2.1)) r.2.2
        | some _ => Res.undef
      | eioUCHAR, some x =>
        match item with
        | none => let r := xdr_u_char st.os x u; codec_return st f r.1 none r.2.2
        | some (Item.uchar c) =>
          let r := xdr_u_char st.os x (if !f.bRead then c else u)
          codec_return st f r.1 (some (Item.uchar r.2.1)) r.2.2
        | some _ => Res.undef
      | eioNUCHAR, some x =>
        match item with
        | none => if 0 < nitem then Res.undef else codec_return st f true none st.os
        | some (Item.uchars cs) =>
          match xdr_nuchar_loop x nitem.toNat [] cs st.os with
          | none => Res.undef
          | some r => codec_return st f r.1 (some (Item.uchars r.2.1)) r.2.2
        | some _ => Res.undef
      | eioUSHORT, some x =>
        match item with
        | none => let r := xdr_u_short st.os x u; codec_return st f r.1 none r.2.2
        | some (Item.ushort c) =>
          let r := xdr_u_short st.os x (if !f.bRead then c else u)
          codec_return st f r.1 (some (Item.ushort r.2.1)) r.2.2
        | some _ => Res.undef
      | eioRVEC, some x =>
        match item with
        | none => let r := xdr_rvec E st.os x f none; codec_return st f r.1 none r.2.2
        | some (Item.rvec a b c) =>
          let r := xdr_rvec E st.os x f (some (a, b, c))
          let v := r.2.1.getD (a, b, c)
          codec_return st f r.1 (some (Item.rvec v.1 v.2.1 v.2.2)) r.2.2
        | some _ => Res.undef
      | eioNRVEC, some x =>
        match item with
        | none =>
          let r := xdr_nrvec_skip E x f nitem.toNat st.os
          codec_return st f r.1 none r.2
        | some (Item.rvecs vs) =>
          match xdr_nrvec_loop E x f nitem.toNat [] vs st.os with
          | none => Res.undef
          | some r => codec_return st f r.1 (some (Item.rvecs r.2.1)) r.2.2
        | some _ => Res.undef
      | eioIVEC, some x =>
        match item with
        | none =>
          let r := xdr_ivec_loop E x f.bRead false [u, u, u] u st.os
          codec_return st f r.1 none r.2.2
        | some (Item.ivec a b c) =>
          let r := xdr_ivec_loop E x f.bRead true [a, b, c] u st.os
          codec_return st f r.1
            (some (Item.ivec (r.2.1.getD 0 a) (r.2.1.getD 1 b) (r.2.1.getD 2 c))) r.2.2
        | some _ => Res.undef
      | eioSTRING, some x =>
        match item with
        | none =>
          let r := xdr_int st.os x 0
          if !r.1 then Res.fatal Fatal.wrong_string_length r.2.2
          else
            let cptr := if f.bRead then snew_chars r.2.1 else none
            match cptr with
            | none => codec_return st f true none r.2.2
            | some c =>
              match xdr_string r.2.2 x c (to_unsigned 32 r.2.1) with
              | none => Res.undef
              | some t => codec_return st f t.1 none t.2.2
        | some (Item.chars buf) =>
          let slen : Int := if !f.bRead then (strlen buf : Int) + 1 else 0
          let r := xdr_int st.os x slen
          if !r.1 then Res.fatal Fatal.wrong_string_length r.2.2
          else
            match xdr_string r.2.2 x buf (to_unsigned 32 r.2.1) with
            | none => Res.undef
            | some t => codec_return st f t.1 (some (Item.chars t.2.1)) t.2.2
        | some _ => Res.undef

/-- `do_xdr(item,nitem,eio,desc,srcfile,line)`. -/
def do_xdr (E : Env) (st : State) (item : Option Item) (nitem : Int) (eio : Eio)
    (desc : Str) : Res (Bool × Option Item) :=
  do_xdr_lock E st item nitem eio desc

/-! ## Text formatting and scanning (`printf`, `sscanf`) -/

/-- Decimal digits of `n`, most significant first, in front of `acc`; the
first argument bounds the number of digits. -/
def decimal_aux : Nat → Nat → Str → Str
  | 0, _, acc => acc
  | fuel + 1, n, acc =>
    if n < 10 then (cZERO + n) :: acc
    else decimal_aux fuel (n / 10) ((cZERO + n % 10) :: acc)

/-- Decimal digits of a natural number. -/
def decimal (n : Nat) : Str := decimal_aux (n + 1) n []

/-- Characters of `%d` without width. -/
def print_d (v : Int) : Str :=
  if v < 0 then cMINUS :: decimal v.natAbs else decimal v.natAbs

/-- Right-justify in a field of `w` characters. -/
def pad_left (w : Nat) (s : Str) : Str := List.replicate (w - s.length) cSPACE ++ s

/-- Left-justify in a field of `w` characters. -/
def pad_right (w : Nat) (s : Str) : Str := s ++ List.replicate (w - s.length) cSPACE

/-- Characters of `%<w>d`. -/
def printf_d (w : Nat) (v : Int) : Str := pad_left w (print_d v)

/-- Is the character a decimal digit. -/
def isdigit (c : Nat) : Bool := 48 ≤ c && c ≤ 57

/-- Value of the longest run of digits at the head of the input, continuing
the value `acc`. -/
def scan_digits : List Nat → Nat → Nat
  | [], acc => acc
  | c :: cs, acc => if isdigit c then scan_digits cs (10 * acc + (c - 48)) else acc

/-- Integer conversion of `sscanf`: blanks are skipped, then an optional sign
and a run of digits.  The result is the return value of `sscanf` (1, 0 for a
mismatch, -1 for input that ends before the conversion) and the number
read. -/
def sscanf_int (s : Str) : Int × Option Int :=
  match (c_str s).dropWhile isspace with
  | [] => (-1, none)
  | c :: cs =>
    if c = cMINUS then
      match cs with
      | d :: _ => if isdigit d then (1, some (-(scan_digits cs 0 : Int))) else (0, none)
      | [] => (0, none)
    else if c = 43 then
      match cs with
      | d :: _ => if isdigit d then (1, some (scan_digits cs 0 : Int)) else (0, none)
      | [] => (0, none)
    else if isdigit c then (1, some (scan_digits (c :: cs) 0 : Int))
    else (0, none)

/-- `sscanf(s,"%d",&i)`: the number is stored in an `int`. -/
def sscanf_d (s : Str) : Int × Option Int :=
  let r := sscanf_int s
  (r.1, r.2.map (fun v => to_signed 32 (to_unsigned 32 v)))

/-- `sscanf(s,"%c",&uc)`: the first character, blanks included. -/
def sscanf_c (s : Str) : Int × Option Nat :=
  match c_str s with
  | [] => (-1, none)
  | c :: _ => (1, some c)

/-! ## The text codec (gmxfio.c 165-176, 257-468) -/

/-- `dbgstr(desc)`: the empty string when the debug flag is off, otherwise
what `sprintf(buf,"  ; %s %s",...)` leaves in the static `char buf[STRLEN]`;
`none` when the text and its terminator do not fit in `buf`. -/
def dbgstr (E : Env) (st : State) (f : t_fileio) (desc : Str) : Option Str :=
  if !f.bDebug then some []
  else
    let text := cstr "  ; " ++ (st.add_comment.getD []) ++ [cSPACE] ++ desc
    if text.length + 1 ≤ E.STRLEN then some text else none

/-- Body of the `do ... while` loop of `next_item` from the character `rd`
on, with `rest` still unread; returns `buf` and the unread characters. -/
def next_item_loop (buflen : Int) :
    Bool → Bool → List Nat → Nat → List Nat → List Nat × List Nat
  | in_comment, in_token, buf, rd, rest =>
    let step : Option (Bool × Bool × List Nat) :=
      if in_comment then some ((if rd = cNL then false else true), in_token, buf)
      else if in_token then
        if isspace rd || rd = cSEMI then none else some (false, true, buf ++ [rd])
      else if !isspace rd then
        if rd = cSEMI then some (true, false, buf) else some (false, true, buf ++ [rd])
      else some (false, false, buf)
    match step with
    | none => (buf, rest)
    | some (ic, it, b) =>
      if (b.length : Int) ≥ buflen - 2 then (b, rest)
      else
        match rest with
        | [] => (b, [])
        | c :: cs => next_item_loop buflen ic it b c cs

/-- `next_item(fp,buf,buflen)`: the token left in `buf` and the world
afterwards; `none` is the abort `gmx_file("End of file")`. -/
def next_item (os : OS) (fp : Nat) (buflen : Int) : Option (List Nat × OS) :=
  match os.pending fp with
  | [] => none
  | rd :: rest =>
    let r := next_item_loop buflen false false [] rd rest
    some (r.1, (os.advance fp ((rd :: rest).length - r.2.length)).eprint Diag.asc_not_tested)

/-- `NEXT_ITEM_BUF_LEN`. -/
def NEXT_ITEM_BUF_LEN : Int := 128

/-- Outcome of a step inside a codec: like `Res`, over the world only. -/
inductive Out (α : Type)
  | ok (a : α) (os : OS)
  | fatal (e : Fatal) (os : OS)
  | undef
deriving DecidableEq, Repr

/-- Write the text of one `fprintf(curfio->fp, ...)` and return as the
codec does, with `res` the number of characters printed. -/
def asc_put (st : State) (f : t_fileio) (fp : Nat) (item : Option Item) (text : Str) :
    Res (Bool × Option Item) :=
  codec_return st f (decide (0 < text.length)) item (st.os.write fp text)

/-- `do_ascwrite(item,nitem,eio,desc,srcfile,line)`. -/
def do_ascwrite (E : Env) (st : State) (item : Option Item) (nitem : Int) (eio : Eio)
    (desc : Str) : Res (Bool × Option Item) :=
  if !check_nitem eio nitem then Res.fatal Fatal.bad_nitem st.os
  else
    match st.cur with
    | none => Res.undef
    | some f =>
      let with_dbg (k : Str → Res (Bool × Option Item)) : Res (Bool × Option Item) :=
        match dbgstr E st f desc with
        | none => Res.undef
        | some dbg => k dbg
      match eio, f.fp with
      | eioOther _, _ => Res.fatal Fatal.bad_eio st.os
      | _, none => Res.undef
      | eioREAL, some fp =>
        match item with
        | some (Item.real r) =>
          with_dbg fun dbg => asc_put st f fp item (E.printf_e r ++ dbg ++ [cNL])
        | _ => Res.undef
      | eioDOUBLE, some fp =>
        match item with
        | some (Item.real r) =>
          with_dbg fun dbg => asc_put st f fp item (E.printf_e r ++ dbg ++ [cNL])
        | _ => Res.undef
      | eioINT, some fp =>
        match item with
        | some (Item.int i) =>
          with_dbg fun dbg => asc_put st f fp item (printf_d 18 i ++ dbg ++ [cNL])
        | _ => Res.undef
      | eioGMX_STEP_T, some fp =>
        match item with
        | some (Item.step i) =>
          with_dbg fun _ => asc_put st f fp item (print_d i ++ [cNL])
        | _ => Res.undef
      | eioUCHAR, some fp =>
        match item with
        | some (Item.uchar c) =>
          with_dbg fun dbg => asc_put st f fp item (printf_d 4 (c : Int) ++ dbg ++ [cNL])
        | _ => Res.undef
      | eioNUCHAR, some fp =>
        match item with
        | none =>
          if 0 < nitem then Res.undef
          else with_dbg fun dbg => codec_return st f false item (st.os.write fp (dbg ++ [cNL]))
        | some (Item.uchars cs) =>
          if cs.length < nitem.toNat then Res.undef
          else
            let fields := ((cs.take nitem.toNat).map (fun c => printf_d 4 (c : Int))).flatten
            with_dbg fun dbg =>
            codec_return st f (decide (0 < nitem)) item (st.os.write fp (fields ++ dbg ++ [cNL]))
        | _ => Res.undef
      | eioUSHORT, some fp =>
        match item with
        | some (Item.ushort u) =>
          with_dbg fun dbg => asc_put st f fp item (printf_d 18 (u : Int) ++ dbg ++ [cNL])
        | _ => Res.undef
      | eioRVEC, some fp =>
        match item with
        | some (Item.rvec a b c) =>
          with_dbg fun dbg =>
          asc_put st f fp item (E.printf_e a ++ E.printf_e b ++ E.printf_e c ++ dbg ++ [cNL])
        | _ => Res.undef
      | eioNRVEC, some fp =>
        match item with
        | none => if 0 < nitem then Res.undef else codec_return st f false item st.os
        | some (Item.rvecs vs) =>
          if vs.length < nitem.toNat then Res.undef
          else if nitem ≤ 0 then codec_return st f false item st.os
          else
            with_dbg fun dbg =>
            let lines := ((vs.take nitem.toNat).map (fun v =>
              E.printf_e v.1 ++ E.printf_e v.2.1 ++ E.printf_e v.2.2 ++ dbg ++ [cNL])).flatten
            codec_return st f true item (st.os.write fp lines)
        | _ => Res.undef
      | eioIVEC, some fp =>
        match item with
        | some (Item.ivec a b c) =>
          with_dbg fun dbg =>
          asc_put st f fp item (printf_d 18 a ++ printf_d 18 b ++ printf_d 18 c ++ dbg ++ [cNL])
        | _ => Res.undef
      | eioSTRING, some fp =>
        match item with
        | some (Item.chars buf) =>
          let e := encode_string 256 buf
          let os1 := if e.truncated_msg then st.os.eprint (Diag.truncated (c_str buf) e.dst)
                     else st.os
          with_dbg fun dbg =>
          let text := pad_right 18 e.dst ++ dbg ++ [cNL]
          codec_return st f (decide (0 < text.length)) item (os1.write fp text)
        | _ => Res.undef

/-- One `next_item` of `do_ascread` on `curfio->fp`. -/
def asc_next (os : OS) (fp : Option Nat) : Out (List Nat) :=
  match fp with
  | none => Out.undef
  | some p =>
    match next_item os p NEXT_ITEM_BUF_LEN with
    | none => Out.fatal Fatal.end_of_file os
    | some r => Out.ok r.1 r.2

/-- The `eioNUCHAR` loop of `do_ascread`: elements still to do, elements
done, elements ahead (`none` for a NULL `item`), `res` so far. -/
def asc_nuchar_loop (E : Env) (fp : Option Nat) :
    Nat → List Nat → Option (List Nat) → Int → OS → Out (Int × Option (List Nat))
  | 0, done, ahead, res, os => Out.ok (res, ahead.map (fun a => done ++ a)) os
  | n + 1, done, ahead, _, os =>
    match asc_next os fp with
    | Out.fatal e os1 => Out.fatal e os1
    | Out.undef => Out.undef
    | Out.ok tok os1 =>
      let r := sscanf_d tok
      let ix : Int := r.2.getD (E.indeterminate : Int)
      match ahead with
      | none => asc_nuchar_loop E fp n done none r.1 os1
      | some [] => Out.undef
      | some (_ :: rest) =>
        asc_nuchar_loop E fp n (done ++ [to_unsigned 8 ix]) (some rest) r.1 os1

/-- Three `sscanf(next_item(...),"%lf\n",&x)` in a row (`m < DIM`): the last
`res` and the three values of `x`. -/
def asc_read3_lf (E : Env) (fp : Option Nat) (os : OS) : Out (Int × Nat × Nat × Nat) :=
  let conv (tok : List Nat) (x : Nat) : Int × Nat :=
    match E.sscanf_lf (c_str tok) with
    | some d => (1, d)
    | none => (0, x)
  match asc_next os fp with
  | Out.fatal e os1 => Out.fatal e os1
  | Out.undef => Out.undef
  | Out.ok t1 os1 =>
    let a := conv t1 E.indeterminate
    match asc_next os1 fp with
    | Out.fatal e os2 => Out.fatal e os2
    | Out.undef => Out.undef
    | Out.ok t2 os2 =>
      let b := conv t2 a.2
      match asc_next os2 fp with
      | Out.fatal e os3 => Out.fatal e os3
      | Out.undef => Out.undef
      | Out.ok t3 os3 =>
        let c := conv t3 b.2
        Out.ok (c.1, a.2, b.2, c.2) os3

/-- Three `sscanf(next_item(...),"%d\n",&ix)` in a row. -/
def asc_read3_d (E : Env) (fp : Option Nat) (os : OS) : Out (Int × Int × Int × Int) :=
  let conv (tok : List Nat) (x : Int) : Int × Int :=
    let r := sscanf_d tok
    (r.1, r.2.getD x)
  match asc_next os fp with
  | Out.fatal e os1 => Out.fatal e os1
  | Out.undef => Out.undef
  | Out.ok t1 os1 =>
    let a := conv t1 (E.indeterminate : Int)
    match asc_next os1 fp with
    | Out.fatal e os2 => Out.fatal e os2
    | Out.undef => Out.undef
    | Out.ok t2 os2 =>
      let b := conv t2 a.2
      match asc_next os2 fp with
      | Out.fatal e os3 => Out.fatal e os3
      | Out.undef => Out.undef
      | Out.ok t3 os3 =>
        let c := conv t3 b.2
        Out.ok (c.1, a.2, b.2, c.2) os3

/-- The `eioNRVEC` loop of `do_ascread`: as `asc_nuchar_loop`. -/
def asc_nrvec_loop (E : Env) (fp : Option Nat) :
    Nat → List (Nat × Nat × Nat) → Option (List (Nat × Nat × Nat)) → Int → OS →
    Out (Int × Option (List (Nat × Nat × Nat)))
  | 0, done, ahead, res, os => Out.ok (res, ahead.map (fun a => done ++ a)) os
  | n + 1, done, ahead, _, os =>
    match asc_read3_lf E fp os with
    | Out.fatal e os1 => Out.fatal e os1
    | Out.undef => Out.undef
    | Out.ok r os1 =>
      match ahead with
      | none => asc_nrvec_loop E fp n done none r.1 os1
      | some [] => Out.undef
      | some (_ :: rest) =>
        asc_nrvec_loop E fp n
          (done ++ [(E.double_to_real r.2.1, E.double_to_real r.2.2.1, E.double_to_real r.2.2.2)])
          (some rest) r.1 os1

/-- Return of `do_ascread`: the debug message when `res <= 0`, the boolean
`res > 0`. -/
def asc_read_return (st : State) (f : t_fileio) (res : Int) (item : Option Item) (os : OS) :
    Res (Bool × Option Item) :=
  codec_return st f (decide (0 < res)) item os

/-- One scalar read of `do_ascread`: `next_item`, then the conversion `conv`
of the token giving `res` and the new pointee. -/
def asc_read_scalar (st : State) (f : t_fileio) (conv : List Nat → Option (Int × Option Item)) :
    Res (Bool × Option Item) :=
  match asc_next st.os f.fp with
  | Out.fatal e os1 => Res.fatal e os1
  | Out.undef => Res.undef
  | Out.ok tok os1 =>
    match conv tok with
    | none => Res.undef
    | some r => asc_read_return st f r.1 r.2 os1

/-- `do_ascread(item,nitem,eio,desc,srcfile,line)`. -/
def do_ascread (E : Env) (st : State) (item : Option Item) (nitem : Int) (eio : Eio)
    (_desc : Str) : Res (Bool × Option Item) :=
  match st.cur with
  | none => Res.undef
  | some f =>
    if !check_nitem eio nitem then Res.fatal Fatal.bad_nitem st.os
    else
      let u : Int := (E.indeterminate : Int)
      match eio with
      | eioOther _ => Res.fatal Fatal.bad_eio st.os
      | eioREAL | eioDOUBLE =>
        asc_read_scalar st f (fun tok =>
          let r : Int × Nat := match E.sscanf_lf (c_str tok) with
            | some d => (1, d)
            | none => (0, E.indeterminate)
          match item with
          | none => some (r.1, none)
          | some (Item.real _) => some (r.1, some (Item.real (E.double_to_real r.2)))
          | some _ => none)
      | eioINT =>
        asc_read_scalar st f (fun tok =>
          let r := sscanf_d tok
          match item with
          | none => some (r.1, none)
          | some (Item.int _) => some (r.1, some (Item.int (r.2.getD u)))
          | some _ => none)
      | eioGMX_STEP_T =>
        asc_read_scalar st f (fun tok =>
          let r := sscanf_int tok
          let v := to_signed (8 * E.sizeof_step) (to_unsigned (8 * E.sizeof_step) (r.2.getD u))
          match item with
          | none => some (r.1, none)
          | some (Item.step _) => some (r.1, some (Item.step v))
          | some _ => none)
      | eioUCHAR =>
        asc_read_scalar st f (fun tok =>
          let r := sscanf_c tok
          match item with
          | none => some (r.1, none)
          | some (Item.uchar _) => some (r.1, some (Item.uchar (r.2.getD E.indeterminate)))
          | some _ => none)
      | eioNUCHAR =>
        let run (ahead : Option (List Nat)) : Res (Bool × Option Item) :=
          match asc_nuchar_loop E f.fp nitem.toNat [] ahead 0 st.os with
          | Out.fatal e os1 => Res.fatal e os1
          | Out.undef => Res.undef
          | Out.ok r os1 => asc_read_return st f r.1 (r.2.map Item.uchars) os1
        match item with
        | none => run none
        | some (Item.uchars cs) => run (some cs)
        | some _ => Res.undef
      | eioUSHORT =>
        asc_read_scalar st f (fun tok =>
          let r := sscanf_d tok
          match item with
          | none => some (r.1, none)
          | some (Item.ushort _) => some (r.1, some (Item.ushort (to_unsigned 16 (r.2.getD u))))
          | some _ => none)
      | eioRVEC =>
        match item with
        | some (Item.rvec _ _ _) =>
          match asc_read3_lf E f.fp st.os with
          | Out.fatal e os1 => Res.fatal e os1
          | Out.undef => Res.undef
          | Out.ok r os1 =>
            asc_read_return st f r.1
              (some (Item.rvec (E.double_to_real r.2.1) (E.double_to_real r.2.2.1)
                (E.double_to_real r.2.2.2))) os1
        | _ =>
          match asc_next st.os f.fp with
          | Out.fatal e os1 => Res.fatal e os1
          | _ => Res.undef
      | eioNRVEC =>
        let run (ahead : Option (List (Nat × Nat × Nat))) : Res (Bool × Option Item) :=
          match asc_nrvec_loop E f.fp nitem.toNat [] ahead 0 st.os with
          | Out.fatal e os1 => Res.fatal e os1
          | Out.undef => Res.undef
          | Out.ok r os1 => asc_read_return st f r.1 (r.2.map Item.rvecs) os1
        match item with
        | none => run none
        | some (Item.rvecs vs) => run (some vs)
        | some _ => Res.undef
      | eioIVEC =>
        match asc_read3_d E f.fp st.os with
        | Out.fatal e os1 => Res.fatal e os1
        | Out.undef => Res.undef
        | Out.ok r os1 =>
          match item with
          | none => asc_read_return st f r.1 none os1
          | some (Item.ivec _ _ _) =>
            asc_read_return st f r.1 (some (Item.ivec r.2.1 r.2.2.1 r.2.2.2)) os1
          | some _ => Res.undef
      | eioSTRING =>
        match asc_next st.os f.fp with
        | Out.fatal e os1 => Res.fatal e os1
        | Out.undef => Res.undef
        | Out.ok cptr os1 =>
          match item with
          | none => asc_read_return st f 0 none os1
          | some (Item.chars buf) =>
            let d := decode_string ((strlen cptr : Int) + 1) cptr
            if buf.length < d.dst.length + 1 then Res.undef
            else
              let os2 := if d.truncated_msg then os1.eprint (Diag.truncated (c_str cptr) d.dst)
                         else os1
              asc_read_return st f 1
                (some (Item.chars (d.dst ++ 0 :: buf.drop (d.dst.length + 1)))) os2
          | some _ => Res.undef

/-! ## The native-binary codec (gmxfio.c 470-605) -/

/-- Bytes of a `w`-byte number in host order. -/
def host_bytes (E : Env) (w v : Nat) : List Nat :=
  if E.big_endian then be_bytes w v else le_bytes w v

/-- Number held by bytes in host order. -/
def host_value (E : Env) (bs : List Nat) : Nat :=
  if E.big_endian then be_value bs else le_value bs

/-- `sizeof(real)`. -/
def sizeof_real (E : Env) : Nat := if E.real_is_double then 8 else 4

/-- Memory image of what an item pointer points to. -/
def Item.mem (E : Env) : Item → List Nat
  | Item.real r => host_bytes E (sizeof_real E) r
  | Item.double d => host_bytes E 8 d
  | Item.int i => host_bytes E 4 (to_unsigned 32 i)
  | Item.step s => host_bytes E E.sizeof_step (to_unsigned (8 * E.sizeof_step) s)
  | Item.uchar c => [c % 256]
  | Item.uchars cs => cs.map (fun c => c % 256)
  | Item.ushort u => host_bytes E 2 (u % 65536)
  | Item.rvec a b c =>
    host_bytes E (sizeof_real E) a ++ host_bytes E (sizeof_real E) b ++
      host_bytes E (sizeof_real E) c
  | Item.rvecs vs =>
    (vs.map (fun v => host_bytes E (sizeof_real E) v.1 ++ host_bytes E (sizeof_real E) v.2.1 ++
      host_bytes E (sizeof_real E) v.2.2)).flatten
  | Item.ivec a b c =>
    host_bytes E 4 (to_unsigned 32 a) ++ host_bytes E 4 (to_unsigned 32 b) ++
      host_bytes E 4 (to_unsigned 32 c)
  | Item.chars buf => buf

/-- Does the pointee have the type the codec casts `item` to for this kind. -/
def Item.fits : Eio → Item → Bool
  | eioREAL, Item.real _ => true
  | eioDOUBLE, Item.double _ => true
  | eioINT, Item.int _ => true
  | eioGMX_STEP_T, Item.step _ => true
  | eioUCHAR, Item.uchar _ => true
  | eioNUCHAR, Item.uchars _ => true
  | eioUSHORT, Item.ushort _ => true
  | eioRVEC, Item.rvec _ _ _ => true
  | eioNRVEC, Item.rvecs _ => true
  | eioIVEC, Item.ivec _ _ _ => true
  | eioSTRING, Item.chars _ => true
  | _, _ => false

/-- The `size` that the switch of `do_binwrite` sets, without the
`eioSTRING` case; `none` is the `default` case. -/
def binwrite_size (E : Env) : Eio → Option Nat
  | eioREAL => some (sizeof_real E)
  | eioDOUBLE => some 8
  | eioINT => some 4
  | eioGMX_STEP_T => some E.sizeof_step
  | eioUCHAR => some 1
  | eioNUCHAR => some 1
  | eioUSHORT => some 2
  | eioRVEC => some (3 * sizeof_real E)
  | eioNRVEC => some (3 * sizeof_real E)
  | eioIVEC => some 12
  | eioSTRING => some 0
  | eioOther _ => none

/-- Call `fwrite(item,size,nitem,curfio->fp)` and the rest of `do_binwrite`
for a pointee with the memory image `mem`.  The write itself does not fail
in this world, so `wsize == nitem`. -/
def bin_fwrite (st : State) (f : t_fileio) (item : Option Item) (mem : List Nat)
    (size : Nat) (nitem : Int) (os : OS) : Res (Bool × Option Item) :=
  match f.fp with
  | none => Res.undef
  | some fp =>
    if nitem < 0 then Res.undef
    else if size * nitem.toNat = 0 then codec_return st f (decide (nitem = 0)) item os
    else if mem.length < size * nitem.toNat then Res.undef
    else codec_return st f true item (os.write fp (mem.take (size * nitem.toNat)))

/-- `do_binwrite(item,nitem,eio,desc,srcfile,line)`. -/
def do_binwrite (E : Env) (st : State) (item : Option Item) (nitem : Int) (eio : Eio)
    (_desc : Str) : Res (Bool × Option Item) :=
  if !check_nitem eio nitem then Res.fatal Fatal.bad_nitem st.os
  else
    match st.cur with
    | none => Res.undef
    | some f =>
      match binwrite_size E eio with
      | none => Res.fatal Fatal.bad_eio st.os
      | some size =>
        match item with
        | none =>
          if eio = eioSTRING then Res.undef
          else bin_fwrite st f none [] size nitem st.os
        | some it =>
          if !Item.fits eio it then Res.undef
          else if eio = eioSTRING then
            let ssize := strlen (Item.mem E it) + 1
            match bin_fwrite st f none (host_bytes E 4 (ssize % 2 ^ 32)) 4 1 st.os with
            | Res.ok _ st1 =>
              bin_fwrite st1 f item (c_str (Item.mem E it) ++ [0]) ssize nitem st1.os
            | Res.fatal e os => Res.fatal e os
            | Res.undef => Res.undef
          else bin_fwrite st f item (Item.mem E it) size nitem st.os

/-- The `size` that the switch of `do_binread` sets, without the `eioSTRING`
case; `none` is the `default` case. -/
def binread_size (E : Env) (f : t_fileio) : Eio → Option Nat
  | eioREAL => some (if f.bDouble then 8 else 4)
  | eioDOUBLE => some 8
  | eioINT => some 4
  | eioGMX_STEP_T => some E.sizeof_step
  | eioUCHAR => some 1
  | eioNUCHAR => some 1
  | eioUSHORT => some 2
  | eioRVEC => some (if f.bDouble then 8 * 3 else 4 * 3)
  | eioNRVEC => some (if f.bDouble then 8 * 3 else 4 * 3)
  | eioIVEC => some 12
  | eioSTRING => some 0
  | eioOther _ => none

/-- Cut a byte sequence into `n` pieces of `w` bytes. -/
def chunks (w : Nat) : Nat → List Nat → List (List Nat)
  | 0, _ => []
  | n + 1, bs => bs.take w :: chunks w n (bs.drop w)

/-- The pointee after `fread` stored `bytes` at `item`; `none` when the
bytes do not fit the pointee. -/
def bin_store (E : Env) (f : t_fileio) (bytes : List Nat) : Item → Option Item
  | Item.real _ =>
    if f.bDouble = E.real_is_double then some (Item.real (host_value E bytes)) else none
  | Item.double _ => some (Item.double (host_value E bytes))
  | Item.int _ => some (Item.int (to_signed 32 (host_value E bytes)))
  | Item.step _ => some (Item.step (to_signed (8 * E.sizeof_step) (host_value E bytes)))
  | Item.uchar _ => some (Item.uchar (host_value E bytes))
  | Item.uchars cs =>
    if cs.length < bytes.length then none else some (Item.uchars (bytes ++ cs.drop bytes.length))
  | Item.ushort _ => some (Item.ushort (host_value E bytes))
  | Item.rvec _ _ _ =>
    if f.bDouble = E.real_is_double then
      match (chunks (sizeof_real E) 3 bytes).map (host_value E) with
      | [a, b, c] => some (Item.rvec a b c)
      | _ => none
    else none
  | Item.rvecs vs =>
    if f.bDouble = E.real_is_double then
      let n := bytes.length / (3 * sizeof_real E)
      if vs.length < n then none
      else
        some (Item.rvecs ((chunks (3 * sizeof_real E) n bytes).map (fun b =>
          (host_value E (b.take (sizeof_real E)),
           host_value E ((b.drop (sizeof_real E)).take (sizeof_real E)),
           host_value E (b.drop (2 * sizeof_real E)))) ++ vs.drop n))
    else none
  | Item.ivec _ _ _ =>
    match (chunks 4 3 bytes).map (fun b => to_signed 32 (host_value E b)) with
    | [a, b, c] => some (Item.ivec a b c)
    | _ => none
  | Item.chars buf =>
    if buf.length < bytes.length then none else some (Item.chars (bytes ++ buf.drop bytes.length))

/-- Move the cursor of `fp` by a signed offset (`fseeko(fp,off,SEEK_CUR)`); a
move in front of the start of the file fails and changes nothing. -/
def OS.seek_cur (os : OS) (fp : Nat) (off : Int) : OS :=
  match os.stream fp with
  | some s =>
    if (s.pos : Int) + off < 0 then os
    else os.set_stream fp { s with pos := ((s.pos : Int) + off).toNat }
  | none => os

/-- The `fread` or the `fseeko` of `do_binread` with the tail of the
function: `size` bytes per element, `nitem` elements.  A short read returns
`false`; the model then reports the pointee as it was. -/
def bin_fread (E : Env) (st : State) (f : t_fileio) (item : Option Item) (size : Int)
    (nitem : Int) (os : OS) : Res (Bool × Option Item) :=
  match f.fp with
  | none => Res.undef
  | some fp =>
    match item with
    | none => codec_return st f true none (os.seek_cur fp (size * nitem))
    | some it =>
      if size < 0 ∨ nitem < 0 then Res.undef
      else
        let total := size.toNat * nitem.toNat
        let avail := os.pending fp
        if avail.length < total then
          codec_return st f (decide (total = 0 ∧ nitem = 0)) item (os.advance fp avail.length)
        else if total = 0 then codec_return st f (decide (nitem = 0)) item os
        else
          match bin_store E f (avail.take total) it with
          | none => Res.undef
          | some it1 => codec_return st f true (some it1) (os.advance fp total)

/-- `do_binread(item,nitem,eio,desc,srcfile,line)`. -/
def do_binread (E : Env) (st : State) (item : Option Item) (nitem : Int) (eio : Eio)
    (_desc : Str) : Res (Bool × Option Item) :=
  if !check_nitem eio nitem then Res.fatal Fatal.bad_nitem st.os
  else
    match st.cur with
    | none => Res.undef
    | some f =>
      match binread_size E f eio with
      | none => Res.fatal Fatal.bad_eio st.os
      | some size =>
        if (match item with | some it => !Item.fits eio it | none => false) then Res.undef
        else if eio = eioSTRING then
          match bin_fread E st f (some (Item.int (E.indeterminate : Int))) 4 1 st.os with
          | Res.ok r st1 =>
            let ssize : Int := match r.2 with
              | some (Item.int v) => v
              | _ => (E.indeterminate : Int)
            bin_fread E st1 f item ssize nitem st1.os
          | Res.fatal e os => Res.fatal e os
          | Res.undef => Res.undef
        else bin_fread E st f item (size : Int) nitem st.os

/-! ## Calls through the dispatch pointers (gmxfio.c 98-108) -/

/-- `do_dummy(item,nitem,eio,desc,srcfile,line)`. -/
def do_dummy (st : State) (_item : Option Item) (_nitem : Int) (_eio : Eio) (_desc : Str) :
    Res (Bool × Option Item) :=
  Res.fatal Fatal.not_selected st.os

/-- Call of the function a `do_func *` points to. -/
def call_do_func (fn : do_func) (E : Env) (st : State) (item : Option Item) (nitem : Int)
    (eio : Eio) (desc : Str) : Res (Bool × Option Item) :=
  match fn with
  | do_func.do_dummy => do_dummy st item nitem eio desc
  | do_func.do_xdr => do_xdr E st item nitem eio desc
  | do_func.do_ascread => do_ascread E st item nitem eio desc
  | do_func.do_ascwrite => do_ascwrite E st item nitem eio desc
  | do_func.do_binread => do_binread E st item nitem eio desc
  | do_func.do_binwrite => do_binwrite E st item nitem eio desc

/-- An item read: the call `do_read(item,nitem,eio,desc,__FILE__,__LINE__)`. -/
def call_do_read (E : Env) (st : State) (item : Option Item) (nitem : Int) (eio : Eio)
    (desc : Str) : Res (Bool × Option Item) :=
  call_do_func st.do_read E st item nitem eio desc

/-- An item write: the call `do_write(item,nitem,eio,desc,__FILE__,__LINE__)`. -/
def call_do_write (E : Env) (st : State) (item : Option Item) (nitem : Int) (eio : Eio)
    (desc : Str) : Res (Bool × Option Item) :=
  call_do_func st.do_write E st item nitem eio desc

/-! ## Sequencing and a concrete environment for evaluations -/

/-- Continue after a call that returned normally. -/
def Res.bind {α β : Type} (r : Res α) (k : α → State → Res β) : Res β :=
  match r with
  | Res.ok a st => k a st
  | Res.fatal e os => Res.fatal e os
  | Res.undef => Res.undef

/-- The value of a call that returned normally. -/
def Res.value {α : Type} (r : Res α) : Option α :=
  match r with
  | Res.ok a _ => some a
  | _ => none

/-- The reason of a call that aborted the process. -/
def Res.fatal_reason {α : Type} (r : Res α) : Option Fatal :=
  match r with
  | Res.fatal e _ => some e
  | _ => none

/-- A world with no files, `stdin` and `stdout` open and nothing printed. -/
def empty_os : OS :=
  { inodes := [(0, []), (1, [])], next_ino := 2, dir := [],
    streams := [(0, { ino := 0, pos := 0, is_open := true, flush_fails := false }),
                (1, { ino := 1, pos := 0, is_open := true, flush_fails := false })],
    next_fp := 2, rename_denied := [], stderr := [] }

/-- File type by the last four characters of the path, for the extensions
used in the evaluations below. -/
def demo_fn2ftp : Option Str → Ftp
  | none => efOther 0
  | some fn =>
    let ext := fn.drop (fn.length - 4)
    if ext = cstr ".tpr" then efTPR
    else if ext = cstr ".trr" then efTRR
    else if ext = cstr ".cpt" then efCPT
    else if ext = cstr ".tpa" then efTPA
    else if ext = cstr ".gro" then efGRO
    else if ext = cstr ".tpb" then efTPB
    else efOther 1

/-- A concrete environment for evaluations: a single-precision little-endian
build with 8-byte step counters, `ffopen` as plain `fopen`, `STRLEN` 4096. -/
def demo_env : Env :=
  { fn2ftp := demo_fn2ftp,
    ftype_is_ascii := fun t => decide (t = efTPA ∨ t = efGRO ∨ t = efPDB),
    backup_fn := fun _ fn => 35 :: fn ++ [35],
    ffopen := ffopen,
    uninit := { iFTP := efOther 0, bOpen := false, bRead := false, bDouble := false,
                bDebug := false, bStdio := false, fn := [], fp := none, xdr := none,
                bLargerThan_off_t := false },
    real_is_double := false,
    STRLEN := 4096,
    sizeof_step := 8,
    small_off_t := false,
    big_endian := false,
    indeterminate := 0,
    real_to_double := fun r => r,
    double_to_real := fun d => d,
    real_to_float := fun r => r,
    float_to_real := fun f => f,
    printf_e := fun r => pad_left 18 (decimal r),
    sscanf_lf := fun s => (sscanf_int s).2.map Int.toNat }

/-- The scenario of the spec: open `fn` for writing, select it, write the
items in order, close, reopen for reading, select, read one item per
destination; the value is what the reads returned. -/
def write_items (E : Env) : List (Item × Eio) → State → Res (List Bool)
  | [], st => Res.ok [] st
  | (it, eio) :: rest, st =>
    (call_do_write E st (some it) 1 eio []).bind fun r st1 =>
      (write_items E rest st1).bind fun rs st2 => Res.ok (r.1 :: rs) st2

/-- Read one item per destination, in order. -/
def read_items (E : Env) : List (Item × Eio) → State → Res (List (Bool × Option Item))
  | [], st => Res.ok [] st
  | (it, eio) :: rest, st =>
    (call_do_read E st (some it) 1 eio []).bind fun r st1 =>
      (read_items E rest st1).bind fun rs st2 => Res.ok (r :: rs) st2

/-- Write the items to `fn`, close, reopen and read them back. -/
def write_then_read (E : Env) (st : State) (fn : Str) (ws rs : List (Item × Eio)) :
    Res (List Bool × List (Bool × Option Item)) :=
  (gmx_fio_open E st (some fn) (cstr "w")).bind fun id st1 =>
  (gmx_fio_select st1 (id : Int)).bind fun _ st2 =>
  (write_items E ws st2).bind fun wr st3 =>
  (gmx_fio_close st3 (id : Int)).bind fun _ st4 =>
  (gmx_fio_open E st4 (some fn) (cstr "r")).bind fun id2 st5 =>
  (gmx_fio_select st5 (id2 : Int)).bind fun _ st6 =>
  (read_items E rs st6).bind fun rd st7 => Res.ok (wr, rd) st7

/-! ## The exported operations as one step function -/

/-- A call of an exported function of gmxfio.c, or an item transfer through
`do_read` / `do_write`. -/
inductive Op
  | fio_open (fn : Option Str) (mode : Str)
  | fopen (fn : Option Str) (mode : Str)
  | close (fio : Int)
  | fclose (fp : Option Nat)
  | select (fio : Int)
  | setprecision (fio : Int) (bDouble : Bool)
  | getdebug (fio : Int)
  | setdebug (fio : Int) (bDebug : Bool)
  | getname (fio : Int)
  | setftp (fio : Int) (ftp : Ftp)
  | getftp (fio : Int)
  | rewind (fio : Int)
  | flush (fio : Int)
  | ftell (fio : Int)
  | seek (fio : Int) (fpos : Int)
  | getfp (fio : Int)
  | getxdr (fio : Int)
  | getread (fio : Int)
  | check_file_position (fio : Int)
  | get_output_file_positions
  | set_comment (comment : Option Str)
  | unset_comment
  | read (item : Option Item) (nitem : Int) (eio : Eio) (desc : Str)
  | write (item : Option Item) (nitem : Int) (eio : Eio) (desc : Str)
deriving DecidableEq, Repr

/-- Forget the value a call returned. -/
def Res.void {α : Type} (r : Res α) : Res Unit :=
  match r with
  | Res.ok _ st => Res.ok () st
  | Res.fatal e os => Res.fatal e os
  | Res.undef => Res.undef

/-- Run one operation. -/
def Op.run (E : Env) (st : State) : Op → Res Unit
  | Op.fio_open fn mode => (gmx_fio_open E st fn mode).void
  | Op.fopen fn mode => (gmx_fio_fopen E st fn mode).void
  | Op.close fio => (gmx_fio_close st fio).void
  | Op.fclose fp => (gmx_fio_fclose st fp).void
  | Op.select fio => gmx_fio_select st fio
  | Op.setprecision fio b => gmx_fio_setprecision st fio b
  | Op.getdebug fio => (gmx_fio_getdebug st fio).void
  | Op.setdebug fio b => gmx_fio_setdebug st fio b
  | Op.getname fio => (gmx_fio_getname st fio).void
  | Op.setftp fio ftp => gmx_fio_setftp st fio ftp
  | Op.getftp fio => (gmx_fio_getftp st fio).void
  | Op.rewind fio => gmx_fio_rewind st fio
  | Op.flush fio => (gmx_fio_flush st fio).void
  | Op.ftell fio => (gmx_fio_ftell st fio).void
  | Op.seek fio fpos => gmx_fio_seek st fio fpos
  | Op.getfp fio => (gmx_fio_getfp st fio).void
  | Op.getxdr fio => (gmx_fio_getxdr st fio).void
  | Op.getread fio => (gmx_fio_getread st fio).void
  | Op.check_file_position fio => (gmx_fio_check_file_position E st fio).void
  | Op.get_output_file_positions => (gmx_fio_get_output_file_positions E st).void
  | Op.set_comment c => Res.ok () (Gmxfio.set_comment st c)
  | Op.unset_comment => Res.ok () (Gmxfio.unset_comment st)
  | Op.read item nitem eio desc => (call_do_read E st item nitem eio desc).void
  | Op.write item nitem eio desc => (call_do_write E st item nitem eio desc).void

/-- Run operations one after another; the state after the last one when all
of them return. -/
def run_ops (E : Env) : List Op → State → Option State
  | [], st => some st
  | op :: rest, st =>
    match op.run E st with
    | Res.ok _ st1 => run_ops E rest st1
    | _ => none

/-- Is the operation a `gmx_fio_select`. -/
def Op.is_select : Op → Bool
  | Op.select _ => true
  | _ => false

/-- The state that a sequence of operations reaches from the initial state
over `empty_os` in `demo_env` (the initial state itself if one of them does
not return). -/
def demo_state (ops : List Op) : State :=
  (run_ops demo_env ops (State.initial empty_os)).getD (State.initial empty_os)

/-! ## The output-position snapshot in the words of the specification -/

/-- Slots that the snapshot reports: open, not read-mode, not a standard
stream, not the checkpoint file type. -/
def is_output_slot (f : t_fileio) : Bool :=
  f.bOpen && !f.bRead && !f.bStdio && decide (f.iFTP ≠ efCPT)

/-- Does the slot have a stream that is open and on which `fflush`
succeeds. -/
def stream_flushes (os : OS) (f : t_fileio) : Bool :=
  match f.fp with
  | none => false
  | some p =>
    match os.stream p with
    | none => false
    | some s => s.is_open && !s.flush_fails

/-- The record the specification asks for one slot: its path, and the
sentinel -1 when the slot is marked out of range, the stream position
otherwise. -/
def claimed_position (os : OS) (f : t_fileio) : gmx_file_position_t :=
  { filename := f.fn,
    offset := if f.bLargerThan_off_t then -1
              else match f.fp with
                | some p => ftello os p
                | none => -1 }

/-- The records the specification asks for: one for each reported slot, in
the order of the slots (increasing id). -/
def claimed_output_positions (st : State) : List gmx_file_position_t :=
  (st.FIO.filter is_output_slot).map (claimed_position st.os)

/-- The world `empty_os` with one more file, `path`, holding `bytes`. -/
def os_with_file (path : Str) (bytes : List Nat) : OS :=
  { empty_os with inodes := (2, bytes) :: empty_os.inodes, next_ino := 3,
                  dir := [(path, 2)] }

/-- The scenario of a single read: open `fn` for reading in a fresh process
over `os`, select the handle and read one item into `item`. -/
def open_and_read (E : Env) (os : OS) (fn : Str) (item : Option Item) (nitem : Int) (eio : Eio) :
    Res (Bool × Option Item) :=
  (gmx_fio_open E (State.initial os) (some fn) (cstr "r")).bind fun id st1 =>
  (gmx_fio_select st1 (id : Int)).bind fun _ st2 =>
  call_do_read E st2 item nitem eio []

/-- What the text codec reads back for an unsigned byte: the characters
`do_ascwrite` prints for kind UCHAR (`"%4d%s\n"` with an empty `dbgstr`), of
which `do_ascread` takes the next token and converts it with `"%c"`. -/
def text_uchar_readback (b : Nat) : Int × Option Nat :=
  match printf_d 4 (b : Int) ++ [cNL] with
  | [] => (-1, none)
  | rd :: rest => sscanf_c (next_item_loop NEXT_ITEM_BUF_LEN false false [] rd rest).1

/-! ## Views of a file through a stream, used to state the round trips -/

/-- The stream `fp` is attached to the file `ino`, which is bound to `path`
and holds `c`, and its cursor stands at the end of the file. -/
def writes_at_end (os : OS) (fp : Nat) (path : Str) (ino : Nat) (c : List Nat) : Prop :=
  (∃ f, os.stream fp = some f ∧ f.ino = ino ∧ f.pos = c.length) ∧
  os.content ino = c ∧ os.lookup path = some ino

/-- The bytes of the canonical encoding of an `int`. -/
def xdr_int_bytes (v : Int) : List Nat := be_bytes 4 (to_unsigned 32 v)

/-- The bytes that `do_xdr` produces for a string: the `int` length field
`strlen + 1`, then the encoding of `xdr_string` (the unsigned length and
the characters padded with zero bytes to a multiple of 4). -/
def xdr_string_bytes (s : List Nat) : List Nat :=
  xdr_int_bytes ((s.length : Int) + 1) ++ be_bytes 4 s.length ++
    (if s.length = 0 then []
     else s ++ List.replicate (if s.length % 4 > 0 then 4 - s.length % 4 else 0) 0)

/-! ## Token sequences of the text tokenizer -/

/-- The tokens handed out by successive calls `next_item(fp,buf,buflen)` on
the stream `fp`, up to the call that aborts with "End of file"; at most `n`
calls are made. -/
def next_item_tokens (buflen : Int) : Nat → OS → Nat → List (List Nat)
  | 0, _, _ => []
  | n + 1, os, fp =>
    match next_item os fp buflen with
    | none => []
    | some (tok, os1) => tok :: next_item_tokens buflen n os1 fp

/-- In the words of the specification: the stream with every run from a `;`
up to the next newline deleted (the newline stays); `in_comment` says whether
the scan is inside such a run. -/
def delete_comments : Bool → List Nat → List Nat
  | _, [] => []
  | true, c :: cs => if c = cNL then c :: delete_comments false cs else delete_comments true cs
  | false, c :: cs => if c = cSEMI then delete_comments true cs else c :: delete_comments false cs

/-- In the words of the specification: the maximal runs of characters that
are not whitespace, in order; `cur` is the run being collected. -/
def whitespace_tokens : List Nat → List Nat → List (List Nat)
  | cur, [] => if cur = [] then [] else [cur]
  | cur, c :: cs =>
    if isspace c then (if cur = [] then whitespace_tokens [] cs else cur :: whitespace_tokens [] cs)
    else whitespace_tokens (cur ++ [c]) cs

/-- In the words of the specification: the token sequence of a stream once
its comments are deleted. -/
def claimed_tokens (s : List Nat) : List (List Nat) :=
  whitespace_tokens [] (delete_comments false s)

/-- The tokens that successive `next_item` calls with the buffer of the text
codec return on a file holding `bytes`, opened for reading. -/
def tokens_of_file (bytes : List Nat) : List (List Nat) :=
  match fopen (os_with_file (cstr "in.gro") bytes) (cstr "in.gro") (cstr "r") with
  | none => []
  | some (fp, os) => next_item_tokens NEXT_ITEM_BUF_LEN (bytes.length + 1) os fp

/-- Is the operation a `gmx_fio_setftp`. -/
def Op.is_setftp : Op → Bool
  | Op.setftp _ _ => true
  | _ => false

/-- Is the operation a `gmx_fio_open` or a `gmx_fio_fopen`. -/
def Op.is_open : Op → Bool
  | Op.fio_open _ _ => true
  | Op.fopen _ _ => true
  | _ => false

/-- Is the operation a `gmx_fio_close` or a `gmx_fio_fclose`. -/
def Op.is_close : Op → Bool
  | Op.close _ => true
  | Op.fclose _ => true
  | _ => false

/-- Is slot `i` of the registry in use. -/
def slot_open (st : State) (i : Nat) : Bool :=
  match st.FIO[i]? with
  | some f => f.bOpen
  | none => false

/-- Does every operation of the list return, with slot `i` in use before the
first one and after each of them. -/
def stays_open (E : Env) (i : Nat) : List Op → State → Bool
  | [], st => slot_open st i
  | op :: rest, st =>
    slot_open st i &&
      match op.run E st with
      | Res.ok _ st1 => stays_open E i rest st1
      | _ => false

/-- The environment `demo_env` on a platform whose `off_t` has 4 bytes. -/
def demo_env_small_off_t : Env := { demo_env with small_off_t := true }

/-- A state of `demo_env_small_off_t` in which handle 0, open for writing on
`a.trr`, was moved to offset 3000000000 and then checked with
`gmx_fio_check_file_position`. -/
def demo_state_large_offset : State :=
  (run_ops demo_env_small_off_t
    [Op.fio_open (some (cstr "a.trr")) (cstr "w"), Op.seek 0 3000000000,
      Op.check_file_position 0] (State.initial empty_os)).getD (State.initial empty_os)

/-! ## The NRVEC transfer as a sequence of RVEC transfers -/

/-- In the words of the specification: `n` successive RVEC transfers through
`do_xdr`, of the elements of an array in order, stopping after the first one
that fails.  `done` are the elements already transferred, `ahead` the ones
still to come; the value is whether every transfer made succeeded, and the
array afterwards.  An array with fewer than `n` elements is read past its
end. -/
def rvec_transfers (E : Env) (desc : Str) :
    Nat → List (Nat × Nat × Nat) → List (Nat × Nat × Nat) → State →
    Res (Bool × List (Nat × Nat × Nat))
  | 0, done, ahead, st => Res.ok (true, done ++ ahead) st
  | _ + 1, _, [], _ => Res.undef
  | n + 1, done, v :: ahead, st =>
    match do_xdr E st (some (Item.rvec v.1 v.2.1 v.2.2)) 1 eioRVEC desc with
    | Res.ok (true, some (Item.rvec a b c)) st1 =>
      rvec_transfers E desc n (done ++ [(a, b, c)]) ahead st1
    | Res.ok (false, some (Item.rvec a b c)) st1 => Res.ok (false, done ++ (a, b, c) :: ahead) st1
    | Res.ok _ _ => Res.undef
    | Res.fatal e os => Res.fatal e os
    | Res.undef => Res.undef

/-- In the words of the specification: `n` successive RVEC transfers with a
NULL item, stopping after the first one that fails. -/
def rvec_skips (E : Env) (desc : Str) : Nat → State → Res Bool
  | 0, st => Res.ok true st
  | n + 1, st =>
    match do_xdr E st none 1 eioRVEC desc with
    | Res.ok (true, _) st1 => rvec_skips E desc n st1
    | Res.ok (false, _) st1 => Res.ok false st1
    | Res.fatal e os => Res.fatal e os
    | Res.undef => Res.undef

/-- The loop of `next_item` from a `getc` on: at the end of the stream the
loop ends, otherwise its body runs on the character read. -/
def next_item_scan (buflen : Int) (in_comment in_token : Bool) (buf : List Nat) :
    List Nat → List Nat × List Nat
  | [] => (buf, [])
  | rd :: rest => next_item_loop buflen in_comment in_token buf rd rest

/-- Integers written one after another with `do_ascwrite` and kind INT, each
with its own description; the value is the list of the booleans returned. -/
def asc_write_ints (E : Env) : List (Int × Str) → State → Res (List Bool)
  | [], st => Res.ok [] st
  | (v, desc) :: rest, st =>
    (do_ascwrite E st (some (Item.int v)) 1 eioINT desc).bind fun r st1 =>
    (asc_write_ints E rest st1).bind fun rs st2 => Res.ok (r.1 :: rs) st2

/-- As many reads with `do_ascread` and kind INT as the list has
descriptions, each into an `int` that holds 0 before; the value is the list
of the booleans returned with the integers read. -/
def asc_read_ints (E : Env) : List Str → State → Res (List (Bool × Option Item))
  | [], st => Res.ok [] st
  | desc :: rest, st =>
    (do_ascread E st (some (Item.int 0)) 1 eioINT desc).bind fun r st1 =>
    (asc_read_ints E rest st1).bind fun rs st2 => Res.ok (r :: rs) st2

/-- The state of `demo_env` in which handle 0, open for writing on the text
file `c.gro`, is in debug mode and selected, with the comment `cm` set. -/
def demo_text_state : State :=
  demo_state [Op.fio_open (some (cstr "c.gro")) (cstr "w"), Op.setdebug 0 true,
    Op.set_comment (some (cstr "cm")), Op.select 0]

/-! ## The registry mutex (gmxfio.c 144-152 and the `GMX_THREADS` blocks)

`fio_mutex` is a file-static mutex, so only the functions of gmxfio.c call
on it.  The calls that one invocation of a function makes are listed in
program order; the list ends where the invocation ends, which is inside a
locked region when the invocation stops in `gmx_fatal`, `gmx_file` or
undefined behaviour there. -/

/-- A call on `fio_mutex`: `tMPI_Thread_mutex_lock(&fio_mutex)` or
`tMPI_Thread_mutex_unlock(&fio_mutex)`. -/
inductive Ev
  | lock | unlock
deriving DecidableEq, Repr

/-- The hold count of `fio_mutex` after one call on it, from the hold count
before; `none` when the call locks the mutex while it is held or unlocks it
while it is free. -/
def Ev.step (count : Nat) : Ev → Option Nat
  | Ev.lock => if count = 0 then some 1 else none
  | Ev.unlock => if count = 0 then none else some (count - 1)

/-- The hold count after a sequence of calls on `fio_mutex`. -/
def hold_count : Nat → List Ev → Option Nat
  | count, [] => some count
  | count, e :: rest =>
    match e.step count with
    | none => none
    | some c => hold_count c rest

/-- Did the call return to its caller. -/
def Res.returns {α : Type} (r : Res α) : Bool :=
  match r with
  | Res.ok _ _ => true
  | _ => false

/-- `if (do_lock) tMPI_Thread_mutex_lock(&fio_mutex);`. -/
def lock_if (do_lock : Bool) : List Ev := if do_lock then [Ev.lock] else []

/-- `if (do_lock) tMPI_Thread_mutex_unlock(&fio_mutex);`. -/
def unlock_if (do_lock : Bool) : List Ev := if do_lock then [Ev.unlock] else []

/-- Mutex calls of a stretch of code that locks when `do_lock`, runs a body
whose nested calls make the mutex calls `inner`, and unlocks when `do_lock`;
the unlock is reached when the body `returns`. -/
def locked_region (do_lock : Bool) (inner : List Ev) (returns : Bool) : List Ev :=
  lock_if do_lock ++ inner ++ (if returns then unlock_if do_lock else [])

/-- Mutex calls of `set_comment(comment)` and of `unset_comment()` (gmxfio.c
178-201): lock, the assignment, unlock. -/
def set_comment_events : List Ev := locked_region true [] true

/-- Mutex calls of `do_ascwrite` (gmxfio.c 257-326): the lock is the first
statement, `check_nitem()` and the switch with `FE()` are inside. -/
def do_ascwrite_events (E : Env) (st : State) (item : Option Item) (nitem : Int) (eio : Eio)
    (desc : Str) : List Ev :=
  locked_region true [] (do_ascwrite E st item nitem eio desc).returns

/-- Mutex calls of `do_ascread` (gmxfio.c 380-468): `check_nitem()`, the
switch with `next_item` and `FE()` come first; the lock and the unlock stand
around the debug message at the end. -/
def do_ascread_events (E : Env) (st : State) (item : Option Item) (nitem : Int) (eio : Eio)
    (desc : Str) : List Ev :=
  if (do_ascread E st item nitem eio desc).returns then locked_region true [] true else []

/-- Mutex calls of `do_binwrite` (gmxfio.c 470-531): `check_nitem()`, the
switch and the `fwrite` come first, the lock and the unlock stand around the
debug message at the end.  The `eioSTRING` case of the switch calls
`do_binwrite(&ssize,1,eioINT,...)`, which makes its own lock and unlock when
its `fwrite` is reached and done. -/
def do_binwrite_events (E : Env) (st : State) (item : Option Item) (nitem : Int) (eio : Eio)
    (desc : Str) : List Ev :=
  (if check_nitem eio nitem && decide (eio = eioSTRING) then
     match st.cur, item with
     | some f, some it =>
       if Item.fits eio it &&
           (bin_fwrite st f none (host_bytes E 4 ((strlen (Item.mem E it) + 1) % 2 ^ 32)) 4 1
             st.os).returns then
         locked_region true [] true
       else []
     | _, _ => []
   else []) ++
  (if (do_binwrite E st item nitem eio desc).returns then locked_region true [] true else [])

/-- Mutex calls of `do_binread` (gmxfio.c 533-605): `check_nitem()` and the
switch with `FE()` come first; the lock is taken before the `fread` /
`fseeko` and released after the debug message.  The cases `eioREAL`,
`eioRVEC` and `eioNRVEC` of the switch read `curfio->bDouble`; the
`eioSTRING` case calls `do_binread(&ssize,1,eioINT,...)`, which locks, reads
and unlocks on its own. -/
def do_binread_events (E : Env) (st : State) (item : Option Item) (nitem : Int) (eio : Eio)
    (desc : Str) : List Ev :=
  if !check_nitem eio nitem then []
  else
    match eio with
    | eioOther _ => []
    | eioSTRING =>
      let nested : Bool :=
        match st.cur with
        | some f => (bin_fread E st f (some (Item.int (E.indeterminate : Int))) 4 1 st.os).returns
        | none => false
      locked_region true [] nested ++
        (if nested then locked_region true [] (do_binread E st item nitem eio desc).returns
         else [])
    | eioREAL | eioRVEC | eioNRVEC =>
      match st.cur with
      | none => []
      | some _ => locked_region true [] (do_binread E st item nitem eio desc).returns
    | _ => locked_region true [] (do_binread E st item nitem eio desc).returns

/-- Mutex calls of one `do_xdr_lock(ptr,1,eioRVEC,desc,srcfile,line,do_lock)`
on an XDR stream: no nested call, and the `eioRVEC` case always reaches the
end. -/
def do_xdr_rvec_events (do_lock : Bool) : List Ev := locked_region do_lock [] true

/-- Mutex calls of the `eioNRVEC` loop of `do_xdr_lock` with a non-NULL
`item` (gmxfio.c 703-709): every pass calls
`do_xdr_lock(ptr,1,eioRVEC,desc,srcfile,line,FALSE)`; elements still to do,
elements ahead. -/
def xdr_nrvec_loop_events (E : Env) (x : XDRobj) (f : t_fileio) :
    Nat → List (Nat × Nat × Nat) → OS → List Ev
  | 0, _, _ => []
  | _ + 1, [], _ => []
  | n + 1, v :: ahead, os =>
    let r := do_xdr_rvec E os x f (some v)
    do_xdr_rvec_events false ++ (if r.1 then xdr_nrvec_loop_events E x f n ahead r.2.2 else [])

/-- Mutex calls of the `eioNRVEC` loop with a NULL `item`. -/
def xdr_nrvec_skip_events (E : Env) (x : XDRobj) (f : t_fileio) : Nat → OS → List Ev
  | 0, _ => []
  | n + 1, os =>
    let r := do_xdr_rvec E os x f none
    do_xdr_rvec_events false ++ (if r.1 then xdr_nrvec_skip_events E x f n r.2.2 else [])

/-- Mutex calls of `do_xdr_lock(item,nitem,eio,desc,srcfile,line,do_lock)`
(gmxfio.c 612-760): the conditional lock is the first statement,
`check_nitem()`, the switch with its `gmx_fatal` and `FE()` are inside, the
conditional unlock is the last statement before the return; the only nested
calls are those of the `eioNRVEC` loop. -/
def do_xdr_lock_events (E : Env) (st : State) (item : Option Item) (nitem : Int) (eio : Eio)
    (desc : Str) (do_lock : Bool) : List Ev :=
  locked_region do_lock
    (if !check_nitem eio nitem then []
     else
       match st.cur with
       | none => []
       | some f =>
         match eio, f.xdr with
         | eioNRVEC, some x =>
           match item with
           | none => xdr_nrvec_skip_events E x f nitem.toNat st.os
           | some (Item.rvecs vs) => xdr_nrvec_loop_events E x f nitem.toNat vs st.os
           | some _ => []
         | _, _ => [])
    (do_xdr_lock E st item nitem eio desc).returns

/-- Mutex calls of `do_xdr` (gmxfio.c 763-769):
`do_xdr_lock(item,nitem,eio,desc,srcfile,line,TRUE)`. -/
def do_xdr_events (E : Env) (st : State) (item : Option Item) (nitem : Int) (eio : Eio)
    (desc : Str) : List Ev :=
  do_xdr_lock_events E st item nitem eio desc true

/-- Mutex calls of `do_dummy` (gmxfio.c 98-104): none. -/
def do_dummy_events : List Ev := []

/-- Mutex calls of a call through a `do_func *`. -/
def call_do_func_events (fn : do_func) (E : Env) (st : State) (item : Option Item)
    (nitem : Int) (eio : Eio) (desc : Str) : List Ev :=
  match fn with
  | do_func.do_dummy => do_dummy_events
  | do_func.do_xdr => do_xdr_events E st item nitem eio desc
  | do_func.do_ascread => do_ascread_events E st item nitem eio desc
  | do_func.do_ascwrite => do_ascwrite_events E st item nitem eio desc
  | do_func.do_binread => do_binread_events E st item nitem eio desc
  | do_func.do_binwrite => do_binwrite_events E st item nitem eio desc

/-- Mutex calls of `gmx_fio_open(fn,mode)` (gmxfio.c 779-923): the mode is
worked out, with its `gmx_fatal`, before the lock; the search for a slot and
the opening of the file, with their `gmx_fatal`, are inside; the unlock is
the last statement before the return. -/
def gmx_fio_open_events (E : Env) (st : State) (fn : Option Str) (mode : Str) : List Ev :=
  match open_newmode E fn mode with
  | ModeRes.ok _ => locked_region true [] (gmx_fio_open E st fn mode).returns
  | _ => []

/-- Mutex calls of `gmx_fio_close_lock(fio,do_lock)` (gmxfio.c 928-959). -/
def gmx_fio_close_lock_events (st : State) (fio : Int) (do_lock : Bool) : List Ev :=
  locked_region do_lock [] (gmx_fio_close_lock st fio).returns

/-- Mutex calls of `gmx_fio_close(fio)` (gmxfio.c 961-964):
`gmx_fio_close_lock(fio,TRUE)`. -/
def gmx_fio_close_events (st : State) (fio : Int) : List Ev :=
  gmx_fio_close_lock_events st fio true

/-- Mutex calls of `gmx_fio_fopen(fn,mode)` (gmxfio.c 966-980): the call of
`gmx_fio_open`, then lock, `ret = FIO[fd].fp`, unlock. -/
def gmx_fio_fopen_events (E : Env) (st : State) (fn : Option Str) (mode : Str) : List Ev :=
  gmx_fio_open_events E st fn mode ++
    (match gmx_fio_open E st fn mode with
     | Res.ok _ _ => locked_region true [] (gmx_fio_fopen E st fn mode).returns
     | _ => [])

/-- Mutex calls of `gmx_fio_fclose(fp)` (gmxfio.c 983-1005): lock, the search
loop with `gmx_fio_close_lock(i,FALSE)` for the slot found, unlock. -/
def gmx_fio_fclose_events (st : State) (fp : Option Nat) : List Ev :=
  locked_region true
    (match fclose_find fp 0 st.FIO with
     | none => []
     | some i => gmx_fio_close_lock_events st (i : Int) false)
    (gmx_fio_fclose st fp).returns

/-- Mutex calls of `gmx_fio_flush_lock(fio,do_lock)` (gmxfio.c 1261-1280). -/
def gmx_fio_flush_lock_events (st : State) (fio : Int) (do_lock : Bool) : List Ev :=
  locked_region do_lock [] (gmx_fio_flush_lock st fio).returns

/-- Mutex calls of `gmx_fio_flush(fio)` (gmxfio.c 1282-1285):
`gmx_fio_flush_lock(fio,TRUE)`. -/
def gmx_fio_flush_events (st : State) (fio : Int) : List Ev :=
  gmx_fio_flush_lock_events st fio true

/-- Mutex calls of `gmx_fio_get_file_position(fio,&offset)` (gmxfio.c
1009-1034): those of `gmx_fio_flush_lock(fio,FALSE)`; the function itself
makes none. -/
def gmx_fio_get_file_position_events (st : State) (fio : Int) : List Ev :=
  gmx_fio_flush_lock_events st fio false

/-- Mutex calls of `gmx_fio_check_file_position(fio)` (gmxfio.c 1037-1062):
with a 4-byte `off_t` or without `fseeko`, lock, the call of
`gmx_fio_get_file_position`, the flag, unlock; otherwise the body is
empty. -/
def gmx_fio_check_file_position_events (E : Env) (st : State) (fio : Int) : List Ev :=
  if E.small_off_t then
    locked_region true (gmx_fio_get_file_position_events st fio)
      (gmx_fio_check_file_position E st fio).returns
  else []

/-- Mutex calls of the loop of `gmx_fio_get_output_file_positions`, entered
with index `i` and the slots `FIO[i..]`: those of the calls of
`gmx_fio_get_file_position`. -/
def output_positions_loop_events (st : State) : Nat → List t_fileio → List Ev
  | _, [] => []
  | i, f :: rest =>
    if f.bOpen && !f.bRead && !f.bStdio && decide (f.iFTP ≠ efCPT) then
      if f.bLargerThan_off_t then output_positions_loop_events st (i + 1) rest
      else
        gmx_fio_get_file_position_events st (i : Int) ++
          (match gmx_fio_get_file_position st (i : Int) with
           | Res.ok _ _ => output_positions_loop_events st (i + 1) rest
           | _ => [])
    else output_positions_loop_events st (i + 1) rest

/-- Mutex calls of `gmx_fio_get_output_file_positions` (gmxfio.c 1065-1119):
lock, the loop, unlock. -/
def gmx_fio_get_output_file_positions_events (E : Env) (st : State) : List Ev :=
  locked_region true (output_positions_loop_events st 0 st.FIO)
    (gmx_fio_get_output_file_positions E st).returns

/-- Mutex calls of a function whose body is lock, `gmx_fio_check(fio)`, the
access to the slot, unlock, given the outcome of the call: `gmx_fio_select`,
`gmx_fio_setprecision`, `gmx_fio_getdebug`, `gmx_fio_setdebug`,
`gmx_fio_getname`, `gmx_fio_setftp`, `gmx_fio_getftp`, `gmx_fio_rewind`,
`gmx_fio_ftell`, `gmx_fio_seek`, `gmx_fio_getfp`, `gmx_fio_getxdr` and
`gmx_fio_getread` (gmxfio.c 1122-1259, 1287-1366). -/
def slot_access_events {α : Type} (r : Res α) : List Ev := locked_region true [] r.returns

/-- Mutex calls of one operation. -/
def Op.events (E : Env) (st : State) : Op → List Ev
  | Op.fio_open fn mode => gmx_fio_open_events E st fn mode
  | Op.fopen fn mode => gmx_fio_fopen_events E st fn mode
  | Op.close fio => gmx_fio_close_events st fio
  | Op.fclose fp => gmx_fio_fclose_events st fp
  | Op.select fio => slot_access_events (gmx_fio_select st fio)
  | Op.setprecision fio b => slot_access_events (gmx_fio_setprecision st fio b)
  | Op.getdebug fio => slot_access_events (gmx_fio_getdebug st fio)
  | Op.setdebug fio b => slot_access_events (gmx_fio_setdebug st fio b)
  | Op.getname fio => slot_access_events (gmx_fio_getname st fio)
  | Op.setftp fio ftp => slot_access_events (gmx_fio_setftp st fio ftp)
  | Op.getftp fio => slot_access_events (gmx_fio_getftp st fio)
  | Op.rewind fio => slot_access_events (gmx_fio_rewind st fio)
  | Op.flush fio => gmx_fio_flush_events st fio
  | Op.ftell fio => slot_access_events (gmx_fio_ftell st fio)
  | Op.seek fio fpos => slot_access_events (gmx_fio_seek st fio fpos)
  | Op.getfp fio => slot_access_events (gmx_fio_getfp st fio)
  | Op.getxdr fio => slot_access_events (gmx_fio_getxdr st fio)
  | Op.getread fio => slot_access_events (gmx_fio_getread st fio)
  | Op.check_file_position fio => gmx_fio_check_file_position_events E st fio
  | Op.get_output_file_positions => gmx_fio_get_output_file_positions_events E st
  | Op.set_comment _ => set_comment_events
  | Op.unset_comment => set_comment_events
  | Op.read item nitem eio desc => call_do_func_events st.do_read E st item nitem eio desc
  | Op.write item nitem eio desc => call_do_func_events st.do_write E st item nitem eio desc

/-- Mutex calls of operations run one after another; the sequence ends with
the first operation that does not return. -/
def run_ops_events (E : Env) : List Op → State → List Ev
  | [], _ => []
  | op :: rest, st =>
    Op.events E st op ++
      (match op.run E st with
       | Res.ok _ st1 => run_ops_events E rest st1
       | _ => [])

/-- The mutex discipline of a sequence of calls on `fio_mutex` that starts
with the mutex free: no call locks the mutex while it is held or unlocks it
while it is free, so that the hold count is 0 or 1 throughout, and the count
is 0 at the end when the invocation `returned`. -/
def mutex_respected (es : List Ev) (returned : Bool) : Prop :=
  ∃ k : Nat, hold_count 0 es = some k ∧ k ≤ 1 ∧ (returned = true → k = 0)

/-! # Properties -/

/-! ## Strings in the text codec -/

theorem encode_loop_eq (maxlen : Int) (s : List Nat) :
    ∀ i : Nat, (∀ c ∈ s, c ≠ cNUL) → ((i : Int) + s.length ≤ maxlen - 1) →
      encode_loop maxlen i s =
        (s.map (fun c => if c = cSPACE ∨ c = cTAB then cUNDERSCORE else c), i + s.length) := by
  induction s with
  | nil => intro i _ _; simp [encode_loop]
  | cons c cs ih =>
    intro i h0 hlen
    have hc : c ≠ cNUL := h0 c (List.mem_cons_self _ _)
    have hi : (i : Int) < maxlen - 1 := by
      simp only [List.length_cons] at hlen; push_cast at hlen; omega
    have ih1 := ih (i + 1) (fun d hd => h0 d (List.mem_cons_of_mem _ hd))
      (by simp only [List.length_cons] at hlen; push_cast at hlen ⊢; omega)
    simp only [encode_loop, hc, hi, ne_eq, not_false_eq_true, and_self, if_true, ih1,
      List.map_cons, List.length_cons]
    congr 1; omega

theorem decode_loop_eq (maxlen : Int) (s : List Nat) :
    ∀ i : Nat, (∀ c ∈ s, c ≠ cNUL) → ((i : Int) + s.length ≤ maxlen - 1) →
      decode_loop maxlen i s =
        (s.map (fun c => if c = cUNDERSCORE then cSPACE else c), i + s.length) := by
  induction s with
  | nil => intro i _ _; simp [decode_loop]
  | cons c cs ih =>
    intro i h0 hlen
    have hc : c ≠ cNUL := h0 c (List.mem_cons_self _ _)
    have hi : (i : Int) < maxlen - 1 := by
      simp only [List.length_cons] at hlen; push_cast at hlen; omega
    have ih1 := ih (i + 1) (fun d hd => h0 d (List.mem_cons_of_mem _ hd))
      (by simp only [List.length_cons] at hlen; push_cast at hlen ⊢; omega)
    simp only [decode_loop, hc, hi, ne_eq, not_false_eq_true, and_self, if_true, ih1,
      List.map_cons, List.length_cons]
    congr 1; omega

theorem c_str_of_no_nul (s : List Nat) (h : ∀ c ∈ s, c ≠ cNUL) : c_str s = s := by
  induction s with
  | nil => rfl
  | cons c cs ih =>
    have hc : c ≠ cNUL := h c (List.mem_cons_self _ _)
    simp [c_str, hc, ih (fun d hd => h d (List.mem_cons_of_mem _ hd))]

theorem strlen_of_no_nul (s : List Nat) (h : ∀ c ∈ s, c ≠ cNUL) : strlen s = s.length := by
  simp [strlen, c_str_of_no_nul s h]

/-! ## The dispatch pointers -/

theorem gmx_fio_open_ok {E : Env} {st st1 : State} {fn : Option Str} {mode : Str}
    {id : Nat} (h : gmx_fio_open E st fn mode = Res.ok id st1) :
    id = first_free 0 st.FIO ∧
    ∃ (slot : t_fileio) (os : OS) (newmode : Str),
      open_newmode E fn mode = ModeRes.ok newmode ∧
      st1 = { st with FIO := (grow_if_full E st.FIO (first_free 0 st.FIO)).set
                               (first_free 0 st.FIO) slot,
                      os := os } ∧
      slot.bOpen = true ∧ slot.bDebug = false ∧ slot.bLargerThan_off_t = false ∧
      slot.bDouble = E.real_is_double ∧ slot.bRead = decide (newmode.head? = some 114) := by
  unfold gmx_fio_open at h
  dsimp only at h
  repeat' split at h
  all_goals first
    | exact Res.noConfusion h
    | (simp only [Res.ok.injEq] at h
       obtain ⟨h1, h2⟩ := h
       refine ⟨h1.symm, _, _, _, ?_, h2.symm, rfl, rfl, rfl, rfl, rfl⟩
       assumption)

theorem gmx_fio_close_lock_ok {st st1 : State} {fio rc : Int}
    (h : gmx_fio_close_lock st fio = Res.ok rc st1) :
    gmx_fio_check st fio = true ∧
    ∃ (f : t_fileio) (os : OS),
      st.FIO[fio.toNat]? = some f ∧ f.bOpen = true ∧
      st1 = { st with FIO := st.FIO.set fio.toNat { f with bOpen := false },
                      do_read := do_func.do_dummy, do_write := do_func.do_dummy, os := os } := by
  unfold gmx_fio_close_lock at h
  dsimp only at h
  repeat' split at h
  all_goals first
    | exact Res.noConfusion h
    | (simp only [Res.ok.injEq] at h
       obtain ⟨_, h2⟩ := h
       refine ⟨by simp_all, _, _, by assumption, by simp_all, h2.symm⟩)

theorem gmx_fio_fclose_ok {st st1 : State} {fp : Option Nat} {rc : Int}
    (hfind : fclose_find fp 0 st.FIO ≠ none) (h : gmx_fio_fclose st fp = Res.ok rc st1) :
    ∃ i : Nat, fclose_find fp 0 st.FIO = some i ∧ gmx_fio_close_lock st (i : Int) = Res.ok rc st1 := by
  unfold gmx_fio_fclose at h
  split at h
  · exact absurd (by assumption) hfind
  · exact ⟨_, by assumption, h⟩

theorem output_positions_loop_state (E : Env) (st : State) (fs : List t_fileio) :
    ∀ (i : Nat) (out : List gmx_file_position_t) (n : Nat) (r : List gmx_file_position_t × Nat)
      (st1 : State), output_positions_loop E st i fs out n = Res.ok r st1 → st1 = st := by
  induction fs with
  | nil =>
    intro i out n r st1 h
    simp only [output_positions_loop, Res.ok.injEq] at h
    exact h.2.symm
  | cons f rest ih =>
    intro i out n r st1 h
    unfold output_positions_loop at h
    dsimp only at h
    repeat' split at h
    all_goals first
      | exact Res.noConfusion h
      | exact ih _ _ _ _ _ h

theorem gmx_fio_flush_lock_state {st st1 : State} {fio rc : Int}
    (h : gmx_fio_flush_lock st fio = Res.ok rc st1) : st1 = st := by
  unfold gmx_fio_flush_lock at h
  repeat' split at h
  all_goals first
    | exact Res.noConfusion h
    | (simp only [Res.ok.injEq] at h; exact h.2.symm)

theorem gmx_fio_get_file_position_state {st st1 : State} {fio off : Int}
    (h : gmx_fio_get_file_position st fio = Res.ok off st1) : st1 = st := by
  unfold gmx_fio_get_file_position at h
  repeat' split at h
  all_goals first
    | exact Res.noConfusion h
    | (simp only [Res.ok.injEq] at h
       rw [← h.2]
       exact gmx_fio_flush_lock_state (by assumption))

theorem Res.void_ok {α : Type} {r : Res α} {st1 : State} (h : r.void = Res.ok () st1) :
    ∃ a, r = Res.ok a st1 := by
  cases r with
  | ok a st => simp only [Res.void, Res.ok.injEq, true_and] at h; exact ⟨a, by rw [h]⟩
  | fatal e os => exact Res.noConfusion h
  | undef => exact Res.noConfusion h

theorem read_slot_state {α : Type} {st st1 : State} {fio : Int} {g : t_fileio → α} {a : α}
    (h : read_slot st fio g = Res.ok a st1) : st1 = st := by
  unfold read_slot at h
  repeat' split at h
  all_goals first
    | exact Res.noConfusion h
    | (simp only [Res.ok.injEq] at h; exact h.2.symm)

theorem gmx_fio_ftell_state {st st1 : State} {fio a : Int}
    (h : gmx_fio_ftell st fio = Res.ok a st1) : st1 = st := by
  unfold gmx_fio_ftell at h
  repeat' split at h
  all_goals first
    | exact Res.noConfusion h
    | (simp only [Res.ok.injEq] at h; exact h.2.symm)

theorem update_slot_ok {st st1 : State} {fio : Int} {g : t_fileio → t_fileio}
    (h : update_slot st fio g = Res.ok () st1) :
    gmx_fio_check st fio = true ∧
    ∃ f, st.FIO[fio.toNat]? = some f ∧ st1 = { st with FIO := st.FIO.set fio.toNat (g f) } := by
  unfold update_slot at h
  repeat' split at h
  all_goals first
    | exact Res.noConfusion h
    | (simp only [Res.ok.injEq, true_and] at h
       exact ⟨by simp_all, _, by assumption, h.symm⟩)

theorem gmx_fio_rewind_dispatch {st st1 : State} {fio : Int}
    (h : gmx_fio_rewind st fio = Res.ok () st1) :
    st1.do_read = st.do_read ∧ st1.do_write = st.do_write := by
  unfold gmx_fio_rewind at h
  repeat' split at h
  all_goals first
    | exact Res.noConfusion h
    | (simp only [Res.ok.injEq, true_and] at h; subst h; exact ⟨rfl, rfl⟩)

theorem gmx_fio_seek_dispatch {st st1 : State} {fio fpos : Int}
    (h : gmx_fio_seek st fio fpos = Res.ok () st1) :
    st1.do_read = st.do_read ∧ st1.do_write = st.do_write := by
  unfold gmx_fio_seek at h
  repeat' split at h
  all_goals first
    | exact Res.noConfusion h
    | (simp only [Res.ok.injEq, true_and] at h; subst h; exact ⟨rfl, rfl⟩)

theorem gmx_fio_check_file_position_dispatch {E : Env} {st st1 : State} {fio rc : Int}
    (h : gmx_fio_check_file_position E st fio = Res.ok rc st1) :
    st1.do_read = st.do_read ∧ st1.do_write = st.do_write := by
  unfold gmx_fio_check_file_position at h
  repeat' split at h
  all_goals first
    | exact Res.noConfusion h
    | (simp only [Res.ok.injEq] at h
       obtain ⟨_, rfl⟩ := h
       first
         | exact ⟨rfl, rfl⟩
         | (have hst := gmx_fio_get_file_position_state (by assumption); subst hst; exact ⟨rfl, rfl⟩))

theorem gmx_fio_fopen_dispatch {E : Env} {st st1 : State} {fn : Option Str} {mode : Str}
    {fp : Option Nat} (h : gmx_fio_fopen E st fn mode = Res.ok fp st1) :
    st1.do_read = st.do_read ∧ st1.do_write = st.do_write := by
  unfold gmx_fio_fopen at h
  repeat' split at h
  all_goals first
    | exact Res.noConfusion h
    | (simp only [Res.ok.injEq] at h
       obtain ⟨_, rfl⟩ := h
       obtain ⟨_, _, _, _, _, hst, _⟩ := gmx_fio_open_ok (by assumption)
       rw [hst]; exact ⟨rfl, rfl⟩)

/-- An operation other than `gmx_fio_select` that returns in a state whose
dispatch pointers are `do_dummy` leaves them so. -/
theorem Op.run_keeps_dummy {E : Env} {st st1 : State} {op : Op}
    (hr : st.do_read = do_func.do_dummy) (hw : st.do_write = do_func.do_dummy)
    (hs : op.is_select = false) (h : op.run E st = Res.ok () st1) :
    st1.do_read = do_func.do_dummy ∧ st1.do_write = do_func.do_dummy := by
  cases op with
  | select fio => simp [Op.is_select] at hs
  | fio_open fn mode =>
    obtain ⟨a, ha⟩ := Res.void_ok h
    obtain ⟨_, _, _, _, _, hst, _⟩ := gmx_fio_open_ok ha
    rw [hst]; exact ⟨hr, hw⟩
  | fopen fn mode =>
    obtain ⟨a, ha⟩ := Res.void_ok h
    have := gmx_fio_fopen_dispatch ha
    exact ⟨this.1.trans hr, this.2.trans hw⟩
  | close fio =>
    obtain ⟨a, ha⟩ := Res.void_ok h
    obtain ⟨_, _, _, _, _, hst⟩ := gmx_fio_close_lock_ok ha
    rw [hst]; exact ⟨rfl, rfl⟩
  | fclose fp =>
    obtain ⟨a, ha⟩ := Res.void_ok h
    unfold gmx_fio_fclose at ha
    split at ha
    · simp only [Res.ok.injEq] at ha; rw [← ha.2]; exact ⟨hr, hw⟩
    · obtain ⟨_, _, _, _, _, hst⟩ := gmx_fio_close_lock_ok ha
      rw [hst]; exact ⟨rfl, rfl⟩
  | setprecision fio b =>
    obtain ⟨_, _, _, hst⟩ := update_slot_ok h
    rw [hst]; exact ⟨hr, hw⟩
  | setdebug fio b =>
    obtain ⟨_, _, _, hst⟩ := update_slot_ok h
    rw [hst]; exact ⟨hr, hw⟩
  | setftp fio b =>
    obtain ⟨_, _, _, hst⟩ := update_slot_ok h
    rw [hst]; exact ⟨hr, hw⟩
  | getdebug fio =>
    obtain ⟨a, ha⟩ := Res.void_ok h
    rw [read_slot_state ha]; exact ⟨hr, hw⟩
  | getftp fio =>
    obtain ⟨a, ha⟩ := Res.void_ok h
    rw [read_slot_state ha]; exact ⟨hr, hw⟩
  | getfp fio =>
    obtain ⟨a, ha⟩ := Res.void_ok h
    rw [read_slot_state ha]; exact ⟨hr, hw⟩
  | getxdr fio =>
    obtain ⟨a, ha⟩ := Res.void_ok h
    rw [read_slot_state ha]; exact ⟨hr, hw⟩
  | getread fio =>
    obtain ⟨a, ha⟩ := Res.void_ok h
    rw [read_slot_state ha]; exact ⟨hr, hw⟩
  | ftell fio =>
    obtain ⟨a, ha⟩ := Res.void_ok h
    rw [gmx_fio_ftell_state ha]; exact ⟨hr, hw⟩
  | getname fio =>
    obtain ⟨a, ha⟩ := Res.void_ok h
    unfold gmx_fio_getname at ha
    repeat' split at ha
    all_goals first
      | exact Res.noConfusion ha
      | (simp only [Res.ok.injEq] at ha; rw [← ha.2]; exact ⟨hr, hw⟩)
  | rewind fio =>
    have := gmx_fio_rewind_dispatch h
    exact ⟨this.1.trans hr, this.2.trans hw⟩
  | seek fio fpos =>
    have := gmx_fio_seek_dispatch h
    exact ⟨this.1.trans hr, this.2.trans hw⟩
  | flush fio =>
    obtain ⟨a, ha⟩ := Res.void_ok h
    rw [gmx_fio_flush_lock_state ha]; exact ⟨hr, hw⟩
  | check_file_position fio =>
    obtain ⟨a, ha⟩ := Res.void_ok h
    have := gmx_fio_check_file_position_dispatch ha
    exact ⟨this.1.trans hr, this.2.trans hw⟩
  | get_output_file_positions =>
    obtain ⟨a, ha⟩ := Res.void_ok h
    rw [output_positions_loop_state _ _ _ _ _ _ _ _ ha]; exact ⟨hr, hw⟩
  | set_comment c =>
    simp only [Op.run, Res.ok.injEq, true_and] at h
    rw [← h]; unfold Gmxfio.set_comment; split <;> exact ⟨hr, hw⟩
  | unset_comment =>
    simp only [Op.run, Res.ok.injEq, true_and] at h
    rw [← h]; exact ⟨hr, hw⟩
  | read item nitem eio desc =>
    obtain ⟨a, ha⟩ := Res.void_ok h
    simp only [call_do_read, hr, call_do_func, do_dummy] at ha
    exact Res.noConfusion ha
  | write item nitem eio desc =>
    obtain ⟨a, ha⟩ := Res.void_ok h
    simp only [call_do_write, hw, call_do_func, do_dummy] at ha
    exact Res.noConfusion ha

theorem run_ops_keeps_dummy (E : Env) (ops : List Op) :
    ∀ (st st1 : State), st.do_read = do_func.do_dummy → st.do_write = do_func.do_dummy →
      (∀ op ∈ ops, op.is_select = false) → run_ops E ops st = some st1 →
      st1.do_read = do_func.do_dummy ∧ st1.do_write = do_func.do_dummy := by
  induction ops with
  | nil =>
    intro st st1 hr hw _ h
    simp only [run_ops, Option.some.injEq] at h
    rw [← h]; exact ⟨hr, hw⟩
  | cons op rest ih =>
    intro st st1 hr hw hs h
    unfold run_ops at h
    split at h
    · rename_i u st2 hop
      have := Op.run_keeps_dummy hr hw (hs op (List.mem_cons_self _ _)) hop
      exact ih st2 st1 this.1 this.2 (fun o ho => hs o (List.mem_cons_of_mem _ ho)) h
    · exact Option.noConfusion h

/-- C3: in the initial state, and in every state reached by a successful
`gmx_fio_close` / `gmx_fio_fclose` of a handle followed by any operations
other than `gmx_fio_select`, `do_read` and `do_write` are `do_dummy`; and
whenever they are, an item transfer aborts with "gmx_fio_select not called!"
for every argument, leaving the world (files and streams) as it was. -/
theorem transfer_without_select_is_fatal (E : Env) :
    (∀ os : OS, (State.initial os).do_read = do_func.do_dummy ∧
        (State.initial os).do_write = do_func.do_dummy) ∧
    (∀ (st st1 : State) (fio rc : Int), gmx_fio_close st fio = Res.ok rc st1 →
        st1.do_read = do_func.do_dummy ∧ st1.do_write = do_func.do_dummy) ∧
    (∀ (st st1 : State) (fp : Option Nat) (rc : Int), fclose_find fp 0 st.FIO ≠ none →
        gmx_fio_fclose st fp = Res.ok rc st1 →
        st1.do_read = do_func.do_dummy ∧ st1.do_write = do_func.do_dummy) ∧
    (∀ (st st1 : State) (ops : List Op),
        st.do_read = do_func.do_dummy → st.do_write = do_func.do_dummy →
        (∀ op ∈ ops, op.is_select = false) → run_ops E ops st = some st1 →
        st1.do_read = do_func.do_dummy ∧ st1.do_write = do_func.do_dummy) ∧
    (∀ (st : State) (item : Option Item) (nitem : Int) (eio : Eio) (desc : Str),
        st.do_read = do_func.do_dummy →
        call_do_read E st item nitem eio desc = Res.fatal Fatal.not_selected st.os) ∧
    (∀ (st : State) (item : Option Item) (nitem : Int) (eio : Eio) (desc : Str),
        st.do_write = do_func.do_dummy →
        call_do_write E st item nitem eio desc = Res.fatal Fatal.not_selected st.os) := by
  refine ⟨fun os => ⟨rfl, rfl⟩, ?_, ?_, ?_, ?_, ?_⟩
  · intro st st1 fio rc h
    obtain ⟨_, _, _, _, _, hst⟩ := gmx_fio_close_lock_ok h
    rw [hst]; exact ⟨rfl, rfl⟩
  · intro st st1 fp rc hfind h
    obtain ⟨i, _, hc⟩ := gmx_fio_fclose_ok hfind h
    obtain ⟨_, _, _, _, _, hst⟩ := gmx_fio_close_lock_ok hc
    rw [hst]; exact ⟨rfl, rfl⟩
  · intro st st1 ops hr hw hs h
    exact run_ops_keeps_dummy E ops st st1 hr hw hs h
  · intro st item nitem eio desc hr
    simp only [call_do_read, hr, call_do_func, do_dummy]
  · intro st item nitem eio desc hw
    simp only [call_do_write, hw, call_do_func, do_dummy]

/-- Witness for C3: a read issued before any select aborts with the world
untouched, and so does a read issued after opening, selecting and closing
`run.tpr` and then opening another file. -/
theorem transfer_without_select_is_fatal_witness :
    call_do_read demo_env (State.initial empty_os) (some (Item.int 0)) 1 eioINT [] =
        Res.fatal Fatal.not_selected empty_os ∧
    ((gmx_fio_open demo_env (State.initial empty_os) (some (cstr "run.tpr")) (cstr "w")).bind
        fun id st1 => (gmx_fio_select st1 (id : Int)).bind
        fun _ st2 => (gmx_fio_close st2 (id : Int)).bind
        fun _ st3 => (gmx_fio_open demo_env st3 (some (cstr "conf.gro")) (cstr "w")).bind
        fun _ st4 => call_do_read demo_env st4 (some (Item.int 0)) 1 eioINT []).fatal_reason =
      some Fatal.not_selected :=
  ⟨(transfer_without_select_is_fatal demo_env).2.2.2.2.1 (State.initial empty_os) _ _ _ _ rfl,
   by decide⟩

/-! ## Slot allocation in gmx_fio_open -/

theorem first_free_spec (fs : List t_fileio) :
    ∀ i : Nat, i ≤ first_free i fs ∧ first_free i fs ≤ i + fs.length ∧
      (∀ j, j < first_free i fs - i → ∃ f, fs[j]? = some f ∧ f.bOpen = true) ∧
      (first_free i fs < i + fs.length →
        ∃ f, fs[first_free i fs - i]? = some f ∧ f.bOpen = false) := by
  induction fs with
  | nil => intro i; simp [first_free]
  | cons f rest ih =>
    intro i
    by_cases hf : f.bOpen = true
    · obtain ⟨h1, h2, h3, h4⟩ := ih (i + 1)
      have hff : first_free i (f :: rest) = first_free (i + 1) rest := by
        simp [first_free, hf]
      rw [hff]
      refine ⟨by omega, by simp only [List.length_cons]; omega, ?_, ?_⟩
      · intro j hj
        cases j with
        | zero => exact ⟨f, by simp, hf⟩
        | succ k =>
          obtain ⟨g, hg, hgo⟩ := h3 k (by omega)
          exact ⟨g, by simpa using hg, hgo⟩
      · intro hlt
        obtain ⟨g, hg, hgo⟩ := h4 (by simp only [List.length_cons] at hlt; omega)
        refine ⟨g, ?_, hgo⟩
        have : first_free (i + 1) rest - i = (first_free (i + 1) rest - (i + 1)) + 1 := by omega
        rw [this]
        simpa using hg
    · have hff : first_free i (f :: rest) = i := by
        simp [first_free, hf]
      rw [hff]
      refine ⟨le_refl _, by omega, ?_, ?_⟩
      · intro j hj; omega
      · intro _
        refine ⟨f, by simp, by simpa using hf⟩

/-- C4: slot reuse.  A `gmx_fio_open` that returns gives the smallest index
below `nFIO` whose slot is not open and leaves `nFIO` unchanged; when every
slot is open it returns the old `nFIO`, and `nFIO` grows by exactly one.  In
particular an open that directly follows `gmx_fio_close(id)` returns an id
not above `id`, and `id` itself when every lower slot is open. -/
theorem gmx_fio_open_reuses_first_free (E : Env) (st st1 : State) (fn : Option Str)
    (mode : Str) (id : Nat) (h : gmx_fio_open E st fn mode = Res.ok id st1) :
    ((∃ (i : Nat) (f : t_fileio), i < st.nFIO ∧ st.FIO[i]? = some f ∧ f.bOpen = false) →
        id < st.nFIO ∧ (∃ f, st.FIO[id]? = some f ∧ f.bOpen = false) ∧
        (∀ j, j < id → ∃ f, st.FIO[j]? = some f ∧ f.bOpen = true) ∧
        st1.nFIO = st.nFIO) ∧
    ((∀ (i : Nat) (f : t_fileio), st.FIO[i]? = some f → f.bOpen = true) →
        id = st.nFIO ∧ st1.nFIO = st.nFIO + 1) ∧
    (∀ (st0 : State) (fio rc : Int), gmx_fio_close st0 fio = Res.ok rc st →
        (id : Int) ≤ fio ∧
        ((∀ (j : Nat) (f : t_fileio), (j : Int) < fio → st0.FIO[j]? = some f → f.bOpen = true) →
          (id : Int) = fio)) := by
  obtain ⟨hid, slot, os, newmode, _, hst, _⟩ := gmx_fio_open_ok h
  obtain ⟨_, h2, h3, h4⟩ := first_free_spec st.FIO 0
  simp only [Nat.sub_zero, Nat.zero_add] at h2 h3 h4
  generalize first_free 0 st.FIO = k at hid hst h2 h3 h4
  simp only [State.nFIO]
  have hlen : st1.FIO.length = (grow_if_full E st.FIO k).length := by
    rw [hst]; simp
  refine ⟨?_, ?_, ?_⟩
  · rintro ⟨i, f, hi, hf, hfo⟩
    have hlt : k < st.FIO.length := by
      by_contra hge
      have heq : k = st.FIO.length := by omega
      obtain ⟨g, hg, hgo⟩ := h3 i (by rw [heq]; exact hi)
      rw [hf] at hg
      simp only [Option.some.injEq] at hg
      rw [hg] at hfo
      rw [hfo] at hgo
      exact Bool.noConfusion hgo
    refine ⟨by rw [hid]; exact hlt, by rw [hid]; exact h4 hlt, by rw [hid]; exact h3, ?_⟩
    rw [hlen]
    simp [grow_if_full, Nat.ne_of_lt hlt]
  · intro hall
    have heq : k = st.FIO.length := by
      by_contra hne
      obtain ⟨g, hg, hgo⟩ := h4 (by omega)
      have := hall _ g hg
      rw [hgo] at this
      exact Bool.noConfusion this
    refine ⟨by rw [hid]; exact heq, ?_⟩
    rw [hlen]
    simp [grow_if_full, heq]
  · intro st0 fio rc hc
    obtain ⟨hchk, f, os0, hf, hfo, hst0⟩ := gmx_fio_close_lock_ok hc
    simp only [gmx_fio_check, decide_eq_true_eq, State.nFIO] at hchk
    have hfio : fio.toNat < st0.FIO.length := by omega
    have hslots : st.FIO = st0.FIO.set fio.toNat { f with bOpen := false } := by rw [hst0]
    have hlen0 : st.FIO.length = st0.FIO.length := by rw [hslots, List.length_set]
    have hat : st.FIO[fio.toNat]? = some { f with bOpen := false } := by
      rw [hslots, List.getElem?_set_self hfio]
    have hle : k ≤ fio.toNat := by
      by_contra hgt
      obtain ⟨g, hg, hgo⟩ := h3 fio.toNat (by omega)
      rw [hat] at hg
      simp only [Option.some.injEq] at hg
      rw [← hg] at hgo
      exact Bool.noConfusion hgo
    refine ⟨by rw [hid]; omega, ?_⟩
    intro hall
    have hge : fio.toNat ≤ k := by
      by_contra hlt
      have hlt2 : k < st.FIO.length := by omega
      obtain ⟨g, hg, hgo⟩ := h4 hlt2
      have hne : fio.toNat ≠ k := by omega
      have hg0 : st0.FIO[k]? = some g := by
        rw [hslots, List.getElem?_set_ne hne] at hg
        exact hg
      have hopen := hall _ g (by omega) hg0
      rw [hgo] at hopen
      exact Bool.noConfusion hopen
    rw [hid]; omega

theorem Res.ok_of_value {α : Type} {r : Res α} {a : α} (h : r.value = some a) :
    ∃ st1, r = Res.ok a st1 := by
  cases r with
  | ok b st => simp only [Res.value, Option.some.injEq] at h; exact ⟨st, by rw [h]⟩
  | fatal e os => exact Option.noConfusion h
  | undef => exact Option.noConfusion h

theorem slot_of_eval {s : State} {i : Nat} {b : Bool}
    (h : (s.FIO[i]?).map (fun f => f.bOpen) = some b) :
    ∃ f, s.FIO[i]? = some f ∧ f.bOpen = b := by
  cases hq : s.FIO[i]? with
  | none => rw [hq] at h; exact Option.noConfusion h
  | some f =>
    rw [hq] at h
    simp only [Option.map_some', Option.some.injEq] at h
    exact ⟨f, rfl, h⟩

/-- Witness for C4: with handles 0 and 1 open, closing handle 0 and opening
another file returns id 0 again and the registry still has two slots. -/
theorem gmx_fio_open_reuses_first_free_witness :
    ∃ st1 : State,
      gmx_fio_open demo_env
          (demo_state [Op.fio_open (some (cstr "a.tpr")) (cstr "w"),
            Op.fio_open (some (cstr "b.tpr")) (cstr "w"), Op.close 0])
          (some (cstr "c.tpr")) (cstr "w") = Res.ok 0 st1 ∧
      st1.nFIO = 2 := by
  obtain ⟨st1, h⟩ := Res.ok_of_value
    (r := gmx_fio_open demo_env
      (demo_state [Op.fio_open (some (cstr "a.tpr")) (cstr "w"),
        Op.fio_open (some (cstr "b.tpr")) (cstr "w"), Op.close 0])
      (some (cstr "c.tpr")) (cstr "w")) (a := 0) (by decide)
  obtain ⟨f, hf, hfo⟩ := slot_of_eval
    (s := demo_state [Op.fio_open (some (cstr "a.tpr")) (cstr "w"),
        Op.fio_open (some (cstr "b.tpr")) (cstr "w"), Op.close 0]) (i := 0) (b := false)
    (by decide)
  exact ⟨st1, h,
    ((gmx_fio_open_reuses_first_free demo_env _ st1 _ _ 0 h).1
      ⟨0, f, by decide, hf, hfo⟩).2.2.2.trans (by decide)⟩

/-- C5: a `gmx_fio_open` that returns gives an id whose slot was not open
before the call; every slot that was open before the call has another id
and is found afterwards with all of its fields unchanged; the returned id
names an open slot afterwards. -/
theorem gmx_fio_open_keeps_open_slots (E : Env) (st st1 : State) (fn : Option Str)
    (mode : Str) (id : Nat) (h : gmx_fio_open E st fn mode = Res.ok id st1) :
    (¬ ∃ f, st.FIO[id]? = some f ∧ f.bOpen = true) ∧
    (∀ (j : Nat) (f : t_fileio), st.FIO[j]? = some f → f.bOpen = true →
        j ≠ id ∧ st1.FIO[j]? = some f) ∧
    (∃ f, st1.FIO[id]? = some f ∧ f.bOpen = true) := by
  obtain ⟨hid, slot, os, newmode, _, hst, hopen, _⟩ := gmx_fio_open_ok h
  obtain ⟨_, h2, h3, h4⟩ := first_free_spec st.FIO 0
  simp only [Nat.sub_zero, Nat.zero_add] at h2 h3 h4
  generalize first_free 0 st.FIO = k at hid hst h2 h3 h4
  subst hid
  have hnot : ¬ ∃ f, st.FIO[id]? = some f ∧ f.bOpen = true := by
    rintro ⟨f, hf, hfo⟩
    have hlt : id < st.FIO.length := by
      by_contra hge
      rw [List.getElem?_eq_none (by omega)] at hf
      exact Option.noConfusion hf
    obtain ⟨g, hg, hgo⟩ := h4 hlt
    rw [hf] at hg
    simp only [Option.some.injEq] at hg
    rw [hg, hgo] at hfo
    exact Bool.noConfusion hfo
  have hslots : st1.FIO = (grow_if_full E st.FIO id).set id slot := by rw [hst]
  have hgrow : id < (grow_if_full E st.FIO id).length := by
    unfold grow_if_full
    split
    · simp only [List.length_append, List.length_singleton]; omega
    · omega
  refine ⟨hnot, ?_, ?_⟩
  · intro j f hf hfo
    have hne : j ≠ id := by
      rintro rfl
      exact hnot ⟨f, hf, hfo⟩
    refine ⟨hne, ?_⟩
    have hj : j < st.FIO.length := by
      by_contra hge
      rw [List.getElem?_eq_none (by omega)] at hf
      exact Option.noConfusion hf
    rw [hslots, List.getElem?_set_ne (Ne.symm hne)]
    unfold grow_if_full
    split
    · rw [List.getElem?_append_left hj]; exact hf
    · exact hf
  · exact ⟨slot, by rw [hslots, List.getElem?_set_self hgrow], hopen⟩

/-- Witness for C5: opening a third file while handle 1 is open and slot 0
is free takes id 0 and leaves slot 1 as it was. -/
theorem gmx_fio_open_keeps_open_slots_witness :
    ∃ (st1 : State) (f : t_fileio),
      gmx_fio_open demo_env
          (demo_state [Op.fio_open (some (cstr "a.tpr")) (cstr "w"),
            Op.fio_open (some (cstr "b.tpr")) (cstr "w"), Op.close 0])
          (some (cstr "c.tpr")) (cstr "w") = Res.ok 0 st1 ∧
      f.bOpen = true ∧ f.fn = cstr "b.tpr" ∧ st1.FIO[1]? = some f := by
  obtain ⟨st1, h⟩ := Res.ok_of_value
    (r := gmx_fio_open demo_env
      (demo_state [Op.fio_open (some (cstr "a.tpr")) (cstr "w"),
        Op.fio_open (some (cstr "b.tpr")) (cstr "w"), Op.close 0])
      (some (cstr "c.tpr")) (cstr "w")) (a := 0) (by decide)
  obtain ⟨f, hf, hfo⟩ := slot_of_eval
    (s := demo_state [Op.fio_open (some (cstr "a.tpr")) (cstr "w"),
        Op.fio_open (some (cstr "b.tpr")) (cstr "w"), Op.close 0]) (i := 1) (b := true)
    (by decide)
  have hfn : f.fn = cstr "b.tpr" := by
    have hq : ((State.FIO (demo_state [Op.fio_open (some (cstr "a.tpr")) (cstr "w"),
        Op.fio_open (some (cstr "b.tpr")) (cstr "w"), Op.close 0]))[1]?).map
          (fun g => g.fn) = some (cstr "b.tpr") := by decide
    rw [hf] at hq
    simpa using hq
  exact ⟨st1, f, h, hfo, hfn,
    ((gmx_fio_open_keeps_open_slots demo_env _ st1 _ _ 0 h).2.1 1 f hf hfo).2⟩

/-! ## The multiplicity check of the codecs -/

theorem check_nitem_false_iff (eio : Eio) (nitem : Int) :
    check_nitem eio nitem = false ↔ (nitem ≠ 1 ∧ eio ≠ eioNUCHAR ∧ eio ≠ eioNRVEC) := by
  unfold check_nitem
  by_cases h1 : nitem = 1 <;> by_cases h2 : eio = eioNUCHAR <;> by_cases h3 : eio = eioNRVEC <;>
    simp [h1, h2, h3]

theorem codec_return_ne_fatal (st : State) (f : t_fileio) (good : Bool) (item : Option Item)
    (os : OS) (e : Fatal) (os1 : OS) : codec_return st f good item os ≠ Res.fatal e os1 := by
  unfold codec_return
  exact fun h => Res.noConfusion h

theorem do_xdr_lock_not_bad_nitem (E : Env) (st : State) (item : Option Item) (nitem : Int)
    (eio : Eio) (desc : Str) (hc : check_nitem eio nitem = true) (os : OS) :
    do_xdr_lock E st item nitem eio desc ≠ Res.fatal Fatal.bad_nitem os := by
  unfold do_xdr_lock
  simp only [hc, Bool.not_true, Bool.false_eq_true, if_false]
  repeat' split
  all_goals first
    | exact codec_return_ne_fatal _ _ _ _ _ _ _
    | exact fun h => Res.noConfusion h
    | (intro h; injection h with h1 h2; exact Fatal.noConfusion h1)

theorem do_ascwrite_not_bad_nitem (E : Env) (st : State) (item : Option Item) (nitem : Int)
    (eio : Eio) (desc : Str) (hc : check_nitem eio nitem = true) (os : OS) :
    do_ascwrite E st item nitem eio desc ≠ Res.fatal Fatal.bad_nitem os := by
  unfold do_ascwrite
  simp only [hc, Bool.not_true, Bool.false_eq_true, if_false]
  repeat' split
  all_goals first
    | exact codec_return_ne_fatal _ _ _ _ _ _ _
    | exact fun h => Res.noConfusion h
    | (intro h; injection h with h1 h2; exact Fatal.noConfusion h1)

theorem asc_next_fatal {os os1 : OS} {fp : Option Nat} {e : Fatal}
    (h : asc_next os fp = Out.fatal e os1) : e = Fatal.end_of_file := by
  unfold asc_next at h
  repeat' split at h
  all_goals first
    | exact Out.noConfusion h
    | (injection h with h1 h2; exact h1.symm)

theorem asc_nuchar_loop_fatal (E : Env) (fp : Option Nat) :
    ∀ (n : Nat) (done : List Nat) (ahead : Option (List Nat)) (res : Int) (os os1 : OS)
      (e : Fatal), asc_nuchar_loop E fp n done ahead res os = Out.fatal e os1 →
      e = Fatal.end_of_file := by
  intro n
  induction n with
  | zero => intro done ahead res os os1 e h; exact Out.noConfusion h
  | succ n ih =>
    intro done ahead res os os1 e h
    unfold asc_nuchar_loop at h
    repeat' split at h
    all_goals first
      | exact Out.noConfusion h
      | exact ih _ _ _ _ _ _ h
      | (injection h with h1 h2; subst h1; exact asc_next_fatal (by assumption))

theorem asc_read3_lf_fatal {E : Env} {fp : Option Nat} {os os1 : OS} {e : Fatal}
    (h : asc_read3_lf E fp os = Out.fatal e os1) : e = Fatal.end_of_file := by
  unfold asc_read3_lf at h
  repeat' split at h
  all_goals first
    | exact Out.noConfusion h
    | (injection h with h1 h2; subst h1; exact asc_next_fatal (by assumption))

theorem asc_read3_d_fatal {E : Env} {fp : Option Nat} {os os1 : OS} {e : Fatal}
    (h : asc_read3_d E fp os = Out.fatal e os1) : e = Fatal.end_of_file := by
  unfold asc_read3_d at h
  repeat' split at h
  all_goals first
    | exact Out.noConfusion h
    | (injection h with h1 h2; subst h1; exact asc_next_fatal (by assumption))

theorem asc_nrvec_loop_fatal (E : Env) (fp : Option Nat) :
    ∀ (n : Nat) (done : List (Nat × Nat × Nat)) (ahead : Option (List (Nat × Nat × Nat)))
      (res : Int) (os os1 : OS) (e : Fatal),
      asc_nrvec_loop E fp n done ahead res os = Out.fatal e os1 → e = Fatal.end_of_file := by
  intro n
  induction n with
  | zero => intro done ahead res os os1 e h; exact Out.noConfusion h
  | succ n ih =>
    intro done ahead res os os1 e h
    unfold asc_nrvec_loop at h
    repeat' split at h
    all_goals first
      | exact Out.noConfusion h
      | exact ih _ _ _ _ _ _ h
      | (injection h with h1 h2; subst h1; exact asc_read3_lf_fatal (by assumption))

theorem asc_read_scalar_not_bad_nitem (st : State) (f : t_fileio)
    (conv : List Nat → Option (Int × Option Item)) (os : OS) :
    asc_read_scalar st f conv ≠ Res.fatal Fatal.bad_nitem os := by
  unfold asc_read_scalar
  repeat' split
  all_goals first
    | exact codec_return_ne_fatal _ _ _ _ _ _ _
    | exact fun h => Res.noConfusion h
    | (intro h; injection h with h1 h2
       have h3 := asc_next_fatal (by assumption)
       rw [h1] at h3; exact Fatal.noConfusion h3)

theorem do_ascread_not_bad_nitem (E : Env) (st : State) (item : Option Item) (nitem : Int)
    (eio : Eio) (desc : Str) (hc : check_nitem eio nitem = true) (os : OS) :
    do_ascread E st item nitem eio desc ≠ Res.fatal Fatal.bad_nitem os := by
  unfold do_ascread
  simp only [hc, Bool.not_true, Bool.false_eq_true, if_false, asc_read_return]
  repeat' split
  all_goals first
    | exact codec_return_ne_fatal _ _ _ _ _ _ _
    | exact asc_read_scalar_not_bad_nitem _ _ _ _
    | exact fun h => Res.noConfusion h
    | (intro h; injection h with h1 h2; exact Fatal.noConfusion h1)
    | (intro h; injection h with h1 h2
       have h3 := asc_next_fatal (by assumption)
       rw [h1] at h3; exact Fatal.noConfusion h3)
    | (intro h; injection h with h1 h2
       have h3 := asc_read3_lf_fatal (by assumption)
       rw [h1] at h3; exact Fatal.noConfusion h3)
    | (intro h; injection h with h1 h2
       have h3 := asc_read3_d_fatal (by assumption)
       rw [h1] at h3; exact Fatal.noConfusion h3)
    | (intro h; injection h with h1 h2
       have h3 := asc_nuchar_loop_fatal _ _ _ _ _ _ _ _ _ (by assumption)
       rw [h1] at h3; exact Fatal.noConfusion h3)
    | (intro h; injection h with h1 h2
       have h3 := asc_nrvec_loop_fatal _ _ _ _ _ _ _ _ _ (by assumption)
       rw [h1] at h3; exact Fatal.noConfusion h3)

theorem bin_fwrite_ne_fatal (st : State) (f : t_fileio) (item : Option Item) (mem : List Nat)
    (size : Nat) (nitem : Int) (os : OS) (e : Fatal) (os1 : OS) :
    bin_fwrite st f item mem size nitem os ≠ Res.fatal e os1 := by
  unfold bin_fwrite
  repeat' split
  all_goals first
    | exact codec_return_ne_fatal _ _ _ _ _ _ _
    | exact fun h => Res.noConfusion h

theorem bin_fread_ne_fatal (E : Env) (st : State) (f : t_fileio) (item : Option Item)
    (size nitem : Int) (os : OS) (e : Fatal) (os1 : OS) :
    bin_fread E st f item size nitem os ≠ Res.fatal e os1 := by
  unfold bin_fread
  repeat' (first | split | dsimp only)
  all_goals first
    | exact codec_return_ne_fatal _ _ _ _ _ _ _
    | exact fun h => Res.noConfusion h

theorem do_binwrite_not_bad_nitem (E : Env) (st : State) (item : Option Item) (nitem : Int)
    (eio : Eio) (desc : Str) (hc : check_nitem eio nitem = true) (os : OS) :
    do_binwrite E st item nitem eio desc ≠ Res.fatal Fatal.bad_nitem os := by
  unfold do_binwrite
  simp only [hc, Bool.not_true, Bool.false_eq_true, if_false]
  repeat' split
  all_goals first
    | exact bin_fwrite_ne_fatal _ _ _ _ _ _ _ _ _
    | exact fun h => Res.noConfusion h
    | (intro h; injection h with h1 h2; exact Fatal.noConfusion h1)
    | (intro h; injection h with h1 h2; subst h1
       exact bin_fwrite_ne_fatal _ _ _ _ _ _ _ _ _ (by assumption))

theorem do_binread_not_bad_nitem (E : Env) (st : State) (item : Option Item) (nitem : Int)
    (eio : Eio) (desc : Str) (hc : check_nitem eio nitem = true) (os : OS) :
    do_binread E st item nitem eio desc ≠ Res.fatal Fatal.bad_nitem os := by
  unfold do_binread
  simp only [hc, Bool.not_true, Bool.false_eq_true, if_false]
  repeat' split
  all_goals first
    | exact bin_fread_ne_fatal _ _ _ _ _ _ _ _ _
    | exact fun h => Res.noConfusion h
    | (intro h; injection h with h1 h2; exact Fatal.noConfusion h1)
    | (intro h; injection h with h1 h2; subst h1
       exact bin_fread_ne_fatal _ _ _ _ _ _ _ _ _ (by assumption))

/-- C7: the multiplicity precondition.  In each of the five codecs the call
aborts with the "nitem may differ from 1 only for ..." error if and only if
`nitem != 1` and the kind is neither NUCHAR nor NRVEC; when it does, the
world is as it was before the call (no byte was read or written).  For
`do_ascread`, which loads `curfio->fp` in front of the check, this holds
whenever a handle is selected. -/
theorem codecs_check_nitem (E : Env) (st : State) (item : Option Item) (nitem : Int)
    (eio : Eio) (desc : Str) :
    ((nitem ≠ 1 ∧ eio ≠ eioNUCHAR ∧ eio ≠ eioNRVEC) →
      do_ascwrite E st item nitem eio desc = Res.fatal Fatal.bad_nitem st.os ∧
      (st.cur ≠ none → do_ascread E st item nitem eio desc = Res.fatal Fatal.bad_nitem st.os) ∧
      do_binwrite E st item nitem eio desc = Res.fatal Fatal.bad_nitem st.os ∧
      do_binread E st item nitem eio desc = Res.fatal Fatal.bad_nitem st.os ∧
      do_xdr E st item nitem eio desc = Res.fatal Fatal.bad_nitem st.os) ∧
    (¬ (nitem ≠ 1 ∧ eio ≠ eioNUCHAR ∧ eio ≠ eioNRVEC) → ∀ os : OS,
      do_ascwrite E st item nitem eio desc ≠ Res.fatal Fatal.bad_nitem os ∧
      do_ascread E st item nitem eio desc ≠ Res.fatal Fatal.bad_nitem os ∧
      do_binwrite E st item nitem eio desc ≠ Res.fatal Fatal.bad_nitem os ∧
      do_binread E st item nitem eio desc ≠ Res.fatal Fatal.bad_nitem os ∧
      do_xdr E st item nitem eio desc ≠ Res.fatal Fatal.bad_nitem os) := by
  constructor
  · intro h
    have hc := (check_nitem_false_iff eio nitem).2 h
    refine ⟨?_, ?_, ?_, ?_, ?_⟩
    · unfold do_ascwrite; simp [hc]
    · intro hcur
      unfold do_ascread
      cases hq : st.cur with
      | none => exact absurd hq hcur
      | some f => simp [hc]
    · unfold do_binwrite; simp [hc]
    · unfold do_binread; simp [hc]
    · unfold do_xdr do_xdr_lock; simp [hc]
  · intro h os
    have hc : check_nitem eio nitem = true := by
      cases hq : check_nitem eio nitem with
      | true => rfl
      | false => exact absurd ((check_nitem_false_iff eio nitem).1 hq) h
    exact ⟨do_ascwrite_not_bad_nitem E st item nitem eio desc hc os,
      do_ascread_not_bad_nitem E st item nitem eio desc hc os,
      do_binwrite_not_bad_nitem E st item nitem eio desc hc os,
      do_binread_not_bad_nitem E st item nitem eio desc hc os,
      do_xdr_lock_not_bad_nitem E st item nitem eio desc hc os⟩

/-- Witness for C7: with `run.tpr` open and selected, an INT transfer with
`nitem = 2` aborts in the multiplicity check and leaves the world as it
was. -/
theorem codecs_check_nitem_witness :
    do_xdr demo_env
        (demo_state [Op.fio_open (some (cstr "run.tpr")) (cstr "w"), Op.select 0])
        (some (Item.int 5)) 2 eioINT [] =
      Res.fatal Fatal.bad_nitem
        (State.os (demo_state [Op.fio_open (some (cstr "run.tpr")) (cstr "w"), Op.select 0])) :=
  ((codecs_check_nitem demo_env
      (demo_state [Op.fio_open (some (cstr "run.tpr")) (cstr "w"), Op.select 0])
      (some (Item.int 5)) 2 eioINT []).1 (by decide)).2.2.2.2

/-! ## gmx_fio_select -/

theorem in_ftpset_iff (ftp : Ftp) (set : List Ftp) : in_ftpset ftp set = true ↔ ftp ∈ set := by
  unfold in_ftpset
  suffices hgen : ∀ (b : Bool),
      set.foldl (fun bResult x => if ftp = x then true else bResult) b = true ↔
        (b = true ∨ ftp ∈ set) by
    simpa using hgen false
  induction set with
  | nil => intro b; simp
  | cons x rest ih =>
    intro b
    simp only [List.foldl_cons, List.mem_cons]
    rw [ih]
    by_cases hx : ftp = x
    · simp [hx]
    · simp [hx]

/-- The three codec lists are pairwise disjoint. -/
theorem ftp_lists_disjoint (ftp : Ftp) :
    ¬ (in_ftpset ftp ftpXDR = true ∧ in_ftpset ftp ftpASC = true) ∧
    ¬ (in_ftpset ftp ftpXDR = true ∧ in_ftpset ftp ftpBIN = true) ∧
    ¬ (in_ftpset ftp ftpASC = true ∧ in_ftpset ftp ftpBIN = true) := by
  simp only [in_ftpset_iff, ftpXDR, ftpASC, ftpBIN]
  cases ftp <;> simp

/-- What `gmx_fio_select` does for every state and argument. -/
theorem gmx_fio_select_spec (st : State) (fio : Int) :
    (¬ (0 ≤ fio ∧ fio < (st.nFIO : Int)) →
        gmx_fio_select st fio = Res.fatal Fatal.range_check st.os) ∧
    (∀ f : t_fileio, 0 ≤ fio → fio < (st.nFIO : Int) → st.FIO[fio.toNat]? = some f →
      (in_ftpset f.iFTP ftpXDR = true →
        gmx_fio_select st fio =
          Res.ok () { st with do_read := do_func.do_xdr, do_write := do_func.do_xdr,
                              curfio := some fio.toNat }) ∧
      (in_ftpset f.iFTP ftpASC = true →
        gmx_fio_select st fio =
          Res.ok () { st with do_read := do_func.do_ascread, do_write := do_func.do_ascwrite,
                              curfio := some fio.toNat }) ∧
      (in_ftpset f.iFTP ftpBIN = true →
        gmx_fio_select st fio =
          Res.ok () { st with do_read := do_func.do_binread, do_write := do_func.do_binwrite,
                              curfio := some fio.toNat }) ∧
      (in_ftpset f.iFTP ftpXDR = false → in_ftpset f.iFTP ftpASC = false →
        in_ftpset f.iFTP ftpBIN = false →
        (st.curfio ≠ none → gmx_fio_select st fio = Res.fatal Fatal.no_codec st.os) ∧
        (st.curfio = none → gmx_fio_select st fio = Res.undef))) := by
  constructor
  · intro h
    unfold gmx_fio_select
    simp [gmx_fio_check, h]
  · intro f h0 h1 hf
    have hchk : gmx_fio_check st fio = true := by simp [gmx_fio_check, h0, h1]
    obtain ⟨d1, d2, d3⟩ := ftp_lists_disjoint f.iFTP
    refine ⟨?_, ?_, ?_, ?_⟩
    · intro hx
      unfold gmx_fio_select
      simp [hchk, hf, hx]
    · intro ha
      have hx : in_ftpset f.iFTP ftpXDR = false := by
        cases hq : in_ftpset f.iFTP ftpXDR with
        | false => rfl
        | true => exact absurd ⟨hq, ha⟩ d1
      unfold gmx_fio_select
      simp [hchk, hf, hx, ha]
    · intro hb
      have hx : in_ftpset f.iFTP ftpXDR = false := by
        cases hq : in_ftpset f.iFTP ftpXDR with
        | false => rfl
        | true => exact absurd ⟨hq, hb⟩ d2
      have ha : in_ftpset f.iFTP ftpASC = false := by
        cases hq : in_ftpset f.iFTP ftpASC with
        | false => rfl
        | true => exact absurd ⟨hq, hb⟩ d3
      unfold gmx_fio_select
      simp [hchk, hf, hx, ha, hb]
    · intro hx ha hb
      constructor
      · intro hcur
        unfold gmx_fio_select
        cases hq : st.curfio with
        | none => exact absurd hq hcur
        | some c => simp [hchk, hf, hx, ha, hb]
      · intro hcur
        unfold gmx_fio_select
        simp [hchk, hf, hx, ha, hb, hcur]

/-- C6, the failing input: in a fresh process `md.log`, whose file type is in
none of the three lists, is opened and selected.  The call does not abort
with the fatal error: building the message it reads `curfio->iFTP` while
`curfio` is still NULL, which is undefined behaviour. -/
theorem gmx_fio_select_unlisted_first_select :
    ((gmx_fio_open demo_env (State.initial empty_os) (some (cstr "md.log")) (cstr "w")).bind
        fun id st1 => gmx_fio_select st1 (id : Int)) = Res.undef ∧
    ((gmx_fio_open demo_env (State.initial empty_os) (some (cstr "md.log")) (cstr "w")).bind
        fun id st1 => gmx_fio_select st1 (id : Int)).fatal_reason = none := by
  decide

/-! ## gmx_fio_get_output_file_positions -/

theorem gmx_fio_get_file_position_ok (st : State) (i : Nat) (f : t_fileio)
    (hf : st.FIO[i]? = some f) (hs : stream_flushes st.os f = true) :
    ∃ p, f.fp = some p ∧ 0 ≤ ftello st.os p ∧
      gmx_fio_get_file_position st (i : Int) = Res.ok (ftello st.os p) st := by
  have hi : i < st.FIO.length := by
    by_contra hge
    rw [List.getElem?_eq_none (by omega)] at hf
    exact Option.noConfusion hf
  have hchk : gmx_fio_check st (i : Int) = true := by
    simp only [gmx_fio_check, State.nFIO, decide_eq_true_eq]
    omega
  unfold stream_flushes at hs
  cases hp : f.fp with
  | none => rw [hp] at hs; exact Bool.noConfusion hs
  | some p =>
    rw [hp] at hs
    dsimp only at hs
    cases hq : st.os.stream p with
    | none => rw [hq] at hs; exact Bool.noConfusion hs
    | some s =>
      rw [hq] at hs
      dsimp only at hs
      rw [Bool.and_eq_true] at hs
      have hso : s.is_open = true := hs.1
      have hff : s.flush_fails = false := by simpa using hs.2
      have hlive : st.os.stream_open p = true := by simp [OS.stream_open, hq, hso]
      have hflush : fflush st.os p = 0 := by simp [fflush, hq, hff]
      refine ⟨p, rfl, by simp [ftello, hq], ?_⟩
      simp [gmx_fio_get_file_position, gmx_fio_flush_lock, hchk, hf, hp, hflush, hlive]

theorem output_positions_loop_eq (E : Env) (st : State)
    (hpath : ∀ f ∈ st.FIO, is_output_slot f = true → f.fn.length < E.STRLEN)
    (hflush : ∀ f ∈ st.FIO, is_output_slot f = true → f.bLargerThan_off_t = false →
      stream_flushes st.os f = true) :
    ∀ (rest : List t_fileio) (i : Nat) (out : List gmx_file_position_t) (n : Nat),
      st.FIO.drop i = rest →
      output_positions_loop E st i rest out n =
        Res.ok (out ++ (rest.filter is_output_slot).map (claimed_position st.os),
                n + (rest.filter is_output_slot).length) st := by
  intro rest
  induction rest with
  | nil => intro i out n _; simp [output_positions_loop]
  | cons f rest ih =>
    intro i out n hdrop
    have hi : i < st.FIO.length := by
      by_contra hge
      rw [List.drop_eq_nil_of_le (by omega)] at hdrop
      exact List.noConfusion hdrop
    have hfi : st.FIO[i]? = some f := by
      have h1 := List.getElem?_drop st.FIO i 0
      rw [hdrop] at h1
      simpa using h1.symm
    have hmem : f ∈ st.FIO := List.getElem?_mem hfi
    have hrest : st.FIO.drop (i + 1) = rest := by
      have h1 : (st.FIO.drop i).drop 1 = rest := by rw [hdrop]; rfl
      rw [List.drop_drop] at h1
      rw [← h1]
    have ih1 := ih (i + 1)
    unfold output_positions_loop
    by_cases hout : is_output_slot f = true
    · have hcond : (f.bOpen && !f.bRead && !f.bStdio && decide (f.iFTP ≠ efCPT)) = true := hout
      have hname : strncpy f.fn (E.STRLEN - 1) = f.fn := by
        have := hpath f hmem hout
        unfold strncpy
        exact List.take_of_length_le (by omega)
      simp only [hcond, if_true, hname]
      by_cases hbig : f.bLargerThan_off_t = true
      · simp only [hbig, if_true]
        rw [ih1 _ _ hrest]
        simp [List.filter_cons, hout, claimed_position, hbig]
        omega
      · have hbig0 : f.bLargerThan_off_t = false := by simpa using hbig
        obtain ⟨p, hp, _, hpos⟩ := gmx_fio_get_file_position_ok st i f hfi (hflush f hmem hout hbig0)
        simp only [hbig0, Bool.false_eq_true, if_false, hpos]
        rw [ih1 _ _ hrest]
        simp [List.filter_cons, hout, claimed_position, hbig0, hp]
        omega
    · have hcond : (f.bOpen && !f.bRead && !f.bStdio && decide (f.iFTP ≠ efCPT)) = false := by
        simpa [is_output_slot] using hout
      simp only [hcond, Bool.false_eq_true, if_false]
      rw [ih1 _ _ hrest]
      simp [List.filter_cons, hout]

/-- C8: `gmx_fio_get_output_file_positions` returns, in the order of the
slots (increasing id), exactly one record for each slot that is open, not in
read mode, not a standard stream and not of type `efCPT`; `*p_nfiles` is the
number of these slots; each record carries the path of its slot, and its
offset is -1 if and only if the slot is marked `bLargerThan_off_t`, the
position of the flushed stream otherwise.  The paths are assumed to fit the
`filename` field of a record (fewer than `STRLEN` characters), and the
stream of every reported slot that is not marked to be open and to flush
without error: a failing flush aborts the function, and a stream that was
closed under the handle makes the call of `fflush` undefined. -/
theorem output_file_positions_spec (E : Env) (st : State)
    (hpath : ∀ f ∈ st.FIO, is_output_slot f = true → f.fn.length < E.STRLEN)
    (hflush : ∀ f ∈ st.FIO, is_output_slot f = true → f.bLargerThan_off_t = false →
      stream_flushes st.os f = true) :
    gmx_fio_get_output_file_positions E st =
        Res.ok (claimed_output_positions st, (st.FIO.filter is_output_slot).length) st ∧
    (∀ f ∈ st.FIO, is_output_slot f = true →
        (claimed_position st.os f).filename = f.fn ∧
        ((claimed_position st.os f).offset = -1 ↔ f.bLargerThan_off_t = true)) := by
  constructor
  · unfold gmx_fio_get_output_file_positions
    rw [output_positions_loop_eq E st hpath hflush st.FIO 0 [] 0 (by simp)]
    simp [claimed_output_positions]
  · intro f hmem hout
    refine ⟨rfl, ?_⟩
    by_cases hbig : f.bLargerThan_off_t = true
    · simp [claimed_position, hbig]
    · have hbig0 : f.bLargerThan_off_t = false := by simpa using hbig
      obtain ⟨i, hi⟩ := List.getElem?_of_mem hmem
      obtain ⟨p, hp, hpos, _⟩ :=
        gmx_fio_get_file_position_ok st i f hi (hflush f hmem hout hbig0)
      simp only [claimed_position, hbig0, Bool.false_eq_true, if_false, hp]
      constructor
      · intro h; omega
      · intro h; exact h.elim

/-- Witness for C8: with `a.tpr` (4 bytes written), `b.gro`, the checkpoint
file `c.cpt` and `stdout` open for writing, the snapshot holds the two
records `a.tpr` at offset 4 and `b.gro` at offset 0. -/
theorem output_file_positions_spec_witness :
    gmx_fio_get_output_file_positions demo_env
        (demo_state [Op.fio_open (some (cstr "a.tpr")) (cstr "w"), Op.select 0,
          Op.write (some (Item.int 42)) 1 eioINT [], Op.fio_open (some (cstr "b.gro")) (cstr "w"),
          Op.fio_open (some (cstr "c.cpt")) (cstr "w"), Op.fio_open none (cstr "w")]) =
      Res.ok
        (claimed_output_positions
          (demo_state [Op.fio_open (some (cstr "a.tpr")) (cstr "w"), Op.select 0,
            Op.write (some (Item.int 42)) 1 eioINT [],
            Op.fio_open (some (cstr "b.gro")) (cstr "w"),
            Op.fio_open (some (cstr "c.cpt")) (cstr "w"), Op.fio_open none (cstr "w")]),
         2)
        (demo_state [Op.fio_open (some (cstr "a.tpr")) (cstr "w"), Op.select 0,
          Op.write (some (Item.int 42)) 1 eioINT [], Op.fio_open (some (cstr "b.gro")) (cstr "w"),
          Op.fio_open (some (cstr "c.cpt")) (cstr "w"), Op.fio_open none (cstr "w")]) ∧
    claimed_output_positions
        (demo_state [Op.fio_open (some (cstr "a.tpr")) (cstr "w"), Op.select 0,
          Op.write (some (Item.int 42)) 1 eioINT [], Op.fio_open (some (cstr "b.gro")) (cstr "w"),
          Op.fio_open (some (cstr "c.cpt")) (cstr "w"), Op.fio_open none (cstr "w")]) =
      [{ filename := cstr "a.tpr", offset := 4 }, { filename := cstr "b.gro", offset := 0 }] :=
  ⟨(output_file_positions_spec demo_env _ (by decide) (by decide)).1, by decide⟩

/-- On a slot whose stream has been closed under it the position query is
undefined: `fflush` is handed a closed `FILE *`. -/
theorem gmx_fio_get_file_position_closed (st : State) (i : Nat) (f : t_fileio) (p : Nat)
    (hf : st.FIO[i]? = some f) (hp : f.fp = some p) (hc : st.os.stream_open p = false) :
    gmx_fio_get_file_position st (i : Int) = Res.undef := by
  have hi : i < st.FIO.length := by
    by_contra hge
    rw [List.getElem?_eq_none (by omega)] at hf
    exact Option.noConfusion hf
  have hchk : gmx_fio_check st (i : Int) = true := by
    simp only [gmx_fio_check, State.nFIO, decide_eq_true_eq]
    omega
  simp [gmx_fio_get_file_position, gmx_fio_flush_lock, hchk, hf, hp, hc]

/-- After `gmx_fio_rewind` on a canonical-binary handle open for writing,
`FIO[fio].fp` is the stream that `xdrclose` closed, and the snapshot, which
hands it to `fflush`, is undefined; the stream precondition of the snapshot theorem excludes this
state. -/
theorem output_file_positions_after_rewind :
    (gmx_fio_get_output_file_positions demo_env
      (demo_state [Op.fio_open (some (cstr "a.tpr")) (cstr "w")])).value =
        some ([{ filename := cstr "a.tpr", offset := 0 }], 1) ∧
    (read_slot (demo_state [Op.fio_open (some (cstr "a.tpr")) (cstr "w"), Op.rewind 0]) 0
      (fun f => (is_output_slot f, f.bLargerThan_off_t,
        stream_flushes (demo_state [Op.fio_open (some (cstr "a.tpr")) (cstr "w"),
          Op.rewind 0]).os f))).value = some (true, false, false) ∧
    gmx_fio_get_output_file_positions demo_env
      (demo_state [Op.fio_open (some (cstr "a.tpr")) (cstr "w"), Op.rewind 0]) = Res.undef := by
  decide

/-! ## The string length field of the canonical-binary codec -/

theorem xdr_int_decode_ok (os : OS) (x : XDRobj) (v : Int) (hd : x.decode = true)
    (h4 : 4 ≤ (os.pending x.x_private).length) : (xdr_int os x v).1 = true := by
  have hlt : ¬ (os.pending x.x_private).length < 4 := by omega
  simp [xdr_int, xdr_unsigned, xdr_getbytes, hd, hlt]

/-- In read mode a String transfer aborts with "wrong string length" only
when the length field itself cannot be read: with four bytes left in the
stream it never does, whatever number they encode. -/
theorem do_xdr_string_no_length_check (E : Env) (st : State) (f : t_fileio) (x : XDRobj)
    (item : Option Item) (desc : Str) (hcur : st.cur = some f) (hx : f.xdr = some x)
    (hd : x.decode = true) (h4 : 4 ≤ (st.os.pending x.x_private).length) (os1 : OS) :
    do_xdr E st item 1 eioSTRING desc ≠ Res.fatal Fatal.wrong_string_length os1 := by
  have hok0 := xdr_int_decode_ok st.os x 0 hd h4
  unfold do_xdr do_xdr_lock
  simp only [check_nitem, hcur, hx]
  repeat' (first | split | dsimp only)
  all_goals first
    | exact codec_return_ne_fatal _ _ _ _ _ _ _
    | exact fun h => Res.noConfusion h
    | (intro h; injection h with h1 h2; exact Fatal.noConfusion h1)
    | (intro _
       have hk := fun v => xdr_int_decode_ok st.os x v hd h4
       simp_all)

/-- C9, the failing inputs: `in.tpr` is opened for reading and selected, and
a String is read.  With a length field that decodes to 0 the transfer
returns TRUE (an empty string), or FALSE when a longer string body follows;
with a length field that decodes to -1 it returns TRUE and decodes the body
`abc`.  None of the calls aborts. -/
theorem do_xdr_string_nonpositive_length :
    (open_and_read demo_env (os_with_file (cstr "in.tpr") [0, 0, 0, 0, 0, 0, 0, 0])
        (cstr "in.tpr") (some (Item.chars [120, 120, 120, 120])) 1 eioSTRING).value =
      some (true, some (Item.chars [0, 120, 120, 120])) ∧
    (open_and_read demo_env (os_with_file (cstr "in.tpr") [0, 0, 0, 0, 0, 0, 0, 3, 97, 98, 99, 0])
        (cstr "in.tpr") (some (Item.chars [120, 120, 120, 120])) 1 eioSTRING).value =
      some (false, some (Item.chars [120, 120, 120, 120])) ∧
    (open_and_read demo_env
        (os_with_file (cstr "in.tpr") [255, 255, 255, 255, 0, 0, 0, 3, 97, 98, 99, 0])
        (cstr "in.tpr") (some (Item.chars [120, 120, 120, 120])) 1 eioSTRING).value =
      some (true, some (Item.chars [97, 98, 99, 0])) ∧
    to_signed 32 (be_value [0, 0, 0, 0]) = 0 ∧ to_signed 32 (be_value [255, 255, 255, 255]) = -1 := by
  decide

/-! ## Unsigned bytes in the text codec -/

set_option maxRecDepth 100000 in
/-- The text codec reads back an unsigned byte as the character code of the
first decimal digit that was printed for it; this is the byte itself for 53
only. -/
theorem text_uchar_readback_eq_iff :
    ∀ b : Nat, b < 256 → (text_uchar_readback b = (1, some b) ↔ b = 53) := by
  decide

/-- C10, the failing input: `c.gro` is opened for writing and selected, the
unsigned byte 0 is written with kind UCHAR, the file is closed, reopened for
reading and selected, and one UCHAR is read.  Both transfers return TRUE and
the byte read is 48 (the character `0`), not 0; for the byte 65 it is 54. -/
theorem text_uchar_roundtrip_at_zero :
    (write_then_read demo_env (State.initial empty_os) (cstr "c.gro")
        [(Item.uchar 0, eioUCHAR)] [(Item.uchar 7, eioUCHAR)]).value =
      some ([true], [(true, some (Item.uchar 48))]) ∧
    (write_then_read demo_env (State.initial empty_os) (cstr "c.gro")
        [(Item.uchar 65, eioUCHAR)] [(Item.uchar 7, eioUCHAR)]).value =
      some ([true], [(true, some (Item.uchar 54))]) := by
  decide

/-! ## Canonical-binary round trip of an int and a string -/

theorem le_value_le_bytes (w : Nat) : ∀ v : Nat, v < 256 ^ w → le_value (le_bytes w v) = v := by
  induction w with
  | zero => intro v hv; simp at hv; simp [le_bytes, le_value, hv]
  | succ w ih =>
    intro v hv
    have hdiv : v / 256 < 256 ^ w := by
      rw [Nat.div_lt_iff_lt_mul (by norm_num)]
      rw [pow_succ] at hv
      exact hv
    simp only [le_bytes, le_value, ih (v / 256) hdiv]
    omega

theorem be_value_be_bytes (w v : Nat) (hv : v < 256 ^ w) : be_value (be_bytes w v) = v := by
  simp [be_value, be_bytes, le_value_le_bytes w v hv]

theorem le_bytes_length (w : Nat) : ∀ v : Nat, (le_bytes w v).length = w := by
  induction w with
  | zero => intro v; rfl
  | succ w ih => intro v; simp [le_bytes, ih]

theorem be_bytes_length (w v : Nat) : (be_bytes w v).length = w := by
  simp [be_bytes, le_bytes_length]

theorem to_unsigned_32_lt (v : Int) : to_unsigned 32 v < 2 ^ 32 := by
  unfold to_unsigned
  have h1 : 0 ≤ v % (2 : Int) ^ 32 := Int.emod_nonneg _ (by norm_num)
  have h2 : v % (2 : Int) ^ 32 < (2 : Int) ^ 32 := Int.emod_lt_of_pos _ (by norm_num)
  omega

theorem to_signed_to_unsigned_32 (v : Int) (h1 : -(2 : Int) ^ 31 ≤ v) (h2 : v < (2 : Int) ^ 31) :
    to_signed 32 (to_unsigned 32 v) = v := by
  unfold to_signed to_unsigned
  norm_num at h1 h2 ⊢
  split <;> omega

theorem to_unsigned_32_of_nat (n : Nat) (h : n < 2 ^ 32) : to_unsigned 32 (n : Int) = n := by
  unfold to_unsigned
  norm_num at h ⊢
  omega

theorem xdr_int_bytes_length (v : Int) : (xdr_int_bytes v).length = 4 := by
  simp [xdr_int_bytes, be_bytes_length]

theorem table_get_cons_self {α : Type} (m : List (Nat × α)) (k : Nat) (v : α) :
    table_get ((k, v) :: m) k = some v := by
  simp [table_get]

theorem stream_set_stream (os : OS) (fp : Nat) (f : FILEobj) :
    (os.set_stream fp f).stream fp = some f := by
  simp [OS.set_stream, OS.stream, table_get_cons_self]

theorem write_at_end {os : OS} {fp : Nat} {path : Str} {ino : Nat} {c : List Nat}
    (h : writes_at_end os fp path ino c) (bs : List Nat) :
    writes_at_end (os.write fp bs) fp path ino (c ++ bs) := by
  obtain ⟨⟨f, hf, hino, hpos⟩, hc, hl⟩ := h
  subst hino
  have hnew : (os.content f.ino).take f.pos ++ bs ++ (os.content f.ino).drop (f.pos + bs.length)
      = c ++ bs := by
    rw [hc, hpos, List.take_length, List.drop_eq_nil_of_le (by omega), List.append_nil]
  have hw : os.write fp bs =
      (os.set_content f.ino ((os.content f.ino).take f.pos ++ bs ++
        (os.content f.ino).drop (f.pos + bs.length))).set_stream fp
        { f with pos := f.pos + bs.length } := by
    simp only [OS.write, hf]
  rw [hw, hnew]
  refine ⟨⟨{ f with pos := f.pos + bs.length }, stream_set_stream _ _ _, rfl, ?_⟩, ?_, ?_⟩
  · simp [hpos]
  · simp [OS.set_stream, OS.set_content, OS.content, table_get_cons_self]
  · simpa [OS.set_stream, OS.set_content, OS.lookup] using hl

theorem fopen_write (os : OS) (fn : Str) :
    ∃ fp ino os1, fopen os fn [119] = some (fp, os1) ∧ writes_at_end os1 fp fn ino [] := by
  unfold fopen
  simp only [List.head?_cons]
  cases hl : os.lookup fn with
  | some i =>
    refine ⟨_, i, _, rfl,
      ⟨⟨{ ino := i, pos := 0, is_open := true, flush_fails := false }, ?_, rfl, rfl⟩, ?_, ?_⟩⟩
    · simp [OS.new_stream, OS.stream, table_get_cons_self]
    · simp [OS.new_stream, OS.set_content, OS.content, table_get_cons_self]
    · simpa [OS.new_stream, OS.set_content, OS.lookup] using hl
  | none =>
    refine ⟨_, os.next_ino, _, rfl,
      ⟨⟨{ ino := os.next_ino, pos := 0, is_open := true, flush_fails := false }, ?_, rfl, rfl⟩,
        ?_, ?_⟩⟩
    · simp [OS.new_stream, OS.create, OS.stream, table_get_cons_self]
    · simp [OS.new_stream, OS.create, OS.content, table_get_cons_self]
    · simp [OS.new_stream, OS.create, OS.lookup]

theorem fclose_keeps_file (os : OS) (fp : Nat) (path : Str) (ino : Nat) :
    (fclose os fp).2.content ino = os.content ino ∧
    (fclose os fp).2.lookup path = os.lookup path := by
  unfold fclose
  split <;> simp [OS.set_stream, OS.content, OS.lookup]

theorem fopen_read (os : OS) (fn : Str) (ino : Nat) (hl : os.lookup fn = some ino) :
    ∃ fp os1, fopen os fn [114] = some (fp, os1) ∧ os1.pending fp = os.content ino := by
  unfold fopen
  simp only [List.head?_cons, hl]
  refine ⟨_, _, rfl, ?_⟩
  simp [OS.pending, OS.new_stream, OS.stream, table_get_cons_self, OS.content]

theorem xdr_getbytes_pending (os : OS) (x : XDRobj) (a rest : List Nat)
    (h : os.pending x.x_private = a ++ rest) :
    ∃ os1, xdr_getbytes os x a.length = (some a, os1) ∧ os1.pending x.x_private = rest := by
  unfold xdr_getbytes
  have hlt : ¬ (os.pending x.x_private).length < a.length := by
    rw [h, List.length_append]; omega
  simp only [hlt, if_false]
  refine ⟨_, by rw [h, List.take_left], ?_⟩
  unfold OS.pending at h ⊢
  unfold OS.advance
  cases hs : os.stream x.x_private with
  | none =>
    rw [hs] at h
    simp only [hs]
    have : a ++ rest = [] := h.symm
    simp only [List.append_eq_nil] at this
    exact this.2.symm
  | some f =>
    rw [hs] at h
    simp only [OS.set_stream, OS.stream, table_get_cons_self, OS.content] at h ⊢
    rw [← List.drop_drop, h, List.drop_left]
theorem do_xdr_write_int (E : Env) (st : State) (f : t_fileio) (x : XDRobj) (v : Int)
    (desc : Str) (hcur : st.cur = some f) (hx : f.xdr = some x) (henc : x.decode = false)
    (hr : f.bRead = false) :
    do_xdr E st (some (Item.int v)) 1 eioINT desc =
      Res.ok (true, some (Item.int v))
        { st with os := st.os.write x.x_private (xdr_int_bytes v) } := by
  unfold do_xdr do_xdr_lock
  simp [check_nitem, hcur, hx, hr, xdr_int, xdr_unsigned, henc, codec_return, xdr_int_bytes]

theorem do_xdr_write_string (E : Env) (st : State) (f : t_fileio) (x : XDRobj) (s : List Nat)
    (desc : Str) (hcur : st.cur = some f) (hx : f.xdr = some x) (henc : x.decode = false)
    (hr : f.bRead = false) (hs : ∀ c ∈ s, c ≠ cNUL) (hlen : s.length + 1 < 2 ^ 32) :
    ∃ os1, do_xdr E st (some (Item.chars s)) 1 eioSTRING desc =
        Res.ok (true, some (Item.chars s)) { st with os := os1 } ∧
      ∀ path ino c, writes_at_end st.os x.x_private path ino c →
        writes_at_end os1 x.x_private path ino (c ++ xdr_string_bytes s) := by
  have hstr : strlen s = s.length := strlen_of_no_nul s hs
  have hcs : c_str s = s := c_str_of_no_nul s hs
  have hu : to_unsigned 32 ((s.length : Int) + 1) = s.length + 1 := by
    have := to_unsigned_32_of_nat (s.length + 1) hlen
    push_cast at this
    exact this
  have hmod : s.length % 4294967296 = s.length := Nat.mod_eq_of_lt (by omega)
  unfold do_xdr do_xdr_lock
  by_cases h0 : s.length = 0
  · refine ⟨(st.os.write x.x_private (xdr_int_bytes ((s.length : Int) + 1))).write x.x_private
      (be_bytes 4 s.length), ?_, ?_⟩
    · simp [check_nitem, hcur, hx, hr, xdr_int, xdr_unsigned, henc, codec_return, xdr_int_bytes,
        xdr_string, xdr_u_int, xdr_opaque, hstr, hcs, hu, hmod, h0]
    · intro path ino c hw
      have h1 := write_at_end (write_at_end hw (xdr_int_bytes ((s.length : Int) + 1)))
        (be_bytes 4 s.length)
      simpa [xdr_string_bytes, h0] using h1
  · refine ⟨(((st.os.write x.x_private (xdr_int_bytes ((s.length : Int) + 1))).write x.x_private
      (be_bytes 4 s.length)).write x.x_private s).write x.x_private
        (List.replicate (if s.length % 4 > 0 then 4 - s.length % 4 else 0) 0), ?_, ?_⟩
    · simp [check_nitem, hcur, hx, hr, xdr_int, xdr_unsigned, henc, codec_return, xdr_int_bytes,
        xdr_string, xdr_u_int, xdr_opaque, hstr, hcs, hu, hmod, h0]
    · intro path ino c hw
      have h1 := write_at_end (write_at_end (write_at_end (write_at_end hw
        (xdr_int_bytes ((s.length : Int) + 1))) (be_bytes 4 s.length)) s)
        (List.replicate (if s.length % 4 > 0 then 4 - s.length % 4 else 0) 0)
      simpa [xdr_string_bytes, h0, List.append_assoc] using h1
theorem to_unsigned_to_signed_32 (u : Nat) (h : u < 2 ^ 32) :
    to_unsigned 32 (to_signed 32 u) = u := by
  unfold to_signed to_unsigned
  norm_num at h ⊢
  split <;> omega

theorem xdr_unsigned_decode (os : OS) (x : XDRobj) (w v0 u : Nat) (rest : List Nat)
    (hdec : x.decode = true) (hu : u < 256 ^ w)
    (hpend : os.pending x.x_private = be_bytes w u ++ rest) :
    ∃ os1, xdr_unsigned os x w v0 = (true, u, os1) ∧ os1.pending x.x_private = rest := by
  obtain ⟨os1, hget, hp⟩ := xdr_getbytes_pending os x (be_bytes w u) rest hpend
  rw [be_bytes_length] at hget
  refine ⟨os1, ?_, hp⟩
  simp [xdr_unsigned, hdec, hget, be_value_be_bytes w u hu]

theorem do_xdr_read_int (E : Env) (st : State) (f : t_fileio) (x : XDRobj) (v junk : Int)
    (rest : List Nat) (desc : Str) (hcur : st.cur = some f) (hx : f.xdr = some x)
    (hdec : x.decode = true) (hr : f.bRead = true)
    (h1 : -(2 : Int) ^ 31 ≤ v) (h2 : v < (2 : Int) ^ 31)
    (hpend : st.os.pending x.x_private = xdr_int_bytes v ++ rest) :
    ∃ os1, do_xdr E st (some (Item.int junk)) 1 eioINT desc =
        Res.ok (true, some (Item.int v)) { st with os := os1 } ∧
      os1.pending x.x_private = rest := by
  obtain ⟨os1, hget, hp⟩ := xdr_unsigned_decode st.os x 4
    (to_unsigned 32 (E.indeterminate : Int)) (to_unsigned 32 v) rest hdec
    (by have := to_unsigned_32_lt v; norm_num at this ⊢; exact this) hpend
  refine ⟨os1, ?_, hp⟩
  unfold do_xdr do_xdr_lock
  simp [check_nitem, hcur, hx, hr, xdr_int, hget, hdec, codec_return,
    to_signed_to_unsigned_32 v h1 h2]

theorem do_xdr_read_string (E : Env) (st : State) (f : t_fileio) (x : XDRobj)
    (s buf rest : List Nat) (desc : Str) (hcur : st.cur = some f) (hx : f.xdr = some x)
    (hdec : x.decode = true) (hr : f.bRead = true)
    (hlen : s.length + 1 < 2 ^ 32) (hbuf : s.length + 1 ≤ buf.length)
    (hpend : st.os.pending x.x_private = xdr_string_bytes s ++ rest) :
    ∃ os1, do_xdr E st (some (Item.chars buf)) 1 eioSTRING desc =
        Res.ok (true, some (Item.chars (s ++ 0 :: buf.drop (s.length + 1))))
          { st with os := os1 } ∧
      os1.pending x.x_private = rest := by
  have hu : to_unsigned 32 ((s.length : Int) + 1) = s.length + 1 := by
    have := to_unsigned_32_of_nat (s.length + 1) hlen
    push_cast at this
    exact this
  have hpend1 : st.os.pending x.x_private =
      be_bytes 4 (to_unsigned 32 ((s.length : Int) + 1)) ++ (be_bytes 4 s.length ++
        ((if s.length = 0 then []
          else s ++ List.replicate (if s.length % 4 > 0 then 4 - s.length % 4 else 0) 0) ++
          rest)) := by
    rw [hpend]; simp [xdr_string_bytes, xdr_int_bytes, List.append_assoc]
  obtain ⟨os1, hget1, hp1⟩ := xdr_unsigned_decode st.os x 4 (to_unsigned 32 0)
    (to_unsigned 32 ((s.length : Int) + 1)) _ hdec
    (by have := to_unsigned_32_lt ((s.length : Int) + 1); norm_num at this ⊢; exact this) hpend1
  obtain ⟨os2, hget2, hp2⟩ := xdr_unsigned_decode os1 x 4 0 s.length _ hdec
    (by norm_num at hlen ⊢; omega) hp1
  have hmax : to_unsigned 32 (to_signed 32 (to_unsigned 32 ((s.length : Int) + 1))) =
      s.length + 1 := by
    rw [to_unsigned_to_signed_32 _ (to_unsigned_32_lt _), hu]
  have hnz : ¬ (s.length + 1) % 4294967296 = 0 := by
    norm_num at hlen
    rw [Nat.mod_eq_of_lt hlen]; omega
  have hnb : ¬ buf.length < s.length + 1 := by omega
  unfold do_xdr do_xdr_lock
  by_cases h0 : s.length = 0
  · have hs0 : s = [] := List.length_eq_zero.1 h0
    have hbne : buf ≠ [] := by
      intro hb
      rw [hb] at hbuf
      simp at hbuf
    refine ⟨os2, ?_, ?_⟩
    · simp [hbne, check_nitem, hcur, hx, hr, xdr_int, hget1, hdec, codec_return, xdr_string,
        xdr_u_int, hget2, hmax, hnz, hnb, xdr_opaque, h0, hs0]
    · simpa [h0] using hp2
  · simp only [h0, if_false] at hp2
    rw [List.append_assoc] at hp2
    obtain ⟨os3, hget3, hp3⟩ := xdr_getbytes_pending os2 x s _ hp2
    by_cases hpad : s.length % 4 > 0
    · simp only [hpad, if_true] at hp3
      obtain ⟨os4, hget4, hp4⟩ := xdr_getbytes_pending os3 x _ _ hp3
      rw [List.length_replicate] at hget4
      refine ⟨os4, ?_, hp4⟩
      have hpad1 : ¬ (4 - s.length % 4 = 0) := by omega
      simp [check_nitem, hcur, hx, hr, xdr_int, hget1, hdec, codec_return, xdr_string,
        xdr_u_int, hget2, hmax, hnz, hnb, xdr_opaque, h0, hget3, hpad, hpad1, hget4]
    · simp only [hpad, if_false, List.replicate_zero, List.nil_append] at hp3
      refine ⟨os3, ?_, hp3⟩
      have hpad0 : s.length % 4 = 0 := by omega
      simp [check_nitem, hcur, hx, hr, xdr_int, hget1, hdec, codec_return, xdr_string,
        xdr_u_int, hget2, hmax, hnz, hnb, xdr_opaque, h0, hget3, hpad0]

theorem open_newmode_xdr (E : Env) (fn : Str) (c : Nat)
    (hftp : in_ftpset (E.fn2ftp (some fn)) ftpXDR = true)
    (hc : c = 114 ∨ c = 119 ∨ c = 97) :
    ∃ nm, open_newmode E (some fn) [c] = ModeRes.ok nm ∧ nm.head? = some c := by
  have hne : E.fn2ftp (some fn) ≠ efTPA := by
    intro h
    rw [h] at hftp
    exact absurd hftp (by decide)
  unfold open_newmode
  rcases hc with rfl | rfl | rfl
  all_goals
    simp only [hne, if_false, List.head?_cons]
    split
    · split
      · split
        · exact ⟨_, rfl, rfl⟩
        · rename_i hov; exact absurd (by decide) hov
      · exact ⟨_, rfl, rfl⟩
    · exact ⟨_, rfl, rfl⟩

theorem open_xdr_prepare_write (E : Env) (os : OS) (fn nm : Str) (h : nm.head? = some 119) :
    ∃ os1, open_xdr_prepare E os fn nm = some os1 := by
  unfold open_xdr_prepare
  simp only [h, if_true]
  split
  · split <;> exact ⟨_, rfl⟩
  · exact ⟨_, rfl⟩

theorem open_xdr_prepare_read (E : Env) (os : OS) (fn nm : Str) (ino : Nat)
    (h : nm.head? = some 114) (hl : os.lookup fn = some ino) :
    open_xdr_prepare E os fn nm = some os := by
  unfold open_xdr_prepare
  simp [h, gmx_fexist, hl]

theorem xdropen_write (os : OS) (fn nm : Str) (h : nm.head? = some 119) :
    ∃ x ino os2, xdropen os fn nm = some (x, os2) ∧ x.decode = false ∧
      writes_at_end os2 x.x_private fn ino [] := by
  obtain ⟨fp, ino, os2, hfo, hw⟩ := fopen_write os fn
  refine ⟨{ decode := false, x_private := fp }, ino, os2, ?_, rfl, hw⟩
  simp [xdropen, h, hfo]

theorem xdropen_read (os : OS) (fn nm : Str) (ino : Nat) (h : nm.head? = some 114)
    (hl : os.lookup fn = some ino) :
    ∃ x os2, xdropen os fn nm = some (x, os2) ∧ x.decode = true ∧
      os2.pending x.x_private = os.content ino := by
  obtain ⟨fp, os2, hfo, hp⟩ := fopen_read os fn ino hl
  refine ⟨{ decode := true, x_private := fp }, os2, ?_, rfl, hp⟩
  simp [xdropen, h, hfo]

theorem first_free_lt_grow (E : Env) (fs : List t_fileio) :
    first_free 0 fs < (grow_if_full E fs (first_free 0 fs)).length := by
  obtain ⟨_, h2, _, _⟩ := first_free_spec fs 0
  unfold grow_if_full
  split
  · simp only [List.length_append, List.length_singleton]; omega
  · omega

theorem gmx_fio_open_xdr_eq (E : Env) (st : State) (fn mode nm : Str) (os1 os2 : OS)
    (x : XDRobj) (hftp : in_ftpset (E.fn2ftp (some fn)) ftpXDR = true)
    (hnm : open_newmode E (some fn) mode = ModeRes.ok nm)
    (hprep : open_xdr_prepare E st.os fn nm = some os1)
    (hxo : xdropen os1 fn nm = some (x, os2)) :
    gmx_fio_open E st (some fn) mode =
      Res.ok (first_free 0 st.FIO)
        { st with
          FIO := (grow_if_full E st.FIO (first_free 0 st.FIO)).set (first_free 0 st.FIO)
            { iFTP := E.fn2ftp (some fn), bOpen := true,
              bRead := decide (nm.head? = some 114), bDouble := E.real_is_double,
              bDebug := false, bStdio := false, fn := fn, fp := some x.x_private,
              xdr := some x, bLargerThan_off_t := false },
          os := os2 } := by
  unfold gmx_fio_open
  simp only [hnm, hftp, hprep, hxo, if_true]

/-- Opening a path of a canonical-binary file type for writing returns; the
new slot holds an encoding XDR stream at the start of the empty file. -/
theorem gmx_fio_open_xdr_write (E : Env) (st : State) (fn : Str)
    (hftp : in_ftpset (E.fn2ftp (some fn)) ftpXDR = true) :
    ∃ (id : Nat) (st1 : State) (f : t_fileio) (x : XDRobj) (ino : Nat),
      gmx_fio_open E st (some fn) (cstr "w") = Res.ok id st1 ∧
      id < st1.FIO.length ∧ st1.FIO[id]? = some f ∧ f.iFTP = E.fn2ftp (some fn) ∧
      f.xdr = some x ∧ x.decode = false ∧ f.bRead = false ∧ f.bOpen = true ∧
      writes_at_end st1.os x.x_private fn ino [] := by
  have hmode : cstr "w" = [119] := by decide
  rw [hmode]
  obtain ⟨nm, hnm, hhead⟩ := open_newmode_xdr E fn 119 hftp (by decide)
  obtain ⟨os1, hprep⟩ := open_xdr_prepare_write E st.os fn nm hhead
  obtain ⟨x, ino, os2, hxo, hdec, hw⟩ := xdropen_write os1 fn nm hhead
  have hlt := first_free_lt_grow E st.FIO
  refine ⟨_, _,
    { iFTP := E.fn2ftp (some fn), bOpen := true,
      bRead := decide (nm.head? = some 114), bDouble := E.real_is_double,
      bDebug := false, bStdio := false, fn := fn, fp := some x.x_private,
      xdr := some x, bLargerThan_off_t := false },
    x, ino, gmx_fio_open_xdr_eq E st fn _ nm os1 os2 x hftp hnm hprep hxo,
    ?_, ?_, rfl, rfl, hdec, ?_, rfl, hw⟩
  · simpa using hlt
  · simp [List.getElem?_set_self hlt]
  · simp [hhead]

/-- Opening an existing path of a canonical-binary file type for reading
returns; the new slot holds a decoding XDR stream at the start of the
file. -/
theorem gmx_fio_open_xdr_read (E : Env) (st : State) (fn : Str) (ino : Nat)
    (hftp : in_ftpset (E.fn2ftp (some fn)) ftpXDR = true)
    (hl : st.os.lookup fn = some ino) :
    ∃ (id : Nat) (st1 : State) (f : t_fileio) (x : XDRobj),
      gmx_fio_open E st (some fn) (cstr "r") = Res.ok id st1 ∧
      id < st1.FIO.length ∧ st1.FIO[id]? = some f ∧ f.iFTP = E.fn2ftp (some fn) ∧
      f.xdr = some x ∧ x.decode = true ∧ f.bRead = true ∧
      st1.os.pending x.x_private = st.os.content ino := by
  have hmode : cstr "r" = [114] := by decide
  rw [hmode]
  obtain ⟨nm, hnm, hhead⟩ := open_newmode_xdr E fn 114 hftp (by decide)
  have hprep := open_xdr_prepare_read E st.os fn nm ino hhead hl
  obtain ⟨x, os2, hxo, hdec, hp⟩ := xdropen_read st.os fn nm ino hhead hl
  have hlt := first_free_lt_grow E st.FIO
  refine ⟨_, _,
    { iFTP := E.fn2ftp (some fn), bOpen := true,
      bRead := decide (nm.head? = some 114), bDouble := E.real_is_double,
      bDebug := false, bStdio := false, fn := fn, fp := some x.x_private,
      xdr := some x, bLargerThan_off_t := false },
    x, gmx_fio_open_xdr_eq E st fn _ nm st.os os2 x hftp hnm hprep hxo,
    ?_, ?_, rfl, rfl, hdec, ?_, hp⟩
  · simpa using hlt
  · simp [List.getElem?_set_self hlt]
  · simp [hhead]

theorem gmx_fio_select_xdr (st : State) (id : Nat) (f : t_fileio) (hid : id < st.FIO.length)
    (hf : st.FIO[id]? = some f) (hftp : in_ftpset f.iFTP ftpXDR = true) :
    gmx_fio_select st (id : Int) =
      Res.ok () { st with do_read := do_func.do_xdr, do_write := do_func.do_xdr,
                          curfio := some id } := by
  have h := ((gmx_fio_select_spec st (id : Int)).2 f (by omega)
    (by simp only [State.nFIO]; omega) (by simpa using hf)).1 hftp
  simpa using h

theorem gmx_fio_close_xdr (st : State) (id : Nat) (f : t_fileio) (x : XDRobj)
    (hid : id < st.FIO.length) (hf : st.FIO[id]? = some f) (ho : f.bOpen = true)
    (hftp : in_ftpset f.iFTP ftpXDR = true) (hx : f.xdr = some x) :
    ∃ rc, gmx_fio_close st (id : Int) =
      Res.ok rc { st with FIO := st.FIO.set id { f with bOpen := false },
                          do_read := do_func.do_dummy, do_write := do_func.do_dummy,
                          os := (fclose st.os x.x_private).2 } := by
  have hchk : gmx_fio_check st (id : Int) = true := by
    simp only [gmx_fio_check, State.nFIO, decide_eq_true_eq]; omega
  unfold gmx_fio_close gmx_fio_close_lock
  simp [hchk, hf, ho, hftp, hx, xdrclose]

/-- C1: the canonical-binary round trip.  For every path of a file type in
`ftpXDR`, every 32-bit int `v` and every NUL-free string `s` (whose length
plus one fits the 4-byte length field): opening the path for writing,
selecting it, writing `v` with kind INT and `s` with kind STRING, closing,
reopening for reading, selecting, and reading an INT and a STRING into a
buffer that holds `s` and its terminator returns; all four transfers return
TRUE, the int read is `v` and the string left in the buffer is `s`. -/
theorem canonical_int_string_roundtrip (E : Env) (st : State) (fn : Str) (v junk : Int)
    (s buf : List Nat) (hftp : in_ftpset (E.fn2ftp (some fn)) ftpXDR = true)
    (hv1 : -(2 : Int) ^ 31 ≤ v) (hv2 : v < (2 : Int) ^ 31)
    (hs : ∀ c ∈ s, c ≠ cNUL) (hlen : s.length + 1 < 2 ^ 32)
    (hbuf : s.length + 1 ≤ buf.length) :
    (∃ st1 : State,
      write_then_read E st fn [(Item.int v, eioINT), (Item.chars s, eioSTRING)]
          [(Item.int junk, eioINT), (Item.chars buf, eioSTRING)] =
        Res.ok ([true, true],
          [(true, some (Item.int v)),
           (true, some (Item.chars (s ++ 0 :: buf.drop (s.length + 1))))]) st1) ∧
    c_str (s ++ 0 :: buf.drop (s.length + 1)) = s := by
  constructor
  · obtain ⟨id, st1, f, x, ino, hopen, hid, hf, hiftp, hx, henc, hr, hob, hw⟩ :=
      gmx_fio_open_xdr_write E st fn hftp
    have hfx : in_ftpset f.iFTP ftpXDR = true := by rw [hiftp]; exact hftp
    have hsel := gmx_fio_select_xdr st1 id f hid hf hfx
    generalize hst2 : ({ st1 with do_read := do_func.do_xdr, do_write := do_func.do_xdr,
                                  curfio := some id } : State) = st2 at hsel
    have hFIO2 : st2.FIO = st1.FIO := by rw [← hst2]
    have hos2 : st2.os = st1.os := by rw [← hst2]
    have hdw2 : st2.do_write = do_func.do_xdr := by rw [← hst2]
    have hcur2 : st2.cur = some f := by rw [← hst2]; simpa [State.cur] using hf
    have hwi := do_xdr_write_int E st2 f x v [] hcur2 hx henc hr
    have hw3 := write_at_end hw (xdr_int_bytes v)
    rw [← hos2] at hw3
    generalize hst3 : ({ st2 with os := st2.os.write x.x_private (xdr_int_bytes v) } : State)
      = st3 at hwi
    have hos3 : st3.os = st2.os.write x.x_private (xdr_int_bytes v) := by rw [← hst3]
    have hdw3 : st3.do_write = do_func.do_xdr := by rw [← hst3]; exact hdw2
    have hcur3 : st3.cur = some f := by rw [← hst3]; exact hcur2
    obtain ⟨os4, hws, hw4⟩ := do_xdr_write_string E st3 f x s [] hcur3 hx henc hr hs hlen
    have hw5 := hw4 fn ino _ (by rw [hos3]; exact hw3)
    generalize hst4 : ({ st3 with os := os4 } : State) = st4 at hws
    have hFIO4 : st4.FIO = st1.FIO := by rw [← hst4, ← hst3]; exact hFIO2
    obtain ⟨rc, hclose⟩ := gmx_fio_close_xdr st4 id f x (by rw [hFIO4]; exact hid)
      (by rw [hFIO4]; exact hf) hob hfx hx
    have hos4 : st4.os = os4 := by rw [← hst4]
    rw [hos4] at hclose
    obtain ⟨hkc, hkl⟩ := fclose_keeps_file os4 x.x_private fn ino
    obtain ⟨_, hc5, hl5⟩ := hw5
    generalize hst5 : ({ st4 with FIO := st4.FIO.set id { f with bOpen := false },
                                  do_read := do_func.do_dummy, do_write := do_func.do_dummy,
                                  os := (fclose os4 x.x_private).2 } : State) = st5 at hclose
    have hos5 : st5.os = (fclose os4 x.x_private).2 := by rw [← hst5]
    obtain ⟨id2, st6, f2, x2, hopen2, hid2, hf2, hiftp2, hx2, hdec2, hr2, hp6⟩ :=
      gmx_fio_open_xdr_read E st5 fn ino hftp (by rw [hos5, hkl]; exact hl5)
    have hfx2 : in_ftpset f2.iFTP ftpXDR = true := by rw [hiftp2]; exact hftp
    have hsel2 := gmx_fio_select_xdr st6 id2 f2 hid2 hf2 hfx2
    have hpend : st6.os.pending x2.x_private = xdr_int_bytes v ++ xdr_string_bytes s := by
      rw [hp6, hos5, hkc, hc5]; simp
    generalize hst7 : ({ st6 with do_read := do_func.do_xdr, do_write := do_func.do_xdr,
                                  curfio := some id2 } : State) = st7 at hsel2
    have hdr7 : st7.do_read = do_func.do_xdr := by rw [← hst7]
    have hcur7 : st7.cur = some f2 := by rw [← hst7]; simpa [State.cur] using hf2
    have hos7 : st7.os = st6.os := by rw [← hst7]
    obtain ⟨os8, hri, hp8⟩ := do_xdr_read_int E st7 f2 x2 v junk (xdr_string_bytes s) []
      hcur7 hx2 hdec2 hr2 hv1 hv2 (by rw [hos7]; exact hpend)
    generalize hst8 : ({ st7 with os := os8 } : State) = st8 at hri
    have hdr8 : st8.do_read = do_func.do_xdr := by rw [← hst8]; exact hdr7
    have hcur8 : st8.cur = some f2 := by rw [← hst8]; exact hcur7
    have hos8 : st8.os = os8 := by rw [← hst8]
    obtain ⟨os9, hrs, _⟩ := do_xdr_read_string E st8 f2 x2 s buf [] [] hcur8 hx2 hdec2 hr2
      hlen hbuf (by rw [hos8]; simpa using hp8)
    refine ⟨{ st8 with os := os9 }, ?_⟩
    simp only [write_then_read, Res.bind, hopen, hsel, write_items, read_items, call_do_write,
      call_do_read, call_do_func, hdw2, hdw3, hdr7, hdr8, hwi, hws, hclose, hopen2, hsel2, hri,
      hrs]
  · have hgen : ∀ (t : List Nat) (tail : List Nat), (∀ c ∈ t, c ≠ cNUL) →
        c_str (t ++ 0 :: tail) = t := by
      intro t tail ht
      induction t with
      | nil => simp [c_str, cNUL]
      | cons c cs ih =>
        have hc : c ≠ cNUL := ht c (List.mem_cons_self _ _)
        simp [c_str, hc, ih (fun d hd => ht d (List.mem_cons_of_mem _ hd))]
    exact hgen s _ hs

/-- Witness for C1: the scenario of the specification with `v = 42` and
`s = "hello world"`, on the path `run.tpr` in a fresh process. -/
theorem canonical_int_string_roundtrip_witness :
    (∃ st1 : State,
      write_then_read demo_env (State.initial empty_os) (cstr "run.tpr")
          [(Item.int 42, eioINT), (Item.chars (cstr "hello world"), eioSTRING)]
          [(Item.int 0, eioINT), (Item.chars (List.replicate 16 0), eioSTRING)] =
        Res.ok ([true, true],
          [(true, some (Item.int 42)),
           (true, some (Item.chars (cstr "hello world" ++
              0 :: (List.replicate 16 0).drop ((cstr "hello world").length + 1))))]) st1) ∧
    c_str (cstr "hello world" ++
        0 :: (List.replicate 16 0).drop ((cstr "hello world").length + 1)) =
      cstr "hello world" :=
  canonical_int_string_roundtrip demo_env (State.initial empty_os) (cstr "run.tpr") 42 0
    (cstr "hello world") (List.replicate 16 0) (by decide) (by decide) (by decide) (by decide)
    (by decide) (by decide)

/-! ## Truncation in `encode_string` / `decode_string` -/

theorem encode_loop_take (maxlen : Int) (s : List Nat) :
    ∀ i : Nat, (∀ c ∈ s, c ≠ cNUL) → (i : Int) ≤ maxlen - 1 →
      maxlen - 1 ≤ (i : Int) + s.length →
      encode_loop maxlen i s =
        ((s.take (maxlen - 1 - i).toNat).map
            (fun c => if c = cSPACE ∨ c = cTAB then cUNDERSCORE else c),
          (maxlen - 1).toNat) := by
  induction s with
  | nil =>
    intro i _ hi hlen
    simp only [List.length_nil, Nat.cast_zero, add_zero] at hlen
    simp only [encode_loop, List.take_nil, List.map_nil, Prod.mk.injEq, true_and]
    omega
  | cons c cs ih =>
    intro i h0 hi hlen
    have hc : c ≠ cNUL := h0 c (List.mem_cons_self _ _)
    by_cases hlt : (i : Int) < maxlen - 1
    · have ih1 := ih (i + 1) (fun d hd => h0 d (List.mem_cons_of_mem _ hd))
        (by push_cast; omega)
        (by simp only [List.length_cons] at hlen; push_cast at hlen ⊢; omega)
      have hk : (maxlen - 1 - (i : Int)).toNat = (maxlen - 1 - ((i + 1 : Nat) : Int)).toNat + 1 := by
        push_cast; omega
      simp only [encode_loop, hc, hlt, ne_eq, not_false_eq_true, and_self, if_true, ih1, hk,
        List.take_succ_cons, List.map_cons]
    · have hk : (maxlen - 1 - (i : Int)).toNat = 0 := by omega
      simp only [encode_loop, hlt, and_false, if_false, hk, List.take_zero, List.map_nil,
        Prod.mk.injEq, true_and]
      omega

theorem decode_loop_take (maxlen : Int) (s : List Nat) :
    ∀ i : Nat, (∀ c ∈ s, c ≠ cNUL) → (i : Int) ≤ maxlen - 1 →
      maxlen - 1 ≤ (i : Int) + s.length →
      decode_loop maxlen i s =
        ((s.take (maxlen - 1 - i).toNat).map (fun c => if c = cUNDERSCORE then cSPACE else c),
          (maxlen - 1).toNat) := by
  induction s with
  | nil =>
    intro i _ hi hlen
    simp only [List.length_nil, Nat.cast_zero, add_zero] at hlen
    simp only [decode_loop, List.take_nil, List.map_nil, Prod.mk.injEq, true_and]
    omega
  | cons c cs ih =>
    intro i h0 hi hlen
    have hc : c ≠ cNUL := h0 c (List.mem_cons_self _ _)
    by_cases hlt : (i : Int) < maxlen - 1
    · have ih1 := ih (i + 1) (fun d hd => h0 d (List.mem_cons_of_mem _ hd))
        (by push_cast; omega)
        (by simp only [List.length_cons] at hlen; push_cast at hlen ⊢; omega)
      have hk : (maxlen - 1 - (i : Int)).toNat = (maxlen - 1 - ((i + 1 : Nat) : Int)).toNat + 1 := by
        push_cast; omega
      simp only [decode_loop, hc, hlt, ne_eq, not_false_eq_true, and_self, if_true, ih1, hk,
        List.take_succ_cons, List.map_cons]
    · have hk : (maxlen - 1 - (i : Int)).toNat = 0 := by omega
      simp only [decode_loop, hlt, and_false, if_false, hk, List.take_zero, List.map_nil,
        Prod.mk.injEq, true_and]
      omega

/-- C18 (the code departs from the claim): for every `maxlen ≥ 1` and every
source string of at least `maxlen` characters, `encode_string` and
`decode_string` store exactly the first `maxlen - 1` substituted characters
(the terminator follows them), but the truncation message is NOT emitted: the
loop leaves `i = maxlen - 1`, so the test `i == maxlen` that guards the
`fprintf` is false.  Both functions are total, so neither fails fatally. -/
theorem string_truncation_is_silent (maxlen : Int) (src : List Nat)
    (h1 : 1 ≤ maxlen) (h0 : ∀ c ∈ src, c ≠ cNUL) (hlen : maxlen ≤ (src.length : Int)) :
    encode_string maxlen src =
        { dst := (src.take (maxlen - 1).toNat).map
            (fun c => if c = cSPACE ∨ c = cTAB then cUNDERSCORE else c),
          truncated_msg := false } ∧
      decode_string maxlen src =
        { dst := (src.take (maxlen - 1).toNat).map
            (fun c => if c = cUNDERSCORE then cSPACE else c),
          truncated_msg := false } := by
  have he := encode_loop_take maxlen src 0 h0 (by push_cast; omega) (by push_cast; omega)
  have hd := decode_loop_take maxlen src 0 h0 (by push_cast; omega) (by push_cast; omega)
  simp only [Nat.cast_zero, sub_zero] at he hd
  have hne : ¬ (((maxlen - 1).toNat : Int) = maxlen) := by omega
  constructor
  · simp only [encode_string, he, hne, decide_False]
  · simp only [decode_string, hd, hne, decide_False]

theorem string_truncation_is_silent_witness :
    encode_string 4 (cstr "ab cdef") = { dst := cstr "ab_", truncated_msg := false } ∧
      decode_string 4 (cstr "ab_cdef") = { dst := cstr "ab ", truncated_msg := false } :=
  string_truncation_is_silent 4 (cstr "ab cdef") (by decide) (by decide) (by decide)

/-! ## Comments that follow a token without whitespace -/

/-- C17 (the code departs from the claim): on the stream `12;abc\n34\n`, in
which a `;` follows the token `12` with no whitespace in between, successive
`next_item` calls return `12`, `abc`, `34`: the `;` that ends the token is
consumed as a delimiter and the comment state is lost, so the comment text
`abc` comes back as a token, whereas the stream with its comments deleted
has the tokens `12`, `34`.  With a blank before the `;` the comment is
skipped. -/
theorem next_item_comment_after_token :
    tokens_of_file (cstr "12;abc\n34\n") = [cstr "12", cstr "abc", cstr "34"] ∧
      claimed_tokens (cstr "12;abc\n34\n") = [cstr "12", cstr "34"] ∧
      tokens_of_file (cstr "12 ;abc\n34\n") = [cstr "12", cstr "34"] := by
  decide

/-! ## Mode normalisation in `gmx_fio_open` -/

theorem open_newmode_normal (E : Env) (fn : Option Str) (mode : Str) (c : Nat)
    (hftp : E.fn2ftp fn ≠ efTPA) (hc : mode.head? = some c)
    (hrwa : c = 114 ∨ c = 119 ∨ c = 97) :
    open_newmode E fn mode =
      ModeRes.ok (if E.ftype_is_ascii (E.fn2ftp fn) then [c] else [c, 98]) := by
  unfold open_newmode
  rcases hrwa with h | h | h <;> subst h <;> simp only [hftp, if_false, hc] <;>
    cases E.ftype_is_ascii (E.fn2ftp fn) <;> decide

theorem open_newmode_bad (E : Env) (fn : Option Str) (mode : Str)
    (hftp : E.fn2ftp fn ≠ efTPA)
    (h : mode.head? ≠ some 114 ∧ mode.head? ≠ some 119 ∧ mode.head? ≠ some 97) :
    open_newmode E fn mode = ModeRes.bad_mode := by
  obtain ⟨h1, h2, h3⟩ := h
  unfold open_newmode
  simp only [hftp, if_false]

theorem gmx_fio_open_slot {E : Env} {st st1 : State} {fn : Option Str} {mode : Str}
    {id : Nat} (h : gmx_fio_open E st fn mode = Res.ok id st1) :
    ∃ (slot : t_fileio) (newmode : Str),
      open_newmode E fn mode = ModeRes.ok newmode ∧ st1.FIO[id]? = some slot ∧
      slot.bOpen = true ∧ slot.bLargerThan_off_t = false ∧
      slot.bRead = decide (newmode.head? = some 114) := by
  obtain ⟨hid, slot, os, newmode, hnm, hst, hopen, _, hl, _, hr⟩ := gmx_fio_open_ok h
  refine ⟨slot, newmode, hnm, ?_, hopen, hl, hr⟩
  have hlt := first_free_lt_grow E st.FIO
  subst hst hid
  simp only [List.getElem?_set_self hlt]

/-- C13: for every path whose file type is not `efTPA` and every mode
string, `gmx_fio_open` aborts with the mode error ("DEATH HORROR in
gmx_fio_open") if and only if the first character of the mode is none of
`r`, `w`, `a`; otherwise the mode handed to the open calls is exactly
that one character, with `b` appended when the file type is not an ASCII
type, and an open that returns leaves a handle that is a read handle if and
only if the character is `r`. -/
theorem gmx_fio_open_mode_normalised (E : Env) (st : State) (fn : Option Str) (mode : Str)
    (hftp : E.fn2ftp fn ≠ efTPA) :
    ((∃ os, gmx_fio_open E st fn mode = Res.fatal Fatal.bad_mode os) ↔
        (mode.head? ≠ some 114 ∧ mode.head? ≠ some 119 ∧ mode.head? ≠ some 97)) ∧
    ((mode.head? ≠ some 114 ∧ mode.head? ≠ some 119 ∧ mode.head? ≠ some 97) →
        gmx_fio_open E st fn mode = Res.fatal Fatal.bad_mode st.os) ∧
    (∀ c : Nat, mode.head? = some c → (c = 114 ∨ c = 119 ∨ c = 97) →
        open_newmode E fn mode =
          ModeRes.ok (if E.ftype_is_ascii (E.fn2ftp fn) then [c] else [c, 98]) ∧
        ∀ (id : Nat) (st1 : State), gmx_fio_open E st fn mode = Res.ok id st1 →
          ∃ f, st1.FIO[id]? = some f ∧ f.bOpen = true ∧ (f.bRead = true ↔ c = 114)) := by
  have hbad : (mode.head? ≠ some 114 ∧ mode.head? ≠ some 119 ∧ mode.head? ≠ some 97) →
      gmx_fio_open E st fn mode = Res.fatal Fatal.bad_mode st.os := by
    intro h
    unfold gmx_fio_open
    rw [open_newmode_bad E fn mode hftp h]
  have hgood : ∀ c : Nat, mode.head? = some c → (c = 114 ∨ c = 119 ∨ c = 97) →
      ∀ os, gmx_fio_open E st fn mode ≠ Res.fatal Fatal.bad_mode os := by
    intro c hc hrwa os h
    unfold gmx_fio_open at h
    rw [open_newmode_normal E fn mode c hftp hc hrwa] at h
    dsimp only at h
    repeat' split at h
    all_goals first
      | exact Res.noConfusion h
      | (simp only [Res.fatal.injEq] at h; exact Fatal.noConfusion h.1)
  refine ⟨⟨?_, fun h => ⟨st.os, hbad h⟩⟩, hbad, ?_⟩
  · rintro ⟨os, h⟩
    by_contra hne
    have : ∃ c, mode.head? = some c ∧ (c = 114 ∨ c = 119 ∨ c = 97) := by
      by_contra hno
      apply hne
      refine ⟨fun h1 => hno ⟨114, h1, Or.inl rfl⟩, fun h1 => hno ⟨119, h1, Or.inr (Or.inl rfl)⟩,
        fun h1 => hno ⟨97, h1, Or.inr (Or.inr rfl)⟩⟩
    obtain ⟨c, hc, hrwa⟩ := this
    exact hgood c hc hrwa os h
  · intro c hc hrwa
    have hnm := open_newmode_normal E fn mode c hftp hc hrwa
    refine ⟨hnm, ?_⟩
    intro id st1 h
    obtain ⟨slot, newmode, hnm1, hslot, hopen, _, hr⟩ := gmx_fio_open_slot h
    refine ⟨slot, hslot, hopen, ?_⟩
    rw [hnm] at hnm1
    have hhead : newmode.head? = some c := by
      simp only [ModeRes.ok.injEq] at hnm1
      rw [← hnm1]; split <;> rfl
    rw [hr, hhead]
    simp

theorem gmx_fio_open_mode_normalised_witness :
    demo_env.fn2ftp (some (cstr "a.tpr")) ≠ efTPA ∧
    (((∃ os, gmx_fio_open demo_env (State.initial empty_os) (some (cstr "a.tpr")) (cstr "wx+") =
          Res.fatal Fatal.bad_mode os) ↔
        ((cstr "wx+").head? ≠ some 114 ∧ (cstr "wx+").head? ≠ some 119 ∧
          (cstr "wx+").head? ≠ some 97)) ∧
    (((cstr "wx+").head? ≠ some 114 ∧ (cstr "wx+").head? ≠ some 119 ∧
          (cstr "wx+").head? ≠ some 97) →
        gmx_fio_open demo_env (State.initial empty_os) (some (cstr "a.tpr")) (cstr "wx+") =
          Res.fatal Fatal.bad_mode (State.initial empty_os).os) ∧
    (∀ c : Nat, (cstr "wx+").head? = some c → (c = 114 ∨ c = 119 ∨ c = 97) →
        open_newmode demo_env (some (cstr "a.tpr")) (cstr "wx+") =
          ModeRes.ok (if demo_env.ftype_is_ascii (demo_env.fn2ftp (some (cstr "a.tpr")))
            then [c] else [c, 98]) ∧
        ∀ (id : Nat) (st1 : State),
          gmx_fio_open demo_env (State.initial empty_os) (some (cstr "a.tpr")) (cstr "wx+") =
            Res.ok id st1 →
          ∃ f, st1.FIO[id]? = some f ∧ f.bOpen = true ∧ (f.bRead = true ↔ c = 114))) :=
  ⟨by decide,
    gmx_fio_open_mode_normalised demo_env (State.initial empty_os) (some (cstr "a.tpr"))
      (cstr "wx+") (by decide)⟩

theorem codec_return_ok {st st1 : State} {f : t_fileio} {good : Bool} {item : Option Item}
    {os : OS} {a : Bool × Option Item} (h : codec_return st f good item os = Res.ok a st1) :
    ∃ os1, st1 = { st with os := os1 } := by
  unfold codec_return at h
  simp only [Res.ok.injEq] at h
  exact ⟨_, h.2.symm⟩

theorem do_xdr_lock_ok {E : Env} {st st1 : State} {item : Option Item} {nitem : Int}
    {eio : Eio} {desc : Str} {a : Bool × Option Item}
    (h : do_xdr_lock E st item nitem eio desc = Res.ok a st1) :
    ∃ os1, st1 = { st with os := os1 } := by
  unfold do_xdr_lock at h
  dsimp only at h
  repeat' split at h
  all_goals first
    | exact Res.noConfusion h
    | exact codec_return_ok h

theorem do_ascwrite_ok {E : Env} {st st1 : State} {item : Option Item} {nitem : Int}
    {eio : Eio} {desc : Str} {a : Bool × Option Item}
    (h : do_ascwrite E st item nitem eio desc = Res.ok a st1) :
    ∃ os1, st1 = { st with os := os1 } := by
  unfold do_ascwrite at h
  dsimp only at h
  repeat' split at h
  all_goals first
    | exact Res.noConfusion h
    | exact codec_return_ok h

theorem asc_read_scalar_ok {st st1 : State} {f : t_fileio}
    {conv : List Nat → Option (Int × Option Item)} {a : Bool × Option Item}
    (h : asc_read_scalar st f conv = Res.ok a st1) : ∃ os1, st1 = { st with os := os1 } := by
  unfold asc_read_scalar at h
  repeat' split at h
  all_goals first
    | exact Res.noConfusion h
    | exact codec_return_ok h

theorem do_ascread_ok {E : Env} {st st1 : State} {item : Option Item} {nitem : Int}
    {eio : Eio} {desc : Str} {a : Bool × Option Item}
    (h : do_ascread E st item nitem eio desc = Res.ok a st1) :
    ∃ os1, st1 = { st with os := os1 } := by
  unfold do_ascread at h
  simp only [asc_read_return] at h
  repeat' split at h
  all_goals first
    | exact Res.noConfusion h
    | exact codec_return_ok h
    | exact asc_read_scalar_ok h

theorem bin_fwrite_ok {st st1 : State} {f : t_fileio} {item : Option Item} {mem : List Nat}
    {size : Nat} {nitem : Int} {os : OS} {a : Bool × Option Item}
    (h : bin_fwrite st f item mem size nitem os = Res.ok a st1) :
    ∃ os1, st1 = { st with os := os1 } := by
  unfold bin_fwrite at h
  repeat' split at h
  all_goals first
    | exact Res.noConfusion h
    | exact codec_return_ok h

theorem bin_fread_ok {E : Env} {st st1 : State} {f : t_fileio} {item : Option Item}
    {size nitem : Int} {os : OS} {a : Bool × Option Item}
    (h : bin_fread E st f item size nitem os = Res.ok a st1) :
    ∃ os1, st1 = { st with os := os1 } := by
  unfold bin_fread at h
  repeat' (first | split at h | dsimp only at h)
  all_goals first
    | exact Res.noConfusion h
    | exact codec_return_ok h

theorem do_binwrite_ok {E : Env} {st st1 : State} {item : Option Item} {nitem : Int}
    {eio : Eio} {desc : Str} {a : Bool × Option Item}
    (h : do_binwrite E st item nitem eio desc = Res.ok a st1) :
    ∃ os1, st1 = { st with os := os1 } := by
  unfold do_binwrite at h
  repeat' (first | split at h | dsimp only at h)
  all_goals first
    | exact Res.noConfusion h
    | exact codec_return_ok h
    | exact bin_fwrite_ok h
    | (obtain ⟨o1, h1⟩ := bin_fwrite_ok ‹bin_fwrite st _ _ _ _ _ st.os = Res.ok _ _›
       obtain ⟨o2, h2⟩ := bin_fwrite_ok h
       exact ⟨o2, by rw [h2, h1]⟩)

theorem do_binread_ok {E : Env} {st st1 : State} {item : Option Item} {nitem : Int}
    {eio : Eio} {desc : Str} {a : Bool × Option Item}
    (h : do_binread E st item nitem eio desc = Res.ok a st1) :
    ∃ os1, st1 = { st with os := os1 } := by
  unfold do_binread at h
  repeat' (first | split at h | dsimp only at h)
  all_goals first
    | exact Res.noConfusion h
    | exact codec_return_ok h
    | exact bin_fread_ok h
    | (obtain ⟨o1, h1⟩ := bin_fread_ok ‹bin_fread E st _ _ _ _ st.os = Res.ok _ _›
       obtain ⟨o2, h2⟩ := bin_fread_ok h
       exact ⟨o2, by rw [h2, h1]⟩)

theorem call_do_func_ok {E : Env} {st st1 : State} {fn : do_func} {item : Option Item}
    {nitem : Int} {eio : Eio} {desc : Str} {a : Bool × Option Item}
    (h : call_do_func fn E st item nitem eio desc = Res.ok a st1) :
    ∃ os1, st1 = { st with os := os1 } := by
  cases fn with
  | do_dummy => exact Res.noConfusion h
  | do_xdr => simp only [call_do_func, do_xdr] at h; exact do_xdr_lock_ok h
  | do_ascread => simp only [call_do_func] at h; exact do_ascread_ok h
  | do_ascwrite => simp only [call_do_func] at h; exact do_ascwrite_ok h
  | do_binread => simp only [call_do_func] at h; exact do_binread_ok h
  | do_binwrite => simp only [call_do_func] at h; exact do_binwrite_ok h

/-! ## What an operation leaves of a slot -/

theorem gmx_fio_open_other_slot {E : Env} {st st1 : State} {fn : Option Str} {mode : Str}
    {id : Nat} (h : gmx_fio_open E st fn mode = Res.ok id st1) {j : Nat} {f : t_fileio}
    (hf : st.FIO[j]? = some f) (hfo : f.bOpen = true) : j ≠ id ∧ st1.FIO[j]? = some f := by
  obtain ⟨hid, slot, os, newmode, _, hst, hopen, _⟩ := gmx_fio_open_ok h
  obtain ⟨_, h2, h3, h4⟩ := first_free_spec st.FIO 0
  simp only [Nat.sub_zero, Nat.zero_add] at h2 h3 h4
  generalize first_free 0 st.FIO = k at hid hst h2 h3 h4
  subst hid
  have hj : j < st.FIO.length := by
    by_contra hge
    rw [List.getElem?_eq_none (by omega)] at hf
    exact Option.noConfusion hf
  have hne : j ≠ id := by
    rintro rfl
    obtain ⟨g, hg, hgo⟩ := h4 hj
    rw [hf] at hg
    simp only [Option.some.injEq] at hg
    rw [hg, hgo] at hfo
    exact Bool.noConfusion hfo
  have hslots : st1.FIO = (grow_if_full E st.FIO id).set id slot := by rw [hst]
  refine ⟨hne, ?_⟩
  rw [hslots, List.getElem?_set_ne (Ne.symm hne)]
  unfold grow_if_full
  split
  · rw [List.getElem?_append_left hj]; exact hf
  · exact hf

theorem getElem?_set_cases {α : Type} (l : List α) (k i : Nat) (a f0 f : α)
    (h0 : l[k]? = some f0) (hf : l[i]? = some f) :
    (l.set k a)[i]? = some f ∨ (f = f0 ∧ (l.set k a)[i]? = some a) := by
  by_cases hik : k = i
  · subst hik
    right
    rw [h0] at hf
    simp only [Option.some.injEq] at hf
    refine ⟨hf.symm, ?_⟩
    have hlt : k < l.length := by
      by_contra hge
      rw [List.getElem?_eq_none (by omega)] at h0
      exact Option.noConfusion h0
    exact List.getElem?_set_self hlt
  · left
    rw [List.getElem?_set_ne hik]; exact hf

theorem gmx_fio_select_ok {st st1 : State} {fio : Int}
    (h : gmx_fio_select st fio = Res.ok () st1) :
    st1.FIO = st.FIO ∧ st1.os = st.os ∧ st1.add_comment = st.add_comment := by
  unfold gmx_fio_select at h
  repeat' split at h
  all_goals first
    | exact Res.noConfusion h
    | (simp only [Res.ok.injEq, true_and] at h; subst h; exact ⟨rfl, rfl, rfl⟩)

theorem gmx_fio_rewind_ok {st st1 : State} {fio : Int}
    (h : gmx_fio_rewind st fio = Res.ok () st1) :
    st1.FIO = st.FIO ∨
      ∃ (f0 : t_fileio) (x1 : XDRobj), st.FIO[fio.toNat]? = some f0 ∧
        st1.FIO = st.FIO.set fio.toNat { f0 with xdr := some x1 } := by
  unfold gmx_fio_rewind at h
  repeat' split at h
  all_goals first
    | exact Res.noConfusion h
    | (simp only [Res.ok.injEq, true_and] at h; subst h; exact Or.inl rfl)
    | (simp only [Res.ok.injEq, true_and] at h; subst h
       exact Or.inr ⟨_, _, by assumption, rfl⟩)

theorem gmx_fio_seek_ok {st st1 : State} {fio fpos : Int}
    (h : gmx_fio_seek st fio fpos = Res.ok () st1) : st1.FIO = st.FIO := by
  unfold gmx_fio_seek at h
  repeat' split at h
  all_goals first
    | exact Res.noConfusion h
    | (simp only [Res.ok.injEq, true_and] at h; subst h; rfl)

theorem gmx_fio_check_file_position_ok {E : Env} {st st1 : State} {fio rc : Int}
    (h : gmx_fio_check_file_position E st fio = Res.ok rc st1) :
    st1 = st ∨
      ∃ (f0 : t_fileio) (offset : Int), E.small_off_t = true ∧
        gmx_fio_get_file_position st fio = Res.ok offset st ∧
        (offset < 0 ∨ offset > 2147483647) ∧ st.FIO[fio.toNat]? = some f0 ∧
        st1 = { st with FIO := st.FIO.set fio.toNat { f0 with bLargerThan_off_t := true } } := by
  unfold gmx_fio_check_file_position at h
  split at h
  · split at h
    · rename_i offset st2 hpos
      have hst := gmx_fio_get_file_position_state hpos
      subst hst
      split at h
      · split at h
        · simp only [Res.ok.injEq] at h
          exact Or.inr ⟨_, offset, by assumption, hpos, by assumption, by assumption, h.2.symm⟩
        · exact Res.noConfusion h
      · simp only [Res.ok.injEq] at h
        exact Or.inl h.2.symm
    · exact Res.noConfusion h
    · exact Res.noConfusion h
  · simp only [Res.ok.injEq] at h
    exact Or.inl h.2.symm

/-- What an operation that returns leaves of a slot: the slot is still
there, with the same path, standard-stream flag and direction; the
large-offset flag, once set, stays set; the file type changes only by
`gmx_fio_setftp`; the in-use flag changes only by a close.  A slot that is
not in use is covered for every operation other than an open. -/
theorem Op.run_slot {E : Env} {st st1 : State} {op : Op} (h : op.run E st = Res.ok () st1)
    {i : Nat} {f : t_fileio} (hf : st.FIO[i]? = some f)
    (ho : f.bOpen = true ∨ op.is_open = false) :
    ∃ f1, st1.FIO[i]? = some f1 ∧ f1.fn = f.fn ∧ f1.bStdio = f.bStdio ∧ f1.bRead = f.bRead ∧
      (f.bLargerThan_off_t = true → f1.bLargerThan_off_t = true) ∧
      (op.is_setftp = false → f1.iFTP = f.iFTP) ∧
      (op.is_close = false → f1.bOpen = f.bOpen) := by
  have same : st1.FIO = st.FIO → ∃ f1, st1.FIO[i]? = some f1 ∧ f1.fn = f.fn ∧
      f1.bStdio = f.bStdio ∧ f1.bRead = f.bRead ∧
      (f.bLargerThan_off_t = true → f1.bLargerThan_off_t = true) ∧
      (op.is_setftp = false → f1.iFTP = f.iFTP) ∧
      (op.is_close = false → f1.bOpen = f.bOpen) := by
    intro hs
    exact ⟨f, by rw [hs]; exact hf, rfl, rfl, rfl, fun x => x, fun _ => rfl, fun _ => rfl⟩
  have upd : ∀ (k : Nat) (f0 f' : t_fileio), st.FIO[k]? = some f0 →
      st1.FIO = st.FIO.set k f' → f'.fn = f0.fn → f'.bStdio = f0.bStdio → f'.bRead = f0.bRead →
      (f0.bLargerThan_off_t = true → f'.bLargerThan_off_t = true) →
      (op.is_setftp = false → f'.iFTP = f0.iFTP) →
      (op.is_close = false → f'.bOpen = f0.bOpen) →
      ∃ f1, st1.FIO[i]? = some f1 ∧ f1.fn = f.fn ∧
      f1.bStdio = f.bStdio ∧ f1.bRead = f.bRead ∧
      (f.bLargerThan_off_t = true → f1.bLargerThan_off_t = true) ∧
      (op.is_setftp = false → f1.iFTP = f.iFTP) ∧
      (op.is_close = false → f1.bOpen = f.bOpen) := by
    intro k f0 f' h0 hs a1 a2 a3 a4 a5 a6
    rcases getElem?_set_cases st.FIO k i f' f0 f h0 hf with hc | ⟨hc1, hc2⟩
    · exact ⟨f, by rw [hs]; exact hc, rfl, rfl, rfl, fun x => x, fun _ => rfl, fun _ => rfl⟩
    · subst hc1
      exact ⟨f', by rw [hs]; exact hc2, a1, a2, a3, a4, a5, a6⟩
  cases op with
  | fio_open fn mode =>
    obtain ⟨a, ha⟩ := Res.void_ok h
    rcases ho with ho | ho
    · exact ⟨f, (gmx_fio_open_other_slot ha hf ho).2, rfl, rfl, rfl, fun x => x, fun _ => rfl,
        fun _ => rfl⟩
    · exact Bool.noConfusion ho
  | fopen fn mode =>
    obtain ⟨a, ha⟩ := Res.void_ok h
    rcases ho with ho | ho
    · unfold gmx_fio_fopen at ha
      repeat' split at ha
      all_goals first
        | exact Res.noConfusion ha
        | (simp only [Res.ok.injEq] at ha
           obtain ⟨_, rfl⟩ := ha
           exact ⟨f, (gmx_fio_open_other_slot (by assumption) hf ho).2, rfl, rfl, rfl,
             fun x => x, fun _ => rfl, fun _ => rfl⟩)
    · exact Bool.noConfusion ho
  | close fio =>
    obtain ⟨a, ha⟩ := Res.void_ok h
    obtain ⟨_, f0, _, h0, _, hst⟩ := gmx_fio_close_lock_ok ha
    subst hst
    exact upd _ f0 _ h0 rfl rfl rfl rfl (fun x => x) (fun _ => rfl)
      (fun x => Bool.noConfusion x)
  | fclose fp =>
    obtain ⟨a, ha⟩ := Res.void_ok h
    unfold gmx_fio_fclose at ha
    split at ha
    · simp only [Res.ok.injEq] at ha; exact same (by rw [← ha.2])
    · obtain ⟨_, f0, _, h0, _, hst⟩ := gmx_fio_close_lock_ok ha
      subst hst
      exact upd _ f0 _ h0 rfl rfl rfl rfl (fun x => x) (fun _ => rfl)
        (fun x => Bool.noConfusion x)
  | select fio => exact same (gmx_fio_select_ok h).1
  | setprecision fio b =>
    obtain ⟨_, f0, h0, hst⟩ := update_slot_ok h
    subst hst
    exact upd _ f0 _ h0 rfl rfl rfl rfl (fun x => x) (fun _ => rfl) (fun _ => rfl)
  | setdebug fio b =>
    obtain ⟨_, f0, h0, hst⟩ := update_slot_ok h
    subst hst
    exact upd _ f0 _ h0 rfl rfl rfl rfl (fun x => x) (fun _ => rfl) (fun _ => rfl)
  | setftp fio b =>
    obtain ⟨_, f0, h0, hst⟩ := update_slot_ok h
    subst hst
    exact upd _ f0 _ h0 rfl rfl rfl rfl (fun x => x)
      (fun x => Bool.noConfusion x) (fun _ => rfl)
  | getdebug fio =>
    obtain ⟨a, ha⟩ := Res.void_ok h
    exact same (by rw [read_slot_state ha])
  | getftp fio =>
    obtain ⟨a, ha⟩ := Res.void_ok h
    exact same (by rw [read_slot_state ha])
  | getfp fio =>
    obtain ⟨a, ha⟩ := Res.void_ok h
    exact same (by rw [read_slot_state ha])
  | getxdr fio =>
    obtain ⟨a, ha⟩ := Res.void_ok h
    exact same (by rw [read_slot_state ha])
  | getread fio =>
    obtain ⟨a, ha⟩ := Res.void_ok h
    exact same (by rw [read_slot_state ha])
  | ftell fio =>
    obtain ⟨a, ha⟩ := Res.void_ok h
    exact same (by rw [gmx_fio_ftell_state ha])
  | getname fio =>
    obtain ⟨a, ha⟩ := Res.void_ok h
    unfold gmx_fio_getname at ha
    repeat' split at ha
    all_goals first
      | exact Res.noConfusion ha
      | (simp only [Res.ok.injEq] at ha; exact same (by rw [← ha.2]))
  | rewind fio =>
    rcases gmx_fio_rewind_ok h with hs | ⟨f0, x1, h0, hs⟩
    · exact same hs
    · exact upd _ f0 _ h0 hs rfl rfl rfl (fun x => x) (fun _ => rfl) (fun _ => rfl)
  | seek fio fpos => exact same (gmx_fio_seek_ok h)
  | flush fio =>
    obtain ⟨a, ha⟩ := Res.void_ok h
    exact same (by rw [gmx_fio_flush_lock_state ha])
  | check_file_position fio =>
    obtain ⟨a, ha⟩ := Res.void_ok h
    rcases gmx_fio_check_file_position_ok ha with hs | ⟨f0, _, _, _, _, h0, hs⟩
    · exact same (by rw [hs])
    · subst hs
      exact upd _ f0 _ h0 rfl rfl rfl rfl (fun _ => rfl) (fun _ => rfl) (fun _ => rfl)
  | get_output_file_positions =>
    obtain ⟨a, ha⟩ := Res.void_ok h
    exact same (by rw [output_positions_loop_state _ _ _ _ _ _ _ _ ha])
  | set_comment c =>
    simp only [Op.run, Res.ok.injEq, true_and] at h
    exact same (by rw [← h]; unfold Gmxfio.set_comment; split <;> rfl)
  | unset_comment =>
    simp only [Op.run, Res.ok.injEq, true_and] at h
    exact same (by rw [← h]; rfl)
  | read item nitem eio desc =>
    obtain ⟨a, ha⟩ := Res.void_ok h
    obtain ⟨o, hs⟩ := call_do_func_ok ha
    exact same (by rw [hs])
  | write item nitem eio desc =>
    obtain ⟨a, ha⟩ := Res.void_ok h
    obtain ⟨o, hs⟩ := call_do_func_ok ha
    exact same (by rw [hs])

/-! ## The large-offset flag -/

theorem output_positions_loop_records (E : Env) (st : State) (rest : List t_fileio) :
    ∀ (i : Nat) (out : List gmx_file_position_t) (n : Nat) (r : List gmx_file_position_t × Nat)
      (st1 : State), output_positions_loop E st i rest out n = Res.ok r st1 →
      ∃ recs : List gmx_file_position_t, r.1 = out ++ recs ∧
        ∀ (k : Nat) (f : t_fileio), (rest.filter is_output_slot)[k]? = some f →
          ∃ rec, recs[k]? = some rec ∧ rec.filename = strncpy f.fn (E.STRLEN - 1) ∧
            (f.bLargerThan_off_t = true → rec.offset = -1) := by
  induction rest with
  | nil =>
    intro i out n r st1 h
    simp only [output_positions_loop, Res.ok.injEq] at h
    refine ⟨[], by rw [← h.1]; simp, ?_⟩
    intro k f hk
    simp at hk
  | cons g rest ih =>
    intro i out n r st1 h
    unfold output_positions_loop at h
    by_cases hout : is_output_slot g = true
    · have hcond : (g.bOpen && !g.bRead && !g.bStdio && decide (g.iFTP ≠ efCPT)) = true := hout
      simp only [hcond, if_true] at h
      have key : ∀ off : Int, (g.bLargerThan_off_t = true → off = -1) →
          output_positions_loop E st (i + 1) rest
            (out ++ [{ filename := strncpy g.fn (E.STRLEN - 1), offset := off }]) (n + 1) =
            Res.ok r st1 →
          ∃ recs : List gmx_file_position_t, r.1 = out ++ recs ∧
            ∀ (k : Nat) (f : t_fileio), ((g :: rest).filter is_output_slot)[k]? = some f →
              ∃ rec, recs[k]? = some rec ∧ rec.filename = strncpy f.fn (E.STRLEN - 1) ∧
                (f.bLargerThan_off_t = true → rec.offset = -1) := by
        intro off hoff h1
        obtain ⟨recs, hr, hrec⟩ := ih _ _ _ _ _ h1
        refine ⟨{ filename := strncpy g.fn (E.STRLEN - 1), offset := off } :: recs,
          by rw [hr]; simp, ?_⟩
        intro k f hk
        simp only [List.filter_cons, hout, if_true] at hk
        cases k with
        | zero =>
          simp only [List.getElem?_cons_zero, Option.some.injEq] at hk
          subst hk
          exact ⟨{ filename := strncpy g.fn (E.STRLEN - 1), offset := off },
            List.getElem?_cons_zero, rfl, hoff⟩
        | succ k =>
          simp only [List.getElem?_cons_succ] at hk
          obtain ⟨rec, h1, h2, h3⟩ := hrec k f hk
          exact ⟨rec, by simpa using h1, h2, h3⟩
      by_cases hbig : g.bLargerThan_off_t = true
      · simp only [hbig, if_true] at h
        exact key (-1) (fun _ => rfl) h
      · have hbig0 : g.bLargerThan_off_t = false := by simpa using hbig
        simp only [hbig0, Bool.false_eq_true, if_false] at h
        split at h
        · exact key _ (fun hb => absurd hb hbig) h
        · exact Res.noConfusion h
        · exact Res.noConfusion h
    · have hcond : (g.bOpen && !g.bRead && !g.bStdio && decide (g.iFTP ≠ efCPT)) = false := by
        simpa [is_output_slot] using hout
      simp only [hcond, Bool.false_eq_true, if_false] at h
      obtain ⟨recs, hr, hrec⟩ := ih _ _ _ _ _ h
      refine ⟨recs, hr, ?_⟩
      intro k f hk
      have hout0 : is_output_slot g = false := by simpa using hout
      simp only [List.filter_cons, hout0, Bool.false_eq_true, if_false] at hk
      exact hrec k f hk

theorem filter_index {α : Type} (p : α → Bool) (l : List α) :
    ∀ (i : Nat) (a : α), l[i]? = some a → p a = true →
      (l.filter p)[(l.take i).countP p]? = some a := by
  induction l with
  | nil => intro i a h; simp at h
  | cons b l ih =>
    intro i a h hp
    cases i with
    | zero =>
      simp only [List.getElem?_cons_zero, Option.some.injEq] at h
      subst h
      simp [List.filter_cons, hp]
    | succ i =>
      simp only [List.getElem?_cons_succ] at h
      have := ih i a h hp
      by_cases hb : p b = true
      · simp [List.filter_cons, hb, List.take_succ_cons, List.countP_cons, this]
      · simp [List.filter_cons, hb, List.take_succ_cons, List.countP_cons, this]

theorem slot_open_iff {st : State} {i : Nat} (h : slot_open st i = true) :
    ∃ f, st.FIO[i]? = some f ∧ f.bOpen = true := by
  unfold slot_open at h
  split at h
  · exact ⟨_, by assumption, h⟩
  · exact Bool.noConfusion h

theorem stays_open_last (E : Env) (i : Nat) (ops : List Op) :
    ∀ (st st1 : State), stays_open E i ops st = true → run_ops E ops st = some st1 →
      slot_open st1 i = true := by
  induction ops with
  | nil =>
    intro st st1 h hr
    simp only [run_ops, Option.some.injEq] at hr
    subst hr
    exact h
  | cons op rest ih =>
    intro st st1 h hr
    unfold stays_open at h
    unfold run_ops at hr
    split at hr
    · rename_i u st2 hop
      simp only [hop, Bool.and_eq_true] at h
      exact ih st2 st1 h.2 hr
    · exact Option.noConfusion hr

theorem flag_kept_while_open (E : Env) (i : Nat) (ops : List Op) :
    ∀ (st st1 : State) (f : t_fileio), st.FIO[i]? = some f → f.bLargerThan_off_t = true →
      stays_open E i ops st = true → run_ops E ops st = some st1 →
      ∃ f1, st1.FIO[i]? = some f1 ∧ f1.bOpen = true ∧ f1.bLargerThan_off_t = true := by
  induction ops with
  | nil =>
    intro st st1 f hf hflag h hr
    simp only [run_ops, Option.some.injEq] at hr
    subst hr
    obtain ⟨g, hg, hgo⟩ := slot_open_iff h
    rw [hf] at hg
    simp only [Option.some.injEq] at hg
    subst hg
    exact ⟨f, hf, hgo, hflag⟩
  | cons op rest ih =>
    intro st st1 f hf hflag h hr
    unfold stays_open at h
    unfold run_ops at hr
    split at hr
    · rename_i u st2 hop
      simp only [hop, Bool.and_eq_true] at h
      obtain ⟨g, hg, hgo⟩ := slot_open_iff h.1
      rw [hf] at hg
      simp only [Option.some.injEq] at hg
      subst hg
      obtain ⟨f2, hf2, _, _, _, hflag2, _⟩ := Op.run_slot hop hf (Or.inl hgo)
      exact ih st2 st1 f2 hf2 (hflag2 hflag) h.2 hr
    · exact Option.noConfusion hr

/-- C15: on a platform with a 4-byte offset type (or without `ftello`),
`gmx_fio_check_file_position` sets the `bLargerThan_off_t` flag of the
handle when the probed offset is negative or greater than 2147483647 and
otherwise leaves the state as it is (so the flag is never cleared); on other
platforms it changes nothing.  No operation other than an open that takes the
slot resets the flag: an operation that returns leaves a set flag set, for
every open slot and, when the operation is not an open, for every slot.  So
once the flag is set, after any operations during which the handle stays
open, a `gmx_fio_get_output_file_positions` that returns carries for that
handle, when it is an output handle, the record with offset -1. -/
theorem large_offset_flag_sticky (E : Env) :
    (E.small_off_t = true →
      ∀ (st : State) (fio offset : Int) (f0 : t_fileio),
        gmx_fio_get_file_position st fio = Res.ok offset st →
        st.FIO[fio.toNat]? = some f0 →
        gmx_fio_check_file_position E st fio =
          Res.ok 0 (if offset < 0 ∨ offset > 2147483647 then
            { st with FIO := st.FIO.set fio.toNat { f0 with bLargerThan_off_t := true } }
            else st)) ∧
    (E.small_off_t = false →
      ∀ (st : State) (fio : Int), gmx_fio_check_file_position E st fio = Res.ok 0 st) ∧
    (∀ (op : Op) (st st1 : State) (i : Nat) (f : t_fileio),
      op.run E st = Res.ok () st1 → st.FIO[i]? = some f → f.bLargerThan_off_t = true →
      (f.bOpen = true ∨ op.is_open = false) →
      ∃ f1, st1.FIO[i]? = some f1 ∧ f1.bLargerThan_off_t = true) ∧
    (∀ (ops : List Op) (st st1 : State) (i : Nat) (f : t_fileio),
      st.FIO[i]? = some f → f.bLargerThan_off_t = true →
      stays_open E i ops st = true → run_ops E ops st = some st1 →
      ∃ f1, st1.FIO[i]? = some f1 ∧ f1.bOpen = true ∧ f1.bLargerThan_off_t = true ∧
        ∀ (recs : List gmx_file_position_t) (n : Nat) (st2 : State),
          gmx_fio_get_output_file_positions E st1 = Res.ok (recs, n) st2 →
          is_output_slot f1 = true →
          recs[(st1.FIO.take i).countP is_output_slot]? =
            some { filename := strncpy f1.fn (E.STRLEN - 1), offset := -1 }) := by
  refine ⟨?_, ?_, ?_, ?_⟩
  · intro hsmall st fio offset f0 hpos hf0
    unfold gmx_fio_check_file_position
    simp only [hsmall, if_true, hpos, hf0]
    split <;> rfl
  · intro hsmall st fio
    unfold gmx_fio_check_file_position
    simp only [hsmall, Bool.false_eq_true, if_false]
  · intro op st st1 i f h hf hflag ho
    obtain ⟨f1, hf1, _, _, _, h4, _⟩ := Op.run_slot h hf ho
    exact ⟨f1, hf1, h4 hflag⟩
  · intro ops st st1 i f hf hflag hstay hrun
    obtain ⟨f1, hf1, hopen, hflag1⟩ := flag_kept_while_open E i ops st st1 f hf hflag hstay hrun
    refine ⟨f1, hf1, hopen, hflag1, ?_⟩
    intro recs n st2 hget hout
    unfold gmx_fio_get_output_file_positions at hget
    obtain ⟨recs1, hr, hrec⟩ := output_positions_loop_records E st1 st1.FIO 0 [] 0 _ _ hget
    simp only [List.nil_append] at hr
    subst hr
    obtain ⟨rec, h1, h2, h3⟩ := hrec _ f1 (filter_index is_output_slot st1.FIO i f1 hf1 hout)
    rw [h1]
    congr 1
    cases rec with
    | mk fnm off =>
      simp only at h2 h3
      rw [h2, h3 hflag1]
theorem run_ops_of_isSome {E : Env} {o : List Op} {s : State}
    (h : (run_ops E o s).isSome = true) : ∃ st1, run_ops E o s = some st1 :=
  Option.isSome_iff_exists.mp h

theorem flag_of_eval {s : State} {i : Nat}
    (h : (match s.FIO[i]? with
          | some f => f.bLargerThan_off_t
          | none => false) = true) :
    ∃ f, s.FIO[i]? = some f ∧ f.bLargerThan_off_t = true := by
  split at h
  · exact ⟨_, by assumption, h⟩
  · exact Bool.noConfusion h

theorem large_offset_flag_sticky_witness :
    ∃ (st1 : State) (f1 : t_fileio),
      run_ops demo_env_small_off_t [Op.setdebug 0 true, Op.select 0, Op.flush 0]
        demo_state_large_offset = some st1 ∧
      st1.FIO[0]? = some f1 ∧ f1.bOpen = true ∧ f1.bLargerThan_off_t = true ∧
      ∀ (recs : List gmx_file_position_t) (n : Nat) (st2 : State),
        gmx_fio_get_output_file_positions demo_env_small_off_t st1 = Res.ok (recs, n) st2 →
        is_output_slot f1 = true →
        recs[(st1.FIO.take 0).countP is_output_slot]? =
          some { filename := strncpy f1.fn (demo_env_small_off_t.STRLEN - 1), offset := -1 } := by
  obtain ⟨st1, h1⟩ := run_ops_of_isSome
    (E := demo_env_small_off_t) (s := demo_state_large_offset)
    (o := [Op.setdebug 0 true, Op.select 0, Op.flush 0]) (by decide)
  obtain ⟨f, hf, hflag⟩ := flag_of_eval (s := demo_state_large_offset) (i := 0) (by decide)
  obtain ⟨f1, hf1, hopen, hflag1, hrec⟩ :=
    (large_offset_flag_sticky demo_env_small_off_t).2.2.2
      [Op.setdebug 0 true, Op.select 0, Op.flush 0] demo_state_large_offset st1 0 f hf hflag
      (by decide) h1
  exact ⟨st1, f1, h1, hf1, hopen, hflag1, hrec⟩

/-! ## The file type of an open handle -/

theorem gmx_fio_open_path_slot {E : Env} {st st1 : State} {fn : Str} {mode : Str}
    {id : Nat} (h : gmx_fio_open E st (some fn) mode = Res.ok id st1) :
    ∃ slot : t_fileio, st1.FIO[id]? = some slot ∧ slot.bOpen = true ∧
      slot.iFTP = E.fn2ftp (some fn) ∧ slot.fn = fn ∧ slot.bStdio = false := by
  have hlt := first_free_lt_grow E st.FIO
  unfold gmx_fio_open at h
  dsimp only at h
  repeat' split at h
  all_goals first
    | exact Res.noConfusion h
    | (simp only [Res.ok.injEq] at h
       obtain ⟨h1, h2⟩ := h
       subst h1 h2
       exact ⟨_, List.getElem?_set_self hlt, rfl, rfl, rfl, rfl⟩)

theorem iFTP_kept_while_open (E : Env) (i : Nat) (ops : List Op) :
    ∀ (st st1 : State) (f : t_fileio), st.FIO[i]? = some f →
      (∀ op ∈ ops, op.is_setftp = false) →
      stays_open E i ops st = true → run_ops E ops st = some st1 →
      ∃ f1, st1.FIO[i]? = some f1 ∧ f1.bOpen = true ∧ f1.iFTP = f.iFTP ∧ f1.fn = f.fn := by
  induction ops with
  | nil =>
    intro st st1 f hf _ h hr
    simp only [run_ops, Option.some.injEq] at hr
    subst hr
    obtain ⟨g, hg, hgo⟩ := slot_open_iff h
    rw [hf] at hg
    simp only [Option.some.injEq] at hg
    subst hg
    exact ⟨f, hf, hgo, rfl, rfl⟩
  | cons op rest ih =>
    intro st st1 f hf hno h hr
    unfold stays_open at h
    unfold run_ops at hr
    split at hr
    · rename_i u st2 hop
      simp only [hop, Bool.and_eq_true] at h
      obtain ⟨g, hg, hgo⟩ := slot_open_iff h.1
      rw [hf] at hg
      simp only [Option.some.injEq] at hg
      subst hg
      obtain ⟨f2, hf2, hfn, _, _, _, hftp, _⟩ := Op.run_slot hop hf (Or.inl hgo)
      obtain ⟨f1, h1, h2, h3, h4⟩ := ih st2 st1 f2 hf2
        (fun o ho => hno o (List.mem_cons_of_mem _ ho)) h.2 hr
      exact ⟨f1, h1, h2, h3.trans (hftp (hno op (List.mem_cons_self _ _))), h4.trans hfn⟩
    · exact Option.noConfusion hr

/-- Counterexample to C16 as stated: the handle opened on `c.gro`, a text
file type by its extension, is bound to the text codec by `gmx_fio_select`;
after `gmx_fio_setftp(0,efTRR)` the same handle is bound to the
canonical-binary codec. -/
theorem setftp_changes_codec :
    demo_env.fn2ftp (some (cstr "c.gro")) = efGRO ∧
    (demo_state [Op.fio_open (some (cstr "c.gro")) (cstr "w"), Op.select 0]).do_write =
      do_func.do_ascwrite ∧
    (demo_state [Op.fio_open (some (cstr "c.gro")) (cstr "w"), Op.setftp 0 efTRR,
      Op.select 0]).do_write = do_func.do_xdr ∧
    (demo_state [Op.fio_open (some (cstr "c.gro")) (cstr "w"), Op.setftp 0 efTRR,
      Op.select 0]).do_read = do_func.do_xdr := by
  decide

/-- C16, amended: the file type of a handle changes only through
`gmx_fio_setftp`.  After `gmx_fio_open` of a path, for every sequence of
operations none of which is a `gmx_fio_setftp` and during which the handle
stays open, the slot still carries the file type that the path had at open
time (the field that `gmx_fio_select` and `gmx_fio_close` consult), and
`gmx_fio_select` binds the codec of that type. -/
theorem file_type_kept_without_setftp (E : Env) (st st1 st2 : State) (fn mode : Str) (id : Nat)
    (ops : List Op) (hopen : gmx_fio_open E st (some fn) mode = Res.ok id st1)
    (hno : ∀ op ∈ ops, op.is_setftp = false) (hstay : stays_open E id ops st1 = true)
    (hrun : run_ops E ops st1 = some st2) :
    ∃ f, st2.FIO[id]? = some f ∧ f.bOpen = true ∧ f.iFTP = E.fn2ftp (some fn) ∧
      (in_ftpset (E.fn2ftp (some fn)) ftpXDR = true →
        gmx_fio_select st2 (id : Int) =
          Res.ok () { st2 with do_read := do_func.do_xdr, do_write := do_func.do_xdr,
                               curfio := some id }) ∧
      (in_ftpset (E.fn2ftp (some fn)) ftpASC = true →
        gmx_fio_select st2 (id : Int) =
          Res.ok () { st2 with do_read := do_func.do_ascread, do_write := do_func.do_ascwrite,
                               curfio := some id }) ∧
      (in_ftpset (E.fn2ftp (some fn)) ftpBIN = true →
        gmx_fio_select st2 (id : Int) =
          Res.ok () { st2 with do_read := do_func.do_binread, do_write := do_func.do_binwrite,
                               curfio := some id }) := by
  obtain ⟨slot, hslot, _, hftp, _, _⟩ := gmx_fio_open_path_slot hopen
  obtain ⟨f, hf, hfo, hfftp, _⟩ := iFTP_kept_while_open E id ops st1 st2 slot hslot hno hstay hrun
  have hlt : id < st2.FIO.length := by
    by_contra hge
    rw [List.getElem?_eq_none (by omega)] at hf
    exact Option.noConfusion hf
  have hsel := (gmx_fio_select_spec st2 (id : Int)).2 f (by omega)
    (by unfold State.nFIO; exact_mod_cast hlt) (by simpa using hf)
  rw [hfftp, hftp] at hsel
  simp only [Int.toNat_ofNat] at hsel
  exact ⟨f, hf, hfo, hfftp.trans hftp, hsel.1, hsel.2.1, hsel.2.2.1⟩

theorem file_type_kept_without_setftp_witness :
    ∃ (st1 st2 : State) (f : t_fileio),
      gmx_fio_open demo_env (State.initial empty_os) (some (cstr "c.gro")) (cstr "w") =
        Res.ok 0 st1 ∧
      run_ops demo_env [Op.setdebug 0 true, Op.select 0,
        Op.write (some (Item.int 5)) 1 eioINT [], Op.setprecision 0 true] st1 = some st2 ∧
      st2.FIO[0]? = some f ∧ f.bOpen = true ∧ f.iFTP = efGRO ∧
      gmx_fio_select st2 0 =
        Res.ok () { st2 with do_read := do_func.do_ascread, do_write := do_func.do_ascwrite,
                             curfio := some 0 } := by
  obtain ⟨st1, h1⟩ := Res.ok_of_value
    (r := gmx_fio_open demo_env (State.initial empty_os) (some (cstr "c.gro")) (cstr "w"))
    (a := 0) (by decide)
  have hst1 : st1 = demo_state [Op.fio_open (some (cstr "c.gro")) (cstr "w")] := by
    simp only [demo_state, run_ops, Op.run, h1, Res.void, Option.getD_some]
  obtain ⟨st2, h2⟩ := run_ops_of_isSome (E := demo_env) (s := st1)
    (o := [Op.setdebug 0 true, Op.select 0, Op.write (some (Item.int 5)) 1 eioINT [],
      Op.setprecision 0 true]) (by rw [hst1]; decide)
  obtain ⟨f, hf, hfo, hftp, _, hasc, _⟩ :=
    file_type_kept_without_setftp demo_env (State.initial empty_os) st1 st2 (cstr "c.gro")
      (cstr "w") 0 _ h1 (by decide) (by rw [hst1]; decide) h2
  exact ⟨st1, st2, f, h1, h2, hf, hfo, hftp.trans (by decide), hasc (by decide)⟩

/-! ## Width of a real in the native-binary codec -/

theorem host_bytes_length (E : Env) (w v : Nat) : (host_bytes E w v).length = w := by
  unfold host_bytes
  split
  · exact be_bytes_length w v
  · exact le_bytes_length w v

theorem rvecs_mem_length (E : Env) (vs : List (Nat × Nat × Nat)) :
    (Item.mem E (Item.rvecs vs)).length = vs.length * (3 * sizeof_real E) := by
  induction vs with
  | nil => simp [Item.mem]
  | cons v vs ih =>
    simp only [Item.mem, List.map_cons, List.flatten_cons, List.length_append,
      host_bytes_length, List.length_cons] at ih ⊢
    rw [ih]; ring

theorem ftello_write {os : OS} {fp : Nat} {s : FILEobj} (hs : os.stream fp = some s)
    (bytes : List Nat) : ftello (os.write fp bytes) fp = ftello os fp + bytes.length := by
  simp only [OS.write, hs, ftello, stream_set_stream]
  push_cast; rfl

theorem ftello_advance {os : OS} {fp : Nat} {s : FILEobj} (hs : os.stream fp = some s)
    (n : Nat) : ftello (os.advance fp n) fp = ftello os fp + n := by
  simp only [OS.advance, hs, ftello, stream_set_stream]
  push_cast; rfl

theorem ftello_seek_cur {os : OS} {fp : Nat} {s : FILEobj} (hs : os.stream fp = some s)
    (off : Int) (h : 0 ≤ off) : ftello (os.seek_cur fp off) fp = ftello os fp + off := by
  have hnn : ¬ ((s.pos : Int) + off < 0) := by omega
  simp only [OS.seek_cur, hs, hnn, if_false, ftello, stream_set_stream]
  omega

/-- Counterexample to C19 as stated: in a single-precision build, on handles
whose precision flag was set to double with `gmx_fio_setprecision`,
`do_binwrite` of one REAL emits 4 bytes, while `do_binread` of one REAL moves
the cursor by 8 bytes. -/
theorem binwrite_ignores_precision_flag :
    ((run_ops demo_env
        [Op.fio_open (some (cstr "x.tpb")) (cstr "w"), Op.setprecision 0 true, Op.select 0,
          Op.write (some (Item.real 7)) 1 eioREAL []]
        (State.initial empty_os)).map (fun st => (gmx_fio_ftell st 0).value)) = some (some 4) ∧
    ((run_ops demo_env
        [Op.fio_open (some (cstr "y.tpb")) (cstr "r"), Op.setprecision 0 true, Op.select 0,
          Op.read none 1 eioREAL []]
        (State.initial (os_with_file (cstr "y.tpb") [1, 2, 3, 4, 5, 6, 7, 8, 9, 10, 11, 12]))).map
      (fun st => (gmx_fio_ftell st 0).value)) = some (some 8) := by
  decide
theorem do_binwrite_plain (E : Env) (st : State) (f : t_fileio) (fp : Nat) (s : FILEobj)
    (eio : Eio) (it : Item) (n : Int) (desc : Str) (wsize : Nat)
    (hcur : st.cur = some f) (hfp : f.fp = some fp) (hs : st.os.stream fp = some s)
    (hstr : eio ≠ eioSTRING) (hchk : check_nitem eio n = true) (hn : 0 ≤ n)
    (hfit : Item.fits eio it = true) (hw : binwrite_size E eio = some wsize) (hpos : 0 < wsize)
    (hmem : wsize * n.toNat ≤ (Item.mem E it).length) :
    ∃ st1, do_binwrite E st (some it) n eio desc = Res.ok (true, some it) st1 ∧
      ftello st1.os fp = ftello st.os fp + (wsize : Int) * n := by
  unfold do_binwrite
  simp only [hchk, Bool.not_true, Bool.false_eq_true, if_false, hcur, hw, hfit, hstr]
  unfold bin_fwrite
  have hn0 : ¬ n < 0 := by omega
  simp only [hfp, hn0, if_false]
  by_cases hz : wsize * n.toNat = 0
  · have hnz : n = 0 := by
      rcases Nat.mul_eq_zero.mp hz with h | h
      · omega
      · omega
    simp only [hz, if_true, codec_return, hnz, decide_True, Bool.not_true, Bool.false_and,
      Bool.false_eq_true, if_false]
    exact ⟨_, rfl, by simp⟩
  · have hlt : ¬ (Item.mem E it).length < wsize * n.toNat := by omega
    simp only [hz, if_false, hlt, codec_return, Bool.not_true, Bool.false_and,
      Bool.false_eq_true]
    refine ⟨_, rfl, ?_⟩
    simp only
    rw [ftello_write hs, List.length_take, Nat.min_eq_left hmem]
    push_cast
    rw [Int.toNat_of_nonneg hn]

theorem do_binread_skip (E : Env) (st : State) (f : t_fileio) (fp : Nat) (s : FILEobj)
    (eio : Eio) (n : Int) (desc : Str) (rsize : Nat)
    (hcur : st.cur = some f) (hfp : f.fp = some fp) (hs : st.os.stream fp = some s)
    (hstr : eio ≠ eioSTRING) (hchk : check_nitem eio n = true) (hn : 0 ≤ n)
    (hr : binread_size E f eio = some rsize) :
    ∃ st1, do_binread E st none n eio desc = Res.ok (true, none) st1 ∧
      ftello st1.os fp = ftello st.os fp + (rsize : Int) * n := by
  unfold do_binread
  simp only [hchk, Bool.not_true, Bool.false_eq_true, if_false, hcur, hr, hstr]
  unfold bin_fread
  simp only [hfp, codec_return, Bool.not_true, Bool.false_and, Bool.false_eq_true, if_false]
  refine ⟨_, rfl, ?_⟩
  simp only
  exact ftello_seek_cur hs _ (by positivity)

theorem chunks_length (w : Nat) : ∀ (n : Nat) (bs : List Nat), (chunks w n bs).length = n := by
  intro n
  induction n with
  | zero => intro bs; rfl
  | succ n ih => intro bs; simp [chunks, ih]

theorem bin_store_real_kinds (E : Env) (f : t_fileio) (eio : Eio) (it : Item) (n : Nat)
    (bytes : List Nat) (hk : eio = eioREAL ∨ eio = eioRVEC ∨ eio = eioNRVEC)
    (hfit : Item.fits eio it = true) (hflag : f.bDouble = E.real_is_double)
    (hlen : eio = eioNRVEC → bytes.length = 3 * sizeof_real E * n)
    (hmem : eio = eioNRVEC → 3 * sizeof_real E * n ≤ (Item.mem E it).length) :
    ∃ it1, bin_store E f bytes it = some it1 := by
  rcases hk with h | h | h <;> subst h <;> cases it <;>
    first
    | exact Bool.noConfusion hfit
    | skip
  · simp [bin_store, hflag]
  · simp only [bin_store, hflag, if_true, chunks, List.map_cons, List.map_nil]
    exact ⟨_, rfl⟩
  · rename_i vs
    have hsz : 0 < 3 * sizeof_real E := by unfold sizeof_real; split <;> omega
    have hlen := hlen rfl
    have hmem := hmem rfl
    have hdiv : bytes.length / (3 * sizeof_real E) = n := by
      rw [hlen]; exact Nat.mul_div_cancel_left n hsz
    rw [rvecs_mem_length] at hmem
    have hvs : ¬ vs.length < n := by
      intro hlt
      have : vs.length * (3 * sizeof_real E) < 3 * sizeof_real E * n := by
        rw [Nat.mul_comm (3 * sizeof_real E) n]
        exact Nat.mul_lt_mul_of_pos_right hlt hsz
      omega
    simp only [bin_store, hflag, if_true, hdiv, hvs, if_false]
    exact ⟨_, rfl⟩
/-- C19, amended: in the native-binary codec the width of a real is the
build's `sizeof(real)` on write and the handle's precision flag on read.  For
a handle with a stream, a kind among REAL, RVEC, NRVEC and a count `n ≥ 0`
that `check_nitem` accepts: `do_binwrite` returns success and moves the
cursor by `n` times the build's size of the kind, whatever the precision
flag of the handle; `do_binread` with a null destination returns success and
moves the cursor by `n` times the size given by the precision flag; so does
`do_binread` into a destination when the flag equals the build's precision
and the stream holds that many bytes; and the two sizes are equal exactly
when the handle's flag equals the build's precision (the value
`gmx_fio_open` gives it). -/
theorem native_real_width (E : Env) (st : State) (f : t_fileio) (fp : Nat) (s : FILEobj)
    (eio : Eio) (it : Item) (n : Int) (desc : Str) (wsize rsize : Nat)
    (hcur : st.cur = some f) (hfp : f.fp = some fp) (hs : st.os.stream fp = some s)
    (hk : eio = eioREAL ∨ eio = eioRVEC ∨ eio = eioNRVEC)
    (hchk : check_nitem eio n = true) (hn : 0 ≤ n) (hfit : Item.fits eio it = true)
    (hw : binwrite_size E eio = some wsize) (hr : binread_size E f eio = some rsize)
    (hmem : wsize * n.toNat ≤ (Item.mem E it).length) :
    (∃ st1, do_binwrite E st (some it) n eio desc = Res.ok (true, some it) st1 ∧
      ftello st1.os fp = ftello st.os fp + (wsize : Int) * n) ∧
    (∃ st1, do_binread E st none n eio desc = Res.ok (true, none) st1 ∧
      ftello st1.os fp = ftello st.os fp + (rsize : Int) * n) ∧
    (f.bDouble = E.real_is_double → rsize * n.toNat ≤ (st.os.pending fp).length →
      ∃ st1 it1, do_binread E st (some it) n eio desc = Res.ok (true, some it1) st1 ∧
        ftello st1.os fp = ftello st.os fp + (rsize : Int) * n) ∧
    (wsize = rsize ↔ f.bDouble = E.real_is_double) := by
  have hstr : eio ≠ eioSTRING := by rcases hk with h | h | h <;> rw [h] <;> decide
  have hwv : wsize = (if eio = eioREAL then 1 else 3) * sizeof_real E := by
    rcases hk with h | h | h <;> subst h <;>
      simp only [binwrite_size, Option.some.injEq] at hw <;> rw [← hw] <;> simp
  have hrv : rsize = (if eio = eioREAL then 1 else 3) * (if f.bDouble then 8 else 4) := by
    rcases hk with h | h | h <;> subst h <;>
      simp only [binread_size, Option.some.injEq] at hr <;> rw [← hr] <;>
      cases f.bDouble <;> simp
  have hwpos : 0 < wsize := by
    rw [hwv]; unfold sizeof_real; split <;> split <;> omega
  have heq : wsize = rsize ↔ f.bDouble = E.real_is_double := by
    rw [hwv, hrv]; unfold sizeof_real
    cases f.bDouble <;> cases E.real_is_double <;> split <;> simp
  refine ⟨do_binwrite_plain E st f fp s eio it n desc wsize hcur hfp hs hstr hchk hn hfit hw
      hwpos hmem,
    do_binread_skip E st f fp s eio n desc rsize hcur hfp hs hstr hchk hn hr, ?_, heq⟩
  intro hflag hpend
  have hrw : rsize = wsize := (heq.mpr hflag).symm
  unfold do_binread
  simp only [hchk, Bool.not_true, Bool.false_eq_true, if_false, hcur, hr, hfit, hstr]
  unfold bin_fread
  have hn0 : ¬ (((rsize : Nat) : Int) < 0 ∨ n < 0) := by omega
  have hav : ¬ (st.os.pending fp).length < rsize * n.toNat := by omega
  simp only [hfp, hn0, if_false, Int.toNat_ofNat, hav]
  by_cases hz : rsize * n.toNat = 0
  · have hnz : n = 0 := by
      rcases Nat.mul_eq_zero.mp hz with h | h
      · omega
      · omega
    simp only [hz, if_true, codec_return, hnz, decide_True, Bool.not_true, Bool.false_and,
      Bool.false_eq_true, if_false]
    exact ⟨_, it, rfl, by simp⟩
  · simp only [hz, if_false]
    have hnr : eio = eioNRVEC → rsize = 3 * sizeof_real E := by
      intro h; rw [hrw, hwv, h]; simp
    obtain ⟨it1, hst⟩ := bin_store_real_kinds E f eio it n.toNat
      ((st.os.pending fp).take (rsize * n.toNat)) hk hfit hflag
      (fun h => by rw [List.length_take, Nat.min_eq_left hpend, hnr h])
      (fun h => by rw [← hnr h, hrw]; exact hmem)
    simp only [hst, codec_return, Bool.not_true, Bool.false_and, Bool.false_eq_true, if_false]
    refine ⟨_, it1, rfl, ?_⟩
    simp only
    rw [ftello_advance hs]
    push_cast
    rw [Int.toNat_of_nonneg hn]

theorem native_real_width_witness :
    ∃ (st : State) (f : t_fileio),
      st.cur = some f ∧ f.bDouble = true ∧
      (∃ st1, do_binwrite demo_env st (some (Item.rvecs [(1, 2, 3), (4, 5, 6)])) 2 eioNRVEC [] =
          Res.ok (true, some (Item.rvecs [(1, 2, 3), (4, 5, 6)])) st1 ∧
        ftello st1.os 2 = ftello st.os 2 + ((12 : Nat) : Int) * 2) ∧
      (∃ st1, do_binread demo_env st none 2 eioNRVEC [] = Res.ok (true, none) st1 ∧
        ftello st1.os 2 = ftello st.os 2 + ((24 : Nat) : Int) * 2) ∧
      (f.bDouble = demo_env.real_is_double → 24 * (2 : Int).toNat ≤ (st.os.pending 2).length →
        ∃ st1 it1, do_binread demo_env st (some (Item.rvecs [(1, 2, 3), (4, 5, 6)])) 2 eioNRVEC [] =
            Res.ok (true, some it1) st1 ∧
          ftello st1.os 2 = ftello st.os 2 + ((24 : Nat) : Int) * 2) ∧
      (12 = 24 ↔ f.bDouble = demo_env.real_is_double) := by
  obtain ⟨st, hst⟩ := run_ops_of_isSome (E := demo_env) (s := State.initial empty_os)
    (o := [Op.fio_open (some (cstr "x.tpb")) (cstr "w"), Op.setprecision 0 true, Op.select 0])
    (by decide)
  have heq : st = demo_state [Op.fio_open (some (cstr "x.tpb")) (cstr "w"),
      Op.setprecision 0 true, Op.select 0] := by
    simp only [demo_state, hst, Option.getD_some]
  have hcur : (st.cur).map (fun f => (f.bDouble, f.fp)) = some (true, some 2) := by
    rw [heq]; decide
  cases hc : st.cur with
  | none => rw [hc] at hcur; exact Option.noConfusion hcur
  | some f =>
    rw [hc] at hcur
    simp only [Option.map_some', Option.some.injEq, Prod.mk.injEq] at hcur
    have hs : (st.os.stream 2).isSome = true := by rw [heq]; decide
    obtain ⟨s, hs⟩ := Option.isSome_iff_exists.mp hs
    exact ⟨st, f, hc, hcur.1,
      native_real_width demo_env st f 2 s eioNRVEC (Item.rvecs [(1, 2, 3), (4, 5, 6)]) 2 []
        12 24 hc hcur.2 hs (by decide) (by decide) (by decide) (by decide) (by decide)
        (by simp [binread_size, hcur.1]) (by decide)⟩

/-! ## NRVEC in the canonical-binary codec -/

theorem xdr_rvec_some (E : Env) (os : OS) (x : XDRobj) (f : t_fileio) (v : Nat × Nat × Nat) :
    ∃ w, (xdr_rvec E os x f (some v)).2.1 = some w := by
  unfold xdr_rvec
  split <;> exact ⟨_, rfl⟩

theorem do_xdr_rvec_eq (E : Env) (st : State) (f : t_fileio) (x : XDRobj)
    (v : Nat × Nat × Nat) (desc : Str) (hcur : st.cur = some f) (hx : f.xdr = some x) :
    do_xdr E st (some (Item.rvec v.1 v.2.1 v.2.2)) 1 eioRVEC desc =
      Res.ok ((do_xdr_rvec E st.os x f (some v)).1,
          some (Item.rvec ((do_xdr_rvec E st.os x f (some v)).2.1.getD v).1
            ((do_xdr_rvec E st.os x f (some v)).2.1.getD v).2.1
            ((do_xdr_rvec E st.os x f (some v)).2.1.getD v).2.2))
        { st with os := (do_xdr_rvec E st.os x f (some v)).2.2 } := by
  have hchk : check_nitem eioRVEC 1 = true := by decide
  simp only [do_xdr, do_xdr_lock, hchk, Bool.not_true, Bool.false_eq_true, if_false, hcur, hx,
    codec_return, do_xdr_rvec]

theorem do_xdr_rvec_skip_eq (E : Env) (st : State) (f : t_fileio) (x : XDRobj)
    (desc : Str) (hcur : st.cur = some f) (hx : f.xdr = some x) :
    do_xdr E st none 1 eioRVEC desc =
      Res.ok ((do_xdr_rvec E st.os x f none).1, none)
        { st with os := (do_xdr_rvec E st.os x f none).2.2 } := by
  have hchk : check_nitem eioRVEC 1 = true := by decide
  simp only [do_xdr, do_xdr_lock, hchk, Bool.not_true, Bool.false_eq_true, if_false, hcur, hx,
    codec_return, do_xdr_rvec]

theorem rvec_transfers_eq (E : Env) (f : t_fileio) (x : XDRobj) (desc : Str)
    (hx : f.xdr = some x) :
    ∀ (n : Nat) (done ahead : List (Nat × Nat × Nat)) (st : State), st.cur = some f →
      rvec_transfers E desc n done ahead st =
        match xdr_nrvec_loop E x f n done ahead st.os with
        | none => Res.undef
        | some r => Res.ok (r.1, r.2.1) { st with os := r.2.2 } := by
  intro n
  induction n with
  | zero => intro done ahead st _; simp [rvec_transfers, xdr_nrvec_loop]
  | succ n ih =>
    intro done ahead st hcur
    cases ahead with
    | nil => simp [rvec_transfers, xdr_nrvec_loop]
    | cons v ahead =>
      obtain ⟨w, hw⟩ : ∃ w, (do_xdr_rvec E st.os x f (some v)).2.1 = some w := by
        obtain ⟨w, hw⟩ := xdr_rvec_some E st.os x f v
        exact ⟨w, by simp only [do_xdr_rvec, hw]⟩
      unfold rvec_transfers xdr_nrvec_loop
      rw [do_xdr_rvec_eq E st f x v desc hcur hx]
      simp only [hw, Option.getD_some]
      cases hg : (do_xdr_rvec E st.os x f (some v)).1 with
      | true =>
        simp only [if_true]
        rw [ih _ _ { st with os := (do_xdr_rvec E st.os x f (some v)).2.2 } hcur]
      | false =>
        simp only [Bool.false_eq_true, if_false]

theorem rvec_skips_eq (E : Env) (f : t_fileio) (x : XDRobj) (desc : Str)
    (hx : f.xdr = some x) :
    ∀ (n : Nat) (st : State), st.cur = some f →
      rvec_skips E desc n st =
        Res.ok (xdr_nrvec_skip E x f n st.os).1
          { st with os := (xdr_nrvec_skip E x f n st.os).2 } := by
  intro n
  induction n with
  | zero => intro st _; simp [rvec_skips, xdr_nrvec_skip]
  | succ n ih =>
    intro st hcur
    unfold rvec_skips xdr_nrvec_skip
    rw [do_xdr_rvec_skip_eq E st f x desc hcur hx]
    by_cases hg : (do_xdr_rvec E st.os x f none).1 = true
    · simp only [hg, if_true]
      rw [ih { st with os := (do_xdr_rvec E st.os x f none).2.2 } hcur]
    · have hg0 : (do_xdr_rvec E st.os x f none).1 = false := by simpa using hg
      simp only [hg0, Bool.false_eq_true, if_false]

/-- C20: in the canonical-binary codec, on the selected handle, a transfer
of kind NRVEC with `n` vectors returns what `n` successive RVEC transfers of
the elements 0..n-1 return together, stopping after the first failure: the
same success value (success exactly when every RVEC transfer made
succeeded), the same array afterwards and the same world, to which the NRVEC
call adds only its own debug message when it fails on a handle in debug
mode; the same holds with a NULL item; and for `n ≤ 0` the call returns
success and leaves the state as it is. -/
theorem nrvec_is_rvec_sequence (E : Env) (st : State) (f : t_fileio) (x : XDRobj)
    (vs : List (Nat × Nat × Nat)) (n : Int) (desc : Str)
    (hcur : st.cur = some f) (hx : f.xdr = some x) :
    do_xdr E st (some (Item.rvecs vs)) n eioNRVEC desc =
        (rvec_transfers E desc n.toNat [] vs st).bind
          (fun r st1 => codec_return st1 f r.1 (some (Item.rvecs r.2)) st1.os) ∧
    do_xdr E st none n eioNRVEC desc =
        (rvec_skips E desc n.toNat st).bind
          (fun good st1 => codec_return st1 f good none st1.os) ∧
    (n ≤ 0 → do_xdr E st (some (Item.rvecs vs)) n eioNRVEC desc =
          Res.ok (true, some (Item.rvecs vs)) st ∧
        do_xdr E st none n eioNRVEC desc = Res.ok (true, none) st) := by
  have hchk : check_nitem eioNRVEC n = true := by simp [check_nitem]
  have h1 : do_xdr E st (some (Item.rvecs vs)) n eioNRVEC desc =
      (rvec_transfers E desc n.toNat [] vs st).bind
        (fun r st1 => codec_return st1 f r.1 (some (Item.rvecs r.2)) st1.os) := by
    rw [rvec_transfers_eq E f x desc hx n.toNat [] vs st hcur]
    simp only [do_xdr, do_xdr_lock, hchk, Bool.not_true, Bool.false_eq_true, if_false, hcur, hx]
    cases xdr_nrvec_loop E x f n.toNat [] vs st.os with
    | none => rfl
    | some r => rfl
  have h2 : do_xdr E st none n eioNRVEC desc =
      (rvec_skips E desc n.toNat st).bind
        (fun good st1 => codec_return st1 f good none st1.os) := by
    rw [rvec_skips_eq E f x desc hx n.toNat st hcur]
    simp only [do_xdr, do_xdr_lock, hchk, Bool.not_true, Bool.false_eq_true, if_false, hcur, hx]
    rfl
  refine ⟨h1, h2, ?_⟩
  intro hn
  have hz : n.toNat = 0 := by omega
  rw [h1, h2, hz]
  simp [rvec_transfers, rvec_skips, Res.bind, codec_return]

theorem nrvec_is_rvec_sequence_witness :
    ∃ (st : State) (f : t_fileio),
      st.cur = some f ∧
      do_xdr demo_env st (some (Item.rvecs [(1, 2, 3), (4, 5, 6), (7, 8, 9)])) 2 eioNRVEC [] =
        (rvec_transfers demo_env [] (2 : Int).toNat [] [(1, 2, 3), (4, 5, 6), (7, 8, 9)] st).bind
          (fun r st1 => codec_return st1 f r.1 (some (Item.rvecs r.2)) st1.os) ∧
      do_xdr demo_env st none 2 eioNRVEC [] =
        (rvec_skips demo_env [] (2 : Int).toNat st).bind
          (fun good st1 => codec_return st1 f good none st1.os) ∧
      ((2 : Int) ≤ 0 →
        do_xdr demo_env st (some (Item.rvecs [(1, 2, 3), (4, 5, 6), (7, 8, 9)])) 2 eioNRVEC [] =
          Res.ok (true, some (Item.rvecs [(1, 2, 3), (4, 5, 6), (7, 8, 9)])) st ∧
        do_xdr demo_env st none 2 eioNRVEC [] = Res.ok (true, none) st) := by
  obtain ⟨st, hst⟩ := run_ops_of_isSome (E := demo_env) (s := State.initial empty_os)
    (o := [Op.fio_open (some (cstr "x.trr")) (cstr "w"), Op.select 0]) (by decide)
  have heq : st = demo_state [Op.fio_open (some (cstr "x.trr")) (cstr "w"), Op.select 0] := by
    simp only [demo_state, hst, Option.getD_some]
  have hcur : ((st.cur).bind (fun f => f.xdr)).isSome = true := by rw [heq]; decide
  cases hc : st.cur with
  | none => rw [hc] at hcur; exact Bool.noConfusion hcur
  | some f =>
    rw [hc] at hcur
    obtain ⟨x, hx⟩ := Option.isSome_iff_exists.mp hcur
    exact ⟨st, f, hc,
      nrvec_is_rvec_sequence demo_env st f x [(1, 2, 3), (4, 5, 6), (7, 8, 9)] 2 [] hc hx⟩

/-! ## Reads with a NULL destination -/

/-- C14 (the code departs from the claim): `a.trr` holds the canonical
encoding of the two unsigned bytes 7 and 8; it is opened for reading and
selected.  A read of kind NUCHAR with two elements into a buffer returns
success and consumes the 8 bytes; the same read with a NULL destination is
undefined, because the NUCHAR case of `do_xdr_lock` hands `&ucptr[j]` with
`ucptr == NULL` to `xdr_u_char`, which stores the decoded byte through it.
The other kinds decode into a local variable: the read of kind INT with a NULL
destination returns success and leaves the cursor where the read into a
destination leaves it, and so does the NUCHAR read of the native-binary
codec, which seeks. -/
theorem xdr_nuchar_null_destination :
    (open_and_read demo_env (os_with_file (cstr "a.trr") [0, 0, 0, 7, 0, 0, 0, 8])
        (cstr "a.trr") (some (Item.uchars [0, 0])) 2 eioNUCHAR).value =
      some (true, some (Item.uchars [7, 8])) ∧
    open_and_read demo_env (os_with_file (cstr "a.trr") [0, 0, 0, 7, 0, 0, 0, 8])
        (cstr "a.trr") none 2 eioNUCHAR = Res.undef ∧
    ((run_ops demo_env
        [Op.fio_open (some (cstr "a.trr")) (cstr "r"), Op.select 0, Op.read none 1 eioINT []]
        (State.initial (os_with_file (cstr "a.trr") [0, 0, 0, 7, 0, 0, 0, 8]))).map
      (fun st => (gmx_fio_ftell st 0).value)) = some (some 4) ∧
    ((run_ops demo_env
        [Op.fio_open (some (cstr "a.trr")) (cstr "r"), Op.select 0,
          Op.read (some (Item.int 0)) 1 eioINT []]
        (State.initial (os_with_file (cstr "a.trr") [0, 0, 0, 7, 0, 0, 0, 8]))).map
      (fun st => (gmx_fio_ftell st 0).value)) = some (some 4) ∧
    ((run_ops demo_env
        [Op.fio_open (some (cstr "a.tpb")) (cstr "r"), Op.select 0, Op.read none 2 eioNUCHAR []]
        (State.initial (os_with_file (cstr "a.tpb") [7, 8, 9]))).map
      (fun st => (gmx_fio_ftell st 0).value)) = some (some 2) ∧
    ((run_ops demo_env
        [Op.fio_open (some (cstr "a.tpb")) (cstr "r"), Op.select 0,
          Op.read (some (Item.uchars [0, 0])) 2 eioNUCHAR []]
        (State.initial (os_with_file (cstr "a.tpb") [7, 8, 9]))).map
      (fun st => (gmx_fio_ftell st 0).value)) = some (some 2) := by
  decide

/-! ## Backup of an existing file by `gmx_fio_open` -/

theorem decimal_aux_spec : ∀ (fuel n : Nat) (acc : Str), n < fuel →
    ∃ ds : Str, decimal_aux fuel n acc = ds ++ acc ∧ ds ≠ [] ∧
      (∀ c ∈ ds, 48 ≤ c ∧ c ≤ 57) ∧ (∀ k, 1 ≤ k → n < 10 ^ k → ds.length ≤ k) := by
  intro fuel
  induction fuel with
  | zero => intro n acc h; omega
  | succ fuel ih =>
    intro n acc h
    unfold decimal_aux
    by_cases h10 : n < 10
    · simp only [h10, if_true]
      refine ⟨[cZERO + n], rfl, by simp, ?_, ?_⟩
      · intro c hc
        simp only [List.mem_singleton] at hc
        subst hc
        simp only [cZERO]; omega
      · intro k hk _
        simpa using hk
    · simp only [h10, if_false]
      obtain ⟨ds, hds, hne, hdig, hlen⟩ := ih (n / 10) ((cZERO + n % 10) :: acc) (by omega)
      refine ⟨ds ++ [cZERO + n % 10], by rw [hds]; simp, by simp, ?_, ?_⟩
      · intro c hc
        simp only [List.mem_append, List.mem_singleton] at hc
        rcases hc with hc | hc
        · exact hdig c hc
        · subst hc
          simp only [cZERO]; omega
      · intro k hk hn
        have hk2 : 2 ≤ k := by
          by_contra hlt
          have : k = 1 := by omega
          subst this
          omega
        have hdiv : n / 10 < 10 ^ (k - 1) := by
          have hpow : 10 ^ k = 10 * 10 ^ (k - 1) := by
            rw [← pow_succ']
            congr 1; omega
          rw [hpow] at hn
          exact Nat.div_lt_of_lt_mul hn
        have := hlen (k - 1) (by omega) hdiv
        simp only [List.length_append, List.length_singleton]
        omega

theorem scan_digits_decimal_aux : ∀ (fuel n : Nat) (acc : Str), n < fuel →
    scan_digits (decimal_aux fuel n acc) 0 = scan_digits acc n := by
  intro fuel
  induction fuel with
  | zero => intro n acc h; omega
  | succ fuel ih =>
    intro n acc h
    unfold decimal_aux
    by_cases h10 : n < 10
    · simp only [h10, if_true]
      have hd : isdigit (48 + n) = true := by
        simp only [isdigit, Bool.and_eq_true, decide_eq_true_eq]; omega
      simp only [cZERO, scan_digits, hd, if_true]
      congr 1; omega
    · simp only [h10, if_false]
      rw [ih (n / 10) _ (by omega)]
      have hd : isdigit (48 + n % 10) = true := by
        simp only [isdigit, Bool.and_eq_true, decide_eq_true_eq]; omega
      simp only [cZERO, scan_digits, hd, if_true]
      congr 1; omega

theorem decimal_spec (n : Nat) :
    decimal n ≠ [] ∧ (∀ c ∈ decimal n, 48 ≤ c ∧ c ≤ 57) ∧
      (∀ k, 1 ≤ k → n < 10 ^ k → (decimal n).length ≤ k) ∧ scan_digits (decimal n) 0 = n := by
  obtain ⟨ds, hds, hne, hdig, hlen⟩ := decimal_aux_spec (n + 1) n [] (by omega)
  have hs := scan_digits_decimal_aux (n + 1) n [] (by omega)
  unfold decimal
  rw [hds] at hs ⊢
  simp only [List.append_nil] at hs ⊢
  exact ⟨hne, hdig, hlen, by simpa [scan_digits] using hs⟩

/-- The characters `%d` prints for a 32-bit value are at most 11, none of
them is whitespace, `;` or NUL, and `sscanf("%d")` reads the value back. -/
theorem print_d_spec (v : Int) (h1 : -(2 : Int) ^ 31 ≤ v) (h2 : v < (2 : Int) ^ 31) :
    print_d v ≠ [] ∧ (print_d v).length ≤ 11 ∧
      (∀ c ∈ print_d v, isspace c = false ∧ c ≠ cSEMI ∧ c ≠ cNUL) ∧
      sscanf_d (print_d v) = (1, some v) := by
  obtain ⟨hne, hdig, hlen, hscan⟩ := decimal_spec v.natAbs
  have hl10 : (decimal v.natAbs).length ≤ 10 := by
    apply hlen 10 (by omega)
    norm_num at h1 h2 ⊢
    omega
  have hchars : ∀ c ∈ decimal v.natAbs, isspace c = false ∧ c ≠ cSEMI ∧ c ≠ cNUL := by
    intro c hc
    obtain ⟨a, b⟩ := hdig c hc
    refine ⟨?_, ?_, ?_⟩
    · simp only [isspace, Bool.or_eq_false_iff, beq_eq_false_iff_ne, ne_eq, Bool.and_eq_false_iff,
        decide_eq_false_iff_not]
      omega
    · simp only [cSEMI]; omega
    · simp only [cNUL]; omega
  have hwrap : to_signed 32 (to_unsigned 32 v) = v := to_signed_to_unsigned_32 v h1 h2
  cases hd : decimal v.natAbs with
  | nil => exact absurd hd hne
  | cons d ds =>
    have hdd : 48 ≤ d ∧ d ≤ 57 := hdig d (by rw [hd]; exact List.mem_cons_self _ _)
    have hisd : isdigit d = true := by
      simp only [isdigit, Bool.and_eq_true, decide_eq_true_eq]; exact hdd
    have hnsp : isspace d = false := (hchars d (by rw [hd]; exact List.mem_cons_self _ _)).1
    by_cases hneg : v < 0
    · have hp : print_d v = cMINUS :: d :: ds := by simp only [print_d, hneg, if_true, hd]
      have hall : ∀ c ∈ print_d v, isspace c = false ∧ c ≠ cSEMI ∧ c ≠ cNUL := by
        intro c hc
        rw [hp] at hc
        rcases List.mem_cons.mp hc with hc | hc
        · subst hc; decide
        · exact hchars c (by rw [hd]; exact hc)
      refine ⟨by rw [hp]; simp, ?_, hall, ?_⟩
      · rw [hp, ← hd]; simp only [List.length_cons]; omega
      · have hcs : c_str (print_d v) = print_d v :=
          c_str_of_no_nul _ (fun c hc => (hall c hc).2.2)
        have hval : ((scan_digits (d :: ds) 0 : Nat) : Int) = -v := by
          rw [← hd, hscan]; omega
        simp only [sscanf_d, sscanf_int, hcs]
        rw [hp]
        have hm : isspace cMINUS = false := by decide
        simp only [List.dropWhile_cons, hm, Bool.false_eq_true, if_false, if_true, hisd]
        rw [hval]
        simp only [neg_neg, Option.map_some', hwrap]
    · have hp : print_d v = d :: ds := by simp only [print_d, hneg, if_false, hd]
      have hall : ∀ c ∈ print_d v, isspace c = false ∧ c ≠ cSEMI ∧ c ≠ cNUL := by
        intro c hc
        rw [hp, ← hd] at hc
        exact hchars c hc
      refine ⟨by rw [hp]; simp, ?_, hall, ?_⟩
      · rw [hp, ← hd]; omega
      · have hcs : c_str (print_d v) = print_d v :=
          c_str_of_no_nul _ (fun c hc => (hall c hc).2.2)
        have hval : ((scan_digits (d :: ds) 0 : Nat) : Int) = v := by
          rw [← hd, hscan]; omega
        have hdm : ¬ d = cMINUS := by simp only [cMINUS]; omega
        have hdp : ¬ d = 43 := by omega
        simp only [sscanf_d, sscanf_int, hcs]
        rw [hp]
        simp only [List.dropWhile_cons, hnsp, Bool.false_eq_true, if_false, hdm, hdp, hisd,
          if_true]
        rw [hval]
        simp only [Option.map_some', hwrap]

/-! ## The tokenizer on the lines that `do_ascwrite` prints -/

theorem next_item_scan_space (c : Nat) (rest : List Nat) (hc : isspace c = true) :
    next_item_scan NEXT_ITEM_BUF_LEN false false [] (c :: rest) =
      next_item_scan NEXT_ITEM_BUF_LEN false false [] rest := by
  simp only [next_item_scan]
  rw [next_item_loop]
  simp only [hc, Bool.false_eq_true, if_false, Bool.not_true, NEXT_ITEM_BUF_LEN]
  cases rest <;> simp [next_item_scan]

theorem next_item_scan_spaces (ws rest : List Nat) (h : ∀ c ∈ ws, isspace c = true) :
    next_item_scan NEXT_ITEM_BUF_LEN false false [] (ws ++ rest) =
      next_item_scan NEXT_ITEM_BUF_LEN false false [] rest := by
  induction ws with
  | nil => rfl
  | cons c cs ih =>
    rw [List.cons_append, next_item_scan_space c _ (h c (List.mem_cons_self _ _))]
    exact ih (fun d hd => h d (List.mem_cons_of_mem _ hd))

theorem next_item_scan_semi (rest : List Nat) :
    next_item_scan NEXT_ITEM_BUF_LEN false false [] (cSEMI :: rest) =
      next_item_scan NEXT_ITEM_BUF_LEN true false [] rest := by
  simp only [next_item_scan]
  rw [next_item_loop]
  have hs : isspace cSEMI = false := by decide
  simp only [hs, Bool.false_eq_true, if_false, Bool.not_false, if_true, NEXT_ITEM_BUF_LEN]
  cases rest <;> simp [next_item_scan]

theorem next_item_scan_comment (cm rest : List Nat) (h : ∀ c ∈ cm, c ≠ cNL) :
    next_item_scan NEXT_ITEM_BUF_LEN true false [] (cm ++ cNL :: rest) =
      next_item_scan NEXT_ITEM_BUF_LEN false false [] rest := by
  induction cm with
  | nil =>
    simp only [List.nil_append, next_item_scan]
    rw [next_item_loop]
    simp only [if_true, NEXT_ITEM_BUF_LEN]
    cases rest <;> simp [next_item_scan]
  | cons c cs ih =>
    have hc : c ≠ cNL := h c (List.mem_cons_self _ _)
    rw [List.cons_append]
    simp only [next_item_scan]
    rw [next_item_loop]
    simp only [if_true, hc, if_false, NEXT_ITEM_BUF_LEN]
    have := ih (fun d hd => h d (List.mem_cons_of_mem _ hd))
    cases hcs : cs ++ cNL :: rest with
    | nil => simp at hcs
    | cons a as =>
      rw [hcs] at this
      simpa [next_item_scan, NEXT_ITEM_BUF_LEN] using this

theorem next_item_scan_token (tok : List Nat) :
    ∀ (buf : List Nat) (delim : Nat) (rest : List Nat),
      (∀ c ∈ tok, isspace c = false ∧ c ≠ cSEMI) → (buf ++ tok).length < 126 →
      (isspace delim = true ∨ delim = cSEMI) →
      next_item_scan NEXT_ITEM_BUF_LEN false true buf (tok ++ delim :: rest) =
        (buf ++ tok, rest) := by
  induction tok with
  | nil =>
    intro buf delim rest _ _ hd
    simp only [List.nil_append, next_item_scan, List.append_nil]
    rw [next_item_loop]
    have : (isspace delim || decide (delim = cSEMI)) = true := by
      rcases hd with h | h
      · simp [h]
      · simp [h]
    simp only [Bool.false_eq_true, if_false, if_true, this]
  | cons c cs ih =>
    intro buf delim rest hc hlen hd
    obtain ⟨h1, h2⟩ := hc c (List.mem_cons_self _ _)
    rw [List.cons_append]
    simp only [next_item_scan]
    rw [next_item_loop]
    have hno : (isspace c || decide (c = cSEMI)) = false := by simp [h1, h2]
    have hl : ¬ (((buf ++ [c]).length : Int) ≥ NEXT_ITEM_BUF_LEN - 2) := by
      simp only [List.length_append, List.length_cons, List.length_nil, NEXT_ITEM_BUF_LEN] at hlen ⊢
      push_cast
      omega
    simp only [Bool.false_eq_true, if_false, if_true, hno, hl]
    have := ih (buf ++ [c]) delim rest (fun d hd => hc d (List.mem_cons_of_mem _ hd))
      (by simpa using hlen) hd
    cases hcs : cs ++ delim :: rest with
    | nil => simp at hcs
    | cons a as =>
      rw [hcs] at this
      simpa [next_item_scan] using this

theorem next_item_scan_start (c : Nat) (tok : List Nat) (delim : Nat) (rest : List Nat)
    (hc : ∀ d ∈ c :: tok, isspace d = false ∧ d ≠ cSEMI) (hlen : (c :: tok).length < 126)
    (hd : isspace delim = true ∨ delim = cSEMI) :
    next_item_scan NEXT_ITEM_BUF_LEN false false [] (c :: tok ++ delim :: rest) =
      (c :: tok, rest) := by
  obtain ⟨h1, h2⟩ := hc c (List.mem_cons_self _ _)
  rw [List.cons_append]
  simp only [next_item_scan]
  rw [next_item_loop]
  have hl : ¬ ((([] ++ [c] : List Nat).length : Int) ≥ NEXT_ITEM_BUF_LEN - 2) := by
    simp [NEXT_ITEM_BUF_LEN]
  simp only [Bool.false_eq_true, if_false, h1, Bool.not_false, if_true, h2, hl]
  have := next_item_scan_token tok [c] delim rest
    (fun d hd => hc d (List.mem_cons_of_mem _ hd)) (by simpa using hlen) hd
  cases hcs : tok ++ delim :: rest with
  | nil => simp at hcs
  | cons a as =>
    rw [hcs] at this
    simpa [next_item_scan] using this

theorem pending_advance (os : OS) (fp : Nat) (a rest : List Nat) (d : Diag)
    (h : os.pending fp = a ++ rest) : ((os.advance fp a.length).eprint d).pending fp = rest := by
  unfold OS.pending at h ⊢
  unfold OS.advance
  cases hs : os.stream fp with
  | none =>
    rw [hs] at h
    simp only [hs, OS.eprint, OS.stream] at *
    simp only [hs]
    have := congrArg List.length h
    simp only [List.length_nil, List.length_append] at this
    exact (List.length_eq_zero.mp (by omega)).symm
  | some s =>
    rw [hs] at h
    simp only [OS.eprint, OS.stream, OS.set_stream, table_get_cons_self, OS.content] at h ⊢
    rw [← List.drop_drop, h, List.drop_left]

theorem next_item_token (os : OS) (fp : Nat) (j tok : List Nat) (d : Nat) (rest : List Nat)
    (hj : ∀ x, next_item_scan NEXT_ITEM_BUF_LEN false false [] (j ++ x) =
      next_item_scan NEXT_ITEM_BUF_LEN false false [] x)
    (hne : tok ≠ []) (hc : ∀ c ∈ tok, isspace c = false ∧ c ≠ cSEMI) (hlen : tok.length < 126)
    (hd : isspace d = true ∨ d = cSEMI) (hp : os.pending fp = j ++ tok ++ d :: rest) :
    ∃ os1, next_item os fp NEXT_ITEM_BUF_LEN = some (tok, os1) ∧ os1.pending fp = rest := by
  have hscan : next_item_scan NEXT_ITEM_BUF_LEN false false [] (os.pending fp) = (tok, rest) := by
    rw [hp, List.append_assoc, hj]
    cases tok with
    | nil => exact absurd rfl hne
    | cons c cs => exact next_item_scan_start c cs d rest hc hlen hd
  unfold next_item
  cases hq : os.pending fp with
  | nil =>
    rw [hq] at hp
    have := congrArg List.length hp
    simp only [List.length_nil, List.length_append, List.length_cons] at this
    omega
  | cons rd rs =>
    rw [hq] at hscan
    simp only [next_item_scan] at hscan
    simp only [hscan]
    refine ⟨_, rfl, ?_⟩
    have hlen2 : (rd :: rs).length - rest.length = (j ++ tok ++ [d]).length := by
      rw [← hq, hp]
      simp only [List.length_append, List.length_cons, List.length_nil]
      omega
    rw [hlen2]
    apply pending_advance
    rw [hp]
    simp

theorem do_ascread_int_token (E : Env) (st : State) (f : t_fileio) (fp : Nat)
    (j : List Nat) (v : Int) (d : Nat) (rest desc : List Nat)
    (hcur : st.cur = some f) (hfp : f.fp = some fp)
    (hj : ∀ x, next_item_scan NEXT_ITEM_BUF_LEN false false [] (j ++ x) =
      next_item_scan NEXT_ITEM_BUF_LEN false false [] x)
    (h1 : -(2 : Int) ^ 31 ≤ v) (h2 : v < (2 : Int) ^ 31)
    (hd : isspace d = true ∨ d = cSEMI)
    (hp : st.os.pending fp = j ++ print_d v ++ d :: rest) :
    ∃ os1, do_ascread E st (some (Item.int 0)) 1 eioINT desc =
        Res.ok (true, some (Item.int v)) { st with os := os1 } ∧
      os1.pending fp = rest := by
  obtain ⟨hne, hlen, hchars, hscan⟩ := print_d_spec v h1 h2
  obtain ⟨os1, hnext, hpend⟩ := next_item_token st.os fp j (print_d v) d rest hj hne
    (fun c hc => ⟨(hchars c hc).1, (hchars c hc).2.1⟩) (by omega) hd hp
  refine ⟨os1, ?_, hpend⟩
  have hchk : check_nitem eioINT 1 = true := by decide
  simp only [do_ascread, hcur, hchk, Bool.not_true, Bool.false_eq_true, if_false,
    asc_read_scalar, asc_next, hfp, hnext, hscan, asc_read_return, codec_return,
    Option.getD_some]
  simp

theorem do_ascwrite_int (E : Env) (st : State) (f : t_fileio) (fp : Nat) (v : Int)
    (desc dbg : Str) (hcur : st.cur = some f) (hfp : f.fp = some fp)
    (hdbg : dbgstr E st f desc = some dbg) :
    do_ascwrite E st (some (Item.int v)) 1 eioINT desc =
      Res.ok (true, some (Item.int v))
        { st with os := st.os.write fp (printf_d 18 v ++ dbg ++ [cNL]) } := by
  have hchk : check_nitem eioINT 1 = true := by decide
  simp only [do_ascwrite, hchk, Bool.not_true, Bool.false_eq_true, if_false, hcur, hfp, hdbg,
    asc_put, codec_return]
  simp

theorem skip_nil : ∀ x, next_item_scan NEXT_ITEM_BUF_LEN false false [] ([] ++ x) =
    next_item_scan NEXT_ITEM_BUF_LEN false false [] x := fun _ => rfl

theorem skip_append {a b : List Nat}
    (ha : ∀ x, next_item_scan NEXT_ITEM_BUF_LEN false false [] (a ++ x) =
      next_item_scan NEXT_ITEM_BUF_LEN false false [] x)
    (hb : ∀ x, next_item_scan NEXT_ITEM_BUF_LEN false false [] (b ++ x) =
      next_item_scan NEXT_ITEM_BUF_LEN false false [] x) :
    ∀ x, next_item_scan NEXT_ITEM_BUF_LEN false false [] ((a ++ b) ++ x) =
      next_item_scan NEXT_ITEM_BUF_LEN false false [] x := by
  intro x
  rw [List.append_assoc, ha, hb]

theorem skip_comment (cm : List Nat) (h : ∀ c ∈ cm, c ≠ cNL) :
    ∀ x, next_item_scan NEXT_ITEM_BUF_LEN false false [] ((cSEMI :: cm ++ [cNL]) ++ x) =
      next_item_scan NEXT_ITEM_BUF_LEN false false [] x := by
  intro x
  have : (cSEMI :: cm ++ [cNL]) ++ x = cSEMI :: (cm ++ cNL :: x) := by simp
  rw [this, next_item_scan_semi, next_item_scan_comment cm x h]

/-- The annotation that `dbgstr` appends to a line, followed by the newline,
starts with a whitespace character, and what follows it is skipped by the
tokenizer. -/
theorem dbgstr_tail (E : Env) (st : State) (f : t_fileio) (desc dbg : Str)
    (hdbg : dbgstr E st f desc = some dbg) (hdesc : cNL ∉ desc)
    (hcmt : ∀ c, st.add_comment = some c → cNL ∉ c) :
    ∃ (d : Nat) (t : List Nat), dbg ++ [cNL] = d :: t ∧ isspace d = true ∧
      ∀ x, next_item_scan NEXT_ITEM_BUF_LEN false false [] (t ++ x) =
        next_item_scan NEXT_ITEM_BUF_LEN false false [] x := by
  unfold dbgstr at hdbg
  by_cases hb : f.bDebug = true
  · simp only [hb, Bool.not_true, Bool.false_eq_true, if_false] at hdbg
    split at hdbg
    · simp only [Option.some.injEq] at hdbg
      subst hdbg
      have hc : ∀ c ∈ (cSPACE :: (st.add_comment.getD [] ++ cSPACE :: desc)), c ≠ cNL := by
        intro c hc
        simp only [List.mem_cons, List.mem_append] at hc
        rcases hc with hc | hc | hc | hc
        · subst hc; decide
        · intro hcn
          subst hcn
          cases ha : st.add_comment with
          | none => rw [ha] at hc; simp at hc
          | some cm =>
            rw [ha] at hc
            exact hcmt cm ha hc
        · subst hc; decide
        · intro hcn
          subst hcn
          exact hdesc hc
      refine ⟨cSPACE, [cSPACE] ++ (cSEMI :: (cSPACE :: (st.add_comment.getD [] ++ cSPACE :: desc))
        ++ [cNL]), ?_, by decide, ?_⟩
      · simp [cstr, cSPACE, cSEMI]
      · exact skip_append
          (fun x => next_item_scan_spaces [cSPACE] x (by intro c hc; simp at hc; subst hc; decide))
          (skip_comment _ hc)
    · exact Option.noConfusion hdbg
  · have hb0 : f.bDebug = false := by simpa using hb
    simp only [hb0, Bool.not_false, if_true, Option.some.injEq] at hdbg
    subst hdbg
    exact ⟨cNL, [], rfl, by decide, skip_nil⟩

theorem asc_write_ints_spec (E : Env) (f : t_fileio) (fp : Nat) (path : Str) (ino : Nat)
    (hfp : f.fp = some fp) (items : List (Int × Str)) :
    ∀ (st : State) (c0 : List Nat), st.cur = some f → writes_at_end st.os fp path ino c0 →
      (∀ p ∈ items, ∃ dbg, dbgstr E st f p.2 = some dbg) →
      ∃ os1, asc_write_ints E items st = Res.ok (items.map (fun _ => true)) { st with os := os1 } ∧
        writes_at_end os1 fp path ino
          (c0 ++ (items.map (fun p =>
            printf_d 18 p.1 ++ (dbgstr E st f p.2).getD [] ++ [cNL])).flatten) := by
  induction items with
  | nil =>
    intro st c0 _ hend _
    exact ⟨st.os, by simp [asc_write_ints], by simpa using hend⟩
  | cons p more ih =>
    intro st c0 hcur hend hdbg
    obtain ⟨dbg, hd⟩ := hdbg p (List.mem_cons_self _ _)
    have hw := do_ascwrite_int E st f fp p.1 p.2 dbg hcur hfp hd
    have hend1 := write_at_end hend (printf_d 18 p.1 ++ dbg ++ [cNL])
    obtain ⟨os1, hrest, hend2⟩ := ih
      { st with os := st.os.write fp (printf_d 18 p.1 ++ dbg ++ [cNL]) }
      (c0 ++ (printf_d 18 p.1 ++ dbg ++ [cNL])) hcur hend1
      (fun q hq => hdbg q (List.mem_cons_of_mem _ hq))
    refine ⟨os1, ?_, ?_⟩
    · cases p with
      | mk v desc =>
        simp only [asc_write_ints, hw, Res.bind, hrest, List.map_cons]
    · have hsame : ∀ q : Int × Str,
          dbgstr E { st with os := st.os.write fp (printf_d 18 p.1 ++ dbg ++ [cNL]) } f q.2 =
            dbgstr E st f q.2 := fun _ => rfl
      simp only [hsame] at hend2
      simp only [List.map_cons, List.flatten_cons, hd, Option.getD_some]
      rw [← List.append_assoc]
      exact hend2

theorem asc_read_ints_spec (E : Env) (f : t_fileio) (fp : Nat) (hfp : f.fp = some fp)
    (stw : State) (fw : t_fileio) (hcmt : ∀ c, stw.add_comment = some c → cNL ∉ c)
    (items : List (Int × Str)) :
    ∀ (st : State) (j rest : List Nat), st.cur = some f →
      (∀ x, next_item_scan NEXT_ITEM_BUF_LEN false false [] (j ++ x) =
        next_item_scan NEXT_ITEM_BUF_LEN false false [] x) →
      (∀ p ∈ items, -(2 : Int) ^ 31 ≤ p.1 ∧ p.1 < (2 : Int) ^ 31) →
      (∀ p ∈ items, cNL ∉ p.2) →
      (∀ p ∈ items, ∃ dbg, dbgstr E stw fw p.2 = some dbg) →
      st.os.pending fp = j ++ (items.map (fun p =>
        printf_d 18 p.1 ++ (dbgstr E stw fw p.2).getD [] ++ [cNL])).flatten ++ rest →
      ∃ os1, asc_read_ints E (items.map (fun p => p.2)) st =
        Res.ok (items.map (fun p => (true, some (Item.int p.1)))) { st with os := os1 } := by
  induction items with
  | nil =>
    intro st j rest _ _ _ _ _ _
    exact ⟨st.os, by simp [asc_read_ints]⟩
  | cons p more ih =>
    intro st j rest hcur hj hrange hdesc hdbg hp
    obtain ⟨dbg, hd⟩ := hdbg p (List.mem_cons_self _ _)
    obtain ⟨d, t, hdt, hsp, ht⟩ := dbgstr_tail E stw fw p.2 dbg hd
      (hdesc p (List.mem_cons_self _ _)) hcmt
    obtain ⟨hr1, hr2⟩ := hrange p (List.mem_cons_self _ _)
    have hpad : ∀ x, next_item_scan NEXT_ITEM_BUF_LEN false false []
        ((j ++ List.replicate (18 - (print_d p.1).length) cSPACE) ++ x) =
        next_item_scan NEXT_ITEM_BUF_LEN false false [] x :=
      skip_append hj (fun x => next_item_scan_spaces _ x (by
        intro c hc
        rw [List.mem_replicate] at hc
        rw [hc.2]; decide))
    have hp2 : st.os.pending fp =
        (j ++ List.replicate (18 - (print_d p.1).length) cSPACE) ++ print_d p.1 ++
          d :: (t ++ (more.map (fun p =>
            printf_d 18 p.1 ++ (dbgstr E stw fw p.2).getD [] ++ [cNL])).flatten ++ rest) := by
      rw [hp]
      simp only [List.map_cons, List.flatten_cons, hd, Option.getD_some]
      generalize (more.map (fun p =>
        printf_d 18 p.1 ++ (dbgstr E stw fw p.2).getD [] ++ [cNL])).flatten = tl
      simp only [printf_d, pad_left, List.append_assoc]
      rw [← List.append_assoc dbg [cNL] (tl ++ rest), hdt]
      simp
    obtain ⟨os1, hread, hpend⟩ := do_ascread_int_token E st f fp _ p.1 d _ p.2 hcur hfp hpad
      hr1 hr2 (Or.inl hsp) hp2
    obtain ⟨os2, hrest⟩ := ih { st with os := os1 } t rest hcur ht
      (fun q hq => hrange q (List.mem_cons_of_mem _ hq))
      (fun q hq => hdesc q (List.mem_cons_of_mem _ hq))
      (fun q hq => hdbg q (List.mem_cons_of_mem _ hq)) hpend
    refine ⟨os2, ?_⟩
    simp only [List.map_cons, asc_read_ints, hread, Res.bind, hrest]

/-- C11: the text round trip of integers.  On a handle with a stream at the
end of its file, for every list of 32-bit integers written one after another
with `do_ascwrite` and kind INT, under either setting of the debug flag and
with any comment and descriptions that contain no newline (and whose
annotation fits the `STRLEN` buffer of `dbgstr`): every write returns
success and appends to the file, for each integer, the 18-wide
right-justified field, the annotation and a newline; and on every handle
whose stream stands in front of that text, reading as many integers with
`do_ascread` returns success each time and yields the written list. -/
theorem text_int_roundtrip (E : Env) (stw : State) (fw : t_fileio) (fpw : Nat) (path : Str)
    (ino : Nat) (c0 : List Nat) (items : List (Int × Str))
    (hcur : stw.cur = some fw) (hfp : fw.fp = some fpw)
    (hend : writes_at_end stw.os fpw path ino c0)
    (hrange : ∀ p ∈ items, -(2 : Int) ^ 31 ≤ p.1 ∧ p.1 < (2 : Int) ^ 31)
    (hdesc : ∀ p ∈ items, cNL ∉ p.2)
    (hcmt : ∀ c, stw.add_comment = some c → cNL ∉ c)
    (hfit : fw.bDebug = true → ∀ p ∈ items,
      (cstr "  ; " ++ (stw.add_comment.getD []) ++ [cSPACE] ++ p.2).length + 1 ≤ E.STRLEN) :
    ∃ stw1 : State,
      asc_write_ints E items stw = Res.ok (items.map (fun _ => true)) stw1 ∧
      writes_at_end stw1.os fpw path ino
        (c0 ++ (items.map (fun p =>
          printf_d 18 p.1 ++ (dbgstr E stw fw p.2).getD [] ++ [cNL])).flatten) ∧
      ∀ (str : State) (fr : t_fileio) (fpr : Nat) (rest : List Nat),
        str.cur = some fr → fr.fp = some fpr →
        str.os.pending fpr = (items.map (fun p =>
          printf_d 18 p.1 ++ (dbgstr E stw fw p.2).getD [] ++ [cNL])).flatten ++ rest →
        ∃ str1 : State, asc_read_ints E (items.map (fun p => p.2)) str =
          Res.ok (items.map (fun p => (true, some (Item.int p.1)))) str1 := by
  have hdbg : ∀ p ∈ items, ∃ dbg, dbgstr E stw fw p.2 = some dbg := by
    intro p hp
    unfold dbgstr
    by_cases hb : fw.bDebug = true
    · have := hfit hb p hp
      simp only [hb, Bool.not_true, Bool.false_eq_true, if_false, this, if_true]
      exact ⟨_, rfl⟩
    · have hb0 : fw.bDebug = false := by simpa using hb
      simp only [hb0, Bool.not_false, if_true]
      exact ⟨_, rfl⟩
  obtain ⟨os1, hwrite, hend1⟩ := asc_write_ints_spec E fw fpw path ino hfp items stw c0 hcur
    hend hdbg
  refine ⟨_, hwrite, hend1, ?_⟩
  intro str fr fpr rest hrc hrf hp
  obtain ⟨os2, hread⟩ := asc_read_ints_spec E fr fpr hrf stw fw hcmt items str [] rest hrc
    skip_nil hrange hdesc hdbg (by simpa using hp)
  exact ⟨_, hread⟩

theorem text_int_roundtrip_witness :
    ∃ stw1 : State,
      asc_write_ints demo_env [(42, cstr "x"), (-7, cstr "y d"), (-2147483648, [])]
        demo_text_state = Res.ok [true, true, true] stw1 ∧
      writes_at_end stw1.os 2 (cstr "c.gro") 2
        (cstr ("                42  ; cm x\n" ++ "                -7  ; cm y d\n" ++
          "       -2147483648  ; cm \n")) ∧
      ∀ (str : State) (fr : t_fileio) (fpr : Nat) (rest : List Nat),
        str.cur = some fr → fr.fp = some fpr →
        str.os.pending fpr =
          cstr ("                42  ; cm x\n" ++ "                -7  ; cm y d\n" ++
            "       -2147483648  ; cm \n") ++ rest →
        ∃ str1 : State, asc_read_ints demo_env [cstr "x", cstr "y d", []] str =
          Res.ok [(true, some (Item.int 42)), (true, some (Item.int (-7))),
            (true, some (Item.int (-2147483648)))] str1 := by
  have hcur : demo_text_state.cur =
      some { iFTP := efGRO, bOpen := true, bRead := false, bDouble := false, bDebug := true,
             bStdio := false, fn := cstr "c.gro", fp := some 2, xdr := none,
             bLargerThan_off_t := false } := by decide
  have hcm : demo_text_state.add_comment = some (cstr "cm") := by decide
  have h := text_int_roundtrip demo_env demo_text_state _ 2 (cstr "c.gro") 2 []
    [(42, cstr "x"), (-7, cstr "y d"), (-2147483648, [])] hcur rfl
    ⟨⟨{ ino := 2, pos := 0, is_open := true, flush_fails := false }, by decide, rfl, rfl⟩,
      by decide, by decide⟩
    (by decide) (by decide)
    (by intro c hc; rw [hcm] at hc; simp only [Option.some.injEq] at hc; subst hc; decide)
    (by decide)
  have htext : ([(42, cstr "x"), (-7, cstr "y d"), (-2147483648, [])].map
      (fun p : Int × Str => printf_d 18 p.1 ++ (dbgstr demo_env demo_text_state
        { iFTP := efGRO, bOpen := true, bRead := false, bDouble := false, bDebug := true,
          bStdio := false, fn := cstr "c.gro", fp := some 2, xdr := none,
          bLargerThan_off_t := false } p.2).getD [] ++ [cNL])).flatten =
      cstr ("                42  ; cm x\n" ++ "                -7  ; cm y d\n" ++
        "       -2147483648  ; cm \n") := by decide
  rw [htext] at h
  exact h

/-! ## Reads with a NULL destination that skip -/

theorem xdr_rvec_indep (E : Env) (os : OS) (x : XDRobj) (f : t_fileio)
    (v : Nat × Nat × Nat) (hr : f.bRead = true) :
    (xdr_rvec E os x f none).1 = (xdr_rvec E os x f (some v)).1 ∧
      (xdr_rvec E os x f none).2.2 = (xdr_rvec E os x f (some v)).2.2 := by
  simp only [xdr_rvec, hr, Bool.not_true, Bool.false_eq_true, if_false]
  split <;> exact ⟨rfl, rfl⟩

theorem xdr_rvec_read_skip (E : Env) (os : OS) (x : XDRobj) (f : t_fileio)
    (v : Nat × Nat × Nat) (hr : f.bRead = true) :
    (do_xdr_rvec E os x f none).1 = (do_xdr_rvec E os x f (some v)).1 ∧
      (do_xdr_rvec E os x f none).2.2 = (do_xdr_rvec E os x f (some v)).2.2 := by
  obtain ⟨h1, h2⟩ := xdr_rvec_indep E os x f v hr
  simp only [do_xdr_rvec, h1, h2, and_self]

theorem xdr_nrvec_read_skip (E : Env) (x : XDRobj) (f : t_fileio) (hr : f.bRead = true) :
    ∀ (n : Nat) (done ahead : List (Nat × Nat × Nat)) (os : OS)
      (r : Bool × List (Nat × Nat × Nat) × OS),
      xdr_nrvec_loop E x f n done ahead os = some r →
      xdr_nrvec_skip E x f n os = (r.1, r.2.2) := by
  intro n
  induction n with
  | zero =>
    intro done ahead os r h
    simp only [xdr_nrvec_loop, Option.some.injEq] at h
    subst h
    rfl
  | succ n ih =>
    intro done ahead os r h
    cases ahead with
    | nil => simp [xdr_nrvec_loop] at h
    | cons v ahead =>
      obtain ⟨h1, h2⟩ := xdr_rvec_read_skip E os x f v hr
      simp only [xdr_nrvec_loop] at h
      simp only [xdr_nrvec_skip, h1, h2]
      split at h
      · rename_i hg
        simp only [hg, if_true]
        exact ih _ _ _ _ h
      · rename_i hg
        simp only [Option.some.injEq] at h
        subst h
        simp only [hg, Bool.false_eq_true, if_false]

theorem xdr_ivec_read_skip (E : Env) (x : XDRobj) :
    ∀ (l l2 : List Int) (idum : Int) (os : OS), l.length = l2.length →
      (xdr_ivec_loop E x true false l idum os).1 = (xdr_ivec_loop E x true true l2 idum os).1 ∧
      (xdr_ivec_loop E x true false l idum os).2.2 =
        (xdr_ivec_loop E x true true l2 idum os).2.2 := by
  intro l
  induction l with
  | nil =>
    intro l2 idum os h
    cases l2 with
    | nil => exact ⟨rfl, rfl⟩
    | cons a as => simp at h
  | cons i rest ih =>
    intro l2 idum os h
    cases l2 with
    | nil => simp at h
    | cons a as =>
      simp only [List.length_cons, Nat.add_right_cancel_iff] at h
      simp only [xdr_ivec_loop, Bool.not_true, Bool.and_false, Bool.false_eq_true, if_false]
      split
      · exact ih as _ _ h
      · exact ⟨rfl, rfl⟩

/-- Skip semantics of the canonical-binary codec on a handle in read mode,
for every kind other than NUCHAR and STRING: whenever the transfer into a
destination returns, the transfer with a NULL item returns the same boolean
and leaves the same state. -/
theorem do_xdr_skip_as_read (E : Env) (st st1 : State) (f : t_fileio) (eio : Eio) (it : Item)
    (n : Int) (desc : Str) (good : Bool) (it1 : Option Item)
    (hcur : st.cur = some f) (hr : f.bRead = true)
    (hk : eio ≠ eioNUCHAR ∧ eio ≠ eioSTRING)
    (h : do_xdr E st (some it) n eio desc = Res.ok (good, it1) st1) :
    do_xdr E st none n eio desc = Res.ok (good, none) st1 := by
  unfold do_xdr do_xdr_lock at h ⊢
  by_cases hchk : check_nitem eio n = true
  · simp only [hchk, Bool.not_true, Bool.false_eq_true, if_false, hcur, hr] at h ⊢
    cases hx : f.xdr with
    | none =>
      rw [hx] at h
      cases eio <;> exact Res.noConfusion h
    | some x =>
      rw [hx] at h
      cases eio with
      | eioNUCHAR => exact absurd rfl hk.1
      | eioSTRING => exact absurd rfl hk.2
      | eioOther k => exact Res.noConfusion h
      | eioNRVEC =>
        cases it <;> first
          | exact Res.noConfusion h
          | (rename_i vs
             simp only at h ⊢
             split at h
             · exact Res.noConfusion h
             · rename_i r hloop
               have hs := xdr_nrvec_read_skip E x f hr _ _ _ _ _ hloop
               simp only [codec_return, Res.ok.injEq, Prod.mk.injEq] at h ⊢
               rw [hs]
               exact ⟨⟨h.1.1, trivial⟩, h.2⟩)
      | eioIVEC =>
        cases it <;> first
          | exact Res.noConfusion h
          | (rename_i a b c
             obtain ⟨h1, h2⟩ := xdr_ivec_read_skip E x
               [(E.indeterminate : Int), (E.indeterminate : Int), (E.indeterminate : Int)]
               [a, b, c] (E.indeterminate : Int) st.os rfl
             simp only [codec_return, Res.ok.injEq, Prod.mk.injEq] at h ⊢
             rw [h1, h2]
             exact ⟨⟨h.1.1, trivial⟩, h.2⟩)
      | eioRVEC =>
        cases it <;> first
          | exact Res.noConfusion h
          | (rename_i a b c
             obtain ⟨h1, h2⟩ := xdr_rvec_indep E st.os x f (a, b, c) hr
             simp only [codec_return, Res.ok.injEq, Prod.mk.injEq] at h ⊢
             rw [h1, h2]
             exact ⟨⟨h.1.1, trivial⟩, h.2⟩)
      | eioREAL =>
        cases it <;> first
          | exact Res.noConfusion h
          | (cases hb : f.bDouble <;>
               simp only [hb, Bool.false_eq_true, if_false, if_true, codec_return, Res.ok.injEq,
                 Prod.mk.injEq] at h ⊢ <;>
               exact ⟨⟨h.1.1, trivial⟩, h.2⟩)
      | _ =>
        cases it <;> first
          | exact Res.noConfusion h
          | (simp only [codec_return, Res.ok.injEq, Prod.mk.injEq] at h ⊢
             exact ⟨⟨h.1.1, trivial⟩, h.2⟩)
  · have hc : check_nitem eio n = false := by simpa using hchk
    simp only [hc, Bool.not_false, if_true] at h
    exact Res.noConfusion h
theorem seek_cur_eq_advance (os : OS) (fp : Nat) (off : Int) (h : 0 ≤ off) :
    os.seek_cur fp off = os.advance fp off.toNat := by
  unfold OS.seek_cur OS.advance
  cases os.stream fp with
  | none => rfl
  | some s =>
    have hnn : ¬ ((s.pos : Int) + off < 0) := by omega
    simp only [hnn, if_false]
    congr 2
    omega

theorem advance_zero (os : OS) (fp : Nat) :
    (os.advance fp 0).pending fp = os.pending fp ∧ ftello (os.advance fp 0) fp = ftello os fp := by
  unfold OS.advance
  cases hs : os.stream fp with
  | none => simp [hs]
  | some s =>
    simp only [OS.pending, ftello, stream_set_stream, hs, Nat.add_zero]
    exact ⟨rfl, trivial⟩

theorem bin_fread_skip_as_read (E : Env) (st st1 : State) (f : t_fileio) (fp : Nat) (it : Item)
    (size n : Int) (os : OS) (it1 : Option Item) (hfp : f.fp = some fp)
    (h : bin_fread E st f (some it) size n os = Res.ok (true, it1) st1) :
    ∃ st2, bin_fread E st f none size n os = Res.ok (true, none) st2 ∧
      st2.os.pending fp = st1.os.pending fp ∧ ftello st2.os fp = ftello st1.os fp := by
  unfold bin_fread at h ⊢
  simp only [hfp] at h ⊢
  split at h
  · exact Res.noConfusion h
  · rename_i hneg
    have hsz : 0 ≤ size := by omega
    have hn : 0 ≤ n := by omega
    have hoff : (size * n).toNat = size.toNat * n.toNat := by
      have h1 : size = (size.toNat : Int) := (Int.toNat_of_nonneg hsz).symm
      have h2 : n = (n.toNat : Int) := (Int.toNat_of_nonneg hn).symm
      rw [h1, h2]
      simp only [Int.toNat_ofNat]
      rw [← Nat.cast_mul, Int.toNat_ofNat]
    have hskip : os.seek_cur fp (size * n) = os.advance fp (size.toNat * n.toNat) := by
      rw [seek_cur_eq_advance os fp _ (mul_nonneg hsz hn), hoff]
    simp only [codec_return, Bool.not_true, Bool.false_and, Bool.false_eq_true, if_false, hskip]
    refine ⟨_, rfl, ?_⟩
    simp only at h ⊢
    split at h
    · simp only [codec_return, Res.ok.injEq, Prod.mk.injEq, decide_eq_true_eq] at h
      omega
    · split at h
      · rename_i hz
        simp only [codec_return, Res.ok.injEq, Prod.mk.injEq] at h
        obtain ⟨⟨hg, _⟩, hst⟩ := h
        simp only [hg, Bool.not_true, Bool.false_and, Bool.false_eq_true, if_false] at hst
        rw [← hst, hz]
        exact advance_zero os fp
      · split at h
        · exact Res.noConfusion h
        · simp only [codec_return, Res.ok.injEq, Prod.mk.injEq, Bool.not_true, Bool.false_and,
            Bool.false_eq_true, if_false] at h
          rw [← h.2]
          exact ⟨rfl, rfl⟩

/-- Skip semantics of the native-binary codec, for every kind and count:
whenever the read into a destination returns success, the read with a NULL
destination returns success and leaves the cursor of the stream at the same
offset, in front of the same bytes. -/
theorem do_binread_skip_as_read (E : Env) (st st1 : State) (f : t_fileio) (fp : Nat)
    (eio : Eio) (it : Item) (n : Int) (desc : Str) (it1 : Option Item)
    (hcur : st.cur = some f) (hfp : f.fp = some fp)
    (h : do_binread E st (some it) n eio desc = Res.ok (true, it1) st1) :
    ∃ st2, do_binread E st none n eio desc = Res.ok (true, none) st2 ∧
      st2.os.pending fp = st1.os.pending fp ∧ ftello st2.os fp = ftello st1.os fp := by
  unfold do_binread at h ⊢
  simp only [hcur] at h ⊢
  by_cases hchk : check_nitem eio n = true
  · simp only [hchk, Bool.not_true, Bool.false_eq_true, if_false] at h ⊢
    cases hsize : binread_size E f eio with
    | none => rw [hsize] at h; exact Res.noConfusion h
    | some size =>
      simp only [hsize] at h ⊢
      split at h
      · exact Res.noConfusion h
      · by_cases hstr : eio = eioSTRING
        · simp only [hstr, if_true] at h ⊢
          split at h
          · rename_i r st3 hfirst
            exact bin_fread_skip_as_read E st3 st1 f fp it _ n st3.os it1 hfp h
          · exact Res.noConfusion h
          · exact Res.noConfusion h
        · simp only [hstr, if_false] at h ⊢
          exact bin_fread_skip_as_read E st st1 f fp it _ n st.os it1 hfp h
  · have hc : check_nitem eio n = false := by simpa using hchk
    simp only [hc, Bool.not_false, if_true] at h
    exact Res.noConfusion h

/-! ## `decode_string` after `encode_string` with one `maxlen` -/

theorem map_eq_self_iff (g : Nat → Nat) (s : List Nat) : s.map g = s ↔ ∀ c ∈ s, g c = c := by
  induction s with
  | nil => simp
  | cons c cs ih => simp [ih]

/-- C24: for every string `s` with fewer than `maxlen` characters,
`decode_string(maxlen,.,.)` applied to what `encode_string(maxlen,.,s)`
stores gives `s` with every tab and every underscore replaced by a space,
all other characters and the length unchanged; so the result equals `s` if
and only if `s` contains no tab and no underscore.  Neither call prints the
truncation message. -/
theorem encode_decode_same_maxlen (maxlen : Int) (s : List Nat) (h0 : ∀ c ∈ s, c ≠ cNUL)
    (hlen : (s.length : Int) < maxlen) :
    decode_string maxlen (encode_string maxlen s).dst =
        { dst := s.map (fun c => if c = cTAB ∨ c = cUNDERSCORE then cSPACE else c),
          truncated_msg := false } ∧
    (encode_string maxlen s).truncated_msg = false ∧
    (decode_string maxlen (encode_string maxlen s).dst).dst.length = s.length ∧
    ((decode_string maxlen (encode_string maxlen s).dst).dst = s ↔
      (cTAB ∉ s ∧ cUNDERSCORE ∉ s)) := by
  have he : encode_loop maxlen 0 s =
      (s.map (fun c => if c = cSPACE ∨ c = cTAB then cUNDERSCORE else c), 0 + s.length) :=
    encode_loop_eq maxlen s 0 h0 (by push_cast; omega)
  have h1 : ∀ c ∈ s.map (fun c => if c = cSPACE ∨ c = cTAB then cUNDERSCORE else c),
      c ≠ cNUL := by
    intro c hc
    rcases List.mem_map.1 hc with ⟨d, hd, rfl⟩
    have := h0 d hd
    split
    · decide
    · exact this
  have hd := decode_loop_eq maxlen
    (s.map (fun c => if c = cSPACE ∨ c = cTAB then cUNDERSCORE else c)) 0 h1
    (by simp only [List.length_map]; push_cast; omega)
  have hmap : (s.map (fun c => if c = cSPACE ∨ c = cTAB then cUNDERSCORE else c)).map
      (fun c => if c = cUNDERSCORE then cSPACE else c) =
      s.map (fun c => if c = cTAB ∨ c = cUNDERSCORE then cSPACE else c) := by
    rw [List.map_map]
    apply List.map_congr_left
    intro c _
    simp only [Function.comp, cSPACE, cTAB, cUNDERSCORE]
    by_cases h32 : c = 32
    · simp [h32]
    · by_cases h9 : c = 9
      · simp [h9]
      · by_cases h95 : c = 95
        · simp [h95]
        · simp [h32, h9, h95]
  have hne : ¬ (((0 + s.length : Nat) : Int) = maxlen) := by push_cast; omega
  have hne2 : ¬ (((0 + (s.map (fun c => if c = cSPACE ∨ c = cTAB then cUNDERSCORE else c)).length
      : Nat) : Int) = maxlen) := by
    simp only [List.length_map]; push_cast; omega
  have hdec : decode_string maxlen (encode_string maxlen s).dst =
      { dst := s.map (fun c => if c = cTAB ∨ c = cUNDERSCORE then cSPACE else c),
        truncated_msg := false } := by
    simp only [encode_string, decode_string, he, hd, hmap, hne2, decide_False]
  refine ⟨hdec, ?_, ?_, ?_⟩
  · simp only [encode_string, he, hne, decide_False]
  · rw [hdec]; simp
  · rw [hdec]
    simp only
    rw [map_eq_self_iff]
    constructor
    · intro h
      constructor
      · intro ht
        have := h cTAB ht
        simp at this
        exact absurd this (by decide)
      · intro hu
        have := h cUNDERSCORE hu
        simp at this
        exact absurd this (by decide)
    · rintro ⟨ht, hu⟩ c hc
      have h1 : c ≠ cTAB := fun h => ht (h ▸ hc)
      have h2 : c ≠ cUNDERSCORE := fun h => hu (h ▸ hc)
      simp [h1, h2]

theorem encode_decode_same_maxlen_witness :
    decode_string 8 (encode_string 8 (cstr "a b\t_c")).dst =
        { dst := cstr "a b  c", truncated_msg := false } ∧
    (encode_string 8 (cstr "a b\t_c")).truncated_msg = false ∧
    (decode_string 8 (encode_string 8 (cstr "a b\t_c")).dst).dst.length = (cstr "a b\t_c").length ∧
    ((decode_string 8 (encode_string 8 (cstr "a b\t_c")).dst).dst = cstr "a b\t_c" ↔
      (cTAB ∉ cstr "a b\t_c" ∧ cUNDERSCORE ∉ cstr "a b\t_c")) :=
  encode_decode_same_maxlen 8 (cstr "a b\t_c") (by decide) (by decide)

/-! ## Field initialisation in `gmx_fio_open` -/

theorem first_free_set (g : t_fileio) (hg : g.bOpen = false) :
    ∀ (l : List t_fileio) (i : Nat),
      first_free i (l.set (first_free i l - i) g) = first_free i l := by
  intro l
  induction l with
  | nil => intro i; simp [first_free]
  | cons f rest ih =>
    intro i
    by_cases hf : f.bOpen = true
    · have h1 : first_free i (f :: rest) = first_free (i + 1) rest := by simp [first_free, hf]
      obtain ⟨hle, _⟩ := first_free_spec rest (i + 1)
      have hk : first_free (i + 1) rest - i = (first_free (i + 1) rest - (i + 1)) + 1 := by omega
      rw [h1, hk, List.set_cons_succ]
      simp only [first_free, hf, Bool.not_true, Bool.false_eq_true, if_false]
      exact ih (i + 1)
    · have hf0 : f.bOpen = false := by simpa using hf
      have h1 : first_free i (f :: rest) = i := by simp [first_free, hf0]
      rw [h1, Nat.sub_self, List.set_cons_zero]
      simp [first_free, hg]

/-- C25: `gmx_fio_open` assigns every field of the slot it returns.  On
return the slot has `bOpen` set, `bDebug` and `bLargerThan_off_t` cleared,
`bDouble` the build's precision and `bRead` set exactly when the effective
mode begins with `r`; for a path, `iFTP` is the file type of the path, `fn`
the path, `bStdio` is cleared, and `xdr` / `fp` are the new XDR stream and its
file for a type in `ftpXDR`, NULL and the stream of `ffopen` otherwise; for
the NULL path the slot is the `STDIO` slot on `stdin` or `stdout`.  So a
reused slot carries over nothing: whatever the free slot held before the
call, the call returns the same id and the same state. -/
theorem gmx_fio_open_assigns_all_fields (E : Env) (st st1 : State) (fn : Option Str)
    (mode : Str) (id : Nat) (h : gmx_fio_open E st fn mode = Res.ok id st1) :
    ∃ (slot : t_fileio) (newmode : Str),
      open_newmode E fn mode = ModeRes.ok newmode ∧ st1.FIO[id]? = some slot ∧
      slot.bOpen = true ∧ slot.bDebug = false ∧ slot.bLargerThan_off_t = false ∧
      slot.bDouble = E.real_is_double ∧ slot.bRead = decide (newmode.head? = some 114) ∧
      (∀ p, fn = some p →
        slot.iFTP = E.fn2ftp (some p) ∧ slot.fn = p ∧ slot.bStdio = false ∧
        (in_ftpset (E.fn2ftp (some p)) ftpXDR = true →
          ∃ x, slot.xdr = some x ∧ slot.fp = some x.x_private) ∧
        (in_ftpset (E.fn2ftp (some p)) ftpXDR = false →
          slot.xdr = none ∧ slot.fp = (E.ffopen st.os p newmode).1)) ∧
      (fn = none →
        slot.iFTP = efTPA ∧ slot.fn = cstr "STDIO" ∧ slot.bStdio = true ∧ slot.xdr = none ∧
        slot.fp = some (if newmode.head? = some 114 then stdin_fp else stdout_fp)) ∧
      (∀ g : t_fileio, g.bOpen = false → id < st.FIO.length →
        gmx_fio_open E { st with FIO := st.FIO.set id g } fn mode = Res.ok id st1) := by
  have hlt := first_free_lt_grow E st.FIO
  have hset : ∀ g : t_fileio, g.bOpen = false → first_free 0 st.FIO < st.FIO.length →
      first_free 0 (st.FIO.set (first_free 0 st.FIO) g) = first_free 0 st.FIO := by
    intro g hg _
    have := first_free_set g hg st.FIO 0
    simpa using this
  unfold gmx_fio_open at h ⊢
  cases hnm : open_newmode E fn mode with
  | bad_mode => rw [hnm] at h; exact Res.noConfusion h
  | overrun => rw [hnm] at h; exact Res.noConfusion h
  | ok newmode =>
    rw [hnm] at h
    dsimp only at h
    cases fn with
    | none =>
      simp only [Res.ok.injEq] at h
      obtain ⟨h1, h2⟩ := h
      subst h1 h2
      refine ⟨_, newmode, rfl, List.getElem?_set_self hlt, rfl, rfl, rfl, rfl, rfl,
        fun p hp => Option.noConfusion hp, fun _ => ⟨rfl, rfl, rfl, rfl, ?_⟩, ?_⟩
      · by_cases hr : newmode.head? = some 114 <;> simp [hr]
      · intro g hg hid
        have hff := hset g hg hid
        simp only [hnm, hff, State.os]
        simp only [grow_if_full, List.length_set, Nat.ne_of_lt hid, if_false, List.set_set]
    | some p =>
      dsimp only at h
      by_cases hx : in_ftpset (E.fn2ftp (some p)) ftpXDR = true
      · simp only [hx, if_true] at h
        split at h
        · exact Res.noConfusion h
        · rename_i os1 hprep
          split at h
          · split at h <;> exact Res.noConfusion h
          · rename_i x os2 hxo
            simp only [Res.ok.injEq] at h
            obtain ⟨h1, h2⟩ := h
            subst h1 h2
            refine ⟨_, newmode, rfl, List.getElem?_set_self hlt, rfl, rfl, rfl, rfl, rfl,
              ?_, fun hp => Option.noConfusion hp, ?_⟩
            · intro q hq
              simp only [Option.some.injEq] at hq
              subst hq
              exact ⟨rfl, rfl, rfl, fun _ => ⟨x, rfl, rfl⟩, fun hn => by rw [hx] at hn; exact Bool.noConfusion hn⟩
            · intro g hg hid
              have hff := hset g hg hid
              simp only [hnm, hff, hx, if_true, hprep, hxo]
              simp only [grow_if_full, List.length_set, Nat.ne_of_lt hid, if_false, List.set_set]
      · have hx0 : in_ftpset (E.fn2ftp (some p)) ftpXDR = false := by simpa using hx
        simp only [hx0, Bool.false_eq_true, if_false] at h
        split at h
        · exact Res.noConfusion h
        · rename_i fp os1 hff1
          simp only [Res.ok.injEq] at h
          obtain ⟨h1, h2⟩ := h
          subst h1 h2
          refine ⟨_, newmode, rfl, List.getElem?_set_self hlt, rfl, rfl, rfl, rfl, rfl,
            ?_, fun hp => Option.noConfusion hp, ?_⟩
          · intro q hq
            simp only [Option.some.injEq] at hq
            subst hq
            exact ⟨rfl, rfl, rfl, fun hn => by rw [hx0] at hn; exact Bool.noConfusion hn,
              fun _ => ⟨rfl, by rw [hff1]⟩⟩
          · intro g hg hid
            have hff := hset g hg hid
            simp only [hnm, hff, hx0, Bool.false_eq_true, if_false, hff1]
            simp only [grow_if_full, List.length_set, Nat.ne_of_lt hid, if_false, List.set_set]

/-- Witness for C25: handle 0 is opened on `a.tpr`, gets its debug flag set,
its precision and its file type changed and is closed; opening `b.gro` then
returns id 0 again with every field of the slot freshly assigned. -/
theorem gmx_fio_open_assigns_all_fields_witness :
    ∃ st1 : State,
      gmx_fio_open demo_env
          (demo_state [Op.fio_open (some (cstr "a.tpr")) (cstr "w"), Op.setdebug 0 true,
            Op.setprecision 0 true, Op.setftp 0 efTPB, Op.close 0])
          (some (cstr "b.gro")) (cstr "w") = Res.ok 0 st1 ∧
      ∃ (slot : t_fileio) (newmode : Str),
        open_newmode demo_env (some (cstr "b.gro")) (cstr "w") = ModeRes.ok newmode ∧
        st1.FIO[0]? = some slot ∧
        slot.bOpen = true ∧ slot.bDebug = false ∧ slot.bLargerThan_off_t = false ∧
        slot.bDouble = demo_env.real_is_double ∧
        slot.bRead = decide (newmode.head? = some 114) ∧
        (∀ p, some (cstr "b.gro") = some p →
          slot.iFTP = demo_env.fn2ftp (some p) ∧ slot.fn = p ∧ slot.bStdio = false ∧
          (in_ftpset (demo_env.fn2ftp (some p)) ftpXDR = true →
            ∃ x, slot.xdr = some x ∧ slot.fp = some x.x_private) ∧
          (in_ftpset (demo_env.fn2ftp (some p)) ftpXDR = false →
            slot.xdr = none ∧
            slot.fp = (demo_env.ffopen
              (demo_state [Op.fio_open (some (cstr "a.tpr")) (cstr "w"), Op.setdebug 0 true,
                Op.setprecision 0 true, Op.setftp 0 efTPB, Op.close 0]).os p newmode).1)) ∧
        (some (cstr "b.gro") = (none : Option Str) →
          slot.iFTP = efTPA ∧ slot.fn = cstr "STDIO" ∧ slot.bStdio = true ∧ slot.xdr = none ∧
          slot.fp = some (if newmode.head? = some 114 then stdin_fp else stdout_fp)) ∧
        (∀ g : t_fileio, g.bOpen = false →
          0 < (State.FIO (demo_state [Op.fio_open (some (cstr "a.tpr")) (cstr "w"),
            Op.setdebug 0 true, Op.setprecision 0 true, Op.setftp 0 efTPB,
            Op.close 0])).length →
          gmx_fio_open demo_env
            { demo_state [Op.fio_open (some (cstr "a.tpr")) (cstr "w"), Op.setdebug 0 true,
                Op.setprecision 0 true, Op.setftp 0 efTPB, Op.close 0] with
              FIO := (State.FIO (demo_state [Op.fio_open (some (cstr "a.tpr")) (cstr "w"),
                Op.setdebug 0 true, Op.setprecision 0 true, Op.setftp 0 efTPB,
                Op.close 0])).set 0 g }
            (some (cstr "b.gro")) (cstr "w") = Res.ok 0 st1) := by
  obtain ⟨st1, h⟩ := Res.ok_of_value
    (r := gmx_fio_open demo_env
      (demo_state [Op.fio_open (some (cstr "a.tpr")) (cstr "w"), Op.setdebug 0 true,
        Op.setprecision 0 true, Op.setftp 0 efTPB, Op.close 0])
      (some (cstr "b.gro")) (cstr "w")) (a := 0) (by decide)
  exact ⟨st1, h, gmx_fio_open_assigns_all_fields _ _ _ _ _ _ h⟩

/-! ## `gmx_fio_getname` reads the selected handle -/

/-- C22: `gmx_fio_getname(fio)` returns `curfio->fn`, the path of the handle
selected last, not the path of slot `fio`.  With `a.tpr` open as handle 0,
`b.tpr` open as handle 1 and handle 1 selected, slot 0 holds `a.tpr` but
`gmx_fio_getname(0)` returns `b.tpr`; with handle 0 open and no handle selected
the call dereferences NULL. -/
theorem gmx_fio_getname_returns_selected_path :
    (read_slot
        (demo_state [Op.fio_open (some (cstr "a.tpr")) (cstr "w"),
          Op.fio_open (some (cstr "b.tpr")) (cstr "w"), Op.select 1])
        0 (fun f => (f.bOpen, f.fn))).value = some (true, cstr "a.tpr") ∧
    (gmx_fio_getname
        (demo_state [Op.fio_open (some (cstr "a.tpr")) (cstr "w"),
          Op.fio_open (some (cstr "b.tpr")) (cstr "w"), Op.select 1])
        0).value = some (cstr "b.tpr") ∧
    (read_slot (demo_state [Op.fio_open (some (cstr "a.tpr")) (cstr "w")])
        0 (fun f => (f.bOpen, f.fn))).value = some (true, cstr "a.tpr") ∧
    gmx_fio_getname (demo_state [Op.fio_open (some (cstr "a.tpr")) (cstr "w")]) 0 =
      Res.undef := by
  decide

/-! ## `gmx_fio_select` on a closed slot -/

/-- Closed slot with a file type outside the three lists: `md.log` is opened
as handle 0 and `a.tpr` as handle 1, handle 1 is selected and handle 0 is
closed; id 0 is in range and its slot is closed, and `gmx_fio_select(0)` does
not return but ends in `gmx_fatal`. -/
theorem gmx_fio_select_closed_unlisted_aborts :
    gmx_fio_check
        (demo_state [Op.fio_open (some (cstr "md.log")) (cstr "w"),
          Op.fio_open (some (cstr "a.tpr")) (cstr "w"), Op.select 1, Op.close 0]) 0 = true ∧
    (read_slot
        (demo_state [Op.fio_open (some (cstr "md.log")) (cstr "w"),
          Op.fio_open (some (cstr "a.tpr")) (cstr "w"), Op.select 1, Op.close 0])
        0 (fun f => f.bOpen)).value = some false ∧
    (gmx_fio_select
        (demo_state [Op.fio_open (some (cstr "md.log")) (cstr "w"),
          Op.fio_open (some (cstr "a.tpr")) (cstr "w"), Op.select 1, Op.close 0])
        0).fatal_reason = some Fatal.no_codec := by
  decide

/-- `gmx_fio_select` on a closed slot with a file type of one of the three
lists. -/
theorem gmx_fio_select_closed_listed (st : State) (fio : Int) (f : t_fileio)
    (h0 : 0 ≤ fio) (h1 : fio < (st.nFIO : Int)) (hf : st.FIO[fio.toNat]? = some f)
    (hclosed : f.bOpen = false)
    (hlisted : in_ftpset f.iFTP ftpXDR = true ∨ in_ftpset f.iFTP ftpASC = true ∨
      in_ftpset f.iFTP ftpBIN = true) :
    ∃ st2 : State,
      gmx_fio_select st fio = Res.ok () st2 ∧
      st2.FIO = st.FIO ∧ st2.os = st.os ∧ st2.curfio = some fio.toNat ∧ st2.cur = some f ∧
      st2.cur.map (fun g => g.bOpen) = some false ∧
      st2.do_read ≠ do_func.do_dummy ∧ st2.do_write ≠ do_func.do_dummy ∧
      (in_ftpset f.iFTP ftpXDR = true →
        st2.do_read = do_func.do_xdr ∧ st2.do_write = do_func.do_xdr ∧
        ∀ E item nitem eio desc,
          call_do_read E st2 item nitem eio desc = do_xdr E st2 item nitem eio desc ∧
          call_do_write E st2 item nitem eio desc = do_xdr E st2 item nitem eio desc) ∧
      (in_ftpset f.iFTP ftpXDR = false → in_ftpset f.iFTP ftpASC = true →
        st2.do_read = do_func.do_ascread ∧ st2.do_write = do_func.do_ascwrite ∧
        ∀ E item nitem eio desc,
          call_do_read E st2 item nitem eio desc = do_ascread E st2 item nitem eio desc ∧
          call_do_write E st2 item nitem eio desc = do_ascwrite E st2 item nitem eio desc) ∧
      (in_ftpset f.iFTP ftpXDR = false → in_ftpset f.iFTP ftpASC = false →
        st2.do_read = do_func.do_binread ∧ st2.do_write = do_func.do_binwrite ∧
        ∀ E item nitem eio desc,
          call_do_read E st2 item nitem eio desc = do_binread E st2 item nitem eio desc ∧
          call_do_write E st2 item nitem eio desc = do_binwrite E st2 item nitem eio desc) ∧
      (∀ b : Bool, ∃ st3 : State,
        gmx_fio_select { st with FIO := st.FIO.set fio.toNat { f with bOpen := b } } fio =
          Res.ok () st3 ∧
        st3.do_read = st2.do_read ∧ st3.do_write = st2.do_write ∧
        st3.curfio = st2.curfio) := by
  have hlen : fio.toNat < st.FIO.length := by
    have : (fio.toNat : Int) = fio := Int.toNat_of_nonneg h0
    simp only [State.nFIO] at h1
    omega
  have hspec := (gmx_fio_select_spec st fio).2 f h0 h1 hf
  have hspec' : ∀ b : Bool,
      _ := fun b : Bool =>
    (gmx_fio_select_spec { st with FIO := st.FIO.set fio.toNat { f with bOpen := b } } fio).2
      { f with bOpen := b } h0 (by simpa [State.nFIO] using h1)
      (by simp [List.getElem?_set_self hlen])
  by_cases hx : in_ftpset f.iFTP ftpXDR = true
  · refine ⟨_, hspec.1 hx, rfl, rfl, rfl, ?_, ?_, by simp, by simp, fun _ => ⟨rfl, rfl, ?_⟩,
      fun hn => by rw [hx] at hn; exact Bool.noConfusion hn,
      fun hn => by rw [hx] at hn; exact Bool.noConfusion hn, fun b => ⟨_, (hspec' b).1 hx, rfl, rfl, rfl⟩⟩
    · simp [State.cur, hf]
    · simp [State.cur, hf, hclosed]
    · intro E item nitem eio desc
      exact ⟨rfl, rfl⟩
  · have hx0 : in_ftpset f.iFTP ftpXDR = false := by simpa using hx
    by_cases ha : in_ftpset f.iFTP ftpASC = true
    · refine ⟨_, hspec.2.1 ha, rfl, rfl, rfl, ?_, ?_, by simp, by simp,
        fun hn => absurd hn hx, fun _ _ => ⟨rfl, rfl, ?_⟩,
        fun _ hn => by rw [ha] at hn; exact Bool.noConfusion hn,
        fun b => ⟨_, (hspec' b).2.1 ha, rfl, rfl, rfl⟩⟩
      · simp [State.cur, hf]
      · simp [State.cur, hf, hclosed]
      · intro E item nitem eio desc
        exact ⟨rfl, rfl⟩
    · have hb : in_ftpset f.iFTP ftpBIN = true := by
        rcases hlisted with h | h | h
        · exact absurd h hx
        · exact absurd h ha
        · exact h
      refine ⟨_, hspec.2.2.1 hb, rfl, rfl, rfl, ?_, ?_, by simp, by simp,
        fun hn => absurd hn hx, fun _ hn => absurd hn ha, fun _ _ => ⟨rfl, rfl, ?_⟩,
        fun b => ⟨_, (hspec' b).2.2.1 hb, rfl, rfl, rfl⟩⟩
      · simp [State.cur, hf]
      · simp [State.cur, hf, hclosed]
      · intro E item nitem eio desc
        exact ⟨rfl, rfl⟩

/-- C23 (amended): `gmx_fio_select` does not consult the open flag.  For
every in-range id whose slot is closed and whose file type is in one of the
three codec lists, `gmx_fio_select(id)` returns normally, leaves the registry
as it is, makes the closed slot the current handle and binds `do_read` /
`do_write` to the codec of the slot's file type, so that an item transfer then
is a call of that codec on the closed slot and not of `do_dummy`; with the
open flag of the slot set to any value the call binds the same codecs.  For a
closed slot whose file type is in none of the lists the call does not
return. -/
theorem gmx_fio_select_closed_slot (st : State) (fio : Int) (f : t_fileio)
    (h0 : 0 ≤ fio) (h1 : fio < (st.nFIO : Int)) (hf : st.FIO[fio.toNat]? = some f)
    (hclosed : f.bOpen = false) :
    ((in_ftpset f.iFTP ftpXDR = true ∨ in_ftpset f.iFTP ftpASC = true ∨
        in_ftpset f.iFTP ftpBIN = true) →
      ∃ st2 : State,
        gmx_fio_select st fio = Res.ok () st2 ∧
        st2.FIO = st.FIO ∧ st2.os = st.os ∧ st2.curfio = some fio.toNat ∧ st2.cur = some f ∧
        st2.cur.map (fun g => g.bOpen) = some false ∧
        st2.do_read ≠ do_func.do_dummy ∧ st2.do_write ≠ do_func.do_dummy ∧
        (in_ftpset f.iFTP ftpXDR = true →
          st2.do_read = do_func.do_xdr ∧ st2.do_write = do_func.do_xdr ∧
          ∀ E item nitem eio desc,
            call_do_read E st2 item nitem eio desc = do_xdr E st2 item nitem eio desc ∧
            call_do_write E st2 item nitem eio desc = do_xdr E st2 item nitem eio desc) ∧
        (in_ftpset f.iFTP ftpXDR = false → in_ftpset f.iFTP ftpASC = true →
          st2.do_read = do_func.do_ascread ∧ st2.do_write = do_func.do_ascwrite ∧
          ∀ E item nitem eio desc,
            call_do_read E st2 item nitem eio desc = do_ascread E st2 item nitem eio desc ∧
            call_do_write E st2 item nitem eio desc = do_ascwrite E st2 item nitem eio desc) ∧
        (in_ftpset f.iFTP ftpXDR = false → in_ftpset f.iFTP ftpASC = false →
          st2.do_read = do_func.do_binread ∧ st2.do_write = do_func.do_binwrite ∧
          ∀ E item nitem eio desc,
            call_do_read E st2 item nitem eio desc = do_binread E st2 item nitem eio desc ∧
            call_do_write E st2 item nitem eio desc = do_binwrite E st2 item nitem eio desc) ∧
        (∀ b : Bool, ∃ st3 : State,
          gmx_fio_select { st with FIO := st.FIO.set fio.toNat { f with bOpen := b } } fio =
            Res.ok () st3 ∧
          st3.do_read = st2.do_read ∧ st3.do_write = st2.do_write ∧
          st3.curfio = st2.curfio)) ∧
    (in_ftpset f.iFTP ftpXDR = false → in_ftpset f.iFTP ftpASC = false →
      in_ftpset f.iFTP ftpBIN = false → (gmx_fio_select st fio).returns = false) := by
  refine ⟨fun hl => gmx_fio_select_closed_listed st fio f h0 h1 hf hclosed hl,
    fun hx ha hb => ?_⟩
  have hspec := ((gmx_fio_select_spec st fio).2 f h0 h1 hf).2.2.2 hx ha hb
  cases hc : st.curfio with
  | none => rw [hspec.2 hc]; rfl
  | some c => rw [hspec.1 (by rw [hc]; exact Option.noConfusion)]; rfl

/-- Witness for C23: `a.gro` is opened as handle 0 and closed again; selecting
the closed handle 0 returns and binds the text codecs. -/
theorem gmx_fio_select_closed_slot_witness :
    ∃ f : t_fileio,
      (State.FIO (demo_state [Op.fio_open (some (cstr "a.gro")) (cstr "w"),
        Op.close 0]))[(0 : Int).toNat]? = some f ∧
      f.bOpen = false ∧
      (in_ftpset f.iFTP ftpXDR = true ∨ in_ftpset f.iFTP ftpASC = true ∨
        in_ftpset f.iFTP ftpBIN = true) ∧
      ∃ st2 : State,
        gmx_fio_select (demo_state [Op.fio_open (some (cstr "a.gro")) (cstr "w"), Op.close 0]) 0 =
          Res.ok () st2 ∧
        st2.curfio = some 0 ∧ st2.cur = some f ∧
        st2.do_read = do_func.do_ascread ∧ st2.do_write = do_func.do_ascwrite := by
  obtain ⟨f, hf, hfo⟩ := slot_of_eval
    (s := demo_state [Op.fio_open (some (cstr "a.gro")) (cstr "w"), Op.close 0])
    (i := 0) (b := false) (by decide)
  have hftp : f.iFTP = efGRO := by
    have h2 : ((State.FIO (demo_state [Op.fio_open (some (cstr "a.gro")) (cstr "w"),
        Op.close 0]))[0]?).map
        (fun g => g.iFTP) = some efGRO := by decide
    rw [hf] at h2
    simpa using h2
  have hl : in_ftpset f.iFTP ftpXDR = true ∨ in_ftpset f.iFTP ftpASC = true ∨
      in_ftpset f.iFTP ftpBIN = true := by
    rw [hftp]; decide
  obtain ⟨st2, hsel, _, _, hcur, hc, _, _, _, _, hasc, _, _⟩ :=
    (gmx_fio_select_closed_slot
      (demo_state [Op.fio_open (some (cstr "a.gro")) (cstr "w"), Op.close 0]) 0 f
      (by decide) (by decide) hf hfo).1 hl
  have ha := hasc (by rw [hftp]; decide) (by rw [hftp]; decide)
  exact ⟨f, hf, hfo, hl, st2, hsel, hcur, hc, ha.1, ha.2.1⟩

/-! ## The mutex discipline -/

theorem hold_count_append (a b : List Ev) :
    ∀ c : Nat, hold_count c (a ++ b) = (hold_count c a).bind (fun c1 => hold_count c1 b) := by
  induction a with
  | nil => intro c; simp [hold_count]
  | cons e rest ih =>
    intro c
    simp only [List.cons_append, hold_count]
    cases e.step c with
    | none => simp
    | some c1 => simp [ih c1]

theorem Res.returns_void {α : Type} (r : Res α) : r.void.returns = r.returns := by
  cases r <;> rfl

theorem Res.returns_iff {α : Type} (r : Res α) : r.returns = true ↔ ∃ a st, r = Res.ok a st := by
  cases r <;> simp [Res.returns]

theorem locked_region_false (r : Bool) : locked_region false [] r = [] := by
  cases r <;> rfl

theorem mutex_respected_nil (r : Bool) (h : r = true → False) : mutex_respected [] r :=
  ⟨0, rfl, by omega, fun hr => (h hr).elim⟩

theorem mutex_respected_region (r r1 : Bool) (h : r1 = true → r = true) :
    mutex_respected (locked_region true [] r) r1 := by
  cases r with
  | true => exact ⟨0, by decide, by omega, fun _ => rfl⟩
  | false =>
    refine ⟨1, by decide, by omega, fun hr => ?_⟩
    exact Bool.noConfusion (h hr)

theorem mutex_respected_balanced (r : Bool) : mutex_respected (locked_region true [] true) r :=
  ⟨0, by decide, by omega, fun _ => rfl⟩

theorem mutex_respected_append {a b : List Ev} {r : Bool} (ha : hold_count 0 a = some 0)
    (hb : mutex_respected b r) : mutex_respected (a ++ b) r := by
  obtain ⟨k, hk, hle, hr⟩ := hb
  exact ⟨k, by rw [hold_count_append, ha]; exact hk, hle, hr⟩

theorem mutex_respected_mono {es : List Ev} {r r1 : Bool} (h : mutex_respected es r)
    (hr : r1 = true → r = true) : mutex_respected es r1 := by
  obtain ⟨k, hk, hle, h0⟩ := h
  exact ⟨k, hk, hle, fun h1 => h0 (hr h1)⟩

theorem mutex_respected_if (r : Bool) :
    mutex_respected (if r then locked_region true [] true else []) r := by
  cases r with
  | true => exact mutex_respected_balanced _
  | false => exact mutex_respected_nil _ (fun h => Bool.noConfusion h)

theorem xdr_nrvec_loop_events_nil (E : Env) (x : XDRobj) (f : t_fileio) :
    ∀ (n : Nat) (vs : List (Nat × Nat × Nat)) (os : OS),
      xdr_nrvec_loop_events E x f n vs os = [] := by
  intro n
  induction n with
  | zero => intro vs os; simp [xdr_nrvec_loop_events]
  | succ n ih =>
    intro vs os
    cases vs with
    | nil => simp [xdr_nrvec_loop_events]
    | cons v ahead =>
      simp only [xdr_nrvec_loop_events, do_xdr_rvec_events, locked_region_false, List.nil_append]
      split
      · exact ih _ _
      · rfl

theorem xdr_nrvec_skip_events_nil (E : Env) (x : XDRobj) (f : t_fileio) :
    ∀ (n : Nat) (os : OS), xdr_nrvec_skip_events E x f n os = [] := by
  intro n
  induction n with
  | zero => intro os; simp [xdr_nrvec_skip_events]
  | succ n ih =>
    intro os
    simp only [xdr_nrvec_skip_events, do_xdr_rvec_events, locked_region_false, List.nil_append]
    split
    · exact ih _
    · rfl

theorem do_xdr_lock_events_eq (E : Env) (st : State) (item : Option Item) (nitem : Int)
    (eio : Eio) (desc : Str) (do_lock : Bool) :
    do_xdr_lock_events E st item nitem eio desc do_lock =
      locked_region do_lock [] (do_xdr_lock E st item nitem eio desc).returns := by
  unfold do_xdr_lock_events
  congr 1
  split
  · rfl
  · split
    · rfl
    · split
      · split
        · exact xdr_nrvec_skip_events_nil _ _ _ _ _
        · exact xdr_nrvec_loop_events_nil _ _ _ _ _ _
        · rfl
      · rfl

theorem output_positions_loop_events_nil (st : State) :
    ∀ (slots : List t_fileio) (i : Nat), output_positions_loop_events st i slots = [] := by
  intro slots
  induction slots with
  | nil => intro i; rfl
  | cons f rest ih =>
    intro i
    simp only [output_positions_loop_events, gmx_fio_get_file_position_events,
      gmx_fio_flush_lock_events, locked_region_false, List.nil_append, ih]
    repeat' split
    all_goals rfl

theorem do_binread_cur_none {E : Env} {st : State} {item : Option Item} {nitem : Int}
    {eio : Eio} {desc : Str} (hcur : st.cur = none) :
    (do_binread E st item nitem eio desc).returns = false := by
  unfold do_binread
  simp only [hcur]
  split <;> rfl

theorem do_binread_string_nested {E : Env} {st : State} {item : Option Item} {nitem : Int}
    {desc : Str} {f : t_fileio} (hcur : st.cur = some f)
    (h : (do_binread E st item nitem eioSTRING desc).returns = true) :
    (bin_fread E st f (some (Item.int (E.indeterminate : Int))) 4 1 st.os).returns = true := by
  unfold do_binread at h
  simp only [hcur] at h
  split at h
  · exact Bool.noConfusion h
  · split at h
    · exact Bool.noConfusion h
    · split at h
      · exact Bool.noConfusion h
      · simp only [if_true] at h
        split at h
        · rename_i heq
          simp only [heq, Res.returns]
        · exact Bool.noConfusion h
        · exact Bool.noConfusion h

theorem call_do_func_events_respected (fn : do_func) (E : Env) (st : State)
    (item : Option Item) (nitem : Int) (eio : Eio) (desc : Str) :
    mutex_respected (call_do_func_events fn E st item nitem eio desc)
      (call_do_func fn E st item nitem eio desc).returns := by
  cases fn with
  | do_dummy => exact mutex_respected_nil _ (fun h => Bool.noConfusion h)
  | do_xdr =>
    simp only [call_do_func_events, do_xdr_events, do_xdr_lock_events_eq, call_do_func, do_xdr]
    exact mutex_respected_region _ _ id
  | do_ascread =>
    simp only [call_do_func_events, do_ascread_events, call_do_func]
    exact mutex_respected_if _
  | do_ascwrite =>
    simp only [call_do_func_events, do_ascwrite_events, call_do_func]
    exact mutex_respected_region _ _ id
  | do_binread =>
    simp only [call_do_func_events, call_do_func]
    unfold do_binread_events
    split
    · refine mutex_respected_nil _ (fun h => ?_)
      rename_i hc
      unfold do_binread at h
      rw [if_pos hc] at h
      exact Bool.noConfusion h
    · split
      · refine mutex_respected_nil _ (fun h => ?_)
        unfold do_binread at h
        simp only [binread_size] at h
        repeat' split at h
        all_goals exact Bool.noConfusion h
      · dsimp only
        cases hcur : st.cur with
        | none =>
          rw [do_binread_cur_none hcur]
          dsimp only
          exact ⟨1, by decide, by omega, fun h => Bool.noConfusion h⟩
        | some f =>
          dsimp only
          by_cases hr : (do_binread E st item nitem eioSTRING desc).returns = true
          · rw [do_binread_string_nested hcur hr, hr]
            exact ⟨0, by decide, by omega, fun _ => rfl⟩
          · have hr0 : (do_binread E st item nitem eioSTRING desc).returns = false := by
              simpa using hr
            rw [hr0]
            cases (bin_fread E st f (some (Item.int (E.indeterminate : Int))) 4 1 st.os).returns
            · exact ⟨1, by decide, by omega, fun h => Bool.noConfusion h⟩
            · exact ⟨1, by decide, by omega, fun h => Bool.noConfusion h⟩
      all_goals
        first
          | exact mutex_respected_region _ _ id
          | (split
             · refine mutex_respected_nil _ (fun h => ?_)
               rename_i hcur
               unfold do_binread at h
               simp only [hcur] at h
               repeat' split at h
               all_goals exact Bool.noConfusion h
             · exact mutex_respected_region _ _ id)
  | do_binwrite =>
    simp only [call_do_func_events, call_do_func]
    unfold do_binwrite_events
    have hb : ∀ r : Bool, mutex_respected (if r then locked_region true [] true else []) r :=
      mutex_respected_if
    have h2 := hb (do_binwrite E st item nitem eio desc).returns
    split
    · split
      · split
        · exact mutex_respected_append (by decide) h2
        · simpa using h2
      · simpa using h2
    · simpa using h2
theorem gmx_fio_open_events_respected (E : Env) (st : State) (fn : Option Str) (mode : Str) :
    mutex_respected (gmx_fio_open_events E st fn mode) (gmx_fio_open E st fn mode).returns := by
  unfold gmx_fio_open_events
  split
  · exact mutex_respected_region _ _ id
  · rename_i hnm
    refine mutex_respected_nil _ (fun h => ?_)
    unfold gmx_fio_open at h
    cases hm : open_newmode E fn mode with
    | ok nm => exact hnm nm hm
    | bad_mode => rw [hm] at h; exact Bool.noConfusion h
    | overrun => rw [hm] at h; exact Bool.noConfusion h

theorem gmx_fio_fopen_events_respected (E : Env) (st : State) (fn : Option Str) (mode : Str) :
    mutex_respected (gmx_fio_fopen_events E st fn mode) (gmx_fio_fopen E st fn mode).returns := by
  have ho := gmx_fio_open_events_respected E st fn mode
  unfold gmx_fio_fopen_events
  cases hopen : gmx_fio_open E st fn mode with
  | ok fd st1 =>
    rw [hopen] at ho
    obtain ⟨k, hk, _, h0⟩ := ho
    have hk0 : k = 0 := h0 rfl
    subst hk0
    exact mutex_respected_append hk (mutex_respected_region _ _ id)
  | fatal e os =>
    rw [hopen] at ho
    simp only [List.append_nil]
    refine mutex_respected_mono ho (fun h => ?_)
    unfold gmx_fio_fopen at h
    rw [hopen] at h
    exact Bool.noConfusion h
  | undef =>
    rw [hopen] at ho
    simp only [List.append_nil]
    refine mutex_respected_mono ho (fun h => ?_)
    unfold gmx_fio_fopen at h
    rw [hopen] at h
    exact Bool.noConfusion h

theorem gmx_fio_fclose_events_eq (st : State) (fp : Option Nat) :
    gmx_fio_fclose_events st fp = locked_region true [] (gmx_fio_fclose st fp).returns := by
  unfold gmx_fio_fclose_events
  congr 1
  split
  · rfl
  · exact locked_region_false _

theorem gmx_fio_check_file_position_events_respected (E : Env) (st : State) (fio : Int) :
    mutex_respected (gmx_fio_check_file_position_events E st fio)
      (gmx_fio_check_file_position E st fio).returns := by
  unfold gmx_fio_check_file_position_events
  split
  · simp only [gmx_fio_get_file_position_events, gmx_fio_flush_lock_events, locked_region_false]
    exact mutex_respected_region _ _ id
  · exact ⟨0, rfl, by omega, fun _ => rfl⟩

theorem Op.events_respected (E : Env) (st : State) (op : Op) :
    mutex_respected (op.events E st) (op.run E st).returns := by
  cases op with
  | fio_open fn mode =>
    simp only [Op.events, Op.run, Res.returns_void]
    exact gmx_fio_open_events_respected E st fn mode
  | fopen fn mode =>
    simp only [Op.events, Op.run, Res.returns_void]
    exact gmx_fio_fopen_events_respected E st fn mode
  | close fio =>
    simp only [Op.events, Op.run, Res.returns_void, gmx_fio_close_events,
      gmx_fio_close_lock_events, gmx_fio_close]
    exact mutex_respected_region _ _ id
  | fclose fp =>
    simp only [Op.events, Op.run, Res.returns_void, gmx_fio_fclose_events_eq]
    exact mutex_respected_region _ _ id
  | flush fio =>
    simp only [Op.events, Op.run, Res.returns_void, gmx_fio_flush_events,
      gmx_fio_flush_lock_events, gmx_fio_flush]
    exact mutex_respected_region _ _ id
  | check_file_position fio =>
    simp only [Op.events, Op.run, Res.returns_void]
    exact gmx_fio_check_file_position_events_respected E st fio
  | get_output_file_positions =>
    simp only [Op.events, Op.run, Res.returns_void, gmx_fio_get_output_file_positions_events,
      output_positions_loop_events_nil]
    exact mutex_respected_region _ _ id
  | set_comment c =>
    simp only [Op.events, set_comment_events]
    exact mutex_respected_balanced _
  | unset_comment =>
    simp only [Op.events, set_comment_events]
    exact mutex_respected_balanced _
  | read item nitem eio desc =>
    simp only [Op.events, Op.run, Res.returns_void, call_do_read]
    exact call_do_func_events_respected _ _ _ _ _ _ _
  | write item nitem eio desc =>
    simp only [Op.events, Op.run, Res.returns_void, call_do_write]
    exact call_do_func_events_respected _ _ _ _ _ _ _
  | _ =>
    simp only [Op.events, Op.run, Res.returns_void, slot_access_events]
    exact mutex_respected_region _ _ id

theorem run_ops_events_respected (E : Env) :
    ∀ (ops : List Op) (st : State),
      mutex_respected (run_ops_events E ops st) (run_ops E ops st).isSome := by
  intro ops
  induction ops with
  | nil => intro st; exact ⟨0, rfl, by omega, fun _ => rfl⟩
  | cons op rest ih =>
    intro st
    have hop := Op.events_respected E st op
    simp only [run_ops_events, run_ops]
    cases hrun : op.run E st with
    | ok u st1 =>
      rw [hrun] at hop
      obtain ⟨k, hk, _, h0⟩ := hop
      have hk0 : k = 0 := h0 rfl
      subst hk0
      exact mutex_respected_append hk (ih st1)
    | fatal e os =>
      rw [hrun] at hop
      simp only [List.append_nil]
      exact mutex_respected_mono hop (fun h => Bool.noConfusion h)
    | undef =>
      rw [hrun] at hop
      simp only [List.append_nil]
      exact mutex_respected_mono hop (fun h => Bool.noConfusion h)
theorem run_ops_events_demo :
    run_ops_events demo_env
        [Op.fopen (some (cstr "a.tpr")) (cstr "w"), Op.select 0,
          Op.write (some (Item.rvecs [(1, 2, 3), (4, 5, 6)])) 2 eioNRVEC [],
          Op.get_output_file_positions, Op.fclose (some 100), Op.getname 7]
        (State.initial empty_os) =
      [Ev.lock, Ev.unlock, Ev.lock, Ev.unlock, Ev.lock, Ev.unlock, Ev.lock, Ev.unlock,
        Ev.lock, Ev.unlock, Ev.lock, Ev.unlock, Ev.lock] := by
  decide

/-- C21: `fio_mutex` is never acquired while it is held.  With the mutex as a
hold count, the calls on the mutex of every exported operation, of every call
of a codec and of every sequence of operations keep the count at 0 or 1 (no
lock while held, no unlock while free), and the count is 0 when the operation,
the codec call or the whole sequence returns.  The nested calls are made with
`do_lock = FALSE` and then make no call on the mutex: the single-vector
transfers of the `eioNRVEC` loop, the close inside `gmx_fio_fclose` and the
flush inside the position queries; made with `do_lock = TRUE` with the mutex
held, each of them would lock it again. -/
theorem fio_mutex_never_reacquired :
    (∀ (E : Env) (st : State) (op : Op),
      ∃ k : Nat, hold_count 0 (op.events E st) = some k ∧ k ≤ 1 ∧
        ((op.run E st).returns = true → k = 0)) ∧
    (∀ (fn : do_func) (E : Env) (st : State) (item : Option Item) (nitem : Int) (eio : Eio)
        (desc : Str),
      ∃ k : Nat, hold_count 0 (call_do_func_events fn E st item nitem eio desc) = some k ∧
        k ≤ 1 ∧ ((call_do_func fn E st item nitem eio desc).returns = true → k = 0)) ∧
    (∀ (E : Env) (ops : List Op) (st : State),
      ∃ k : Nat, hold_count 0 (run_ops_events E ops st) = some k ∧ k ≤ 1 ∧
        ((run_ops E ops st).isSome = true → k = 0)) ∧
    (∀ (E : Env) (x : XDRobj) (f : t_fileio) (n : Nat) (vs : List (Nat × Nat × Nat)) (os : OS),
      xdr_nrvec_loop_events E x f n vs os = [] ∧ xdr_nrvec_skip_events E x f n os = []) ∧
    (∀ (st : State) (fio : Int),
      gmx_fio_close_lock_events st fio false = [] ∧
      gmx_fio_flush_lock_events st fio false = [] ∧
      gmx_fio_get_file_position_events st fio = []) ∧
    (∀ (E : Env) (st : State) (item : Option Item) (nitem : Int) (eio : Eio) (desc : Str)
        (fio : Int),
      hold_count 1 (do_xdr_lock_events E st item nitem eio desc true) = none ∧
      hold_count 1 (gmx_fio_close_lock_events st fio true) = none ∧
      hold_count 1 (gmx_fio_flush_lock_events st fio true) = none) := by
  refine ⟨fun E st op => Op.events_respected E st op,
    fun fn E st item nitem eio desc => call_do_func_events_respected fn E st item nitem eio desc,
    fun E ops st => run_ops_events_respected E ops st,
    fun E x f n vs os => ⟨xdr_nrvec_loop_events_nil E x f n vs os,
      xdr_nrvec_skip_events_nil E x f n os⟩,
    fun st fio => ⟨locked_region_false _, locked_region_false _, locked_region_false _⟩,
    fun E st item nitem eio desc fio => ⟨?_, ?_, ?_⟩⟩
  · rw [do_xdr_lock_events_eq]
    cases (do_xdr_lock E st item nitem eio desc).returns <;> rfl
  · unfold gmx_fio_close_lock_events
    cases (gmx_fio_close_lock st fio).returns <;> rfl
  · unfold gmx_fio_flush_lock_events
    cases (gmx_fio_flush_lock st fio).returns <;> rfl

/-! ## The text round trip of a string -/

/-- What `decode_string`, called as `do_ascread` calls it, makes of the
string that `encode_string(256,.,s)` produced, when that whole string is the
token. -/
theorem decode_encoded_token (s : List Nat) (h0 : ∀ c ∈ s, c ≠ cNUL) (hlen : s.length < 256) :
    (encode_string 256 s).dst =
        s.map (fun c => if c = cSPACE ∨ c = cTAB then cUNDERSCORE else c) ∧
    (encode_string 256 s).truncated_msg = false ∧
    (decode_string ((strlen (encode_string 256 s).dst : Int) + 1) (encode_string 256 s).dst).dst =
      s.map (fun c => if c = cSPACE ∨ c = cTAB ∨ c = cUNDERSCORE then cSPACE else c) := by
  have he : encode_loop 256 0 s =
      (s.map (fun c => if c = cSPACE ∨ c = cTAB then cUNDERSCORE else c), 0 + s.length) :=
    encode_loop_eq 256 s 0 h0 (by push_cast; omega)
  have h1 : ∀ c ∈ s.map (fun c => if c = cSPACE ∨ c = cTAB then cUNDERSCORE else c),
      c ≠ cNUL := by
    intro c hc
    rcases List.mem_map.1 hc with ⟨d, hd, rfl⟩
    have := h0 d hd
    split
    · decide
    · exact this
  have hs := strlen_of_no_nul _ h1
  have hd := decode_loop_eq
    ((strlen (s.map (fun c => if c = cSPACE ∨ c = cTAB then cUNDERSCORE else c)) : Int) + 1)
    (s.map (fun c => if c = cSPACE ∨ c = cTAB then cUNDERSCORE else c)) 0 h1
    (by rw [hs]; push_cast; omega)
  refine ⟨by simp only [encode_string, he], ?_, ?_⟩
  · simp only [encode_string, he, decide_eq_false_iff_not]
    push_cast
    omega
  · simp only [encode_string, decode_string, he, hd, List.map_map]
    apply List.map_congr_left
    intro c _
    simp only [Function.comp, cSPACE, cTAB, cUNDERSCORE]
    by_cases h32 : c = 32
    · simp [h32]
    · by_cases h9 : c = 9
      · simp [h9]
      · by_cases h95 : c = 95
        · simp [h95]
        · simp [h32, h9, h95]

/-- A token that fills the buffer of `next_item`: the loop stops after the
character that brings the count to `buflen - 2`, whatever follows. -/
theorem next_item_scan_full (tok : List Nat) :
    ∀ (buf rest : List Nat),
      (∀ c ∈ tok, isspace c = false ∧ c ≠ cSEMI) → tok ≠ [] →
      (buf ++ tok).length = 126 →
      next_item_scan NEXT_ITEM_BUF_LEN false true buf (tok ++ rest) = (buf ++ tok, rest) := by
  induction tok with
  | nil => intro buf rest _ hne _; exact absurd rfl hne
  | cons c cs ih =>
    intro buf rest hc _ hlen
    obtain ⟨h1, h2⟩ := hc c (List.mem_cons_self _ _)
    rw [List.cons_append]
    simp only [next_item_scan]
    rw [next_item_loop]
    have hno : (isspace c || decide (c = cSEMI)) = false := by simp [h1, h2]
    simp only [Bool.false_eq_true, if_false, if_true, hno]
    by_cases hcs : cs = []
    · subst hcs
      have hl : (((buf ++ [c]).length : Int) ≥ NEXT_ITEM_BUF_LEN - 2) := by
        rw [hlen]; simp [NEXT_ITEM_BUF_LEN]
      simp only [hl, if_true, List.nil_append]
    · have hl : ¬ (((buf ++ [c]).length : Int) ≥ NEXT_ITEM_BUF_LEN - 2) := by
        have : 0 < cs.length := List.length_pos.mpr hcs
        simp only [List.length_append, List.length_cons, List.length_nil,
          NEXT_ITEM_BUF_LEN] at hlen ⊢
        push_cast
        omega
      simp only [hl, if_false]
      have := ih (buf ++ [c]) rest (fun d hd => hc d (List.mem_cons_of_mem _ hd)) hcs
        (by simpa using hlen)
      cases hq : cs ++ rest with
      | nil =>
        have := congrArg List.length hq
        simp only [List.length_append, List.length_nil] at this
        have : 0 < cs.length := List.length_pos.mpr hcs
        omega
      | cons a as =>
        rw [hq] at this
        simpa [next_item_scan] using this

/-- The token that `next_item` returns when the stream stands in front of a
token of at most 126 characters that a white-space character or a `;`
follows. -/
theorem next_item_token_le (os : OS) (fp : Nat) (tok : List Nat) (d : Nat) (rest : List Nat)
    (hne : tok ≠ []) (hc : ∀ c ∈ tok, isspace c = false ∧ c ≠ cSEMI) (hlen : tok.length ≤ 126)
    (hd : isspace d = true ∨ d = cSEMI) (hp : os.pending fp = tok ++ d :: rest) :
    ∃ os1, next_item os fp NEXT_ITEM_BUF_LEN = some (tok, os1) := by
  by_cases hlt : tok.length < 126
  · obtain ⟨os1, h, _⟩ := next_item_token os fp [] tok d rest skip_nil hne hc hlt hd
      (by simpa using hp)
    exact ⟨os1, h⟩
  · have h126 : tok.length = 126 := by omega
    cases tok with
    | nil => exact absurd rfl hne
    | cons c cs =>
      obtain ⟨h1, h2⟩ := hc c (List.mem_cons_self _ _)
      have hcs : cs ≠ [] := by
        intro h; subst h; simp at h126
      have hscan := next_item_scan_full cs [c] (d :: rest)
        (fun x hx => hc x (List.mem_cons_of_mem _ hx)) hcs (by simpa using h126)
      unfold next_item
      rw [hp]
      simp only [List.cons_append]
      rw [next_item_loop]
      have hl : ¬ ((([] ++ [c] : List Nat).length : Int) ≥ NEXT_ITEM_BUF_LEN - 2) := by
        simp [NEXT_ITEM_BUF_LEN]
      simp only [Bool.false_eq_true, if_false, h1, Bool.not_false, if_true, h2, hl]
      cases hq : cs ++ d :: rest with
      | nil => simp at hq
      | cons a as =>
        rw [hq] at hscan
        simp only [next_item_scan] at hscan
        simp only [List.nil_append] at hscan ⊢
        rw [hscan]
        exact ⟨_, rfl⟩
/-- What follows a string field in the line that `do_ascwrite` prints starts
with a white-space character: the padding, the annotation of `dbgstr`
(which starts with a space) or the newline. -/
theorem string_field_tail (E : Env) (st : State) (f : t_fileio) (desc dbg : Str) (n : Nat)
    (rest : List Nat) (hdbg : dbgstr E st f desc = some dbg) :
    ∃ (d : Nat) (t : List Nat),
      List.replicate n cSPACE ++ dbg ++ [cNL] ++ rest = d :: t ∧ isspace d = true := by
  cases n with
  | succ n =>
    exact ⟨cSPACE, List.replicate n cSPACE ++ dbg ++ [cNL] ++ rest,
      by simp [List.replicate_succ], by decide⟩
  | zero =>
    unfold dbgstr at hdbg
    by_cases hb : f.bDebug = true
    · simp only [hb, Bool.not_true, Bool.false_eq_true, if_false] at hdbg
      split at hdbg
      · simp only [Option.some.injEq] at hdbg
        subst hdbg
        exact ⟨cSPACE, [cSPACE, cSEMI, cSPACE] ++ (st.add_comment.getD [] ++ [cSPACE] ++ desc)
          ++ [cNL] ++ rest, by simp [cstr, cSPACE, cSEMI], by decide⟩
      · exact Option.noConfusion hdbg
    · have hb0 : f.bDebug = false := by simpa using hb
      simp only [hb0, Bool.not_false, if_true, Option.some.injEq] at hdbg
      subst hdbg
      exact ⟨cNL, rest, by simp, by decide⟩

/-- C2 (as amended): the text round trip of a string through `do_ascwrite`
and `do_ascread`.  For every non-empty NUL-free string `s` of at most 126
characters that contains no tab, no underscore, no `;` and no white space
other than the space character (embedded spaces are allowed): on a handle
with a stream at the end of its file, under either setting of the debug flag,
the write returns success and appends the line made of
`encode_string(256,.,s)` padded to 18 columns, the annotation and a
newline; and on every handle whose stream stands in front of that line, the
token that `next_item` returns is the encoded string, `decode_string` with
the `maxlen` of the reader (length of the token plus one) turns it into `s`,
and `do_ascread` returns success with `s`, NUL-terminated, in the
destination. -/
theorem text_string_roundtrip_exact (E : Env) (stw : State) (fw : t_fileio) (fpw : Nat)
    (path : Str) (ino : Nat) (c0 : List Nat) (s desc : Str)
    (hcur : stw.cur = some fw) (hfp : fw.fp = some fpw)
    (hend : writes_at_end stw.os fpw path ino c0)
    (h0 : ∀ c ∈ s, c ≠ cNUL) (hne : s ≠ []) (hlen : s.length ≤ 126)
    (hs : ∀ c ∈ s, c ≠ cTAB ∧ c ≠ cUNDERSCORE ∧ c ≠ cSEMI ∧ ¬ (10 ≤ c ∧ c ≤ 13))
    (hfit : fw.bDebug = true →
      (cstr "  ; " ++ (stw.add_comment.getD []) ++ [cSPACE] ++ desc).length + 1 ≤ E.STRLEN) :
    ∃ (stw1 : State) (line : List Nat),
      line = pad_right 18 (encode_string 256 s).dst ++ (dbgstr E stw fw desc).getD [] ++ [cNL] ∧
      do_ascwrite E stw (some (Item.chars s)) 1 eioSTRING desc =
        Res.ok (true, some (Item.chars s)) stw1 ∧
      writes_at_end stw1.os fpw path ino (c0 ++ line) ∧
      ∀ (str : State) (fr : t_fileio) (fpr : Nat) (rest buf rdesc : List Nat),
        str.cur = some fr → fr.fp = some fpr → str.os.pending fpr = line ++ rest →
        s.length + 1 ≤ buf.length →
        ∃ (os1 : OS) (str1 : State),
          next_item str.os fpr NEXT_ITEM_BUF_LEN = some ((encode_string 256 s).dst, os1) ∧
          (decode_string ((strlen (encode_string 256 s).dst : Int) + 1)
            (encode_string 256 s).dst).dst = s ∧
          do_ascread E str (some (Item.chars buf)) 1 eioSTRING rdesc =
            Res.ok (true, some (Item.chars (s ++ 0 :: buf.drop (s.length + 1)))) str1 := by
  obtain ⟨dbg, hdbg⟩ : ∃ dbg, dbgstr E stw fw desc = some dbg := by
    unfold dbgstr
    by_cases hb : fw.bDebug = true
    · have := hfit hb
      simp only [hb, Bool.not_true, Bool.false_eq_true, if_false, this, if_true]
      exact ⟨_, rfl⟩
    · have hb0 : fw.bDebug = false := by simpa using hb
      simp only [hb0, Bool.not_false, if_true]
      exact ⟨_, rfl⟩
  obtain ⟨he, hnt, hdec⟩ := decode_encoded_token s h0 (by omega)
  have hback : s.map (fun c => if c = cSPACE ∨ c = cTAB ∨ c = cUNDERSCORE then cSPACE else c) =
      s := by
    conv_rhs => rw [← List.map_id s]
    apply List.map_congr_left
    intro c hc
    have := hs c hc
    by_cases h32 : c = cSPACE
    · simp [h32]
    · simp [h32, this.1, this.2.1]
  rw [hback] at hdec
  have helen : (encode_string 256 s).dst.length = s.length := by rw [he, List.length_map]
  have hene : (encode_string 256 s).dst ≠ [] := by
    intro h
    have := congrArg List.length h
    rw [helen] at this
    exact hne (List.length_eq_zero.mp this)
  have hechars : ∀ c ∈ (encode_string 256 s).dst, isspace c = false ∧ c ≠ cSEMI := by
    intro c hc
    rw [he] at hc
    rcases List.mem_map.1 hc with ⟨d, hd, rfl⟩
    obtain ⟨h9, _, hsemi, hws⟩ := hs d hd
    by_cases hsp : d = cSPACE ∨ d = cTAB
    · simp only [hsp, if_true]
      exact ⟨by decide, by decide⟩
    · simp only [hsp, if_false]
      refine ⟨?_, hsemi⟩
      simp only [not_or, cSPACE, cTAB] at hsp
      simp only [isspace, Bool.or_eq_false_iff, beq_eq_false_iff_ne, ne_eq,
        Bool.and_eq_false_iff, decide_eq_false_iff_not]
      refine ⟨hsp.1, ?_⟩
      by_cases h10 : 9 ≤ d
      · right
        intro h13
        have : d ≠ 9 := hsp.2
        exact hws ⟨by omega, h13⟩
      · left; exact h10
  have hwrite : do_ascwrite E stw (some (Item.chars s)) 1 eioSTRING desc =
      Res.ok (true, some (Item.chars s))
        { stw with
          os := stw.os.write fpw (pad_right 18 (encode_string 256 s).dst ++ dbg ++ [cNL]) } := by
    have hchk : check_nitem eioSTRING 1 = true := by decide
    simp only [do_ascwrite, hchk, Bool.not_true, Bool.false_eq_true, if_false, hcur, hfp, hdbg,
      hnt, codec_return]
    simp
  refine ⟨_, pad_right 18 (encode_string 256 s).dst ++ dbg ++ [cNL],
    by rw [hdbg]; rfl, hwrite, write_at_end hend _, ?_⟩
  intro str fr fpr rest buf rdesc hrc hrf hp hbuf
  obtain ⟨d, t, hdt, hd⟩ := string_field_tail E stw fw desc dbg
    (18 - (encode_string 256 s).dst.length) rest hdbg
  have hp2 : str.os.pending fpr = (encode_string 256 s).dst ++ d :: t := by
    rw [hp, ← hdt]
    simp only [pad_right, List.append_assoc]
  obtain ⟨os1, hnext⟩ := next_item_token_le str.os fpr _ d t hene hechars (by omega)
    (Or.inl hd) hp2
  have hchk : check_nitem eioSTRING 1 = true := by decide
  have htr : (decode_string ((strlen (encode_string 256 s).dst : Int) + 1)
      (encode_string 256 s).dst).dst.length = s.length := by rw [hdec]
  have hroom : ¬ buf.length < s.length + 1 := by omega
  obtain ⟨str1, hread⟩ : ∃ str1 : State,
      do_ascread E str (some (Item.chars buf)) 1 eioSTRING rdesc =
        Res.ok (true, some (Item.chars (s ++ 0 :: buf.drop (s.length + 1)))) str1 := by
    simp only [do_ascread, hrc, hchk, Bool.not_true, Bool.false_eq_true, if_false, asc_next, hrf,
      hnext, hdec, hroom, asc_read_return, codec_return]
    simp
  exact ⟨os1, str1, hnext, hdec, hread⟩

/-- Witness for C2 as amended: on the debug-mode handle of `demo_text_state`
the string `hello world` is written as the line `hello_world`, seven spaces of
padding, the annotation and a newline, and every reader in front of that line
gets `hello world` back. -/
theorem text_string_roundtrip_exact_witness :
    ∃ stw1 : State,
      do_ascwrite demo_env demo_text_state (some (Item.chars (cstr "hello world"))) 1 eioSTRING
          (cstr "x") = Res.ok (true, some (Item.chars (cstr "hello world"))) stw1 ∧
      writes_at_end stw1.os 2 (cstr "c.gro") 2 (cstr "hello_world         ; cm x\n") ∧
      ∀ (str : State) (fr : t_fileio) (fpr : Nat) (rest buf rdesc : List Nat),
        str.cur = some fr → fr.fp = some fpr →
        str.os.pending fpr = cstr "hello_world         ; cm x\n" ++ rest →
        12 ≤ buf.length →
        ∃ str1 : State,
          do_ascread demo_env str (some (Item.chars buf)) 1 eioSTRING rdesc =
            Res.ok (true, some (Item.chars (cstr "hello world" ++ 0 :: buf.drop 12))) str1 := by
  have hcur : demo_text_state.cur =
      some { iFTP := efGRO, bOpen := true, bRead := false, bDouble := false, bDebug := true,
             bStdio := false, fn := cstr "c.gro", fp := some 2, xdr := none,
             bLargerThan_off_t := false } := by decide
  obtain ⟨stw1, line, hline, hwrite, hend, hread⟩ :=
    text_string_roundtrip_exact demo_env demo_text_state _ 2 (cstr "c.gro") 2 []
      (cstr "hello world") (cstr "x") hcur rfl
      ⟨⟨{ ino := 2, pos := 0, is_open := true, flush_fails := false }, by decide, rfl, rfl⟩,
        by decide, by decide⟩
      (by decide) (by decide) (by decide) (by decide) (by decide)
  have htext : pad_right 18 (encode_string 256 (cstr "hello world")).dst ++
      (dbgstr demo_env demo_text_state
        { iFTP := efGRO, bOpen := true, bRead := false, bDouble := false, bDebug := true,
          bStdio := false, fn := cstr "c.gro", fp := some 2, xdr := none,
          bLargerThan_off_t := false } (cstr "x")).getD [] ++ [cNL] =
      cstr "hello_world         ; cm x\n" := by decide
  rw [htext] at hline
  subst hline
  refine ⟨stw1, hwrite, by simpa using hend, ?_⟩
  intro str fr fpr rest buf rdesc hrc hrf hp hbuf
  obtain ⟨_, str1, _, _, h⟩ := hread str fr fpr rest buf rdesc hrc hrf hp hbuf
  exact ⟨str1, h⟩

set_option maxRecDepth 100000 in
/-- Counterexamples to C2 as stated, each a NUL-free string of fewer than
256 characters with an embedded space or tab, written with `do_ascwrite` to
`c.gro` and read back with `do_ascread` after the file is reopened: `a<TAB>b`
comes back as `a b`; `a b_c` comes back as `a b c`, because `decode_string`
turns every underscore into a space; `a b;c` comes back as `a b`, because the
token of `next_item` ends at the `;`; `a b<NL>c` comes back as `a b`, because
the token ends at the newline; and the 127-character string of 125 letters
`a`, a space and `b` comes back without its last character, because the token
ends after 126 characters. -/
theorem text_string_roundtrip_counterexample :
    ((∀ c ∈ cstr "a\tb", c ≠ cNUL) ∧ (cstr "a\tb").length < 256 ∧ cTAB ∈ cstr "a\tb" ∧
      (write_then_read demo_env (State.initial empty_os) (cstr "c.gro")
          [(Item.chars (cstr "a\tb"), eioSTRING)]
          [(Item.chars (List.replicate 8 0), eioSTRING)]).value =
        some ([true], [(true, some (Item.chars (cstr "a b" ++ [0, 0, 0, 0, 0])))])) ∧
    ((∀ c ∈ cstr "a b_c", c ≠ cNUL) ∧ (cstr "a b_c").length < 256 ∧ cSPACE ∈ cstr "a b_c" ∧
      (write_then_read demo_env (State.initial empty_os) (cstr "c.gro")
          [(Item.chars (cstr "a b_c"), eioSTRING)]
          [(Item.chars (List.replicate 8 0), eioSTRING)]).value =
        some ([true], [(true, some (Item.chars (cstr "a b c" ++ [0, 0, 0])))])) ∧
    ((∀ c ∈ cstr "a b;c", c ≠ cNUL) ∧ (cstr "a b;c").length < 256 ∧ cSPACE ∈ cstr "a b;c" ∧
      (write_then_read demo_env (State.initial empty_os) (cstr "c.gro")
          [(Item.chars (cstr "a b;c"), eioSTRING)]
          [(Item.chars (List.replicate 8 0), eioSTRING)]).value =
        some ([true], [(true, some (Item.chars (cstr "a b" ++ [0, 0, 0, 0, 0])))])) ∧
    ((∀ c ∈ cstr "a b\nc", c ≠ cNUL) ∧ (cstr "a b\nc").length < 256 ∧
      cSPACE ∈ cstr "a b\nc" ∧
      (write_then_read demo_env (State.initial empty_os) (cstr "c.gro")
          [(Item.chars (cstr "a b\nc"), eioSTRING)]
          [(Item.chars (List.replicate 8 0), eioSTRING)]).value =
        some ([true], [(true, some (Item.chars (cstr "a b" ++ [0, 0, 0, 0, 0])))])) ∧
    ((∀ c ∈ (List.replicate 125 97 ++ [32, 98] : List Nat), c ≠ cNUL) ∧
      (List.replicate 125 97 ++ [32, 98] : List Nat).length = 127 ∧
      cSPACE ∈ (List.replicate 125 97 ++ [32, 98] : List Nat) ∧
      (write_then_read demo_env (State.initial empty_os) (cstr "c.gro")
          [(Item.chars (List.replicate 125 97 ++ [32, 98]), eioSTRING)]
          [(Item.chars (List.replicate 128 0), eioSTRING)]).value =
        some ([true], [(true, some (Item.chars (List.replicate 125 97 ++ [32, 0, 0])))])) := by
  exact ⟨⟨by decide, by decide, by decide, by decide⟩,
    ⟨by decide, by decide, by decide, by decide⟩,
    ⟨by decide, by decide, by decide, by decide⟩,
    ⟨by decide, by decide, by decide, by decide⟩,
    ⟨by decide, by decide, by decide, by decide⟩⟩

end Gmxfio
